import Mathlib

/-!
# imgStore: a shallow embedding of the store engine

The C sources embedded here are `imgStore.h`, `error.h`, `tools.c`, `dedup.c`,
`image_content.c`, `imgst_create.c`, `imgst_insert.c`, `imgst_read.c`,
`imgst_delete.c`, `imgst_list.c`, `imgst_gbcollect.c` and, of `imgStoreMgr.c`,
`do_create_cmd`.

Modelling conventions.

* A byte is a `Nat`; a buffer and the store file are `List Nat`.  A C string is the
  list of its bytes before the terminating NUL.
* `uintN_t` fields are `Nat`; every place where the C code truncates or can wrap
  (`(uint32_t) size`, `num_files++`, `imgst_version++`, ...) carries an explicit
  `% 2 ^ N`.  File positions (`long`, `uint64_t`) are `Nat`: a file of `2 ^ 63` bytes
  does not exist.
* An operation returns its error code together with the session as the C function
  leaves it, also when it fails: the C code mutates `imgst_file` in place.
* The session is a store opened in mode `"rb+"`, the only mode in which the callers
  (`imgStoreMgr.c`, `imgStore_server.c`, `do_gbcollect`) insert, read and delete.
  `fseek`, `fwrite`, `fread` and `malloc` do not fail for reasons outside the program;
  `fwrite` and `fread` of one item of size 0 return 0, and `fread` past the end of the
  file is short, as the C standard prescribes.  Where a statement is about a failing
  append, `write_disk_image_on`, `resize_image_on` and `lazily_resize_on` take the
  outcome of `fwrite` as a parameter.
* OpenSSL's `SHA256` and the vips JPEG codec are parameters (`img_lib`).
* `sizeof` is taken on the LP64 ABI: 64 bytes for the header, 216 for a slot.
-/

namespace ImgStore

/-! ## error.h -/

/-- The enumeration `error_code` of `error.h`. -/
inductive error_code where
  | ERR_NONE
  | ERR_IO
  | ERR_OUT_OF_MEMORY
  | ERR_NOT_ENOUGH_ARGUMENTS
  | ERR_INVALID_FILENAME
  | ERR_INVALID_COMMAND
  | ERR_INVALID_ARGUMENT
  | ERR_MAX_FILES
  | ERR_RESOLUTIONS
  | ERR_INVALID_IMGID
  | ERR_FULL_IMGSTORE
  | ERR_FILE_NOT_FOUND
  | NOT_IMPLEMENTED
  | ERR_DUPLICATE_ID
  | ERR_IMGLIB
  | ERR_DEBUG
  deriving DecidableEq, Repr

open error_code

/-! ## imgStore.h: constants and records -/

/-- The literal `CAT_TXT`, "EPFL ImgStore binary", as bytes. -/
def CAT_TXT : List Nat :=
  [69, 80, 70, 76, 32, 73, 109, 103, 83, 116, 111, 114, 101, 32, 98, 105, 110, 97, 114, 121]

def MAX_IMGST_NAME : Nat := 31
def MAX_IMG_ID : Nat := 127
def MAX_MAX_FILES : Nat := 100000
def MAX_THUMB_RES : Nat := 128
def MAX_SMALL_RES : Nat := 512
def EMPTY : Nat := 0
def NON_EMPTY : Nat := 1
def RES_THUMB : Nat := 0
def RES_SMALL : Nat := 1
def RES_ORIG : Nat := 2
def NB_RES : Nat := 3
def SHA256_DIGEST_LENGTH : Nat := 32

/-- An array `T x[NB_RES]` indexed by resolution code: `x[RES_THUMB]`, `x[RES_SMALL]`,
`x[RES_ORIG]`. -/
structure res_array where
  thumb : Nat
  small : Nat
  orig : Nat
  deriving DecidableEq, Repr

/-- Read `a[code]`, for a code already checked to be below `NB_RES`. -/
def res_array.get (a : res_array) (code : Nat) : Nat :=
  if code = RES_THUMB then a.thumb else if code = RES_SMALL then a.small else a.orig

/-- Write `a[code] = v`, for a code already checked to be below `NB_RES`. -/
def res_array.set (a : res_array) (code : Nat) (v : Nat) : res_array :=
  if code = RES_THUMB then { a with thumb := v }
  else if code = RES_SMALL then { a with small := v }
  else { a with orig := v }

/-- The record `struct imgst_header`. -/
structure imgst_header where
  imgst_name : List Nat
  imgst_version : Nat
  num_files : Nat
  max_files : Nat
  res_resized : List Nat
  unused_32 : Nat
  unused_64 : Nat
  deriving DecidableEq, Repr

/-- The record `struct img_metadata`; `res_orig` is the pair
`(res_orig[0], res_orig[1])`, width first. -/
structure img_metadata where
  img_id : List Nat
  SHA : List Nat
  res_orig : Nat × Nat
  size : res_array
  offset : res_array
  is_valid : Nat
  unused_16 : Nat
  deriving DecidableEq, Repr

/-- A slot as `calloc` delivers it: every byte zero. -/
def zero_metadata : img_metadata :=
  { img_id := [], SHA := List.replicate SHA256_DIGEST_LENGTH 0, res_orig := (0, 0),
    size := ⟨0, 0, 0⟩, offset := ⟨0, 0, 0⟩, is_valid := 0, unused_16 := 0 }

instance : Inhabited img_metadata := ⟨zero_metadata⟩

/-- The record `struct imgst_file`: `file` is the content of the open disk file,
`metadata` the in-memory array of `header.max_files` slots. -/
structure imgst_file where
  file : List Nat
  header : imgst_header
  metadata : List img_metadata
  deriving DecidableEq, Repr

/-- The slot `imgst_file->metadata[i]`. -/
def imgst_file.slot (s : imgst_file) (i : Nat) : img_metadata :=
  s.metadata.getD i default

/-- Store `m` into `imgst_file->metadata[i]`. -/
def imgst_file.set_slot (s : imgst_file) (i : Nat) (m : img_metadata) : imgst_file :=
  { s with metadata := s.metadata.set i m }

/-! ## External collaborators -/

/-- OpenSSL and vips, as the engine uses them.
* `SHA256 b` is the digest of `b`.
* `jpeg_load b` is `vips_jpegload_buffer` followed by reading `Xsize` and `Ysize`:
  `some (Xsize, Ysize)`, or `none` when the buffer does not load.
* `jpeg_resize b w h` is the chain `vips_jpegload_buffer`, `shrink_value` for the box
  `w` by `h`, `vips_resize`, `vips_jpegsave_buffer` of `resize_image`: the encoded
  bytes, or `none` when one of the three vips calls fails. -/
structure img_lib where
  SHA256 : List Nat → List Nat
  jpeg_load : List Nat → Option (Nat × Nat)
  jpeg_resize : List Nat → Nat → Nat → Option (List Nat)

/-! ## On-disk records -/

def sizeof_header : Nat := 64
def sizeof_metadata : Nat := 216

/-- The `w` bytes of the little-endian integer field holding `n`. -/
def le_bytes (w n : Nat) : List Nat :=
  (List.range w).map (fun k => n / 256 ^ k % 256)

/-- The `w` bytes of a fixed-width array holding `xs`, zero filled. -/
def fixed_bytes (w : Nat) (xs : List Nat) : List Nat :=
  (xs ++ List.replicate w 0).take w

/-- The bytes `fwrite(&header, sizeof(header), 1, file)` writes. -/
def header_bytes (h : imgst_header) : List Nat :=
  fixed_bytes 32 h.imgst_name ++ le_bytes 4 h.imgst_version ++ le_bytes 4 h.num_files
    ++ le_bytes 4 h.max_files
    ++ le_bytes 2 (h.res_resized.getD 0 0) ++ le_bytes 2 (h.res_resized.getD 1 0)
    ++ le_bytes 2 (h.res_resized.getD 2 0) ++ le_bytes 2 (h.res_resized.getD 3 0)
    ++ le_bytes 4 h.unused_32 ++ le_bytes 8 h.unused_64

/-- The bytes `fwrite(&metadata[i], sizeof(metadata[i]), 1, file)` writes; the two
runs of four zero bytes are the alignment padding of the record. -/
def metadata_bytes (m : img_metadata) : List Nat :=
  fixed_bytes 128 m.img_id ++ fixed_bytes 32 m.SHA
    ++ le_bytes 4 m.res_orig.1 ++ le_bytes 4 m.res_orig.2
    ++ le_bytes 4 m.size.thumb ++ le_bytes 4 m.size.small ++ le_bytes 4 m.size.orig
    ++ List.replicate 4 0
    ++ le_bytes 8 m.offset.thumb ++ le_bytes 8 m.offset.small ++ le_bytes 8 m.offset.orig
    ++ le_bytes 2 m.is_valid ++ le_bytes 2 m.unused_16
    ++ List.replicate 4 0

/-- Writing `data` at position `pos` of a file: `fseek(file, pos, SEEK_SET)` then
`fwrite`; a gap between the end of the file and `pos` reads as zeros. -/
def fwrite_at (file : List Nat) (pos : Nat) (data : List Nat) : List Nat :=
  file.take pos ++ List.replicate (pos - file.length) 0 ++ data
    ++ file.drop (pos + data.length)

/-! ## tools.c -/

/-- The C function `strcmp` on strings given without their terminator: zero when the
two strings are equal, negative or positive at the first mismatch (C fixes only the
sign). -/
def strcmp : List Nat → List Nat → Int
  | [], [] => 0
  | [], _ :: _ => -1
  | _ :: _, [] => 1
  | a :: as, b :: bs => if a = b then strcmp as bs else if a < b then -1 else 1

/-- Loop of `find_img_id`, from index `i` with `valid_read` valid slots seen: the index
found, or `none` when the loop ends with `found == 0`.  The loop is run with
`fuel = max_files - i`, so the fuel is used up exactly when `i` reaches `max_files`,
where the C loop stops too.  `valid_read++` cannot wrap: it is below `num_files` when
incremented. -/
def find_img_id_loop (s : imgst_file) (img_id : List Nat) : Nat → Nat → Nat → Option Nat
  | 0, _, _ => none
  | fuel + 1, i, valid_read =>
    if i < s.header.max_files ∧ valid_read < s.header.num_files then
      if (s.slot i).is_valid = NON_EMPTY then
        if strcmp (s.slot i).img_id img_id = 0 then some i
        else find_img_id_loop s img_id fuel (i + 1) (valid_read + 1)
      else find_img_id_loop s img_id fuel (i + 1) valid_read
    else none

/-- The function `find_img_id`: the error code and the value left in `*index`
(the caller's initial 0 when nothing is found). -/
def find_img_id (s : imgst_file) (img_id : List Nat) : error_code × Nat :=
  match find_img_id_loop s img_id s.header.max_files 0 0 with
  | some i => (ERR_NONE, i)
  | none => (ERR_FILE_NOT_FOUND, 0)

/-- The function `update_disk_metadata`: slot `index` is written at
`sizeof(header) + index * sizeof(slot)`.  The guard `offset < 0` of the C code cannot
fire for an index that fits a `uint32_t`. -/
def update_disk_metadata (s : imgst_file) (index : Nat) : error_code × imgst_file :=
  (ERR_NONE, { s with file := fwrite_at s.file (sizeof_header + index * sizeof_metadata)
                                (metadata_bytes (s.slot index)) })

/-- The function `update_disk_header`: the header is written at position 0. -/
def update_disk_header (s : imgst_file) : error_code × imgst_file :=
  (ERR_NONE, { s with file := fwrite_at s.file 0 (header_bytes s.header) })

/-- The function `write_disk_image`: the error code, the session and `*next_position`.
The position is taken at the end of the file before the write; `fwrite` of one item
of size 0 returns 0, which the function reports as `ERR_IO`. -/
def write_disk_image (s : imgst_file) (buffer : List Nat) : error_code × imgst_file × Nat :=
  if buffer.length = 0 then ( ERR_IO, s, s.file.length)
  else (ERR_NONE, { s with file := s.file ++ buffer }, s.file.length)

/-- The function `read_disk_image`: the error code and the bytes `fread` stored in
the buffer.  One item of `size` bytes is read only when `size` is not 0 and the file
holds `size` bytes from `offset` on; otherwise the read is short and `ERR_IO`. -/
def read_disk_image (file : List Nat) (size : Nat) (offset : Nat) : error_code × List Nat :=
  if size ≠ 0 ∧ offset + size ≤ file.length then
    (ERR_NONE, (file.drop offset).take size)
  else ( ERR_IO, (file.drop offset).take size)

/-! ## dedup.c -/

/-- The function `compare_sha`: 0 when the `SHA256_DIGEST_LENGTH` bytes agree,
-1 otherwise. -/
def compare_sha (SHA1 SHA2 : List Nat) : Int :=
  if (List.range SHA256_DIGEST_LENGTH).all (fun i => SHA1.getD i 0 == SHA2.getD i 0)
  then 0 else -1

/-- Loop of `do_name_and_content_dedup` from index `i`: the error code, the flag
`found` and the metadata array.  The loop is run with `fuel = max_files - i`, so the
fuel is used up exactly when `i` reaches `max_files`, where the C loop stops too.  The
counter `valid` of the C code is never read and is left out. -/
def dedup_loop (max_files index : Nat) :
    Nat → Nat → Bool → List img_metadata → error_code × Bool × List img_metadata
  | 0, _, found, md => (ERR_NONE, found, md)
  | fuel + 1, i, found, md =>
    if i < max_files then
      if (md.getD i default).is_valid = NON_EMPTY then
        if i ≠ index then
          if strcmp (md.getD i default).img_id (md.getD index default).img_id = 0 then
            (ERR_DUPLICATE_ID, found, md)
          else if found = false
              ∧ compare_sha (md.getD i default).SHA (md.getD index default).SHA = 0 then
            let mi := md.getD i default
            let mx := md.getD index default
            let mx1 := { mx with offset := ⟨mi.offset.thumb, mi.offset.small, mi.offset.orig⟩,
                                 size := ⟨mi.size.thumb, mi.size.small, mx.size.orig⟩ }
            dedup_loop max_files index fuel (i + 1) true (md.set index mx1)
          else dedup_loop max_files index fuel (i + 1) found md
        else dedup_loop max_files index fuel (i + 1) found md
      else dedup_loop max_files index fuel (i + 1) found md
    else (ERR_NONE, found, md)

/-- The function `do_name_and_content_dedup`. -/
def do_name_and_content_dedup (s : imgst_file) (index : Nat) : error_code × imgst_file :=
  if ¬ (index < s.header.max_files) then (ERR_INVALID_ARGUMENT, s)
  else
    match dedup_loop s.header.max_files index s.header.max_files 0 false s.metadata with
    | (ERR_NONE, found, md) =>
      if found = false then
        let mx := md.getD index default
        (ERR_NONE, { s with metadata := md.set index
                              { mx with offset := { mx.offset with orig := 0 } } })
      else (ERR_NONE, { s with metadata := md })
    | (err, _, md) => (err, { s with metadata := md })

/-! ## image_content.c -/

/-- The function `get_resolution`: `some (height, width)` as stored through the two
`uint32_t` pointers, `none` for `ERR_IMGLIB`. -/
def get_resolution (lib : img_lib) (image_buffer : List Nat) : Option (Nat × Nat) :=
  match lib.jpeg_load image_buffer with
  | none => none
  | some (xsize, ysize) => some (ysize % 2 ^ 32, xsize % 2 ^ 32)

/-- The function `resize_image`.  The buffer handed to the codec is the `size_orig`
bytes `malloc` returned, overwritten by what `read_disk_image` could read; the result
of `read_disk_image` is not examined, and bytes it did not reach are taken as 0. -/
def resize_image (lib : img_lib) (internal_code : Nat) (s : imgst_file) (index : Nat) :
    error_code × imgst_file :=
  let size_orig := (s.slot index).size.orig
  let buffer := fixed_bytes size_orig
    (read_disk_image s.file size_orig (s.slot index).offset.orig).2
  match lib.jpeg_resize buffer (s.header.res_resized.getD (internal_code * 2) 0)
      (s.header.res_resized.getD (internal_code * 2 + 1) 0) with
  | none => (ERR_IMGLIB, s)
  | some new_buffer =>
    let m1 := s.slot index
    let s1 := s.set_slot index
      { m1 with size := m1.size.set internal_code (new_buffer.length % 2 ^ 32) }
    match write_disk_image s1 new_buffer with
    | (ERR_NONE, s2, next_position) =>
      let m2 := s2.slot index
      (ERR_NONE, s2.set_slot index
        { m2 with offset := m2.offset.set internal_code next_position })
    | (err, s2, _) => (err, s2)

/-- The function `lazily_resize`. -/
def lazily_resize (lib : img_lib) (internal_code : Int) (s : imgst_file) (index : Nat) :
    error_code × imgst_file :=
  if ¬ (index < s.header.max_files) then (ERR_INVALID_ARGUMENT, s)
  else if ¬ ((s.slot index).is_valid = NON_EMPTY) then (ERR_INVALID_ARGUMENT, s)
  else if ¬ (internal_code < NB_RES ∧ internal_code ≥ 0) then (ERR_RESOLUTIONS, s)
  else if internal_code ≠ RES_ORIG then
    if (s.slot index).offset.get internal_code.toNat = 0 then
      match resize_image lib internal_code.toNat s index with
      | (ERR_NONE, s1) => update_disk_metadata s1 index
      | (err, s1) => (err, s1)
    else (ERR_NONE, s)
  else (ERR_NONE, s)

/-- The function `write_disk_image` on a disk whose `fwrite` can fail: `fwrite_ok` tells
whether `fwrite` stores the item it is given; a failed `fwrite` is taken to leave the
file as it was.  With `fwrite_ok = true` this is `write_disk_image`. -/
def write_disk_image_on (fwrite_ok : Bool) (s : imgst_file) (buffer : List Nat) :
    error_code × imgst_file × Nat :=
  if buffer.length = 0 ∨ fwrite_ok = false then ( ERR_IO, s, s.file.length)
  else (ERR_NONE, { s with file := s.file ++ buffer }, s.file.length)

/-- The function `resize_image` on a disk whose `fwrite` can fail in
`write_disk_image`. -/
def resize_image_on (fwrite_ok : Bool) (lib : img_lib) (internal_code : Nat)
    (s : imgst_file) (index : Nat) : error_code × imgst_file :=
  let size_orig := (s.slot index).size.orig
  let buffer := fixed_bytes size_orig
    (read_disk_image s.file size_orig (s.slot index).offset.orig).2
  match lib.jpeg_resize buffer (s.header.res_resized.getD (internal_code * 2) 0)
      (s.header.res_resized.getD (internal_code * 2 + 1) 0) with
  | none => (ERR_IMGLIB, s)
  | some new_buffer =>
    let m1 := s.slot index
    let s1 := s.set_slot index
      { m1 with size := m1.size.set internal_code (new_buffer.length % 2 ^ 32) }
    match write_disk_image_on fwrite_ok s1 new_buffer with
    | (ERR_NONE, s2, next_position) =>
      let m2 := s2.slot index
      (ERR_NONE, s2.set_slot index
        { m2 with offset := m2.offset.set internal_code next_position })
    | (err, s2, _) => (err, s2)

/-- The function `lazily_resize` on a disk whose `fwrite` can fail in
`write_disk_image`. -/
def lazily_resize_on (fwrite_ok : Bool) (lib : img_lib) (internal_code : Int)
    (s : imgst_file) (index : Nat) : error_code × imgst_file :=
  if ¬ (index < s.header.max_files) then (ERR_INVALID_ARGUMENT, s)
  else if ¬ ((s.slot index).is_valid = NON_EMPTY) then (ERR_INVALID_ARGUMENT, s)
  else if ¬ (internal_code < NB_RES ∧ internal_code ≥ 0) then (ERR_RESOLUTIONS, s)
  else if internal_code ≠ RES_ORIG then
    if (s.slot index).offset.get internal_code.toNat = 0 then
      match resize_image_on fwrite_ok lib internal_code.toNat s index with
      | (ERR_NONE, s1) => update_disk_metadata s1 index
      | (err, s1) => (err, s1)
    else (ERR_NONE, s)
  else (ERR_NONE, s)

/-! ## imgst_create.c -/

/-- The initialiser `{.header = {.max_files = ..., .res_resized = {...}}}` with which
`do_create_cmd` and `do_gbcollect` prepare the argument of `do_create`: every other
member is zero. -/
def new_imgst_file (max_files : Nat) (res_resized : List Nat) : imgst_file :=
  { file := [],
    header := { imgst_name := [], imgst_version := 0, num_files := 0,
                max_files := max_files, res_resized := res_resized,
                unused_32 := 0, unused_64 := 0 },
    metadata := [] }

/-- The function `do_create`: the header is completed, the metadata array is
allocated zeroed, and the new file receives the header followed by the `max_files`
slots. -/
def do_create (DBFILE : imgst_file) : error_code × imgst_file :=
  let header := { DBFILE.header with imgst_name := CAT_TXT.take MAX_IMGST_NAME,
                                     imgst_version := 0, num_files := 0,
                                     unused_32 := 0, unused_64 := 0 }
  let metadata := List.replicate header.max_files zero_metadata
  (ERR_NONE, { file := header_bytes header ++ (metadata.map metadata_bytes).flatten,
               header := header, metadata := metadata })

/-! ## imgst_insert.c -/

/-- Loop of `find_empty_and_update_metadata` from index `i`: the value of `i` when
the loop ends and the metadata array.  The loop is run with `fuel = max_files - i`, so
the fuel is used up exactly when `i` reaches `max_files`, where the C loop stops too.
`strncpy` copies at most `MAX_IMG_ID` bytes of the id. -/
def find_empty_loop (lib : img_lib) (buffer img_id : List Nat) (max_files : Nat) :
    Nat → Nat → List img_metadata → Nat × List img_metadata
  | 0, i, md => (i, md)
  | fuel + 1, i, md =>
    if i < max_files then
      if (md.getD i default).is_valid = EMPTY then
        let m := md.getD i default
        (i + 1, md.set i { m with SHA := lib.SHA256 buffer,
                                  img_id := img_id.take MAX_IMG_ID,
                                  size := { m.size with orig := buffer.length % 2 ^ 32 } })
      else find_empty_loop lib buffer img_id max_files fuel (i + 1) md
    else (i, md)

/-- The function `find_empty_and_update_metadata`: the `size_t` value `i - 1` and the
session. -/
def find_empty_and_update_metadata (lib : img_lib) (buffer img_id : List Nat)
    (s : imgst_file) : Nat × imgst_file :=
  let r := find_empty_loop lib buffer img_id s.header.max_files s.header.max_files 0
    s.metadata
  ((r.1 + 2 ^ 64 - 1) % 2 ^ 64, { s with metadata := r.2 })

/-- The function `do_insert`. -/
def do_insert (lib : img_lib) (buffer img_id : List Nat) (s : imgst_file) :
    error_code × imgst_file :=
  if ¬ (img_id.length ≤ MAX_IMG_ID) then (ERR_INVALID_IMGID, s)
  else if ¬ (img_id.length > 0) then (ERR_INVALID_IMGID, s)
  else if ¬ (s.header.num_files < s.header.max_files) then (ERR_FULL_IMGSTORE, s)
  else
    let r := find_empty_and_update_metadata lib buffer img_id s
    let index := r.1 % 2 ^ 32
    match do_name_and_content_dedup r.2 index with
    | (ERR_NONE, s1) =>
      let w : error_code × imgst_file :=
        if (s1.slot index).offset.orig = 0 then
          match write_disk_image s1 buffer with
          | (ERR_NONE, s2, offset) =>
            let m := s2.slot index
            (ERR_NONE, s2.set_slot index
              { m with offset := ⟨0, 0, offset⟩, size := ⟨0, 0, m.size.orig⟩ })
          | (err, s2, _) => (err, s2)
        else (ERR_NONE, s1)
      match w with
      | (ERR_NONE, s3) =>
        match get_resolution lib buffer with
        | none => (ERR_IMGLIB, s3)
        | some (height, width) =>
          let m := s3.slot index
          let s4 := s3.set_slot index { m with res_orig := (width, height) }
          let s5 := { s4 with header :=
            { s4.header with num_files := (s4.header.num_files + 1) % 2 ^ 32,
                             imgst_version := (s4.header.imgst_version + 1) % 2 ^ 32 } }
          match update_disk_header s5 with
          | (ERR_NONE, s6) =>
            let s7 := s6.set_slot index { s6.slot index with is_valid := NON_EMPTY }
            update_disk_metadata s7 index
          | (err, s6) => (err, s6)
      | (err, s3) => (err, s3)
    | (err, s1) => (err, s1)

/-! ## imgst_read.c -/

/-- What `do_read` leaves: the error code, `*image_buffer` (`none` when it holds no
image), `*image_size` (`none` when it was not assigned) and the session. -/
structure read_result where
  err : error_code
  image_buffer : Option (List Nat)
  image_size : Option Nat
  store : imgst_file

/-- The function `do_read`. -/
def do_read (lib : img_lib) (img_id : List Nat) (resolution : Int) (s : imgst_file) :
    read_result :=
  if ¬ (img_id.length ≤ MAX_IMG_ID) then ⟨ERR_INVALID_IMGID, none, none, s⟩
  else if ¬ (img_id.length > 0) then ⟨ERR_INVALID_IMGID, none, none, s⟩
  else if ¬ (resolution < NB_RES ∧ resolution ≥ 0) then ⟨ERR_RESOLUTIONS, none, none, s⟩
  else
    match find_img_id s img_id with
    | (ERR_NONE, index) =>
      let r : error_code × imgst_file :=
        if (s.slot index).offset.get resolution.toNat = 0 then
          lazily_resize lib resolution s index
        else (ERR_NONE, s)
      match r with
      | (ERR_NONE, s1) =>
        let image_size := (s1.slot index).size.get resolution.toNat
        match read_disk_image s1.file image_size
            ((s1.slot index).offset.get resolution.toNat) with
        | (ERR_NONE, image) => ⟨ERR_NONE, some image, some image_size, s1⟩
        | (err, _) => ⟨err, none, some image_size, s1⟩
      | (err, s1) => ⟨err, none, none, s1⟩
    | (err, _) => ⟨err, none, none, s⟩

/-! ## imgst_delete.c -/

/-- The function `do_delete`. -/
def do_delete (img_id : List Nat) (s : imgst_file) : error_code × imgst_file :=
  if ¬ (img_id.length ≤ MAX_IMG_ID) then (ERR_INVALID_IMGID, s)
  else if ¬ (img_id.length > 0) then (ERR_INVALID_IMGID, s)
  else
    match find_img_id s img_id with
    | (ERR_NONE, index) =>
      let s1 := s.set_slot index { s.slot index with is_valid := EMPTY }
      match update_disk_metadata s1 index with
      | (ERR_NONE, s2) =>
        update_disk_header { s2 with header :=
          { s2.header with num_files := (s2.header.num_files + 2 ^ 32 - 1) % 2 ^ 32,
                           imgst_version := (s2.header.imgst_version + 1) % 2 ^ 32 } }
      | (err, s2) => (err, s2)
    | (err, _) => (err, s)

/-! ## imgst_list.c -/

/-- The enumeration `do_list_mode`. -/
inductive do_list_mode where
  | STDOUT
  | JSON
  deriving DecidableEq, Repr

/-- The loop of `do_list`, the same in its two modes, from index `i` with `valid` valid
slots seen: the valid slots it visits, in index order.  The loop is run with
`fuel = max_files - i`, so the fuel is used up exactly when `i` reaches `max_files`,
where the C loop stops too. -/
def do_list_loop (s : imgst_file) : Nat → Nat → Nat → List img_metadata
  | 0, _, _ => []
  | fuel + 1, i, valid =>
    if i < s.header.max_files ∧ valid < s.header.num_files then
      if (s.slot i).is_valid = NON_EMPTY then
        s.slot i :: do_list_loop s fuel (i + 1) (valid + 1)
      else do_list_loop s fuel (i + 1) valid
    else []

/-- What `do_list` leaves: the header and the slots it has printed on the standard
output (`print_header`, `print_metadata`), the ids of the array "Images" of the JSON
object whose text it returns (`none` when it returns `NULL`), and the session. -/
structure list_result where
  printed_header : Option imgst_header
  printed_metadata : List img_metadata
  images : Option (List (List Nat))
  store : imgst_file

/-- The function `do_list`.  Its parameter is a `const struct imgst_file*` and its body
assigns to no member of it: the session is returned as it was received.  A mode other
than `STDOUT` and `JSON` is not a value of the enumeration. -/
def do_list (s : imgst_file) (mode : do_list_mode) : list_result :=
  match mode with
  | do_list_mode.STDOUT =>
    if s.header.num_files = 0 then ⟨some s.header, [], none, s⟩
    else ⟨some s.header, do_list_loop s s.header.max_files 0 0, none, s⟩
  | do_list_mode.JSON =>
    ⟨none, [], some ((do_list_loop s s.header.max_files 0 0).map (fun m => m.img_id)), s⟩

/-! ## imgst_gbcollect.c -/

/-- The loop `for (int res = 0; res < NB_RES; res++)` of `do_gbcollect`, from `res`, for
the source slot `i` and the slot `valid_images` of the temporary store: `lazily_resize`
is called for every resolution whose offset in the source slot is not 0, and its first
error ends `do_gbcollect`.  The loop is run with `fuel = NB_RES - res`. -/
def gbcollect_resize (lib : img_lib) (src : imgst_file) (i valid_images : Nat) :
    Nat → Nat → imgst_file → error_code × imgst_file
  | 0, _, temp => (ERR_NONE, temp)
  | fuel + 1, res, temp =>
    if res < NB_RES then
      if (src.slot i).offset.get res ≠ 0 then
        match lazily_resize lib (res : Int) temp valid_images with
        | (ERR_NONE, temp1) => gbcollect_resize lib src i valid_images fuel (res + 1) temp1
        | (err, temp1) => (err, temp1)
      else gbcollect_resize lib src i valid_images fuel (res + 1) temp
    else (ERR_NONE, temp)

/-- The loop `for (size_t i = 0; i < header.max_files; i++)` of `do_gbcollect`, from `i`
with `valid_images` images copied: the error code, the source session and the session
of the temporary store.  The buffer handed to `do_insert` is the `size_read` bytes at
`image_buffer`.  The loop is run with `fuel = max_files - i`, so the fuel is used up
exactly when `i` reaches `max_files`, where the C loop stops too. -/
def gbcollect_loop (lib : img_lib) (max_files : Nat) :
    Nat → Nat → Nat → imgst_file → imgst_file → error_code × imgst_file × imgst_file
  | 0, _, _, src, temp => (ERR_NONE, src, temp)
  | fuel + 1, i, valid_images, src, temp =>
    if i < max_files then
      if (src.slot i).is_valid = NON_EMPTY then
        let r := do_read lib (src.slot i).img_id (RES_ORIG : Nat) src
        if r.err = ERR_NONE then
          let image_buffer := (r.image_buffer.getD []).take (r.image_size.getD 0)
          match do_insert lib image_buffer (r.store.slot i).img_id temp with
          | (ERR_NONE, temp1) =>
            match gbcollect_resize lib r.store i valid_images NB_RES 0 temp1 with
            | (ERR_NONE, temp2) =>
              gbcollect_loop lib max_files fuel (i + 1) (valid_images + 1) r.store temp2
            | (err, temp2) => (err, r.store, temp2)
          | (err, temp1) => (err, r.store, temp1)
        else (r.err, r.store, temp)
      else gbcollect_loop lib max_files fuel (i + 1) valid_images src temp
    else (ERR_NONE, src, temp)

/-- The function `do_gbcollect`, from the session `src` that `do_open` has read from the
store in mode `"rb"`: the error code and the session of the temporary store as it is when
it is closed; on `ERR_NONE` the file of that session is the one `rename` leaves under the
name of the store.  The names are valid, `remove` and `rename` succeed, and `do_close`
followed by `do_open` of the file `do_create` has just written gives back the header and
the slots `do_create` left in memory. -/
def do_gbcollect (lib : img_lib) (src : imgst_file) : error_code × imgst_file :=
  let header := src.header
  match do_create (new_imgst_file header.max_files
      [header.res_resized.getD 0 0, header.res_resized.getD 1 0,
       header.res_resized.getD 2 0, header.res_resized.getD 3 0]) with
  | (ERR_NONE, temp) =>
    let r := gbcollect_loop lib header.max_files header.max_files 0 0 src temp
    (r.1, r.2.2)
  | (err, temp) => (err, temp)

/-! ## tools.c: do_open and resolution_atoi -/

/-- The value of a little-endian integer field. -/
def le_value (bs : List Nat) : Nat :=
  bs.foldr (fun b n => b + 256 * n) 0

/-- The C string a `char` array holds: its bytes before the first NUL. -/
def c_string (bs : List Nat) : List Nat :=
  bs.takeWhile (fun b => b ≠ 0)

/-- The `len` bytes at position `pos` of a record. -/
def bytes_at (bs : List Nat) (pos len : Nat) : List Nat :=
  (bs.drop pos).take len

/-- The header that `fread(&header, sizeof(header), 1, file)` stores, from the bytes of
the record. -/
def header_of_bytes (bs : List Nat) : imgst_header :=
  { imgst_name := c_string (bytes_at bs 0 32),
    imgst_version := le_value (bytes_at bs 32 4),
    num_files := le_value (bytes_at bs 36 4),
    max_files := le_value (bytes_at bs 40 4),
    res_resized := [le_value (bytes_at bs 44 2), le_value (bytes_at bs 46 2),
                    le_value (bytes_at bs 48 2), le_value (bytes_at bs 50 2)],
    unused_32 := le_value (bytes_at bs 52 4),
    unused_64 := le_value (bytes_at bs 56 8) }

/-- The slot that `fread` stores from the bytes of one slot record. -/
def metadata_of_bytes (bs : List Nat) : img_metadata :=
  { img_id := c_string (bytes_at bs 0 128),
    SHA := bytes_at bs 128 32,
    res_orig := (le_value (bytes_at bs 160 4), le_value (bytes_at bs 164 4)),
    size := ⟨le_value (bytes_at bs 168 4), le_value (bytes_at bs 172 4),
             le_value (bytes_at bs 176 4)⟩,
    offset := ⟨le_value (bytes_at bs 184 8), le_value (bytes_at bs 192 8),
               le_value (bytes_at bs 200 8)⟩,
    is_valid := le_value (bytes_at bs 208 2),
    unused_16 := le_value (bytes_at bs 210 2) }

/-- The function `do_open`.  The C library's `fopen` is a parameter: from the file named
`imgst_filename` as the disk holds it (`none` when there is no such file) and the mode
string, it gives the content of the stream it opens (`none` for `NULL`) and the file as
the disk holds it after the call.  The result is the error code, the session (`none` when
the function fails) and the file on the disk.  `calloc` does not fail. -/
def do_open (fopen : Option (List Nat) → List Nat → Option (List Nat) × Option (List Nat))
    (disk : Option (List Nat)) (open_mode : List Nat) :
    error_code × Option imgst_file × Option (List Nat) :=
  if ¬ (strcmp open_mode [114, 98] ≠ 0 ∨ strcmp open_mode [114, 98, 43] ≠ 0) then
    (ERR_INVALID_ARGUMENT, none, disk)
  else
    match fopen disk open_mode with
    | (none, disk1) => ( ERR_IO, none, disk1)
    | (some file, disk1) =>
      if file.length < sizeof_header then ( ERR_IO, none, disk1)
      else
        let header := header_of_bytes (file.take sizeof_header)
        if file.length < sizeof_header + header.max_files * sizeof_metadata then
          ( ERR_IO, none, disk1)
        else
          (ERR_NONE,
            some { file := file, header := header,
                   metadata := (List.range header.max_files).map (fun j =>
                     metadata_of_bytes (bytes_at file (sizeof_header + j * sizeof_metadata)
                       sizeof_metadata)) },
            disk1)

/-- The function `resolution_atoi`; `none` is the `NULL` pointer. -/
def resolution_atoi (resolution : Option (List Nat)) : Int :=
  match resolution with
  | none => -1
  | some r =>
    if strcmp r [111, 114, 105, 103, 105, 110, 97, 108] = 0
        ∨ strcmp r [111, 114, 105, 103] = 0 then RES_ORIG
    else if strcmp r [116, 104, 117, 109, 98, 110, 97, 105, 108] = 0
        ∨ strcmp r [116, 104, 117, 109, 98] = 0 then RES_THUMB
    else if strcmp r [115, 109, 97, 108, 108] = 0 then RES_SMALL
    else -1

/-! ## imgStoreMgr.c: do_create_cmd -/

/-- The values `do_create_cmd` hands to `do_create`: the members `args` of the three
entries of `args_tab`. -/
structure create_args where
  max_files : Nat
  thumb_res_x : Nat
  thumb_res_y : Nat
  small_res_x : Nat
  small_res_y : Nat
  deriving DecidableEq, Repr

/-- The loop `while (i < (size_t)args)` of `do_create_cmd`, from `i`, over the options
`-max_files`, `-thumb_res` and `-small_res`: the values parsed, or the error code
returned.  `atouint32`, of `util.c`, is a parameter; its result is a `uint32_t`.  Every
iteration moves `i` forward, so the loop is run with `fuel = args`. -/
def create_cmd_loop (atouint32 : List Nat → Nat) (argv : List (List Nat)) :
    Nat → Nat → create_args → Except error_code create_args
  | 0, _, a => Except.ok a
  | fuel + 1, i, a =>
    if i < argv.length then
      if strcmp (argv.getD i []) [45, 109, 97, 120, 95, 102, 105, 108, 101, 115] = 0 then
        if ¬ (argv.length - i > 1) then Except.error ERR_NOT_ENOUGH_ARGUMENTS
        else
          let temp := atouint32 (argv.getD (i + 1) []) % 2 ^ 32
          if temp = 0 ∨ temp > MAX_MAX_FILES then Except.error ERR_MAX_FILES
          else create_cmd_loop atouint32 argv fuel (i + 2) { a with max_files := temp }
      else if strcmp (argv.getD i []) [45, 116, 104, 117, 109, 98, 95, 114, 101, 115] = 0 then
        if ¬ (argv.length - i > 2) then Except.error ERR_NOT_ENOUGH_ARGUMENTS
        else
          let temp0 := atouint32 (argv.getD (i + 1) []) % 2 ^ 32
          if temp0 = 0 ∨ temp0 > MAX_THUMB_RES then Except.error ERR_RESOLUTIONS
          else
            let temp1 := atouint32 (argv.getD (i + 2) []) % 2 ^ 32
            if temp1 = 0 ∨ temp1 > MAX_THUMB_RES then Except.error ERR_RESOLUTIONS
            else create_cmd_loop atouint32 argv fuel (i + 3)
              { a with thumb_res_x := temp0, thumb_res_y := temp1 }
      else if strcmp (argv.getD i []) [45, 115, 109, 97, 108, 108, 95, 114, 101, 115] = 0 then
        if ¬ (argv.length - i > 2) then Except.error ERR_NOT_ENOUGH_ARGUMENTS
        else
          let temp0 := atouint32 (argv.getD (i + 1) []) % 2 ^ 32
          if temp0 = 0 ∨ temp0 > MAX_SMALL_RES then Except.error ERR_RESOLUTIONS
          else
            let temp1 := atouint32 (argv.getD (i + 2) []) % 2 ^ 32
            if temp1 = 0 ∨ temp1 > MAX_SMALL_RES then Except.error ERR_RESOLUTIONS
            else create_cmd_loop atouint32 argv fuel (i + 3)
              { a with small_res_x := temp0, small_res_y := temp1 }
      else Except.error ERR_INVALID_ARGUMENT
    else Except.ok a

/-- The function `do_create_cmd`, with `args` the length of `argv`: the error code and
the store `do_create` has made (`none` when `do_create` is not called). -/
def do_create_cmd (atouint32 : List Nat → Nat) (argv : List (List Nat)) :
    error_code × Option imgst_file :=
  let fileName := argv.getD 1 []
  if ¬ (fileName.length ≤ MAX_IMGST_NAME) then (ERR_INVALID_FILENAME, none)
  else if ¬ (fileName.length > 0) then (ERR_INVALID_FILENAME, none)
  else
    let defaults : create_args :=
      { max_files := 10, thumb_res_x := 64, thumb_res_y := 64,
        small_res_x := 256, small_res_y := 256 }
    let parsed : Except error_code create_args :=
      if argv.length ≥ 3 then create_cmd_loop atouint32 argv argv.length 2 defaults
      else Except.ok defaults
    match parsed with
    | Except.error err => (err, none)
    | Except.ok a =>
      let r := do_create (new_imgst_file a.max_files
        [a.thumb_res_x % 2 ^ 16, a.thumb_res_y % 2 ^ 16,
         a.small_res_x % 2 ^ 16, a.small_res_y % 2 ^ 16])
      (r.1, some r.2)

/-! ## Vocabulary of the statements -/

/-- Slot `i` is a valid slot other than `index` holding the `img_id` of slot `index`:
the test that makes `do_name_and_content_dedup` return `ERR_DUPLICATE_ID`. -/
def same_id_at (md : List img_metadata) (index i : Nat) : Prop :=
  i ≠ index ∧ (md.getD i default).is_valid = NON_EMPTY
    ∧ (md.getD i default).img_id = (md.getD index default).img_id

/-- Slot `i` is a valid slot other than `index` whose SHA compares equal to the one
of slot `index`. -/
def same_sha_at (md : List img_metadata) (index i : Nat) : Prop :=
  i ≠ index ∧ (md.getD i default).is_valid = NON_EMPTY
    ∧ compare_sha (md.getD i default).SHA (md.getD index default).SHA = 0

instance (md : List img_metadata) (index i : Nat) : Decidable (same_id_at md index i) := by
  unfold same_id_at; infer_instance

instance (md : List img_metadata) (index i : Nat) : Decidable (same_sha_at md index i) := by
  unfold same_sha_at; infer_instance

/-- Slot `mx` after the five assignments by which `do_name_and_content_dedup` takes
over the offsets and the derived sizes of slot `mi`. -/
def adopt (mi mx : img_metadata) : img_metadata :=
  { mx with offset := ⟨mi.offset.thumb, mi.offset.small, mi.offset.orig⟩,
            size := ⟨mi.size.thumb, mi.size.small, mx.size.orig⟩ }


/-- The slot update performed by `find_empty_and_update_metadata`. -/
def candidate_slot (lib : img_lib) (buffer img_id : List Nat) (m : img_metadata) :
    img_metadata :=
  { m with SHA := lib.SHA256 buffer, img_id := img_id.take MAX_IMG_ID,
           size := { m.size with orig := buffer.length % 2 ^ 32 } }


/-- The session a successful `do_insert` leaves: slot `e` holds `m`, the two counters
of the header are incremented, and the header and slot `e` have been written to the
file `file0`. -/
def committed (s : imgst_file) (file0 : List Nat) (e : Nat) (m : img_metadata) : imgst_file :=
  let header := { s.header with num_files := (s.header.num_files + 1) % 2 ^ 32,
                                imgst_version := (s.header.imgst_version + 1) % 2 ^ 32 }
  { file := fwrite_at (fwrite_at file0 0 (header_bytes header))
              (sizeof_header + e * sizeof_metadata) (metadata_bytes m),
    header := header,
    metadata := s.metadata.set e m }

/-- Lines 43 to 62 of `do_insert`, for the slot `e` that `find_empty_and_update_metadata`
and `do_name_and_content_dedup` have left as `m1`. -/
def insert_finish (lib : img_lib) (b : List Nat) (s : imgst_file) (e : Nat)
    (m1 : img_metadata) : error_code × imgst_file :=
  if m1.offset.orig = 0 then
    if b = [] then ( ERR_IO, s.set_slot e m1)
    else
      let m2 := { m1 with offset := ⟨0, 0, s.file.length⟩, size := ⟨0, 0, m1.size.orig⟩ }
      match get_resolution lib b with
      | none => (ERR_IMGLIB, { s with file := s.file ++ b, metadata := s.metadata.set e m2 })
      | some (height, width) =>
        (ERR_NONE, committed s (s.file ++ b) e
          { m2 with res_orig := (width, height), is_valid := NON_EMPTY })
  else
    match get_resolution lib b with
    | none => (ERR_IMGLIB, s.set_slot e m1)
    | some (height, width) =>
      (ERR_NONE, committed s s.file e
        { m1 with res_orig := (width, height), is_valid := NON_EMPTY })

/-- Slot `j` of the store is valid and holds `id`. -/
def holds_id (s : imgst_file) (id : List Nat) (j : Nat) : Prop :=
  (s.slot j).is_valid = NON_EMPTY ∧ (s.slot j).img_id = id

/-- Slot `j` of the store is valid and its SHA compares equal to `sha`. -/
def holds_sha (s : imgst_file) (sha : List Nat) (j : Nat) : Prop :=
  (s.slot j).is_valid = NON_EMPTY ∧ compare_sha (s.slot j).SHA sha = 0

instance (s : imgst_file) (id : List Nat) (j : Nat) : Decidable (holds_id s id j) := by
  unfold holds_id; infer_instance

instance (s : imgst_file) (sha : List Nat) (j : Nat) : Decidable (holds_sha s sha j) := by
  unfold holds_sha; infer_instance

/-- The number of slots of a metadata array whose `is_valid` is `NON_EMPTY`. -/
def count_valid (md : List img_metadata) : Nat :=
  md.countP (fun m => decide (m.is_valid = NON_EMPTY))

/-- The session a successful `do_delete` leaves when `find_img_id` gave slot `k`. -/
def deleted (s : imgst_file) (k : Nat) : imgst_file :=
  let m := { s.slot k with is_valid := EMPTY }
  let header := { s.header with num_files := (s.header.num_files + 2 ^ 32 - 1) % 2 ^ 32,
                                imgst_version := (s.header.imgst_version + 1) % 2 ^ 32 }
  { file := fwrite_at (fwrite_at s.file (sizeof_header + k * sizeof_metadata)
              (metadata_bytes m)) 0 (header_bytes header),
    header := header,
    metadata := s.metadata.set k m }

/-- The buffer `resize_image` hands to the codec for slot `k`. -/
def orig_buffer (s : imgst_file) (k : Nat) : List Nat :=
  fixed_bytes (s.slot k).size.orig
    (read_disk_image s.file (s.slot k).size.orig (s.slot k).offset.orig).2

/-- The session a successful `lazily_resize` leaves when it has materialised the
variant `code` of slot `k` as `new_buffer`. -/
def resized (s : imgst_file) (code k : Nat) (new_buffer : List Nat) : imgst_file :=
  let m := { s.slot k with
             size := (s.slot k).size.set code (new_buffer.length % 2 ^ 32),
             offset := (s.slot k).offset.set code s.file.length }
  { file := fwrite_at (s.file ++ new_buffer) (sizeof_header + k * sizeof_metadata)
              (metadata_bytes m),
    header := s.header,
    metadata := s.metadata.set k m }

/-- Lines 41 to 47 of `do_read`: the variant `code` of slot `k` is read from the file. -/
def read_at (s : imgst_file) (k code : Nat) : read_result :=
  match read_disk_image s.file ((s.slot k).size.get code) ((s.slot k).offset.get code) with
  | (ERR_NONE, image) => ⟨ERR_NONE, some image, some ((s.slot k).size.get code), s⟩
  | (err, _) => ⟨err, none, some ((s.slot k).size.get code), s⟩

/-- First position of the file after the header and the `max_files` slots. -/
def payload_start (s : imgst_file) : Nat :=
  sizeof_header + s.header.max_files * sizeof_metadata

/-- The stores of the claims: what a sequence of successful `do_insert`, `do_delete`
and `do_read` calls reaches from a store that `do_create` has just made.  The capacity
is a `uint32_t`. -/
inductive Reachable (lib : img_lib) : imgst_file → Prop where
  | create (max_files : Nat) (res_resized : List Nat) (h : max_files < 2 ^ 32) :
      Reachable lib (do_create (new_imgst_file max_files res_resized)).2
  | insert (s : imgst_file) (buffer img_id : List Nat) (hs : Reachable lib s)
      (h : (do_insert lib buffer img_id s).1 = ERR_NONE) :
      Reachable lib (do_insert lib buffer img_id s).2
  | delete (s : imgst_file) (img_id : List Nat) (hs : Reachable lib s)
      (h : (do_delete img_id s).1 = ERR_NONE) :
      Reachable lib (do_delete img_id s).2
  | read (s : imgst_file) (img_id : List Nat) (resolution : Int) (hs : Reachable lib s)
      (h : (do_read lib img_id resolution s).err = ERR_NONE) :
      Reachable lib (do_read lib img_id resolution s).store

/-- The facts about a store that every operation keeps, whatever the codec and the
hasher do. -/
structure Inv (lib : img_lib) (s : imgst_file) : Prop where
  length_eq : s.metadata.length = s.header.max_files
  max_lt : s.header.max_files < 2 ^ 32
  file_ge : payload_start s ≤ s.file.length
  typed : ∀ j, j < s.header.max_files →
    (s.slot j).is_valid = EMPTY ∨ (s.slot j).is_valid = NON_EMPTY
  count : s.header.num_files = count_valid s.metadata
  ids : ∀ i j, i < s.header.max_files → j < s.header.max_files → i ≠ j →
    (s.slot i).is_valid = NON_EMPTY → (s.slot j).is_valid = NON_EMPTY →
    (s.slot i).img_id ≠ (s.slot j).img_id
  orig_ge : ∀ j, j < s.header.max_files → (s.slot j).is_valid = NON_EMPTY →
    payload_start s ≤ (s.slot j).offset.orig
  orig_eq : ∀ i j, i < s.header.max_files → j < s.header.max_files →
    (s.slot i).is_valid = NON_EMPTY → (s.slot j).is_valid = NON_EMPTY →
    compare_sha (s.slot i).SHA (s.slot j).SHA = 0 →
    (s.slot i).offset.orig = (s.slot j).offset.orig
  origin : ∀ j, j < s.header.max_files → (s.slot j).is_valid = NON_EMPTY →
    ∃ b, (s.slot j).SHA = lib.SHA256 b ∧ (s.slot j).size.orig = b.length % 2 ^ 32

/-- What `do_open` and `do_create` establish for a session and every operation keeps:
the metadata array has `max_files` slots, `max_files` is a `uint32_t`, and the file
holds at least the header and the `max_files` slots. -/
def imgst_file.opened (s : imgst_file) : Prop :=
  s.metadata.length = s.header.max_files ∧ s.header.max_files < 2 ^ 32
    ∧ payload_start s ≤ s.file.length

/-- Invariant I1: `num_files` is the number of slots whose `is_valid` is 1. -/
def I1 (s : imgst_file) : Prop := s.header.num_files = count_valid s.metadata

/-- Invariant I4: no two distinct valid slots hold the same `img_id`. -/
def I4 (s : imgst_file) : Prop :=
  ∀ i, i < s.header.max_files → ∀ j, j < s.header.max_files → i ≠ j →
    (s.slot i).is_valid = NON_EMPTY → (s.slot j).is_valid = NON_EMPTY →
    (s.slot i).img_id ≠ (s.slot j).img_id

instance (s : imgst_file) : Decidable s.opened := by
  unfold imgst_file.opened; infer_instance

instance (s : imgst_file) : Decidable (I1 s) := by
  unfold I1; infer_instance

instance (s : imgst_file) : Decidable (I4 s) := by
  unfold I4; apply Nat.decidableBallLT

/-- A small instance of the collaborators, to run the model: the digest is the
buffer cut or zero filled to 32 bytes, every non-empty buffer is a 1 by 1 image, and
the resized image of a non-empty buffer is the two bytes of the requested box. -/
def demo_lib : img_lib :=
  { SHA256 := fun b => fixed_bytes 32 b,
    jpeg_load := fun b => if b = [] then none else some (1, 1),
    jpeg_resize := fun b w h => if b = [] then none else some [w, h] }

/-- A store of two slots as `do_create` makes it. -/
def demo_store_0 : imgst_file := (do_create (new_imgst_file 2 [64, 64, 256, 256])).2

/-- The store `demo_store_0` after the image `[7, 8, 9]` was inserted as "a". -/
def demo_store_1 : imgst_file := (do_insert demo_lib [7, 8, 9] [97] demo_store_0).2

/-- The store `demo_store_1` after the same image was inserted as "b". -/
def demo_store_2 : imgst_file := (do_insert demo_lib [7, 8, 9] [98] demo_store_1).2

/-- The store `demo_store_1` with the version counter at its last value. -/
def demo_store_last_version : imgst_file :=
  { demo_store_1 with header := { demo_store_1.header with imgst_version := 4294967295 } }

/-- Every slot of the store is marked `EMPTY` or `NON_EMPTY`, the two values
`imgStore.h` gives to `is_valid`. -/
def slots_typed (s : imgst_file) : Prop :=
  ∀ j, j < s.header.max_files →
    (s.slot j).is_valid = EMPTY ∨ (s.slot j).is_valid = NON_EMPTY

instance (s : imgst_file) : Decidable (slots_typed s) := by
  unfold slots_typed; infer_instance

/-- A sequence of `do_insert` calls, each given as the pair of its buffer and its id:
the error codes in call order and the final session. -/
def insert_all (lib : img_lib) : List (List Nat × List Nat) → imgst_file →
    List error_code × imgst_file
  | [], s => ([], s)
  | p :: rest, s =>
    let r := do_insert lib p.1 p.2 s
    let t := insert_all lib rest r.2
    (r.1 :: t.1, t.2)

/-- The payload heap of `s` is kept in `s1`: the file is not shorter, and every byte
of the file of `s` at or beyond the end of the metadata array has the same value at the
same offset in the file of `s1`. -/
def payload_kept (s s1 : imgst_file) : Prop :=
  s.file.length ≤ s1.file.length
    ∧ ∀ k, payload_start s ≤ k → k < s.file.length → s1.file[k]? = s.file[k]?

/-- Invariant I3: in every valid slot, for THUMB and for SMALL, the offset is 0 exactly
when the size is 0. -/
def I3 (s : imgst_file) : Prop :=
  ∀ j, j < s.header.max_files → (s.slot j).is_valid = NON_EMPTY →
    ((s.slot j).offset.thumb = 0 ↔ (s.slot j).size.thumb = 0)
      ∧ ((s.slot j).offset.small = 0 ↔ (s.slot j).size.small = 0)

instance (s : imgst_file) : Decidable (I3 s) := by
  unfold I3; infer_instance

/-- A store of three slots as `do_create` makes it, after the image `[7, 8, 9]` was
inserted as "a". -/
def demo_store_3 : imgst_file :=
  (do_insert demo_lib [7, 8, 9] [97] (do_create (new_imgst_file 3 [64, 64, 256, 256])).2).2

/-- Slot `j` of the store holds the image `b` as its original: `size[RES_ORIG]` is the
length of `b`, and the file holds the bytes of `b` at `offset[RES_ORIG]`. -/
def holds_image (s : imgst_file) (j : Nat) (b : List Nat) : Prop :=
  (s.slot j).size.orig = b.length
    ∧ (s.slot j).offset.orig + b.length ≤ s.file.length
    ∧ (s.file.drop (s.slot j).offset.orig).take b.length = b

/-- The state of a store in which exactly the images of the list `done` have been
inserted, each under its id. -/
structure holds_all (lib : img_lib) (s : imgst_file) (done : List (List Nat × List Nat)) :
    Prop where
  inv : Inv lib s
  slots : ∀ j, j < s.header.max_files → (s.slot j).is_valid = NON_EMPTY →
    ∃ p ∈ done, (s.slot j).img_id = p.2 ∧ (s.slot j).SHA = lib.SHA256 p.1 ∧ p.1 ≠ []
      ∧ holds_image s j p.1
  ids : ∀ p ∈ done, 0 < p.2.length ∧ p.2.length ≤ MAX_IMG_ID
    ∧ ∃ j, j < s.header.max_files ∧ holds_id s p.2 j

/-- A store of one slot as `do_create` makes it. -/
def demo_store_single : imgst_file := (do_create (new_imgst_file 1 [64, 64, 256, 256])).2

/-- A buffer of `2 ^ 32 + 1` bytes, all zero. -/
@[irreducible] def big_buffer : List Nat := List.replicate (2 ^ 32 + 1) 0

/-- The hasher has no collision among the buffers of `P`: two buffers of `P` whose
digests compare equal are equal. -/
def collision_free_on (lib : img_lib) (P : List Nat → Prop) : Prop :=
  ∀ b b1, P b → P b1 → compare_sha (lib.SHA256 b) (lib.SHA256 b1) = 0 → b = b1

/-- The stores reached as in `Reachable`, the inserted buffers being taken from `P`;
with `P` true of every buffer these are the stores of `Reachable`. -/
inductive ReachableFrom (lib : img_lib) (P : List Nat → Prop) : imgst_file → Prop where
  | create (max_files : Nat) (res_resized : List Nat) (h : max_files < 2 ^ 32) :
      ReachableFrom lib P (do_create (new_imgst_file max_files res_resized)).2
  | insert (s : imgst_file) (buffer img_id : List Nat) (hs : ReachableFrom lib P s)
      (hb : P buffer) (h : (do_insert lib buffer img_id s).1 = ERR_NONE) :
      ReachableFrom lib P (do_insert lib buffer img_id s).2
  | delete (s : imgst_file) (img_id : List Nat) (hs : ReachableFrom lib P s)
      (h : (do_delete img_id s).1 = ERR_NONE) :
      ReachableFrom lib P (do_delete img_id s).2
  | read (s : imgst_file) (img_id : List Nat) (resolution : Int)
      (hs : ReachableFrom lib P s)
      (h : (do_read lib img_id resolution s).err = ERR_NONE) :
      ReachableFrom lib P (do_read lib img_id resolution s).store

/-- The store `demo_store_2` after the thumbnail of "a" and then the thumbnail of "b"
were read. -/
def demo_store_thumbs : imgst_file :=
  (do_read demo_lib [98] 0 (do_read demo_lib [97] 0 demo_store_2).store).store

/-- The facts about the payload of the valid slots that hold in a reachable store when
the hasher has no collision on the inserted buffers: the original is a buffer of `P` and
lies inside the file, and the size of a materialised variant is the size of what the
codec makes of the original. -/
structure Inv_payload (lib : img_lib) (P : List Nat → Prop) (s : imgst_file) : Prop where
  origin_in : ∀ j, j < s.header.max_files → (s.slot j).is_valid = NON_EMPTY →
    ∃ b, P b ∧ (s.slot j).SHA = lib.SHA256 b ∧ (s.slot j).size.orig = b.length % 2 ^ 32
  orig_le : ∀ j, j < s.header.max_files → (s.slot j).is_valid = NON_EMPTY →
    (s.slot j).offset.orig + (s.slot j).size.orig ≤ s.file.length
  variant : ∀ j, j < s.header.max_files → (s.slot j).is_valid = NON_EMPTY →
    ∀ code, code = RES_THUMB ∨ code = RES_SMALL → (s.slot j).offset.get code ≠ 0 →
    ∃ nb, lib.jpeg_resize (orig_buffer s j) (s.header.res_resized.getD (code * 2) 0)
        (s.header.res_resized.getD (code * 2 + 1) 0) = some nb
      ∧ (s.slot j).size.get code = nb.length % 2 ^ 32

/-- The number of valid slots with an index below `i`. -/
def valid_before (s : imgst_file) (i : Nat) : Nat :=
  (List.range i).countP (fun j => decide ((s.slot j).is_valid = NON_EMPTY))

/-- Slot `i` is a slot of the store that is valid, is among the first `num_files` valid
slots in index order, and holds `id`. -/
def listed_match (s : imgst_file) (id : List Nat) (i : Nat) : Prop :=
  i < s.header.max_files ∧ (s.slot i).is_valid = NON_EMPTY
    ∧ valid_before s i < s.header.num_files ∧ (s.slot i).img_id = id

instance (s : imgst_file) (id : List Nat) (i : Nat) : Decidable (listed_match s id i) := by
  unfold listed_match; infer_instance

/-- A store of three slots: "a" holds `[7, 8, 9]`, "b" holds `[1, 2]`, and the third slot
is the candidate that `find_empty_and_update_metadata` has populated for inserting
`[7, 8, 9]` as "b". -/
def demo_store_candidate : imgst_file :=
  (find_empty_and_update_metadata demo_lib [7, 8, 9] [98]
    (do_insert demo_lib [1, 2] [98] demo_store_3).2).2

/-- A store of three slots: "a" and "b" hold `[7, 8, 9]`, the thumbnail of "b" has been
read, and the third slot is the candidate that `find_empty_and_update_metadata` has
populated for inserting `[7, 8, 9]` as "c". -/
def demo_store_adopt : imgst_file :=
  (find_empty_and_update_metadata demo_lib [7, 8, 9] [99]
    (do_read demo_lib [98] 0 (do_insert demo_lib [7, 8, 9] [98] demo_store_3).2).store).2

/-- The session `s1` differs from `s` in memory at most in slot `e`, and slot `e` has
kept its `is_valid`, `res_orig` and `unused_16`. -/
def only_candidate_changed (s s1 : imgst_file) (e : Nat) : Prop :=
  s1.header = s.header ∧ (∀ j, j ≠ e → s1.slot j = s.slot j)
    ∧ (s1.slot e).is_valid = (s.slot e).is_valid
    ∧ (s1.slot e).res_orig = (s.slot e).res_orig
    ∧ (s1.slot e).unused_16 = (s.slot e).unused_16

/-- Invariant I6 for the derived variants: in every valid slot, a non-zero offset of
THUMB or of SMALL is at or after the end of the metadata array, and the variant ends
inside the file. -/
def I6_variants (s : imgst_file) : Prop :=
  ∀ j, j < s.header.max_files → (s.slot j).is_valid = NON_EMPTY →
    ∀ code, code = RES_THUMB ∨ code = RES_SMALL → (s.slot j).offset.get code ≠ 0 →
      payload_start s ≤ (s.slot j).offset.get code
        ∧ (s.slot j).offset.get code + (s.slot j).size.get code ≤ s.file.length

/-- The bytes of the original of slot `j` as the file holds them: `size[RES_ORIG]` bytes
from `offset[RES_ORIG]` on. -/
def orig_image (s : imgst_file) (j : Nat) : List Nat :=
  (s.file.drop (s.slot j).offset.orig).take (s.slot j).size.orig

/-- No valid slot before slot `i` holds an original with the digest of the original of
slot `i`. -/
def first_with_content (lib : img_lib) (s : imgst_file) (i : Nat) : Prop :=
  ∀ j, j < i → (s.slot j).is_valid = NON_EMPTY →
    compare_sha (lib.SHA256 (orig_image s j)) (lib.SHA256 (orig_image s i)) ≠ 0

/-- The sizes of the originals of the valid slots fit a `uint32_t`, and the hasher has no
collision among the originals of the valid slots. -/
def originals_faithful (lib : img_lib) (s : imgst_file) : Prop :=
  (∀ j, j < s.header.max_files → (s.slot j).is_valid = NON_EMPTY →
      (s.slot j).size.orig < 2 ^ 32)
    ∧ ∀ i, i < s.header.max_files → ∀ j, j < s.header.max_files →
        (s.slot i).is_valid = NON_EMPTY → (s.slot j).is_valid = NON_EMPTY →
        compare_sha (lib.SHA256 (orig_image s i)) (lib.SHA256 (orig_image s j)) = 0 →
        orig_image s i = orig_image s j

/-- What compaction has made of the valid source slot `i` in the store `temp`, the
variants below `n` having been handled: the slot of `temp` whose index is the number of
valid source slots before `i` is valid, holds the id of the source slot and the digest and
the size of its original, holds the bytes of its original when the originals of the source
are told apart by size and digest, and has every variant below `n` that the source slot
has; it has no other variant when no earlier source slot has the same digest. -/
structure copied (lib : img_lib) (src temp : imgst_file) (i n : Nat) : Prop where
  valid : (temp.slot (valid_before src i)).is_valid = NON_EMPTY
  id : (temp.slot (valid_before src i)).img_id = (src.slot i).img_id
  sha : (temp.slot (valid_before src i)).SHA = lib.SHA256 (orig_image src i)
  size : (temp.slot (valid_before src i)).size.orig = (orig_image src i).length % 2 ^ 32
  image : originals_faithful lib src →
    holds_image temp (valid_before src i) (orig_image src i)
  variants : ∀ code, code = RES_THUMB ∨ code = RES_SMALL → code < n →
    (src.slot i).offset.get code ≠ 0 →
    (temp.slot (valid_before src i)).offset.get code ≠ 0
  variants_only : first_with_content lib src i →
    ∀ code, code = RES_THUMB ∨ code = RES_SMALL →
      (temp.slot (valid_before src i)).offset.get code ≠ 0 →
      (src.slot i).offset.get code ≠ 0

/-- The state of the temporary store `temp` of a compaction of `src` that has copied the
valid source slots before `i` into its first `v` slots. -/
structure gb_state (lib : img_lib) (src temp : imgst_file) (i v : Nat) : Prop where
  inv : Inv lib temp
  max : temp.header.max_files = src.header.max_files
  res : ∀ k, k < 4 → temp.header.res_resized.getD k 0 = src.header.res_resized.getD k 0
  num : temp.header.num_files = v
  used : ∀ j, j < v → (temp.slot j).is_valid = NON_EMPTY
  free : ∀ j, v ≤ j → j < src.header.max_files → (temp.slot j).is_valid = EMPTY
  slots : ∀ j, j < i → (src.slot j).is_valid = NON_EMPTY → copied lib src temp j NB_RES

instance (lib : img_lib) (s : imgst_file) (i : Nat) : Decidable (first_with_content lib s i) := by
  unfold first_with_content; infer_instance

instance (lib : img_lib) (s : imgst_file) : Decidable (originals_faithful lib s) := by
  unfold originals_faithful
  refine @instDecidableAnd _ _ ?_ ?_
  · apply Nat.decidableBallLT
  · apply Nat.decidableBallLT

/-- The store `demo_store_3`, which holds "a", after "b" with the image `[1, 2]` was
inserted and "a" was deleted: slot 0 is free and slot 1 holds "b". -/
def demo_store_hole : imgst_file :=
  (do_delete [97] (do_insert demo_lib [1, 2] [98] demo_store_3).2).2

/-- The store `demo_store_2`, where "a" and "b" share one payload, after the thumbnail
of "a" was read. -/
def demo_store_thumb_a : imgst_file := (do_read demo_lib [97] 0 demo_store_2).store

/-- An `fopen` for the modes of the C standard: the modes that begin with `r` open an
existing file, those that begin with `w` make the file empty, those that begin with `a`
keep it or make it; other strings open nothing. -/
def std_fopen (disk : Option (List Nat)) (mode : List Nat) :
    Option (List Nat) × Option (List Nat) :=
  if mode ∈ [[114], [114, 98], [114, 43], [114, 98, 43], [114, 43, 98]] then (disk, disk)
  else if mode ∈ [[119], [119, 98], [119, 43], [119, 98, 43], [119, 43, 98]] then
    (some [], some [])
  else if mode ∈ [[97], [97, 98], [97, 43], [97, 98, 43], [97, 43, 98]] then
    (some (disk.getD []), some (disk.getD []))
  else (none, disk)

/-- The collaborators of `demo_lib` with a decoder that rejects every buffer. -/
def demo_lib_reject : img_lib :=
  { demo_lib with jpeg_load := fun _ => none }

/-- The store `demo_store_1` whose file has lost the last two bytes of the image. -/
def demo_store_short : imgst_file :=
  { demo_store_1 with file := demo_store_1.file.take 497 }

/-- The values `do_create_cmd` parses are in the ranges its options allow. -/
def create_args.in_range (a : create_args) : Prop :=
  (1 ≤ a.max_files ∧ a.max_files ≤ MAX_MAX_FILES)
    ∧ (1 ≤ a.thumb_res_x ∧ a.thumb_res_x ≤ MAX_THUMB_RES)
    ∧ (1 ≤ a.thumb_res_y ∧ a.thumb_res_y ≤ MAX_THUMB_RES)
    ∧ (1 ≤ a.small_res_x ∧ a.small_res_x ≤ MAX_SMALL_RES)
    ∧ (1 ≤ a.small_res_y ∧ a.small_res_y ≤ MAX_SMALL_RES)

/-- A decimal reading of a string, to run `do_create_cmd`: the value of a string of
digits, 0 for any other string. -/
def demo_atouint32 (str : List Nat) : Nat :=
  if str ≠ [] ∧ str.all (fun c => decide (48 ≤ c ∧ c ≤ 57)) then
    str.foldl (fun n c => 10 * n + (c - 48)) 0
  else 0

/-- The payloads of the valid slots do not overlap: two variants held by valid slots
either are the same variant of slots with equal SHA, or lie in ranges of the file that
do not meet. -/
def payload_disjoint (s : imgst_file) : Prop :=
  ∀ i j, i < s.header.max_files → j < s.header.max_files →
    (s.slot i).is_valid = NON_EMPTY → (s.slot j).is_valid = NON_EMPTY →
    ∀ v w, v < NB_RES → w < NB_RES →
      (s.slot i).offset.get v ≠ 0 → (s.slot j).offset.get w ≠ 0 →
      (compare_sha (s.slot i).SHA (s.slot j).SHA = 0 ∧ v = w)
        ∨ (s.slot i).offset.get v + (s.slot i).size.get v ≤ (s.slot j).offset.get w
        ∨ (s.slot j).offset.get w + (s.slot j).size.get w ≤ (s.slot i).offset.get v

/-- The number of payload bytes slot `m` refers to: the sizes of the variants whose
offset is not 0. -/
def slot_weight (m : img_metadata) : Nat :=
  ∑ v in Finset.range NB_RES, if m.offset.get v ≠ 0 then m.size.get v else 0

/-- The number of payload bytes the valid slots below `n` refer to, a payload that
several slots share being counted once for each. -/
def payload_weight (s : imgst_file) (n : Nat) : Nat :=
  ∑ j in Finset.range n,
    if (s.slot j).is_valid = NON_EMPTY then slot_weight (s.slot j) else 0

/-- A store of four slots reached by inserting the image `[7, 8, 9]` as "j" and as "h",
reading the thumbnail of "j", inserting the same image as "i" and as "k", and deleting
"j": the three valid slots share one original, "h" has no thumbnail, "i" and "k" share the
thumbnail made for "j". -/
def demo_store_shared : imgst_file :=
  (do_delete [106]
    (do_insert demo_lib [7, 8, 9] [107]
      (do_insert demo_lib [7, 8, 9] [105]
        (do_read demo_lib [106] 0
          (do_insert demo_lib [7, 8, 9] [104]
            (do_insert demo_lib [7, 8, 9] [106]
              (do_create (new_imgst_file 4 [64, 64, 256, 256])).2).2).2).store).2).2).2

/-- A store of three slots reached by inserting `[7, 8, 9]` as "a", `[1, 2]` as "b" and
`[5]` as "c", reading the thumbnails of "a" and of "b", and deleting "c". -/
def demo_store_distinct : imgst_file :=
  (do_delete [99]
    (do_read demo_lib [98] 0
      (do_read demo_lib [97] 0
        (do_insert demo_lib [5] [99]
          (do_insert demo_lib [1, 2] [98] demo_store_3).2).2).store).store).2

/-! ## Lemmas on the helpers and the loops -/

theorem getD_set_eq {α : Type} (l : List α) (i : Nat) (a d : α) (h : i < l.length) :
    (l.set i a).getD i d = a := by
  simp [List.getD_eq_getElem?_getD, List.getElem?_set, h]

theorem getD_set_ne {α : Type} (l : List α) (i j : Nat) (a d : α) (h : i ≠ j) :
    (l.set i a).getD j d = l.getD j d := by
  simp [List.getD_eq_getElem?_getD, List.getElem?_set, h]

theorem exists_least (p : Nat → Prop) [DecidablePred p] (n : Nat) (h : ∃ j, j < n ∧ p j) :
    ∃ e, e < n ∧ p e ∧ ∀ j, j < e → ¬ p j := by
  obtain ⟨j, hj, hp⟩ := h
  refine ⟨Nat.find ⟨j, hp⟩, ?_, Nat.find_spec ⟨j, hp⟩, fun k hk => Nat.find_min ⟨j, hp⟩ hk⟩
  exact lt_of_le_of_lt (Nat.find_min' ⟨j, hp⟩ hp) hj

theorem strcmp_eq_zero (a b : List Nat) : strcmp a b = 0 ↔ a = b := by
  induction a generalizing b with
  | nil => cases b <;> simp [strcmp]
  | cons x xs ih =>
    cases b with
    | nil => simp [strcmp]
    | cons y ys =>
      simp only [strcmp]
      by_cases h : x = y
      · simp [h, ih]
      · simp only [h, if_false, List.cons.injEq, false_and, iff_false]
        split <;> simp

theorem same_id_at_set (md : List img_metadata) (index j : Nat) (m : img_metadata)
    (hidx : index < md.length) (hm : m.img_id = (md.getD index default).img_id) :
    same_id_at (md.set index m) index j ↔ same_id_at md index j := by
  unfold same_id_at
  constructor
  · rintro ⟨h1, h2, h3⟩
    rw [getD_set_ne _ _ _ _ _ (Ne.symm h1)] at h2 h3
    rw [getD_set_eq _ _ _ _ hidx] at h3
    exact ⟨h1, h2, h3.trans hm⟩
  · rintro ⟨h1, h2, h3⟩
    rw [getD_set_ne _ _ _ _ _ (Ne.symm h1), getD_set_eq _ _ _ _ hidx]
    exact ⟨h1, h2, h3.trans hm.symm⟩

theorem same_sha_at_set (md : List img_metadata) (index j : Nat) (m : img_metadata)
    (hidx : index < md.length) (hm : m.SHA = (md.getD index default).SHA) :
    same_sha_at (md.set index m) index j ↔ same_sha_at md index j := by
  unfold same_sha_at
  constructor
  · rintro ⟨h1, h2, h3⟩
    rw [getD_set_ne _ _ _ _ _ (Ne.symm h1)] at h2 h3
    rw [getD_set_eq _ _ _ _ hidx, hm] at h3
    exact ⟨h1, h2, h3⟩
  · rintro ⟨h1, h2, h3⟩
    rw [getD_set_ne _ _ _ _ _ (Ne.symm h1), getD_set_eq _ _ _ _ hidx, hm]
    exact ⟨h1, h2, h3⟩

/-- One turn of the loop of `do_name_and_content_dedup`, by cases. -/
theorem dedup_loop_step (max_files index fuel i : Nat) (found : Bool)
    (md : List img_metadata) (hlt : i < max_files) :
    dedup_loop max_files index (fuel + 1) i found md =
      if same_id_at md index i then (ERR_DUPLICATE_ID, found, md)
      else if found = false ∧ same_sha_at md index i then
        dedup_loop max_files index fuel (i + 1) true
          (md.set index (adopt (md.getD i default) (md.getD index default)))
      else dedup_loop max_files index fuel (i + 1) found md := by
  simp only [dedup_loop, hlt, if_true, same_id_at, same_sha_at, strcmp_eq_zero, adopt]
  by_cases hv : (md.getD i default).is_valid = NON_EMPTY
  · by_cases hi : i = index
    · subst hi
      simp only [hv, ne_eq, not_true_eq_false, if_false, if_true, false_and, and_false]
    · by_cases hid : (md.getD i default).img_id = (md.getD index default).img_id
      · simp only [hv, hi, hid, ne_eq, not_false_eq_true, if_true, true_and, and_self]
      · simp only [hv, hi, hid, ne_eq, not_false_eq_true, if_true, if_false, true_and,
          and_false]
  · simp only [hv, if_false, false_and, and_false]

theorem dedup_loop_dup (max_files index : Nat) :
    ∀ fuel i found (md : List img_metadata), i + fuel = max_files → index < md.length →
      (∃ j, i ≤ j ∧ j < max_files ∧ same_id_at md index j) →
      (dedup_loop max_files index fuel i found md).1 = ERR_DUPLICATE_ID := by
  intro fuel
  induction fuel with
  | zero => rintro i found md hi _ ⟨j, h1, h2, _⟩; omega
  | succ n ih =>
    rintro i found md hi hidx ⟨j, h1, h2, h3⟩
    rw [dedup_loop_step _ _ _ _ _ _ (by omega)]
    by_cases hd : same_id_at md index i
    · simp [hd]
    · have hij : i ≠ j := fun h => hd (h ▸ h3)
      simp only [hd, if_false]
      split
      · apply ih _ _ _ (by omega) (by simpa using hidx)
        exact ⟨j, by omega, h2, (same_id_at_set md index j (adopt (md.getD i default) (md.getD index default)) hidx rfl).2 h3⟩
      · exact ih _ _ _ (by omega) hidx ⟨j, by omega, h2, h3⟩

theorem dedup_loop_found (max_files index : Nat) :
    ∀ fuel i (md : List img_metadata), i + fuel = max_files →
      (∀ j, i ≤ j → j < max_files → ¬ same_id_at md index j) →
      dedup_loop max_files index fuel i true md = (ERR_NONE, true, md) := by
  intro fuel
  induction fuel with
  | zero => intro i md _ _; rfl
  | succ n ih =>
    intro i md hi hno
    rw [dedup_loop_step _ _ _ _ _ _ (by omega)]
    simp only [hno i (le_refl i) (by omega), if_false, Bool.true_eq_false, false_and]
    exact ih _ _ (by omega) (fun j hj hj2 => hno j (by omega) hj2)

theorem dedup_loop_no_match (max_files index : Nat) :
    ∀ fuel i (md : List img_metadata), i + fuel = max_files →
      (∀ j, i ≤ j → j < max_files → ¬ same_id_at md index j) →
      (∀ j, i ≤ j → j < max_files → ¬ same_sha_at md index j) →
      dedup_loop max_files index fuel i false md = (ERR_NONE, false, md) := by
  intro fuel
  induction fuel with
  | zero => intro i md _ _ _; rfl
  | succ n ih =>
    intro i md hi hno hns
    rw [dedup_loop_step _ _ _ _ _ _ (by omega)]
    simp only [hno i (le_refl i) (by omega), hns i (le_refl i) (by omega), if_false,
      and_false]
    exact ih _ _ (by omega) (fun j hj hj2 => hno j (by omega) hj2)
      (fun j hj hj2 => hns j (by omega) hj2)

theorem dedup_loop_match (max_files index : Nat) (k : Nat) (hk : k < max_files) :
    ∀ fuel i (md : List img_metadata), i + fuel = max_files → index < md.length → i ≤ k →
      (∀ j, i ≤ j → j < max_files → ¬ same_id_at md index j) →
      same_sha_at md index k → (∀ j, i ≤ j → j < k → ¬ same_sha_at md index j) →
      dedup_loop max_files index fuel i false md
        = (ERR_NONE, true, md.set index (adopt (md.getD k default) (md.getD index default))) := by
  intro fuel
  induction fuel with
  | zero => intro i md _ _ _ _ _ _; omega
  | succ n ih =>
    intro i md hi hidx hik hno hm hfirst
    rw [dedup_loop_step _ _ _ _ _ _ (by omega)]
    simp only [hno i (le_refl i) (by omega), if_false, true_and]
    by_cases h : i = k
    · subst h
      simp only [hm, if_true]
      apply dedup_loop_found _ _ _ _ _ (by omega)
      intro j hj hj2 hc
      exact hno j (by omega) hj2 ((same_id_at_set md index j (adopt (md.getD i default) (md.getD index default)) hidx rfl).1 hc)
    · simp only [hfirst i (le_refl i) (by omega), if_false]
      exact ih _ _ (by omega) hidx (by omega) (fun j hj hj2 => hno j (by omega) hj2) hm
        (fun j hj hj2 => hfirst j (by omega) hj2)

theorem do_name_and_content_dedup_spec (s : imgst_file) (index : Nat)
    (hlen : s.metadata.length = s.header.max_files) (hidx : index < s.header.max_files) :
    ((∃ j, j < s.header.max_files ∧ same_id_at s.metadata index j)
        ∧ (do_name_and_content_dedup s index).1 = ERR_DUPLICATE_ID)
    ∨ ((∀ j, j < s.header.max_files → ¬ same_id_at s.metadata index j)
        ∧ ((∃ k, k < s.header.max_files ∧ same_sha_at s.metadata index k
              ∧ (∀ j, j < k → ¬ same_sha_at s.metadata index j)
              ∧ do_name_and_content_dedup s index
                  = (ERR_NONE, s.set_slot index (adopt (s.slot k) (s.slot index))))
          ∨ ((∀ j, j < s.header.max_files → ¬ same_sha_at s.metadata index j)
              ∧ do_name_and_content_dedup s index
                  = (ERR_NONE, s.set_slot index
                      { s.slot index with offset := { (s.slot index).offset with orig := 0 } })))) := by
  have hidx2 : index < s.metadata.length := by omega
  by_cases hdup : ∃ j, j < s.header.max_files ∧ same_id_at s.metadata index j
  · left
    refine ⟨hdup, ?_⟩
    obtain ⟨j, hj, hj2⟩ := hdup
    have h := dedup_loop_dup s.header.max_files index s.header.max_files 0 false s.metadata
      (by omega) hidx2 ⟨j, Nat.zero_le _, hj, hj2⟩
    unfold do_name_and_content_dedup
    rcases hl : dedup_loop s.header.max_files index s.header.max_files 0 false s.metadata
      with ⟨err, found, md⟩
    rw [hl] at h
    simp only at h
    subst h
    simp [hidx]
  · right
    have hno : ∀ j, j < s.header.max_files → ¬ same_id_at s.metadata index j :=
      fun j hj hc => hdup ⟨j, hj, hc⟩
    refine ⟨hno, ?_⟩
    by_cases hm : ∃ j, j < s.header.max_files ∧ same_sha_at s.metadata index j
    · left
      obtain ⟨k, hk, hk2, hk3⟩ := exists_least _ _ hm
      refine ⟨k, hk, hk2, hk3, ?_⟩
      have h := dedup_loop_match s.header.max_files index k hk s.header.max_files 0 s.metadata
        (by omega) hidx2 (Nat.zero_le _) (fun j _ hj => hno j hj) hk2 (fun j _ hj => hk3 j hj)
      unfold do_name_and_content_dedup
      simp only [hidx, not_true_eq_false, if_false, h]
      rfl
    · right
      have hns : ∀ j, j < s.header.max_files → ¬ same_sha_at s.metadata index j :=
        fun j hj hc => hm ⟨j, hj, hc⟩
      refine ⟨hns, ?_⟩
      have h := dedup_loop_no_match s.header.max_files index s.header.max_files 0 s.metadata
        (by omega) (fun j _ hj => hno j hj) (fun j _ hj => hns j hj)
      unfold do_name_and_content_dedup
      simp only [hidx, not_true_eq_false, if_false, h]
      rfl

theorem length_le_bytes (w n : Nat) : (le_bytes w n).length = w := by
  simp [le_bytes]

theorem length_fixed_bytes (w : Nat) (xs : List Nat) : (fixed_bytes w xs).length = w := by
  simp [fixed_bytes]

theorem length_header_bytes (h : imgst_header) : (header_bytes h).length = sizeof_header := by
  simp [header_bytes, length_le_bytes, length_fixed_bytes, sizeof_header]

theorem length_metadata_bytes (m : img_metadata) :
    (metadata_bytes m).length = sizeof_metadata := by
  simp [metadata_bytes, length_le_bytes, length_fixed_bytes, sizeof_metadata]

theorem length_fwrite_at (f : List Nat) (pos : Nat) (d : List Nat) :
    (fwrite_at f pos d).length = max f.length (pos + d.length) := by
  simp [fwrite_at]; omega

theorem drop_fwrite_at (f : List Nat) (pos : Nat) (d : List Nat) (k : Nat)
    (hk : pos + d.length ≤ k) : (fwrite_at f pos d).drop k = f.drop k := by
  have hlen : (f.take pos ++ List.replicate (pos - f.length) 0 ++ d).length
      = pos + d.length := by simp; omega
  obtain ⟨j, rfl⟩ : ∃ j, k = (pos + d.length) + j := ⟨k - (pos + d.length), by omega⟩
  have h1 : fwrite_at f pos d
      = (f.take pos ++ List.replicate (pos - f.length) 0 ++ d) ++ f.drop (pos + d.length) := rfl
  rw [h1, ← hlen, List.drop_append, hlen, List.drop_drop]

theorem find_empty_loop_none (lib : img_lib) (buffer img_id : List Nat) (max_files : Nat)
    (md : List img_metadata) :
    ∀ fuel i, i + fuel = max_files →
      (∀ j, i ≤ j → j < max_files → (md.getD j default).is_valid ≠ EMPTY) →
      find_empty_loop lib buffer img_id max_files fuel i md = (max_files, md) := by
  intro fuel
  induction fuel with
  | zero => intro i hi _; simp [find_empty_loop] at *; exact hi
  | succ n ih =>
    intro i hi hne
    have hlt : i < max_files := by omega
    simp only [find_empty_loop, hlt, if_true, hne i (le_refl i) hlt, if_false]
    exact ih (i + 1) (by omega) (fun j hj hj2 => hne j (by omega) hj2)

theorem find_empty_loop_some (lib : img_lib) (buffer img_id : List Nat) (max_files : Nat)
    (md : List img_metadata) (e : Nat) (he : e < max_files)
    (hempty : (md.getD e default).is_valid = EMPTY) :
    ∀ fuel i, i + fuel = max_files → i ≤ e →
      (∀ j, i ≤ j → j < e → (md.getD j default).is_valid ≠ EMPTY) →
      find_empty_loop lib buffer img_id max_files fuel i md
        = (e + 1, md.set e (candidate_slot lib buffer img_id (md.getD e default))) := by
  intro fuel
  induction fuel with
  | zero => intro i hi hie _; omega
  | succ n ih =>
    intro i hi hie hne
    have hlt : i < max_files := by omega
    by_cases h : i = e
    · subst h
      simp only [find_empty_loop, hlt, if_true, hempty, candidate_slot]
    · have hv : (md.getD i default).is_valid ≠ EMPTY := hne i (le_refl i) (by omega)
      simp only [find_empty_loop, hlt, if_true, hv, if_false]
      exact ih (i + 1) (by omega) (by omega) (fun j hj hj2 => hne j (by omega) hj2)

theorem slot_set_slot_eq (s : imgst_file) (e : Nat) (m : img_metadata)
    (he : e < s.metadata.length) : (s.set_slot e m).slot e = m := by
  simp only [imgst_file.slot, imgst_file.set_slot]
  exact getD_set_eq _ _ _ _ he

theorem slot_set_slot_ne (s : imgst_file) (e j : Nat) (m : img_metadata) (h : e ≠ j) :
    (s.set_slot e m).slot j = s.slot j := by
  simp only [imgst_file.slot, imgst_file.set_slot]
  exact getD_set_ne _ _ _ _ _ h

theorem set_slot_set_slot (s : imgst_file) (e : Nat) (m m' : img_metadata) :
    (s.set_slot e m).set_slot e m' = s.set_slot e m' := by
  simp [imgst_file.set_slot, List.set_set]

theorem find_empty_and_update_metadata_eq (lib : img_lib) (b id : List Nat) (s : imgst_file)
    (hmax : s.header.max_files < 2 ^ 32) (e : Nat) (he : e < s.header.max_files)
    (hee : (s.slot e).is_valid = EMPTY)
    (hfirst : ∀ j, j < e → (s.slot j).is_valid ≠ EMPTY) :
    find_empty_and_update_metadata lib b id s
      = (e, s.set_slot e (candidate_slot lib b id (s.slot e))) := by
  have h := find_empty_loop_some lib b id s.header.max_files s.metadata e he hee
    s.header.max_files 0 (by omega) (Nat.zero_le _) (fun j _ hj => hfirst j hj)
  unfold find_empty_and_update_metadata
  simp only [h, imgst_file.set_slot, imgst_file.slot]
  have h64 : (2 : Nat) ^ 32 < 2 ^ 64 := by norm_num
  have h1 : e + 1 + 2 ^ 64 - 1 = e + 2 ^ 64 := by omega
  rw [h1, Nat.add_mod_right, Nat.mod_eq_of_lt (by omega)]

theorem insert_finish_eq (lib : img_lib) (b id : List Nat) (s : imgst_file) (e : Nat)
    (m1 : img_metadata)
    (hid1 : id.length ≤ MAX_IMG_ID) (hid2 : 0 < id.length)
    (hfull : s.header.num_files < s.header.max_files)
    (hmax : s.header.max_files < 2 ^ 32) (he : e < s.header.max_files)
    (hlen : s.metadata.length = s.header.max_files)
    (hfe : find_empty_and_update_metadata lib b id s
      = (e, s.set_slot e (candidate_slot lib b id (s.slot e))))
    (hdd : do_name_and_content_dedup (s.set_slot e (candidate_slot lib b id (s.slot e))) e
      = (ERR_NONE, s.set_slot e m1)) :
    do_insert lib b id s = insert_finish lib b s e m1 := by
  have he2 : e < s.metadata.length := by omega
  have hmod : e % 2 ^ 32 = e := Nat.mod_eq_of_lt (by omega)
  unfold do_insert insert_finish
  simp only [hid1, hid2, hfull, not_true_eq_false, if_false, hfe, hmod, hdd, gt_iff_lt,
    slot_set_slot_eq s e m1 he2]
  by_cases ho : m1.offset.orig = 0
  · simp only [ho, if_true, write_disk_image]
    by_cases hb : b = []
    · simp only [hb, List.length_nil, if_true]
    · have hb2 : b.length ≠ 0 := by simpa using hb
      simp only [hb, hb2, if_false]
      cases hg : get_resolution lib b with
      | none =>
        simp only [imgst_file.set_slot, imgst_file.slot, getD_set_eq, List.length_set, he2,
          List.set_set]
      | some p =>
        obtain ⟨h, w⟩ := p
        simp only [imgst_file.set_slot, imgst_file.slot, getD_set_eq, List.length_set, he2,
          List.set_set, update_disk_header, update_disk_metadata, committed]
  · simp only [ho, if_false]
    cases hg : get_resolution lib b with
    | none => simp only
    | some p =>
      obtain ⟨h, w⟩ := p
      simp only [imgst_file.set_slot, imgst_file.slot, getD_set_eq, List.length_set, he2,
        List.set_set, update_disk_header, update_disk_metadata, committed]

theorem same_id_at_candidate (lib : img_lib) (b id : List Nat) (s : imgst_file) (e j : Nat)
    (hid1 : id.length ≤ MAX_IMG_ID) (he : e < s.metadata.length)
    (hee : (s.slot e).is_valid = EMPTY) :
    same_id_at (s.set_slot e (candidate_slot lib b id (s.slot e))).metadata e j
      ↔ holds_id s id j := by
  have hm0 : ((s.metadata.set e (candidate_slot lib b id (s.slot e))).getD e default).img_id
      = id := by
    rw [getD_set_eq _ _ _ _ he]
    exact List.take_of_length_le hid1
  unfold same_id_at holds_id
  simp only [imgst_file.set_slot]
  constructor
  · rintro ⟨h1, h2, h3⟩
    rw [getD_set_ne _ _ _ _ _ (Ne.symm h1)] at h2 h3
    exact ⟨h2, h3.trans hm0⟩
  · rintro ⟨h2, h3⟩
    have h1 : j ≠ e := by
      rintro rfl
      rw [hee] at h2
      exact absurd h2 (by decide)
    rw [getD_set_ne _ _ _ _ _ (Ne.symm h1)]
    exact ⟨h1, h2, h3.trans hm0.symm⟩

theorem same_sha_at_candidate (lib : img_lib) (b id : List Nat) (s : imgst_file) (e j : Nat)
    (he : e < s.metadata.length) (hee : (s.slot e).is_valid = EMPTY) :
    same_sha_at (s.set_slot e (candidate_slot lib b id (s.slot e))).metadata e j
      ↔ holds_sha s (lib.SHA256 b) j := by
  have hm0 : ((s.metadata.set e (candidate_slot lib b id (s.slot e))).getD e default).SHA
      = lib.SHA256 b := by
    rw [getD_set_eq _ _ _ _ he]
    rfl
  unfold same_sha_at holds_sha
  simp only [imgst_file.set_slot]
  constructor
  · rintro ⟨h1, h2, h3⟩
    rw [getD_set_ne _ _ _ _ _ (Ne.symm h1)] at h2 h3
    rw [hm0] at h3
    exact ⟨h2, h3⟩
  · rintro ⟨h2, h3⟩
    have h1 : j ≠ e := by
      rintro rfl
      rw [hee] at h2
      exact absurd h2 (by decide)
    rw [getD_set_ne _ _ _ _ _ (Ne.symm h1), hm0]
    exact ⟨h1, h2, h3⟩

theorem do_insert_dup (lib : img_lib) (b id : List Nat) (s : imgst_file)
    (hlen : s.metadata.length = s.header.max_files) (hmax : s.header.max_files < 2 ^ 32)
    (hid1 : id.length ≤ MAX_IMG_ID) (hid2 : 0 < id.length)
    (hfull : s.header.num_files < s.header.max_files)
    (e : Nat) (he : e < s.header.max_files) (hee : (s.slot e).is_valid = EMPTY)
    (hfirst : ∀ j, j < e → (s.slot j).is_valid ≠ EMPTY)
    (hdup : ∃ j, j < s.header.max_files ∧ holds_id s id j) :
    (do_insert lib b id s).1 = ERR_DUPLICATE_ID := by
  have he2 : e < s.metadata.length := by omega
  have hfe := find_empty_and_update_metadata_eq lib b id s hmax e he hee hfirst
  have hmod : e % 2 ^ 32 = e := Nat.mod_eq_of_lt (by omega)
  rcases do_name_and_content_dedup_spec (s.set_slot e (candidate_slot lib b id (s.slot e))) e
      (by simpa [imgst_file.set_slot] using hlen) he with ⟨_, h⟩ | ⟨hno, _⟩
  · unfold do_insert
    simp only [hid1, hid2, hfull, not_true_eq_false, if_false, hfe, hmod, gt_iff_lt]
    rcases hd : do_name_and_content_dedup
      (s.set_slot e (candidate_slot lib b id (s.slot e))) e with ⟨err, s1⟩
    rw [hd] at h
    simp only at h
    subst h
    rfl
  · obtain ⟨j, hj, hj2⟩ := hdup
    exact absurd ((same_id_at_candidate lib b id s e j hid1 he2 hee).2 hj2) (hno j hj)

theorem do_insert_nodup (lib : img_lib) (b id : List Nat) (s : imgst_file)
    (hlen : s.metadata.length = s.header.max_files) (hmax : s.header.max_files < 2 ^ 32)
    (hid1 : id.length ≤ MAX_IMG_ID) (hid2 : 0 < id.length)
    (hfull : s.header.num_files < s.header.max_files)
    (e : Nat) (he : e < s.header.max_files) (hee : (s.slot e).is_valid = EMPTY)
    (hfirst : ∀ j, j < e → (s.slot j).is_valid ≠ EMPTY)
    (hno : ∀ j, j < s.header.max_files → ¬ holds_id s id j) :
    (∃ k, k < s.header.max_files ∧ holds_sha s (lib.SHA256 b) k
        ∧ (∀ j, j < k → ¬ holds_sha s (lib.SHA256 b) j)
        ∧ do_insert lib b id s
            = insert_finish lib b s e (adopt (s.slot k) (candidate_slot lib b id (s.slot e))))
    ∨ ((∀ j, j < s.header.max_files → ¬ holds_sha s (lib.SHA256 b) j)
        ∧ do_insert lib b id s
            = insert_finish lib b s e
                { candidate_slot lib b id (s.slot e) with
                  offset := { (s.slot e).offset with orig := 0 } }) := by
  have he2 : e < s.metadata.length := by omega
  have hfe := find_empty_and_update_metadata_eq lib b id s hmax e he hee hfirst
  rcases do_name_and_content_dedup_spec (s.set_slot e (candidate_slot lib b id (s.slot e))) e
      (by simpa [imgst_file.set_slot] using hlen) he with ⟨⟨j, hj, hj2⟩, _⟩ | ⟨_, h⟩
  · exact absurd ((same_id_at_candidate lib b id s e j hid1 he2 hee).1 hj2) (hno j hj)
  · rcases h with ⟨k, hk, hk2, hk3, hk4⟩ | ⟨hns, hk4⟩
    · left
      have hke : e ≠ k := Ne.symm hk2.1
      refine ⟨k, hk, (same_sha_at_candidate lib b id s e k he2 hee).1 hk2,
        fun j hj hc => hk3 j hj ((same_sha_at_candidate lib b id s e j he2 hee).2 hc), ?_⟩
      rw [slot_set_slot_eq _ _ _ he2, slot_set_slot_ne _ _ _ _ hke, set_slot_set_slot] at hk4
      exact insert_finish_eq lib b id s e _ hid1 hid2 hfull hmax he hlen hfe hk4
    · right
      refine ⟨fun j hj hc => hns j hj ((same_sha_at_candidate lib b id s e j he2 hee).2 hc), ?_⟩
      rw [slot_set_slot_eq _ _ _ he2, set_slot_set_slot] at hk4
      exact insert_finish_eq lib b id s e _ hid1 hid2 hfull hmax he hlen hfe hk4

theorem count_valid_drop (md : List img_metadata) (i : Nat) (hi : i < md.length) :
    count_valid (md.drop i)
      = (if (md.getD i default).is_valid = NON_EMPTY then 1 else 0)
        + count_valid (md.drop (i + 1)) := by
  have h : md.drop i = md[i] :: md.drop (i + 1) := List.drop_eq_getElem_cons hi
  have h2 : md.getD i default = md[i] := by
    simp [List.getD_eq_getElem?_getD, List.getElem?_eq_getElem hi]
  rw [h, h2]
  unfold count_valid
  rw [List.countP_cons]
  simp only [decide_eq_true_eq]
  omega

theorem count_valid_drop_pos (md : List img_metadata) (k : Nat) (hk : k < md.length)
    (hv : (md.getD k default).is_valid = NON_EMPTY) :
    ∀ d i, i + d = k → 1 ≤ count_valid (md.drop i) := by
  intro d
  induction d with
  | zero =>
    intro i hi
    have h : i = k := by omega
    subst h
    rw [count_valid_drop md i hk, if_pos hv]
    omega
  | succ n ih =>
    intro i hi
    rw [count_valid_drop md i (by omega)]
    have := ih (i + 1) (by omega)
    omega

theorem find_img_id_loop_sound (s : imgst_file) (id : List Nat) :
    ∀ fuel i v k, find_img_id_loop s id fuel i v = some k →
      i ≤ k ∧ k < s.header.max_files ∧ holds_id s id k
        ∧ ∀ j, i ≤ j → j < k → ¬ holds_id s id j := by
  intro fuel
  induction fuel with
  | zero => intro i v k h; simp [find_img_id_loop] at h
  | succ n ih =>
    intro i v k h
    simp only [find_img_id_loop] at h
    split at h
    · rename_i hc
      split at h
      · rename_i hv
        split at h
        · rename_i hs
          simp only [Option.some.injEq] at h
          subst h
          exact ⟨le_refl _, hc.1, ⟨hv, (strcmp_eq_zero _ _).1 hs⟩, fun j h1 h2 => by omega⟩
        · rename_i hs
          obtain ⟨h1, h2, h3, h4⟩ := ih _ _ _ h
          refine ⟨by omega, h2, h3, fun j hj hj2 => ?_⟩
          by_cases hji : j = i
          · subst hji
            exact fun hc2 => hs ((strcmp_eq_zero _ _).2 hc2.2)
          · exact h4 j (by omega) hj2
      · rename_i hv
        obtain ⟨h1, h2, h3, h4⟩ := ih _ _ _ h
        refine ⟨by omega, h2, h3, fun j hj hj2 => ?_⟩
        by_cases hji : j = i
        · subst hji
          exact fun hc2 => hv hc2.1
        · exact h4 j (by omega) hj2
    · simp at h

theorem find_img_id_loop_none (s : imgst_file) (id : List Nat) :
    ∀ fuel i v, (∀ j, i ≤ j → j < s.header.max_files → ¬ holds_id s id j) →
      find_img_id_loop s id fuel i v = none := by
  intro fuel i v h
  cases hr : find_img_id_loop s id fuel i v with
  | none => rfl
  | some k =>
    obtain ⟨h1, h2, h3, _⟩ := find_img_id_loop_sound s id fuel i v k hr
    exact absurd h3 (h k h1 h2)

theorem find_img_id_loop_some (s : imgst_file) (id : List Nat) (k : Nat)
    (hlen : s.metadata.length = s.header.max_files) (hk : k < s.header.max_files)
    (hid : holds_id s id k) :
    ∀ fuel i v, i + fuel = s.header.max_files → i ≤ k →
      (∀ j, i ≤ j → j < k → ¬ holds_id s id j) →
      v + count_valid (s.metadata.drop i) ≤ s.header.num_files →
      find_img_id_loop s id fuel i v = some k := by
  intro fuel
  induction fuel with
  | zero => intro i v hi hik _ _; omega
  | succ n ih =>
    intro i v hi hik hfirst hcnt
    have hlt : i < s.header.max_files := by omega
    have hd := count_valid_drop s.metadata i (by omega)
    by_cases h : i = k
    · subst h
      have hv : (s.metadata.getD i default).is_valid = NON_EMPTY := hid.1
      rw [hv] at hd
      simp only [if_true] at hd
      have hlt2 : v < s.header.num_files := by omega
      simp only [find_img_id_loop, hlt, hlt2, and_self, if_true, hid.1,
        (strcmp_eq_zero _ _).2 hid.2]
    · by_cases hv : (s.slot i).is_valid = NON_EMPTY
      · have hv' : (s.metadata.getD i default).is_valid = NON_EMPTY := hv
        rw [hv'] at hd
        simp only [if_true] at hd
        have hlt2 : v < s.header.num_files := by omega
        have hs : ¬ strcmp (s.slot i).img_id id = 0 := fun hc =>
          hfirst i (le_refl i) (by omega) ⟨hv, (strcmp_eq_zero _ _).1 hc⟩
        simp only [find_img_id_loop, hlt, hlt2, and_self, if_true, hv, hs, if_false]
        exact ih _ _ (by omega) (by omega) (fun j hj hj2 => hfirst j (by omega) hj2)
          (by omega)
      · have hv' : ¬ (s.metadata.getD i default).is_valid = NON_EMPTY := hv
        simp only [hv', if_false] at hd
        have hcv : 1 ≤ count_valid (s.metadata.drop (i + 1)) :=
          count_valid_drop_pos s.metadata k (by omega) hid.1 (k - (i + 1)) (i + 1) (by omega)
        have hlt2 : v < s.header.num_files := by omega
        simp only [find_img_id_loop, hlt, hlt2, and_self, if_true, hv, if_false]
        exact ih _ _ (by omega) (by omega) (fun j hj hj2 => hfirst j (by omega) hj2)
          (by omega)

theorem find_img_id_found (s : imgst_file) (id : List Nat) (k : Nat)
    (hlen : s.metadata.length = s.header.max_files)
    (hcnt : count_valid s.metadata ≤ s.header.num_files)
    (hk : k < s.header.max_files) (hid : holds_id s id k)
    (hfirst : ∀ j, j < k → ¬ holds_id s id j) :
    find_img_id s id = (ERR_NONE, k) := by
  unfold find_img_id
  rw [find_img_id_loop_some s id k hlen hk hid s.header.max_files 0 0 (by omega)
    (Nat.zero_le _) (fun j _ hj => hfirst j hj) (by simpa using hcnt)]

theorem find_img_id_not_found (s : imgst_file) (id : List Nat)
    (h : ∀ j, j < s.header.max_files → ¬ holds_id s id j) :
    find_img_id s id = (ERR_FILE_NOT_FOUND, 0) := by
  unfold find_img_id
  rw [find_img_id_loop_none s id s.header.max_files 0 0 (fun j _ hj => h j hj)]

theorem find_img_id_ok (s : imgst_file) (id : List Nat) (k : Nat)
    (h : find_img_id s id = (ERR_NONE, k)) :
    k < s.header.max_files ∧ holds_id s id k ∧ ∀ j, j < k → ¬ holds_id s id j := by
  unfold find_img_id at h
  cases hr : find_img_id_loop s id s.header.max_files 0 0 with
  | none => rw [hr] at h; simp at h
  | some k' =>
    rw [hr] at h
    simp only [Prod.mk.injEq, true_and] at h
    subst h
    obtain ⟨_, h2, h3, h4⟩ := find_img_id_loop_sound s id _ _ _ _ hr
    exact ⟨h2, h3, fun j hj => h4 j (Nat.zero_le _) hj⟩

theorem find_img_id_cases (s : imgst_file) (id : List Nat) :
    (∃ k, find_img_id s id = (ERR_NONE, k))
      ∨ find_img_id s id = (ERR_FILE_NOT_FOUND, 0) := by
  unfold find_img_id
  cases find_img_id_loop s id s.header.max_files 0 0 with
  | none => right; rfl
  | some k => left; exact ⟨k, rfl⟩

theorem do_insert_checks (lib : img_lib) (b id : List Nat) (s : imgst_file)
    (h : (do_insert lib b id s).1 = ERR_NONE) :
    id.length ≤ MAX_IMG_ID ∧ 0 < id.length ∧ s.header.num_files < s.header.max_files := by
  unfold do_insert at h
  by_cases h1 : id.length ≤ MAX_IMG_ID
  · by_cases h2 : 0 < id.length
    · by_cases h3 : s.header.num_files < s.header.max_files
      · exact ⟨h1, h2, h3⟩
      · simp [h1, h2, h3] at h
    · simp [h1, h2] at h
  · simp [h1] at h

theorem insert_finish_ok (lib : img_lib) (b : List Nat) (s : imgst_file) (e : Nat)
    (m1 : img_metadata) (h : (insert_finish lib b s e m1).1 = ERR_NONE) :
    ∃ height width, get_resolution lib b = some (height, width)
      ∧ ((m1.offset.orig ≠ 0
            ∧ (insert_finish lib b s e m1).2 = committed s s.file e
                { m1 with res_orig := (width, height), is_valid := NON_EMPTY })
        ∨ (m1.offset.orig = 0 ∧ b ≠ []
            ∧ (insert_finish lib b s e m1).2 = committed s (s.file ++ b) e
                { m1 with offset := ⟨0, 0, s.file.length⟩, size := ⟨0, 0, m1.size.orig⟩,
                          res_orig := (width, height), is_valid := NON_EMPTY })) := by
  unfold insert_finish at h ⊢
  by_cases ho : m1.offset.orig = 0
  · by_cases hb : b = []
    · simp [ho, hb] at h
    · cases hg : get_resolution lib b with
      | none => simp [ho, hb, hg] at h
      | some p =>
        obtain ⟨height, width⟩ := p
        exact ⟨height, width, rfl, Or.inr ⟨ho, hb, by simp only [ho, hb, if_true, if_false]⟩⟩
  · cases hg : get_resolution lib b with
    | none => simp [ho, hg] at h
    | some p =>
      obtain ⟨height, width⟩ := p
      exact ⟨height, width, rfl, Or.inl ⟨ho, by simp only [ho, if_false]⟩⟩

/-- What a successful `do_insert` has done, on a store that has an empty slot. -/
theorem do_insert_ok (lib : img_lib) (b id : List Nat) (s : imgst_file)
    (hlen : s.metadata.length = s.header.max_files) (hmax : s.header.max_files < 2 ^ 32)
    (hempty : ∃ j, j < s.header.max_files ∧ (s.slot j).is_valid = EMPTY)
    (h : (do_insert lib b id s).1 = ERR_NONE) :
    ∃ e m file0,
      e < s.header.max_files ∧ (s.slot e).is_valid = EMPTY
      ∧ (∀ j, j < e → (s.slot j).is_valid ≠ EMPTY)
      ∧ (do_insert lib b id s).2 = committed s file0 e m
      ∧ (∀ j, j < s.header.max_files → ¬ holds_id s id j)
      ∧ m.img_id = id ∧ m.SHA = lib.SHA256 b ∧ m.is_valid = NON_EMPTY
      ∧ m.size.orig = b.length % 2 ^ 32
      ∧ ((∃ k, k < s.header.max_files ∧ holds_sha s (lib.SHA256 b) k
            ∧ (∀ j, j < k → ¬ holds_sha s (lib.SHA256 b) j)
            ∧ (s.slot k).offset.orig ≠ 0 ∧ file0 = s.file
            ∧ m.offset = (s.slot k).offset
            ∧ m.size.thumb = (s.slot k).size.thumb ∧ m.size.small = (s.slot k).size.small)
        ∨ (file0 = s.file ++ b ∧ b ≠ [] ∧ m.offset = ⟨0, 0, s.file.length⟩
            ∧ m.size.thumb = 0 ∧ m.size.small = 0
            ∧ ((∀ j, j < s.header.max_files → ¬ holds_sha s (lib.SHA256 b) j)
              ∨ ∃ k, k < s.header.max_files ∧ holds_sha s (lib.SHA256 b) k
                  ∧ (∀ j, j < k → ¬ holds_sha s (lib.SHA256 b) j)
                  ∧ (s.slot k).offset.orig = 0))) := by
  obtain ⟨hid1, hid2, hfull⟩ := do_insert_checks lib b id s h
  obtain ⟨e, he, hee, hfirst⟩ := exists_least (fun j => (s.slot j).is_valid = EMPTY) _ hempty
  have htake : id.take MAX_IMG_ID = id := List.take_of_length_le hid1
  by_cases hdup : ∃ j, j < s.header.max_files ∧ holds_id s id j
  · have := do_insert_dup lib b id s hlen hmax hid1 hid2 hfull e he hee hfirst hdup
    rw [this] at h
    exact absurd h (by decide)
  · have hno : ∀ j, j < s.header.max_files → ¬ holds_id s id j :=
      fun j hj hc => hdup ⟨j, hj, hc⟩
    rcases do_insert_nodup lib b id s hlen hmax hid1 hid2 hfull e he hee hfirst hno with
      ⟨k, hk, hk2, hk3, heq⟩ | ⟨hns, heq⟩
    · rw [heq] at h ⊢
      obtain ⟨height, width, _, hc⟩ := insert_finish_ok lib b s e _ h
      rcases hc with ⟨ho, hst⟩ | ⟨ho, hb, hst⟩
      · exact ⟨e, _, s.file, he, hee, hfirst, hst, hno, htake, rfl, rfl, rfl,
          Or.inl ⟨k, hk, hk2, hk3, ho, rfl, rfl, rfl, rfl⟩⟩
      · exact ⟨e, _, s.file ++ b, he, hee, hfirst, hst, hno, htake, rfl, rfl, rfl,
          Or.inr ⟨rfl, hb, rfl, rfl, rfl, Or.inr ⟨k, hk, hk2, hk3, ho⟩⟩⟩
    · rw [heq] at h ⊢
      obtain ⟨height, width, _, hc⟩ := insert_finish_ok lib b s e _ h
      rcases hc with ⟨ho, hst⟩ | ⟨ho, hb, hst⟩
      · exact absurd rfl ho
      · exact ⟨e, _, s.file ++ b, he, hee, hfirst, hst, hno, htake, rfl, rfl, rfl,
          Or.inr ⟨rfl, hb, rfl, rfl, rfl, Or.inl hns⟩⟩

theorem do_delete_eq (id : List Nat) (s : imgst_file) (k : Nat)
    (hid1 : id.length ≤ MAX_IMG_ID) (hid2 : 0 < id.length)
    (hlen : s.metadata.length = s.header.max_files)
    (hf : find_img_id s id = (ERR_NONE, k)) :
    do_delete id s = (ERR_NONE, deleted s k) := by
  have hk : k < s.metadata.length := by
    have := (find_img_id_ok s id k hf).1
    omega
  unfold do_delete deleted
  simp only [hid1, hid2, not_true_eq_false, if_false, hf, gt_iff_lt, update_disk_metadata,
    update_disk_header, imgst_file.set_slot, imgst_file.slot, getD_set_eq, List.length_set, hk]

theorem do_delete_checks (id : List Nat) (s : imgst_file)
    (h : (do_delete id s).1 = ERR_NONE) :
    id.length ≤ MAX_IMG_ID ∧ 0 < id.length ∧ ∃ k, find_img_id s id = (ERR_NONE, k) := by
  unfold do_delete at h
  by_cases h1 : id.length ≤ MAX_IMG_ID
  · by_cases h2 : 0 < id.length
    · refine ⟨h1, h2, ?_⟩
      rcases find_img_id_cases s id with ⟨k, hk⟩ | hn
      · exact ⟨k, hk⟩
      · simp [h1, h2, hn] at h
    · simp [h1, h2] at h
  · simp [h1] at h

theorem resize_image_eq (lib : img_lib) (code : Nat) (s : imgst_file) (k : Nat)
    (hk : k < s.metadata.length) :
    resize_image lib code s k =
      match lib.jpeg_resize (orig_buffer s k) (s.header.res_resized.getD (code * 2) 0)
          (s.header.res_resized.getD (code * 2 + 1) 0) with
      | none => (ERR_IMGLIB, s)
      | some new_buffer =>
        if new_buffer = [] then
          ( ERR_IO, s.set_slot k { s.slot k with size := (s.slot k).size.set code 0 })
        else
          (ERR_NONE,
            { s with file := s.file ++ new_buffer,
                     metadata := s.metadata.set k
                       { s.slot k with
                         size := (s.slot k).size.set code (new_buffer.length % 2 ^ 32),
                         offset := (s.slot k).offset.set code s.file.length } }) := by
  unfold resize_image orig_buffer
  dsimp only
  generalize lib.jpeg_resize _ _ _ = r
  cases r with
  | none => rfl
  | some nb =>
    by_cases hb : nb = []
    · subst hb
      simp only [write_disk_image, List.length_nil, if_true, Nat.zero_mod]
    · have hb2 : nb.length ≠ 0 := by simpa using hb
      simp only [write_disk_image, hb, hb2, if_false, imgst_file.set_slot, imgst_file.slot,
        getD_set_eq, List.length_set, hk, List.set_set]

theorem lazily_resize_eq (lib : img_lib) (code : Nat) (s : imgst_file) (k : Nat)
    (hcode : code = RES_THUMB ∨ code = RES_SMALL)
    (hlen : s.metadata.length = s.header.max_files) (hk : k < s.header.max_files)
    (hv : (s.slot k).is_valid = NON_EMPTY) (ho : (s.slot k).offset.get code = 0) :
    lazily_resize lib (code : Int) s k =
      match lib.jpeg_resize (orig_buffer s k) (s.header.res_resized.getD (code * 2) 0)
          (s.header.res_resized.getD (code * 2 + 1) 0) with
      | none => (ERR_IMGLIB, s)
      | some new_buffer =>
        if new_buffer = [] then
          ( ERR_IO, s.set_slot k { s.slot k with size := (s.slot k).size.set code 0 })
        else (ERR_NONE, resized s code k new_buffer) := by
  have hk2 : k < s.metadata.length := by omega
  have hc1 : (code : Int) < (NB_RES : Nat) ∧ (code : Int) ≥ 0 := by
    rcases hcode with h | h <;> subst h <;> simp [RES_THUMB, RES_SMALL, NB_RES]
  have hc2 : (code : Int) ≠ (RES_ORIG : Nat) := by
    rcases hcode with h | h <;> subst h <;> simp [RES_THUMB, RES_SMALL, RES_ORIG]
  unfold lazily_resize
  simp only [hk, hv, hc1, hc2, not_true_eq_false, if_false, ne_eq, not_false_eq_true,
    if_true, Int.toNat_ofNat, ho, and_self, resize_image_eq lib code s k hk2]
  generalize lib.jpeg_resize _ _ _ = r
  cases r with
  | none => rfl
  | some nb =>
    by_cases hb : nb = []
    · simp only [hb, if_true]
    · have hv2 := hv
      simp only [imgst_file.slot] at hv2
      simp only [hb, if_false, update_disk_metadata, resized, imgst_file.slot, getD_set_eq,
        List.length_set, hk2, hv2]

theorem do_read_checks (lib : img_lib) (id : List Nat) (r : Int) (s : imgst_file)
    (h : (do_read lib id r s).err = ERR_NONE) :
    id.length ≤ MAX_IMG_ID ∧ 0 < id.length
      ∧ (r = (RES_THUMB : Nat) ∨ r = (RES_SMALL : Nat) ∨ r = (RES_ORIG : Nat))
      ∧ ∃ k, find_img_id s id = (ERR_NONE, k) := by
  unfold do_read at h
  by_cases h1 : id.length ≤ MAX_IMG_ID
  · by_cases h2 : 0 < id.length
    · by_cases h3 : r < (NB_RES : Nat) ∧ r ≥ 0
      · refine ⟨h1, h2, ?_, ?_⟩
        · simp only [NB_RES, RES_THUMB, RES_SMALL, RES_ORIG] at h3 ⊢
          omega
        · rcases find_img_id_cases s id with ⟨k, hk⟩ | hn
          · exact ⟨k, hk⟩
          · simp [h1, h2, h3, hn] at h
      · simp [h1, h2, h3] at h
    · simp [h1, h2] at h
  · simp [h1] at h

theorem do_read_present (lib : img_lib) (id : List Nat) (code : Nat) (s : imgst_file) (k : Nat)
    (hid1 : id.length ≤ MAX_IMG_ID) (hid2 : 0 < id.length)
    (hcode : code = RES_THUMB ∨ code = RES_SMALL ∨ code = RES_ORIG)
    (hf : find_img_id s id = (ERR_NONE, k))
    (ho : (s.slot k).offset.get code ≠ 0 ∨ code = RES_ORIG) :
    do_read lib id (code : Int) s = read_at s k code := by
  obtain ⟨hk, hv, _⟩ := find_img_id_ok s id k hf
  have hc1 : (code : Int) < (NB_RES : Nat) ∧ (code : Int) ≥ 0 := by
    rcases hcode with h | h | h <;> subst h <;> simp [RES_THUMB, RES_SMALL, RES_ORIG, NB_RES]
  unfold do_read read_at
  simp only [hid1, hid2, hc1, not_true_eq_false, if_false, gt_iff_lt, and_self, hf,
    Int.toNat_ofNat]
  by_cases h0 : (s.slot k).offset.get code = 0
  · have h2 : code = RES_ORIG := by
      rcases ho with h | h
      · exact absurd h0 h
      · exact h
    subst h2
    have : lazily_resize lib ((RES_ORIG : Nat) : Int) s k = (ERR_NONE, s) := by
      unfold lazily_resize
      simp [hk, hv.1, NB_RES, RES_ORIG]
    simp only [h0, if_true, this]
  · simp only [h0, if_false]

theorem do_read_absent (lib : img_lib) (id : List Nat) (code : Nat) (s : imgst_file) (k : Nat)
    (hid1 : id.length ≤ MAX_IMG_ID) (hid2 : 0 < id.length)
    (hcode : code = RES_THUMB ∨ code = RES_SMALL)
    (hlen : s.metadata.length = s.header.max_files)
    (hf : find_img_id s id = (ERR_NONE, k))
    (ho : (s.slot k).offset.get code = 0) :
    do_read lib id (code : Int) s =
      match lib.jpeg_resize (orig_buffer s k) (s.header.res_resized.getD (code * 2) 0)
          (s.header.res_resized.getD (code * 2 + 1) 0) with
      | none => ⟨ERR_IMGLIB, none, none, s⟩
      | some new_buffer =>
        if new_buffer = [] then
          ⟨ ERR_IO, none, none,
            s.set_slot k { s.slot k with size := (s.slot k).size.set code 0 }⟩
        else read_at (resized s code k new_buffer) k code := by
  obtain ⟨hk, hv, _⟩ := find_img_id_ok s id k hf
  have hc1 : (code : Int) < (NB_RES : Nat) ∧ (code : Int) ≥ 0 := by
    rcases hcode with h | h <;> subst h <;> simp [RES_THUMB, RES_SMALL, NB_RES]
  unfold do_read
  simp only [hid1, hid2, hc1, not_true_eq_false, if_false, gt_iff_lt, and_self, hf,
    Int.toNat_ofNat, ho, if_true, lazily_resize_eq lib code s k hcode hlen hk hv.1 ho]
  generalize lib.jpeg_resize _ _ _ = r
  cases r with
  | none => rfl
  | some nb =>
    by_cases hb : nb = []
    · simp only [hb, if_true]
    · simp only [hb, if_false, read_at]
  
theorem compare_sha_eq_zero (a b : List Nat) :
    compare_sha a b = 0 ↔ ∀ i, i < SHA256_DIGEST_LENGTH → a.getD i 0 = b.getD i 0 := by
  unfold compare_sha
  constructor
  · intro h i hi
    by_cases hall : (List.range SHA256_DIGEST_LENGTH).all
        (fun i => a.getD i 0 == b.getD i 0) = true
    · rw [List.all_eq_true] at hall
      have := hall i (List.mem_range.2 hi)
      simpa using this
    · rw [if_neg hall] at h
      exact absurd h (by decide)
  · intro h
    rw [if_pos]
    rw [List.all_eq_true]
    intro i hi
    have := h i (List.mem_range.1 hi)
    simpa using this

theorem compare_sha_refl (a : List Nat) : compare_sha a a = 0 :=
  (compare_sha_eq_zero a a).2 (fun _ _ => rfl)

theorem compare_sha_symm (a b : List Nat) (h : compare_sha a b = 0) : compare_sha b a = 0 :=
  (compare_sha_eq_zero b a).2 (fun i hi => ((compare_sha_eq_zero a b).1 h i hi).symm)

theorem compare_sha_trans (a b c : List Nat) (h1 : compare_sha a b = 0)
    (h2 : compare_sha b c = 0) : compare_sha a c = 0 :=
  (compare_sha_eq_zero a c).2 (fun i hi =>
    ((compare_sha_eq_zero a b).1 h1 i hi).trans ((compare_sha_eq_zero b c).1 h2 i hi))

theorem count_valid_set (md : List img_metadata) (k : Nat) (m : img_metadata)
    (hk : k < md.length) :
    count_valid (md.set k m) + (if (md.getD k default).is_valid = NON_EMPTY then 1 else 0)
      = count_valid md + (if m.is_valid = NON_EMPTY then 1 else 0) := by
  induction md generalizing k with
  | nil => simp at hk
  | cons x xs ih =>
    cases k with
    | zero =>
      simp only [List.set_cons_zero, count_valid, List.countP_cons, decide_eq_true_eq,
        List.getD_cons_zero]
      omega
    | succ n =>
      have := ih n (by simpa using hk)
      simp only [List.set_cons_succ, count_valid, List.countP_cons, decide_eq_true_eq,
        List.getD_cons_succ] at this ⊢
      omega

theorem count_valid_le (md : List img_metadata) : count_valid md ≤ md.length :=
  List.countP_le_length _

theorem exists_not_valid (md : List img_metadata) (h : count_valid md < md.length) :
    ∃ j, j < md.length ∧ (md.getD j default).is_valid ≠ NON_EMPTY := by
  by_contra hc
  push_neg at hc
  have : count_valid md = md.length := by
    unfold count_valid
    rw [List.countP_eq_length]
    intro a ha
    obtain ⟨j, hj, rfl⟩ := List.getElem_of_mem ha
    have := hc j hj
    simpa [List.getD_eq_getElem?_getD, List.getElem?_eq_getElem hj] using this
  omega

theorem count_valid_pos (md : List img_metadata) (k : Nat) (hk : k < md.length)
    (hv : (md.getD k default).is_valid = NON_EMPTY) : 1 ≤ count_valid md := by
  have := count_valid_drop_pos md k hk hv k 0 (by omega)
  simpa using this

theorem slot_update (s s' : imgst_file) (k : Nat) (m : img_metadata)
    (hmd : s'.metadata = s.metadata.set k m) (hk : k < s.metadata.length) (j : Nat) :
    s'.slot j = if j = k then m else s.slot j := by
  unfold imgst_file.slot
  rw [hmd]
  by_cases h : j = k
  · subst h
    rw [if_pos rfl, getD_set_eq _ _ _ _ hk]
  · rw [if_neg h, getD_set_ne _ _ _ _ _ (Ne.symm h)]

theorem Inv_update (lib : img_lib) (s s' : imgst_file) (k : Nat) (m : img_metadata)
    (hinv : Inv lib s) (hk : k < s.header.max_files)
    (hh : s'.header.max_files = s.header.max_files)
    (hmd : s'.metadata = s.metadata.set k m)
    (hfile : payload_start s ≤ s'.file.length)
    (htyped : m.is_valid = EMPTY ∨ m.is_valid = NON_EMPTY)
    (hcount : s'.header.num_files = count_valid s'.metadata)
    (hids : m.is_valid = NON_EMPTY → ∀ j, j < s.header.max_files → j ≠ k →
      (s.slot j).is_valid = NON_EMPTY → (s.slot j).img_id ≠ m.img_id)
    (horig_ge : m.is_valid = NON_EMPTY → payload_start s ≤ m.offset.orig)
    (horig_eq : m.is_valid = NON_EMPTY → ∀ j, j < s.header.max_files → j ≠ k →
      (s.slot j).is_valid = NON_EMPTY → compare_sha (s.slot j).SHA m.SHA = 0 →
      (s.slot j).offset.orig = m.offset.orig)
    (horigin : m.is_valid = NON_EMPTY →
      ∃ b, m.SHA = lib.SHA256 b ∧ m.size.orig = b.length % 2 ^ 32) :
    Inv lib s' := by
  have hk2 : k < s.metadata.length := by rw [hinv.length_eq]; exact hk
  have hsl := slot_update s s' k m hmd hk2
  have hps : payload_start s' = payload_start s := by unfold payload_start; rw [hh]
  refine ⟨?_, ?_, ?_, ?_, hcount, ?_, ?_, ?_, ?_⟩
  · rw [hmd, List.length_set, hh]; exact hinv.length_eq
  · rw [hh]; exact hinv.max_lt
  · rw [hps]; exact hfile
  · intro j hj
    rw [hsl j]
    by_cases h : j = k
    · rw [if_pos h]; exact htyped
    · rw [if_neg h]; exact hinv.typed j (by omega)
  · intro i j hi hj hij hvi hvj
    rw [hh] at hi hj
    rw [hsl i] at hvi ⊢
    rw [hsl j] at hvj ⊢
    by_cases h1 : i = k
    · have h2 : j ≠ k := fun h => hij (h1.trans h.symm)
      rw [if_pos h1] at hvi ⊢
      rw [if_neg h2] at hvj ⊢
      exact (hids hvi j hj h2 hvj).symm
    · rw [if_neg h1] at hvi ⊢
      by_cases h2 : j = k
      · rw [if_pos h2] at hvj ⊢
        exact hids hvj i hi h1 hvi
      · rw [if_neg h2] at hvj ⊢
        exact hinv.ids i j hi hj hij hvi hvj
  · intro j hj hv
    rw [hh] at hj
    rw [hps]
    rw [hsl j] at hv ⊢
    by_cases h : j = k
    · rw [if_pos h] at hv ⊢; exact horig_ge hv
    · rw [if_neg h] at hv ⊢; exact hinv.orig_ge j hj hv
  · intro i j hi hj hvi hvj hc
    rw [hh] at hi hj
    rw [hsl i] at hvi hc ⊢
    rw [hsl j] at hvj hc ⊢
    by_cases h1 : i = k
    · rw [if_pos h1] at hvi hc ⊢
      by_cases h2 : j = k
      · rw [if_pos h2]
      · rw [if_neg h2] at hvj hc ⊢
        exact (horig_eq hvi j hj h2 hvj (compare_sha_symm _ _ hc)).symm
    · rw [if_neg h1] at hvi hc ⊢
      by_cases h2 : j = k
      · rw [if_pos h2] at hvj hc ⊢
        exact horig_eq hvj i hi h1 hvi hc
      · rw [if_neg h2] at hvj hc ⊢
        exact hinv.orig_eq i j hi hj hvi hvj hc
  · intro j hj hv
    rw [hh] at hj
    rw [hsl j] at hv ⊢
    by_cases h : j = k
    · rw [if_pos h] at hv ⊢; exact horigin hv
    · rw [if_neg h] at hv ⊢; exact hinv.origin j hj hv

theorem length_committed_file (s : imgst_file) (file0 : List Nat) (e : Nat) (m : img_metadata)
    (he : e < s.header.max_files) (hf : payload_start s ≤ file0.length) :
    (committed s file0 e m).file.length = file0.length := by
  simp only [committed, length_fwrite_at, length_header_bytes, length_metadata_bytes]
  simp only [payload_start, sizeof_header, sizeof_metadata] at hf ⊢
  omega

theorem length_deleted_file (s : imgst_file) (k : Nat)
    (hk : k < s.header.max_files) (hf : payload_start s ≤ s.file.length) :
    (deleted s k).file.length = s.file.length := by
  simp only [deleted, length_fwrite_at, length_header_bytes, length_metadata_bytes]
  simp only [payload_start, sizeof_header, sizeof_metadata] at hf ⊢
  omega

theorem length_resized_file (s : imgst_file) (code k : Nat) (nb : List Nat)
    (hk : k < s.header.max_files) (hf : payload_start s ≤ s.file.length) :
    (resized s code k nb).file.length = s.file.length + nb.length := by
  simp only [resized, length_fwrite_at, length_metadata_bytes, List.length_append]
  simp only [payload_start, sizeof_header, sizeof_metadata] at hf ⊢
  omega

theorem payload_start_pos (s : imgst_file) : 0 < payload_start s := by
  simp [payload_start, sizeof_header]

theorem slot_replicate (n j : Nat) :
    (List.replicate n zero_metadata).getD j default = zero_metadata := by
  rw [List.getD_eq_getElem?_getD]
  by_cases h : j < n
  · simp [List.getElem?_replicate, h]
  · simp [List.getElem?_replicate, h]
    rfl

theorem count_valid_replicate (n : Nat) : count_valid (List.replicate n zero_metadata) = 0 := by
  unfold count_valid
  rw [List.countP_eq_zero]
  intro a ha
  rw [List.eq_of_mem_replicate ha]
  decide

theorem length_flatten_metadata (md : List img_metadata) :
    (md.map metadata_bytes).flatten.length = md.length * sizeof_metadata := by
  induction md with
  | nil => simp
  | cons x xs ih =>
    simp only [List.map_cons, List.flatten_cons, List.length_append, ih,
      length_metadata_bytes, List.length_cons]
    ring

theorem Inv_create (lib : img_lib) (max_files : Nat) (res_resized : List Nat)
    (h : max_files < 2 ^ 32) :
    Inv lib (do_create (new_imgst_file max_files res_resized)).2 := by
  have hsl : ∀ j, (do_create (new_imgst_file max_files res_resized)).2.slot j
      = zero_metadata := fun j => slot_replicate max_files j
  have hnv : ∀ j, ((do_create (new_imgst_file max_files res_resized)).2.slot j).is_valid
      ≠ NON_EMPTY := by
    intro j
    rw [hsl j]
    decide
  refine ⟨?_, h, ?_, ?_, ?_, ?_, ?_, ?_, ?_⟩
  · simp [do_create, new_imgst_file]
  · simp only [do_create, new_imgst_file, payload_start, List.length_append,
      length_header_bytes, length_flatten_metadata, List.length_replicate]
    exact le_refl _
  · intro j _
    left
    rw [hsl j]
    rfl
  · simp only [do_create, new_imgst_file]
    exact (count_valid_replicate max_files).symm
  · intro i j _ _ _ hvi
    exact absurd hvi (hnv i)
  · intro j _ hv
    exact absurd hv (hnv j)
  · intro i j _ _ hvi
    exact absurd hvi (hnv i)
  · intro j _ hv
    exact absurd hv (hnv j)

theorem Inv_empty_slot (lib : img_lib) (s : imgst_file) (hinv : Inv lib s)
    (hfull : s.header.num_files < s.header.max_files) :
    ∃ j, j < s.header.max_files ∧ (s.slot j).is_valid = EMPTY := by
  have h1 : count_valid s.metadata < s.metadata.length := by
    rw [← hinv.count, hinv.length_eq]
    exact hfull
  obtain ⟨j, hj, hnv⟩ := exists_not_valid s.metadata h1
  rw [hinv.length_eq] at hj
  rcases hinv.typed j hj with h | h
  · exact ⟨j, hj, h⟩
  · exact absurd h hnv

theorem Inv_insert (lib : img_lib) (s : imgst_file) (b id : List Nat) (hinv : Inv lib s)
    (h : (do_insert lib b id s).1 = ERR_NONE) : Inv lib (do_insert lib b id s).2 := by
  obtain ⟨hid1, hid2, hfull⟩ := do_insert_checks lib b id s h
  obtain ⟨e, m, file0, he, hee, _, hst, hno, hmid, hmsha, hmv, hmsz, hcase⟩ :=
    do_insert_ok lib b id s hinv.length_eq hinv.max_lt (Inv_empty_slot lib s hinv hfull) h
  have he2 : e < s.metadata.length := by rw [hinv.length_eq]; exact he
  have hf0 : payload_start s ≤ file0.length := by
    rcases hcase with ⟨_, _, _, _, _, hf, _⟩ | ⟨hf, _⟩
    · rw [hf]; exact hinv.file_ge
    · rw [hf, List.length_append]
      have := hinv.file_ge
      omega
  rw [hst]
  apply Inv_update lib s (committed s file0 e m) e m hinv he rfl rfl
  · rw [length_committed_file s file0 e m he hf0]; exact hf0
  · right; exact hmv
  · have hc := count_valid_set s.metadata e m he2
    have hee2 : (s.metadata.getD e default).is_valid = EMPTY := hee
    rw [hee2, hmv, if_neg (by decide : ¬ EMPTY = NON_EMPTY), if_pos rfl, add_zero] at hc
    simp only [committed]
    rw [hc, ← hinv.count]
    have := hinv.max_lt
    exact Nat.mod_eq_of_lt (by omega)
  · intro _ j hj _ hv hc
    exact hno j hj ⟨hv, hc.trans hmid⟩
  · intro _
    rcases hcase with ⟨k, hk, hks, _, _, _, hoff, _⟩ | ⟨_, _, hoff, _⟩
    · rw [hoff]; exact hinv.orig_ge k hk hks.1
    · rw [hoff]; exact hinv.file_ge
  · intro _ j hj _ hv hc
    rw [hmsha] at hc
    rcases hcase with ⟨k, hk, hks, _, _, _, hoff, _⟩ | ⟨_, _, _, _, _, hnone⟩
    · rw [hoff]
      exact hinv.orig_eq j k hj hk hv hks.1
        (compare_sha_trans _ _ _ hc (compare_sha_symm _ _ hks.2))
    · rcases hnone with hn | ⟨k, hk, hks, _, hzero⟩
      · exact absurd ⟨hv, hc⟩ (hn j hj)
      · have := hinv.orig_ge k hk hks.1
        have := payload_start_pos s
        omega
  · intro _
    exact ⟨b, hmsha, hmsz⟩

theorem Inv_delete (lib : img_lib) (s : imgst_file) (id : List Nat) (hinv : Inv lib s)
    (h : (do_delete id s).1 = ERR_NONE) : Inv lib (do_delete id s).2 := by
  obtain ⟨hid1, hid2, k, hf⟩ := do_delete_checks id s h
  obtain ⟨hk, hv, _⟩ := find_img_id_ok s id k hf
  have hk2 : k < s.metadata.length := by rw [hinv.length_eq]; exact hk
  rw [do_delete_eq id s k hid1 hid2 hinv.length_eq hf]
  apply Inv_update lib s (deleted s k) k { s.slot k with is_valid := EMPTY } hinv hk rfl rfl
  · rw [length_deleted_file s k hk hinv.file_ge]; exact hinv.file_ge
  · left; rfl
  · have hc := count_valid_set s.metadata k { s.slot k with is_valid := EMPTY } hk2
    have hv2 : (s.metadata.getD k default).is_valid = NON_EMPTY := hv.1
    rw [hv2, if_pos rfl] at hc
    have hc2 : ({ s.slot k with is_valid := EMPTY } : img_metadata).is_valid ≠ NON_EMPTY :=
      (show EMPTY ≠ NON_EMPTY by decide)
    rw [if_neg hc2, add_zero] at hc
    have hpos := count_valid_pos s.metadata k hk2 hv2
    have hle := count_valid_le s.metadata
    have hmax := hinv.max_lt
    have hlen := hinv.length_eq
    have hcnt := hinv.count
    simp only [deleted]
    have h1 : s.header.num_files + 2 ^ 32 - 1 = (s.header.num_files - 1) + 2 ^ 32 := by omega
    rw [h1, Nat.add_mod_right, Nat.mod_eq_of_lt (by omega)]
    dsimp only at hc ⊢
    omega
  · intro hc; exact absurd hc (show EMPTY ≠ NON_EMPTY by decide)
  · intro hc; exact absurd hc (show EMPTY ≠ NON_EMPTY by decide)
  · intro hc; exact absurd hc (show EMPTY ≠ NON_EMPTY by decide)
  · intro hc; exact absurd hc (show EMPTY ≠ NON_EMPTY by decide)

theorem read_at_store (s : imgst_file) (k code : Nat) : (read_at s k code).store = s := by
  unfold read_at
  split <;> rfl

/-- The store a successful `do_read` leaves: the store itself, or the store with one
variant materialised. -/
theorem do_read_ok_store (lib : img_lib) (id : List Nat) (r : Int) (s : imgst_file)
    (hlen : s.metadata.length = s.header.max_files)
    (h : (do_read lib id r s).err = ERR_NONE) :
    (do_read lib id r s).store = s
    ∨ ∃ k code nb, (code = RES_THUMB ∨ code = RES_SMALL) ∧ r = (code : Int)
        ∧ find_img_id s id = (ERR_NONE, k)
        ∧ (s.slot k).offset.get code = 0 ∧ nb ≠ []
        ∧ lib.jpeg_resize (orig_buffer s k) (s.header.res_resized.getD (code * 2) 0)
            (s.header.res_resized.getD (code * 2 + 1) 0) = some nb
        ∧ do_read lib id r s = read_at (resized s code k nb) k code := by
  obtain ⟨hid1, hid2, hr, k, hf⟩ := do_read_checks lib id r s h
  obtain ⟨code, hcode, rfl⟩ : ∃ code : Nat,
      (code = RES_THUMB ∨ code = RES_SMALL ∨ code = RES_ORIG) ∧ r = (code : Int) := by
    rcases hr with h1 | h1 | h1
    · exact ⟨RES_THUMB, Or.inl rfl, h1⟩
    · exact ⟨RES_SMALL, Or.inr (Or.inl rfl), h1⟩
    · exact ⟨RES_ORIG, Or.inr (Or.inr rfl), h1⟩
  by_cases ho : (s.slot k).offset.get code ≠ 0 ∨ code = RES_ORIG
  · left
    rw [do_read_present lib id code s k hid1 hid2 hcode hf ho, read_at_store]
  · push_neg at ho
    have hcode2 : code = RES_THUMB ∨ code = RES_SMALL := by
      rcases hcode with h1 | h1 | h1
      · exact Or.inl h1
      · exact Or.inr h1
      · exact absurd h1 ho.2
    have heq := do_read_absent lib id code s k hid1 hid2 hcode2 hlen hf ho.1
    cases hj : lib.jpeg_resize (orig_buffer s k) (s.header.res_resized.getD (code * 2) 0)
        (s.header.res_resized.getD (code * 2 + 1) 0) with
    | none =>
      rw [hj] at heq
      rw [heq] at h
      exact absurd h (show ERR_IMGLIB ≠ ERR_NONE by decide)
    | some nb =>
      rw [hj] at heq
      by_cases hb : nb = []
      · simp only [hb, if_true] at heq
        rw [heq] at h
        exact absurd h (show ERR_IO ≠ ERR_NONE by decide)
      · right
        simp only [hb, if_false] at heq
        exact ⟨k, code, nb, hcode2, rfl, hf, ho.1, hb, hj, heq⟩

theorem res_array_set_orig (a : res_array) (code v : Nat)
    (hcode : code = RES_THUMB ∨ code = RES_SMALL) : (a.set code v).orig = a.orig := by
  rcases hcode with h | h <;> subst h <;> rfl

theorem Inv_resized (lib : img_lib) (s : imgst_file) (code k : Nat) (nb : List Nat)
    (hinv : Inv lib s) (hcode : code = RES_THUMB ∨ code = RES_SMALL)
    (hk : k < s.header.max_files) (hv : (s.slot k).is_valid = NON_EMPTY) :
    Inv lib (resized s code k nb) := by
  have hk2 : k < s.metadata.length := by rw [hinv.length_eq]; exact hk
  apply Inv_update lib s (resized s code k nb) k _ hinv hk rfl rfl
  · rw [length_resized_file s code k nb hk hinv.file_ge]
    have := hinv.file_ge
    omega
  · right; exact hv
  · have hc := count_valid_set s.metadata k
      { s.slot k with size := (s.slot k).size.set code (nb.length % 2 ^ 32),
                      offset := (s.slot k).offset.set code s.file.length } hk2
    have hv2 : (s.metadata.getD k default).is_valid = NON_EMPTY := hv
    rw [hv2, if_pos rfl, if_pos hv] at hc
    have := hinv.count
    simp only [resized]
    dsimp only at hc ⊢
    omega
  · intro _ j hj hjk hvj
    exact hinv.ids j k hj hk hjk hvj hv
  · intro _
    show payload_start s ≤ ((s.slot k).offset.set code s.file.length).orig
    rw [res_array_set_orig _ _ _ hcode]
    exact hinv.orig_ge k hk hv
  · intro _ j hj _ hvj hc
    show (s.slot j).offset.orig = ((s.slot k).offset.set code s.file.length).orig
    rw [res_array_set_orig _ _ _ hcode]
    exact hinv.orig_eq j k hj hk hvj hv hc
  · intro _
    obtain ⟨b, hb1, hb2⟩ := hinv.origin k hk hv
    refine ⟨b, hb1, ?_⟩
    show ((s.slot k).size.set code (nb.length % 2 ^ 32)).orig = _
    rw [res_array_set_orig _ _ _ hcode]
    exact hb2

theorem Inv_read (lib : img_lib) (s : imgst_file) (id : List Nat) (r : Int)
    (hinv : Inv lib s) (h : (do_read lib id r s).err = ERR_NONE) :
    Inv lib (do_read lib id r s).store := by
  rcases do_read_ok_store lib id r s hinv.length_eq h with h1 |
    ⟨k, code, nb, hcode, _, hf, _, _, _, heq⟩
  · rw [h1]; exact hinv
  · obtain ⟨hk, hv, _⟩ := find_img_id_ok s id k hf
    rw [heq, read_at_store]
    exact Inv_resized lib s code k nb hinv hcode hk hv.1

theorem reachable_inv (lib : img_lib) (s : imgst_file) (h : Reachable lib s) : Inv lib s := by
  induction h with
  | create max_files res_resized h => exact Inv_create lib max_files res_resized h
  | insert s b id _ h ih => exact Inv_insert lib s b id ih h
  | delete s id _ h ih => exact Inv_delete lib s id ih h
  | read s id r _ h ih => exact Inv_read lib s id r ih h

set_option maxRecDepth 100000

theorem demo_reachable_0 : Reachable demo_lib demo_store_0 :=
  Reachable.create 2 [64, 64, 256, 256] (by norm_num)

theorem demo_reachable_1 : Reachable demo_lib demo_store_1 :=
  Reachable.insert demo_store_0 [7, 8, 9] [97] demo_reachable_0 (by decide)

theorem demo_reachable_2 : Reachable demo_lib demo_store_2 :=
  Reachable.insert demo_store_1 [7, 8, 9] [98] demo_reachable_1 (by decide)

/-- C7 (invariant I1): in every state reachable from a freshly created store by
successful `do_insert`, `do_delete` and `do_read` calls, `header.num_files` equals the
number of metadata slots whose `is_valid` is 1, and hence is at most `max_files`. -/
theorem C7_num_files_counts_valid_slots (lib : img_lib) (s : imgst_file)
    (h : Reachable lib s) :
    s.header.num_files = count_valid s.metadata
      ∧ s.header.num_files ≤ s.header.max_files := by
  have hinv := reachable_inv lib s h
  refine ⟨hinv.count, ?_⟩
  rw [hinv.count, ← hinv.length_eq]
  exact count_valid_le s.metadata

theorem C7_witness :
    Reachable demo_lib demo_store_2
      ∧ demo_store_2.header.num_files = count_valid demo_store_2.metadata
      ∧ demo_store_2.header.num_files ≤ demo_store_2.header.max_files :=
  ⟨demo_reachable_2, C7_num_files_counts_valid_slots demo_lib demo_store_2 demo_reachable_2⟩

/-- C8 (invariant I4): in every state reachable from a freshly created store by
successful `do_insert`, `do_delete` and `do_read` calls, no two distinct slots with
`is_valid = 1` hold the same `img_id`. -/
theorem C8_valid_ids_distinct (lib : img_lib) (s : imgst_file) (h : Reachable lib s) :
    ∀ i j, i < s.header.max_files → j < s.header.max_files → i ≠ j →
      (s.slot i).is_valid = NON_EMPTY → (s.slot j).is_valid = NON_EMPTY →
      (s.slot i).img_id ≠ (s.slot j).img_id :=
  (reachable_inv lib s h).ids

theorem C8_witness :
    Reachable demo_lib demo_store_2
      ∧ (demo_store_2.slot 0).is_valid = NON_EMPTY ∧ (demo_store_2.slot 1).is_valid = NON_EMPTY
      ∧ (demo_store_2.slot 0).img_id ≠ (demo_store_2.slot 1).img_id :=
  ⟨demo_reachable_2, by decide, by decide,
    C8_valid_ids_distinct demo_lib demo_store_2 demo_reachable_2 0 1 (by decide) (by decide)
      (by decide) (by decide) (by decide)⟩

theorem not_holds_id_deleted (s : imgst_file) (id : List Nat) (k : Nat)
    (hlen : s.metadata.length = s.header.max_files) (h4 : I4 s)
    (hk : k < s.header.max_files) (hid : holds_id s id k) :
    ∀ j, j < (deleted s k).header.max_files → ¬ holds_id (deleted s k) id j := by
  intro j hj hc
  have hk2 : k < s.metadata.length := by omega
  have hsl := slot_update s (deleted s k) k { s.slot k with is_valid := EMPTY } rfl hk2 j
  unfold holds_id at hc
  rw [hsl] at hc
  by_cases h : j = k
  · rw [if_pos h] at hc
    exact absurd hc.1 (show EMPTY ≠ NON_EMPTY by decide)
  · rw [if_neg h] at hc
    exact h4 j hj k hk h hc.1 hid.1 (hc.2.trans hid.2.symm)

theorem do_read_not_found (lib : img_lib) (id : List Nat) (r : Int) (s : imgst_file)
    (hid1 : id.length ≤ MAX_IMG_ID) (hid2 : 0 < id.length)
    (hr : r = (RES_THUMB : Nat) ∨ r = (RES_SMALL : Nat) ∨ r = (RES_ORIG : Nat))
    (h : ∀ j, j < s.header.max_files → ¬ holds_id s id j) :
    (do_read lib id r s).err = ERR_FILE_NOT_FOUND := by
  have hc1 : r < (NB_RES : Nat) ∧ r ≥ 0 := by
    simp only [NB_RES, RES_THUMB, RES_SMALL, RES_ORIG] at hr ⊢
    omega
  unfold do_read
  simp only [hid1, hid2, hc1, not_true_eq_false, if_false, gt_iff_lt, and_self,
    find_img_id_not_found s id h]

/-- C5 (delete semantics), amended: for every open store satisfying I1 and I4 and
every id held by a valid slot, a successful `do_delete(id)` decreases `num_files` by
exactly one, increases `imgst_version` by one modulo `2 ^ 32` (by exactly one unless
it was `2 ^ 32 - 1`), leaves the file length unchanged, and afterwards `do_read(id, r)`
fails with `ERR_FILE_NOT_FOUND` for every resolution `r` in THUMB, SMALL, ORIG. -/
theorem C5_delete_semantics (lib : img_lib) (s : imgst_file) (id : List Nat)
    (hopen : s.opened) (h1 : I1 s) (h4 : I4 s)
    (hheld : ∃ k, k < s.header.max_files ∧ holds_id s id k)
    (hdel : (do_delete id s).1 = ERR_NONE) :
    (do_delete id s).2.header.num_files + 1 = s.header.num_files
      ∧ (do_delete id s).2.header.imgst_version = (s.header.imgst_version + 1) % 2 ^ 32
      ∧ (s.header.imgst_version < 2 ^ 32 - 1 →
          (do_delete id s).2.header.imgst_version = s.header.imgst_version + 1)
      ∧ (do_delete id s).2.file.length = s.file.length
      ∧ ∀ r : Int, r = (RES_THUMB : Nat) ∨ r = (RES_SMALL : Nat) ∨ r = (RES_ORIG : Nat) →
          (do_read lib id r (do_delete id s).2).err = ERR_FILE_NOT_FOUND := by
  obtain ⟨hlen, hmax, hfile⟩ := hopen
  obtain ⟨hid1, hid2, k, hf⟩ := do_delete_checks id s hdel
  obtain ⟨hk, hv, _⟩ := find_img_id_ok s id k hf
  have hk2 : k < s.metadata.length := by omega
  rw [do_delete_eq id s k hid1 hid2 hlen hf]
  refine ⟨?_, rfl, ?_, length_deleted_file s k hk hfile, ?_⟩
  · have hpos := count_valid_pos s.metadata k hk2 hv.1
    have hle := count_valid_le s.metadata
    unfold I1 at h1
    simp only [deleted]
    have e1 : s.header.num_files + 2 ^ 32 - 1 = (s.header.num_files - 1) + 2 ^ 32 := by omega
    rw [e1, Nat.add_mod_right, Nat.mod_eq_of_lt (by omega)]
    omega
  · intro hver
    simp only [deleted]
    exact Nat.mod_eq_of_lt (by omega)
  · intro r hr
    exact do_read_not_found lib id r (deleted s k) hid1 hid2 hr
      (not_holds_id_deleted s id k hlen h4 hk hv)

theorem C5_witness :
    (do_delete [97] demo_store_2).2.header.num_files + 1 = demo_store_2.header.num_files
      ∧ (do_delete [97] demo_store_2).2.header.imgst_version = 3
      ∧ (do_delete [97] demo_store_2).2.file.length = demo_store_2.file.length
      ∧ (do_read demo_lib [97] 2 (do_delete [97] demo_store_2).2).err = ERR_FILE_NOT_FOUND := by
  have h := C5_delete_semantics demo_lib demo_store_2 [97]
    ⟨by decide, by decide, by decide⟩
    (by decide) (by decide) ⟨0, by decide, by decide⟩ (by decide)
  exact ⟨h.1, h.2.1, h.2.2.2.1, h.2.2.2.2 2 (Or.inr (Or.inr rfl))⟩

/-- C5, the claim as stated fails: in the store `demo_store_last_version`, which
satisfies I1 and I4 and holds "a" in a valid slot, `do_delete("a")` succeeds and leaves
`imgst_version` at 0, not at one more than `4294967295`. -/
theorem C5_counterexample :
    demo_store_last_version.opened ∧ I1 demo_store_last_version
      ∧ I4 demo_store_last_version
      ∧ holds_id demo_store_last_version [97] 0
      ∧ (do_delete [97] demo_store_last_version).1 = ERR_NONE
      ∧ (do_delete [97] demo_store_last_version).2.header.imgst_version = 0
      ∧ (do_delete [97] demo_store_last_version).2.header.imgst_version
          ≠ demo_store_last_version.header.imgst_version + 1 := by
  decide

theorem exists_empty_slot (s : imgst_file) (hlen : s.metadata.length = s.header.max_files)
    (htyped : slots_typed s) (h1 : I1 s)
    (hfull : s.header.num_files < s.header.max_files) :
    ∃ j, j < s.header.max_files ∧ (s.slot j).is_valid = EMPTY := by
  have hc : count_valid s.metadata < s.metadata.length := by
    rw [← h1, hlen]
    exact hfull
  obtain ⟨j, hj, hnv⟩ := exists_not_valid s.metadata hc
  rw [hlen] at hj
  rcases htyped j hj with h | h
  · exact ⟨j, hj, h⟩
  · exact absurd h hnv

/-- A successful `do_insert` on a store that satisfies I1 keeps the shape of the store
and I1, and leaves the id in a valid slot. -/
theorem do_insert_keeps_I1 (lib : img_lib) (b id : List Nat) (s : imgst_file)
    (hlen : s.metadata.length = s.header.max_files) (hmax : s.header.max_files < 2 ^ 32)
    (htyped : slots_typed s) (h1 : I1 s)
    (h : (do_insert lib b id s).1 = ERR_NONE) :
    (do_insert lib b id s).2.metadata.length = (do_insert lib b id s).2.header.max_files
      ∧ (do_insert lib b id s).2.header.max_files = s.header.max_files
      ∧ slots_typed (do_insert lib b id s).2 ∧ I1 (do_insert lib b id s).2
      ∧ (do_insert lib b id s).2.header.num_files = s.header.num_files + 1
      ∧ ∃ e, e < s.header.max_files ∧ holds_id (do_insert lib b id s).2 id e := by
  obtain ⟨_, _, hfull⟩ := do_insert_checks lib b id s h
  obtain ⟨e, m, file0, he, hee, _, hst, _, hmid, _, hmv, _, _⟩ :=
    do_insert_ok lib b id s hlen hmax (exists_empty_slot s hlen htyped h1 hfull) h
  have he2 : e < s.metadata.length := by omega
  have hsl := slot_update s (committed s file0 e m) e m rfl he2
  have hnum : (committed s file0 e m).header.num_files = s.header.num_files + 1 := by
    simp only [committed]
    exact Nat.mod_eq_of_lt (by omega)
  rw [hst]
  refine ⟨?_, rfl, ?_, ?_, hnum, e, he, ?_⟩
  · simp only [committed, List.length_set]
    exact hlen
  · intro j hj
    rw [hsl j]
    by_cases hje : j = e
    · rw [if_pos hje]; exact Or.inr hmv
    · rw [if_neg hje]; exact htyped j hj
  · have hc := count_valid_set s.metadata e m he2
    have hee2 : (s.metadata.getD e default).is_valid = EMPTY := hee
    rw [hee2, hmv, if_neg (by decide : ¬ EMPTY = NON_EMPTY), if_pos rfl, add_zero] at hc
    unfold I1 at h1 ⊢
    rw [hnum, h1]
    exact hc.symm
  · unfold holds_id
    rw [hsl e, if_pos rfl]
    exact ⟨hmv, hmid⟩

theorem do_insert_full (lib : img_lib) (b id : List Nat) (s : imgst_file)
    (hid1 : id.length ≤ MAX_IMG_ID) (hid2 : 0 < id.length)
    (hfull : ¬ s.header.num_files < s.header.max_files) :
    (do_insert lib b id s).1 = ERR_FULL_IMGSTORE := by
  unfold do_insert
  simp only [hid1, hid2, hfull, not_true_eq_false, not_false_eq_true, if_false, if_true,
    gt_iff_lt]

/-- C3 (id uniqueness on insert), amended: for every open store that satisfies I1,
every id and all buffers `b`, `b'`, a `do_insert(b, id)` issued directly after a
successful `do_insert(b', id)` fails, whether or not `b` equals `b'`: with
`ERR_DUPLICATE_ID` when the first insert left a free slot, and with
`ERR_FULL_IMGSTORE` when it filled the last one. -/
theorem C3_second_insert_of_same_id (lib : img_lib) (s : imgst_file) (id b b' : List Nat)
    (hopen : s.opened) (htyped : slots_typed s) (h1 : I1 s)
    (hfirst : (do_insert lib b' id s).1 = ERR_NONE) :
    ((do_insert lib b' id s).2.header.num_files < (do_insert lib b' id s).2.header.max_files →
        (do_insert lib b id (do_insert lib b' id s).2).1 = ERR_DUPLICATE_ID)
    ∧ (¬ (do_insert lib b' id s).2.header.num_files
          < (do_insert lib b' id s).2.header.max_files →
        (do_insert lib b id (do_insert lib b' id s).2).1 = ERR_FULL_IMGSTORE) := by
  obtain ⟨hlen, hmax, _⟩ := hopen
  obtain ⟨hid1, hid2, _⟩ := do_insert_checks lib b' id s hfirst
  obtain ⟨hlen1, hmax1, htyped1, hI1, _, e, he, hheld⟩ :=
    do_insert_keeps_I1 lib b' id s hlen hmax htyped h1 hfirst
  constructor
  · intro hfull
    obtain ⟨e', he', hee', hfirst'⟩ :=
      exists_least (fun j => ((do_insert lib b' id s).2.slot j).is_valid = EMPTY) _
        (exists_empty_slot _ hlen1 htyped1 hI1 hfull)
    exact do_insert_dup lib b id _ hlen1 (by rw [hmax1]; exact hmax) hid1 hid2 hfull e' he'
      hee' hfirst' ⟨e, by rw [hmax1]; exact he, hheld⟩
  · intro hfull
    exact do_insert_full lib b id _ hid1 hid2 hfull

theorem C3_witness :
    (do_insert demo_lib [1, 2] [97] demo_store_1).1 = ERR_DUPLICATE_ID := by
  have h := C3_second_insert_of_same_id demo_lib demo_store_0 [97] [1, 2] [7, 8, 9]
    (by decide) (by decide) (by decide) (by decide)
  exact h.1 (by decide)

/-- C3, the claim as stated fails: in a fresh store of capacity 1 the insert of "a"
succeeds and fills the store, and the next insert under "a" fails with
`ERR_FULL_IMGSTORE`, not `ERR_DUPLICATE_ID`. -/
theorem C3_counterexample :
    (do_insert demo_lib [7, 8, 9] [97]
        (do_create (new_imgst_file 1 [64, 64, 256, 256])).2).1 = ERR_NONE
      ∧ (do_insert demo_lib [7, 8, 9] [97]
          (do_insert demo_lib [7, 8, 9] [97]
            (do_create (new_imgst_file 1 [64, 64, 256, 256])).2).2).1 = ERR_FULL_IMGSTORE
      ∧ (do_insert demo_lib [7, 8, 9] [97]
          (do_insert demo_lib [7, 8, 9] [97]
            (do_create (new_imgst_file 1 [64, 64, 256, 256])).2).2).1 ≠ ERR_DUPLICATE_ID := by
  decide

theorem insert_finish_succeeds (lib : img_lib) (b : List Nat) (s : imgst_file) (e : Nat)
    (m1 : img_metadata) (hb : b ≠ []) (hacc : get_resolution lib b ≠ none) :
    (insert_finish lib b s e m1).1 = ERR_NONE := by
  unfold insert_finish
  cases hg : get_resolution lib b with
  | none => exact absurd hg hacc
  | some p =>
    obtain ⟨h, w⟩ := p
    by_cases ho : m1.offset.orig = 0
    · simp only [ho, hb, if_true, if_false]
    · simp only [ho, if_false]

theorem do_insert_succeeds (lib : img_lib) (b id : List Nat) (s : imgst_file)
    (hlen : s.metadata.length = s.header.max_files) (hmax : s.header.max_files < 2 ^ 32)
    (hid1 : id.length ≤ MAX_IMG_ID) (hid2 : 0 < id.length)
    (hfull : s.header.num_files < s.header.max_files)
    (hempty : ∃ j, j < s.header.max_files ∧ (s.slot j).is_valid = EMPTY)
    (hno : ∀ j, j < s.header.max_files → ¬ holds_id s id j)
    (hb : b ≠ []) (hacc : get_resolution lib b ≠ none) :
    (do_insert lib b id s).1 = ERR_NONE := by
  obtain ⟨e, he, hee, hfirst⟩ := exists_least (fun j => (s.slot j).is_valid = EMPTY) _ hempty
  rcases do_insert_nodup lib b id s hlen hmax hid1 hid2 hfull e he hee hfirst hno with
    ⟨_, _, _, _, heq⟩ | ⟨_, heq⟩
  · rw [heq]; exact insert_finish_succeeds lib b s e _ hb hacc
  · rw [heq]; exact insert_finish_succeeds lib b s e _ hb hacc

theorem get_resolution_nil (lib : img_lib) (h : lib.jpeg_load [] = none) :
    get_resolution lib [] = none := by
  unfold get_resolution
  rw [h]

/-- The ids of the valid slots after a successful `do_insert`: the new id, or the id
of a slot that was valid before. -/
theorem holds_id_after_insert (lib : img_lib) (b id : List Nat) (s : imgst_file)
    (hinv : Inv lib s) (h : (do_insert lib b id s).1 = ERR_NONE) (j : Nat)
    (hv : ((do_insert lib b id s).2.slot j).is_valid = NON_EMPTY) :
    ((do_insert lib b id s).2.slot j).img_id = id
      ∨ ((s.slot j).is_valid = NON_EMPTY
          ∧ ((do_insert lib b id s).2.slot j).img_id = (s.slot j).img_id) := by
  obtain ⟨_, _, hfull⟩ := do_insert_checks lib b id s h
  obtain ⟨e, m, file0, he, _, _, hst, _, hmid, _, _, _, _⟩ :=
    do_insert_ok lib b id s hinv.length_eq hinv.max_lt (Inv_empty_slot lib s hinv hfull) h
  have he2 : e < s.metadata.length := by rw [hinv.length_eq]; exact he
  have hsl := slot_update s (committed s file0 e m) e m rfl he2 j
  rw [hst] at hv ⊢
  rw [hsl] at hv ⊢
  by_cases hje : j = e
  · rw [if_pos hje]; exact Or.inl hmid
  · rw [if_neg hje] at hv ⊢; exact Or.inr ⟨hv, rfl⟩

theorem insert_all_capacity (lib : img_lib) (hcodec : lib.jpeg_load [] = none) :
    ∀ (n : Nat) (ops : List (List Nat × List Nat)) (s : imgst_file),
      Inv lib s → s.header.num_files + n = s.header.max_files → ops.length = n + 1 →
      (∀ p ∈ ops, 0 < p.2.length ∧ p.2.length ≤ MAX_IMG_ID ∧ get_resolution lib p.1 ≠ none) →
      (ops.map Prod.snd).Nodup →
      (∀ j, j < s.header.max_files → (s.slot j).is_valid = NON_EMPTY →
        (s.slot j).img_id ∉ ops.map Prod.snd) →
      (insert_all lib ops s).1 = List.replicate n ERR_NONE ++ [ERR_FULL_IMGSTORE] := by
  intro n
  induction n with
  | zero =>
    intro ops s _ hnum hlen hops _ _
    match ops, hlen with
    | [p], _ =>
      obtain ⟨h1, h2, _⟩ := hops p (List.mem_singleton.2 rfl)
      simp only [insert_all, List.replicate_zero, List.nil_append, List.cons.injEq, and_true]
      exact do_insert_full lib p.1 p.2 s h2 h1 (by omega)
  | succ n ih =>
    intro ops s hinv hnum hlen hops hnd hdis
    match ops, hlen with
    | p :: rest, hlen =>
      obtain ⟨h1, h2, hacc⟩ := hops p (List.mem_cons_self _ _)
      have hfull : s.header.num_files < s.header.max_files := by omega
      have hb : p.1 ≠ [] := fun hc => hacc (by rw [hc]; exact get_resolution_nil lib hcodec)
      have hno : ∀ j, j < s.header.max_files → ¬ holds_id s p.2 j := by
        intro j hj hc
        exact hdis j hj hc.1 (by rw [hc.2]; simp)
      have hsucc := do_insert_succeeds lib p.1 p.2 s hinv.length_eq hinv.max_lt h2 h1 hfull
        (Inv_empty_slot lib s hinv hfull) hno hb hacc
      have hinv' := Inv_insert lib s p.1 p.2 hinv hsucc
      obtain ⟨_, hmax', _, _, hnum', _⟩ := do_insert_keeps_I1 lib p.1 p.2 s hinv.length_eq
        hinv.max_lt hinv.typed hinv.count hsucc
      have hnd' : (rest.map Prod.snd).Nodup := (List.nodup_cons.1 hnd).2
      have hnin : p.2 ∉ rest.map Prod.snd := (List.nodup_cons.1 hnd).1
      have hrec := ih rest (do_insert lib p.1 p.2 s).2 hinv' (by rw [hnum', hmax']; omega)
        (by simpa using hlen) (fun q hq => hops q (List.mem_cons_of_mem _ hq)) hnd' (by
          intro j hj hv
          rw [hmax'] at hj
          rcases holds_id_after_insert lib p.1 p.2 s hinv hsucc j hv with h | ⟨hv0, h⟩
          · rw [h]; exact hnin
          · rw [h]
            intro hc
            exact hdis j hj hv0 (List.mem_cons_of_mem _ hc))
      simp only [insert_all, hsucc, hrec, List.replicate_succ, List.cons_append]

/-- C4 (capacity): starting from a freshly created store with capacity `max_files`, the
first `max_files` calls to `do_insert` with pairwise distinct valid ids and buffers the
codec accepts all succeed, and the `(max_files + 1)`-th `do_insert` fails with
`ERR_FULL_IMGSTORE`.  The codec is one that does not load an empty buffer. -/
theorem C4_capacity (lib : img_lib) (max_files : Nat) (res_resized : List Nat)
    (ops : List (List Nat × List Nat))
    (hcodec : lib.jpeg_load [] = none)
    (hmax : max_files < 2 ^ 32) (hlen : ops.length = max_files + 1)
    (hids : ∀ p ∈ ops, 0 < p.2.length ∧ p.2.length ≤ MAX_IMG_ID)
    (hdistinct : (ops.map Prod.snd).Nodup)
    (haccepted : ∀ p ∈ ops, get_resolution lib p.1 ≠ none) :
    (insert_all lib ops (do_create (new_imgst_file max_files res_resized)).2).1
      = List.replicate max_files ERR_NONE ++ [ERR_FULL_IMGSTORE] := by
  have hinv := Inv_create lib max_files res_resized hmax
  apply insert_all_capacity lib hcodec max_files ops _ hinv
  · simp [do_create, new_imgst_file]
  · exact hlen
  · exact fun p hp => ⟨(hids p hp).1, (hids p hp).2, haccepted p hp⟩
  · exact hdistinct
  · intro j _ hv
    have : ((do_create (new_imgst_file max_files res_resized)).2.slot j) = zero_metadata :=
      slot_replicate max_files j
    rw [this] at hv
    exact absurd hv (by decide)

theorem C4_witness :
    (insert_all demo_lib [([7, 8, 9], [97]), ([7, 8, 9], [98]), ([1], [99])]
        (do_create (new_imgst_file 2 [64, 64, 256, 256])).2).1
      = [ERR_NONE, ERR_NONE, ERR_FULL_IMGSTORE] :=
  C4_capacity demo_lib 2 [64, 64, 256, 256] [([7, 8, 9], [97]), ([7, 8, 9], [98]), ([1], [99])]
    (by decide) (by decide) (by decide) (by decide) (by decide) (by decide)

theorem find_empty_frame (lib : img_lib) (b id : List Nat) (s : imgst_file) :
    (find_empty_and_update_metadata lib b id s).2.file = s.file
      ∧ (find_empty_and_update_metadata lib b id s).2.header = s.header :=
  ⟨rfl, rfl⟩

theorem dedup_frame (s : imgst_file) (index : Nat) :
    (do_name_and_content_dedup s index).2.file = s.file
      ∧ (do_name_and_content_dedup s index).2.header = s.header
      ∧ ((do_name_and_content_dedup s index).1 = ERR_NONE → index < s.header.max_files) := by
  unfold do_name_and_content_dedup
  by_cases h : index < s.header.max_files
  · simp only [h, not_true_eq_false, if_false, implies_true, and_true]
    split
    · split <;> exact ⟨rfl, rfl⟩
    · exact ⟨rfl, rfl⟩
  · simp only [h, not_false_eq_true, if_true, true_and]
    intro hc
    exact absurd hc (by decide)

/-- The file after any call of `do_insert`. -/
theorem do_insert_file (lib : img_lib) (b id : List Nat) (s : imgst_file) :
    (do_insert lib b id s).2.file = s.file ∨ (do_insert lib b id s).2.file = s.file ++ b
    ∨ ∃ idx hb mb f0, idx < s.header.max_files ∧ hb.length = sizeof_header
        ∧ mb.length = sizeof_metadata ∧ (f0 = s.file ∨ f0 = s.file ++ b)
        ∧ (do_insert lib b id s).2.file
            = fwrite_at (fwrite_at f0 0 hb) (sizeof_header + idx * sizeof_metadata) mb := by
  unfold do_insert
  by_cases h1 : id.length ≤ MAX_IMG_ID
  · by_cases h2 : id.length > 0
    · by_cases h3 : s.header.num_files < s.header.max_files
      · simp only [h1, h2, h3, not_true_eq_false, if_false]
        generalize hidx : (find_empty_and_update_metadata lib b id s).1 % 2 ^ 32 = idx
        obtain ⟨hf1, hh1⟩ := find_empty_frame lib b id s
        generalize find_empty_and_update_metadata lib b id s = r at hf1 hh1
        obtain ⟨hf2, hh2, hi2⟩ := dedup_frame r.2 idx
        rcases hd : do_name_and_content_dedup r.2 idx with ⟨err, s1⟩
        rw [hd] at hf2 hh2 hi2
        simp only at hf2 hh2 hi2
        by_cases herr : err = ERR_NONE
        · subst herr
          have hlt : idx < s.header.max_files := by
            have := hi2 rfl
            rw [hh1] at this
            exact this
          simp only
          by_cases ho : (s1.slot idx).offset.orig = 0
          · simp only [ho, if_true, write_disk_image]
            by_cases hb : b.length = 0
            · simp only [hb, if_true]
              left
              rw [hf2, hf1]
            · simp only [hb, if_false]
              cases get_resolution lib b with
              | none =>
                right; left
                simp only [imgst_file.set_slot]
                rw [hf2, hf1]
              | some p =>
                obtain ⟨height, width⟩ := p
                right; right
                simp only [update_disk_header, update_disk_metadata, imgst_file.set_slot]
                rw [hf2, hf1]
                exact ⟨idx, _, _, _, hlt, length_header_bytes _, length_metadata_bytes _,
                  Or.inr rfl, rfl⟩
          · simp only [ho, if_false]
            cases get_resolution lib b with
            | none =>
              left
              simp only
              rw [hf2, hf1]
            | some p =>
              obtain ⟨height, width⟩ := p
              right; right
              simp only [update_disk_header, update_disk_metadata, imgst_file.set_slot]
              rw [hf2, hf1]
              exact ⟨idx, _, _, _, hlt, length_header_bytes _, length_metadata_bytes _,
                Or.inl rfl, rfl⟩
        · left
          split
          · rename_i heq
            simp only [Prod.mk.injEq] at heq
            exact absurd heq.1 herr
          · rename_i heq
            simp only [Prod.mk.injEq] at heq
            rw [← heq.2, hf2, hf1]
      · left; simp only [h1, h2, h3, not_true_eq_false, not_false_eq_true, if_false, if_true]
    · left; simp only [h1, h2, not_true_eq_false, not_false_eq_true, if_false, if_true]
  · left; simp only [h1, not_false_eq_true, if_true]

theorem getElem?_fwrite_at (f : List Nat) (pos : Nat) (d : List Nat) (k : Nat)
    (hk : pos + d.length ≤ k) : (fwrite_at f pos d)[k]? = f[k]? := by
  have h := drop_fwrite_at f pos d k hk
  have h1 : (fwrite_at f pos d)[k]? = ((fwrite_at f pos d).drop k)[0]? := by
    rw [List.getElem?_drop]; rfl
  have h2 : f[k]? = (f.drop k)[0]? := by
    rw [List.getElem?_drop]; rfl
  rw [h1, h2, h]

/-- The file after any call of `do_read`. -/
theorem do_read_file (lib : img_lib) (id : List Nat) (r : Int) (s : imgst_file)
    (hlen : s.metadata.length = s.header.max_files) :
    (do_read lib id r s).store.file = s.file
    ∨ ∃ k nb mb, k < s.header.max_files ∧ mb.length = sizeof_metadata
        ∧ (do_read lib id r s).store.file
            = fwrite_at (s.file ++ nb) (sizeof_header + k * sizeof_metadata) mb := by
  by_cases h1 : id.length ≤ MAX_IMG_ID
  · by_cases h2 : 0 < id.length
    · by_cases h3 : r < (NB_RES : Nat) ∧ r ≥ 0
      · rcases find_img_id_cases s id with ⟨k, hf⟩ | hn
        · obtain ⟨hk, _, _⟩ := find_img_id_ok s id k hf
          obtain ⟨code, hcode, rfl⟩ : ∃ code : Nat,
              (code = RES_THUMB ∨ code = RES_SMALL ∨ code = RES_ORIG) ∧ r = (code : Int) := by
            have : r = 0 ∨ r = 1 ∨ r = 2 := by
              simp only [NB_RES] at h3
              omega
            rcases this with h | h | h
            · exact ⟨RES_THUMB, Or.inl rfl, h⟩
            · exact ⟨RES_SMALL, Or.inr (Or.inl rfl), h⟩
            · exact ⟨RES_ORIG, Or.inr (Or.inr rfl), h⟩
          by_cases ho : (s.slot k).offset.get code ≠ 0 ∨ code = RES_ORIG
          · left
            rw [do_read_present lib id code s k h1 h2 hcode hf ho, read_at_store]
          · push_neg at ho
            have hcode2 : code = RES_THUMB ∨ code = RES_SMALL := by
              rcases hcode with hc | hc | hc
              · exact Or.inl hc
              · exact Or.inr hc
              · exact absurd hc ho.2
            rw [do_read_absent lib id code s k h1 h2 hcode2 hlen hf ho.1]
            cases lib.jpeg_resize (orig_buffer s k) (s.header.res_resized.getD (code * 2) 0)
                (s.header.res_resized.getD (code * 2 + 1) 0) with
            | none => left; rfl
            | some nb =>
              by_cases hb : nb = []
              · left
                simp only [hb, if_true]
                rfl
              · right
                simp only [hb, if_false, read_at_store]
                exact ⟨k, nb, _, hk, length_metadata_bytes _, rfl⟩
        · left
          unfold do_read
          simp only [h1, h2, h3, not_true_eq_false, if_false, gt_iff_lt, and_self, hn]
      · left
        unfold do_read
        simp only [h1, h2, h3, not_true_eq_false, not_false_eq_true, if_false, if_true,
          gt_iff_lt]
    · left
      unfold do_read
      simp only [h1, h2, not_true_eq_false, not_false_eq_true, if_false, if_true, gt_iff_lt]
  · left
    unfold do_read
    simp only [h1, not_false_eq_true, if_true]

/-- The file after any call of `do_delete`. -/
theorem do_delete_file (id : List Nat) (s : imgst_file)
    (hlen : s.metadata.length = s.header.max_files) :
    (do_delete id s).2.file = s.file
    ∨ ∃ k hb mb, k < s.header.max_files ∧ hb.length = sizeof_header
        ∧ mb.length = sizeof_metadata
        ∧ (do_delete id s).2.file
            = fwrite_at (fwrite_at s.file (sizeof_header + k * sizeof_metadata) mb) 0 hb := by
  by_cases h1 : id.length ≤ MAX_IMG_ID
  · by_cases h2 : 0 < id.length
    · rcases find_img_id_cases s id with ⟨k, hf⟩ | hn
      · obtain ⟨hk, _, _⟩ := find_img_id_ok s id k hf
        right
        rw [do_delete_eq id s k h1 h2 hlen hf]
        exact ⟨k, _, _, hk, length_header_bytes _, length_metadata_bytes _, rfl⟩
      · left
        unfold do_delete
        simp only [h1, h2, not_true_eq_false, if_false, gt_iff_lt, hn]
    · left
      unfold do_delete
      simp only [h1, h2, not_true_eq_false, not_false_eq_true, if_false, if_true, gt_iff_lt]
  · left
    unfold do_delete
    simp only [h1, not_false_eq_true, if_true]

theorem kept_of_eq (s s1 : imgst_file) (h : s1.file = s.file) : payload_kept s s1 := by
  unfold payload_kept
  rw [h]
  exact ⟨le_refl _, fun _ _ _ => rfl⟩

theorem getElem?_append_of_lt (f b : List Nat) (k : Nat) (hk : k < f.length) :
    (f ++ b)[k]? = f[k]? := by
  rw [List.getElem?_append_left hk]

/-- C6 (the payload heap is append-only): for every open store and every call of
`do_insert`, `do_read` (lazy resizing included) or `do_delete`, whatever the call
returns, the file length does not decrease and every byte that was at a file offset at
or beyond `sizeof(header) + max_files * sizeof(slot)` before the call has the same value
at the same offset after the call. -/
theorem C6_payload_append_only (lib : img_lib) (s : imgst_file) (hopen : s.opened) :
    (∀ b id, payload_kept s (do_insert lib b id s).2)
      ∧ (∀ id r, payload_kept s (do_read lib id r s).store)
      ∧ (∀ id, payload_kept s (do_delete id s).2) := by
  obtain ⟨hlen, _, hfile⟩ := hopen
  have hps : payload_start s = sizeof_header + s.header.max_files * sizeof_metadata := rfl
  refine ⟨fun b id => ?_, fun id r => ?_, fun id => ?_⟩
  · rcases do_insert_file lib b id s with h | h | ⟨idx, hb, mb, f0, hidx, hhb, hmb, hf0, h⟩
    · exact kept_of_eq s _ h
    · unfold payload_kept
      rw [h]
      exact ⟨by simp, fun k _ hk => getElem?_append_of_lt _ _ k hk⟩
    · unfold payload_kept
      rw [h]
      have hlen0 : s.file.length ≤ f0.length := by
        rcases hf0 with h0 | h0 <;> simp [h0]
      have hget0 : ∀ k, k < s.file.length → f0[k]? = s.file[k]? := by
        intro k hk
        rcases hf0 with h0 | h0 <;> rw [h0]
        exact getElem?_append_of_lt _ _ k hk
      refine ⟨?_, fun k hk1 hk2 => ?_⟩
      · simp only [length_fwrite_at, hhb, hmb]
        omega
      · rw [getElem?_fwrite_at _ _ _ _ (by
            rw [hmb]; simp only [sizeof_header, sizeof_metadata] at hps ⊢; omega),
          getElem?_fwrite_at _ _ _ _ (by
            rw [hhb]; simp only [sizeof_header, sizeof_metadata] at hps ⊢; omega)]
        exact hget0 k hk2
  · rcases do_read_file lib id r s hlen with h | ⟨k, nb, mb, hk, hmb, h⟩
    · exact kept_of_eq s _ h
    · unfold payload_kept
      rw [h]
      refine ⟨?_, fun j hj1 hj2 => ?_⟩
      · simp only [length_fwrite_at, List.length_append]
        omega
      · rw [getElem?_fwrite_at _ _ _ _ (by
            rw [hmb]; simp only [sizeof_header, sizeof_metadata] at hps ⊢; omega)]
        exact getElem?_append_of_lt _ _ j hj2
  · rcases do_delete_file id s hlen with h | ⟨k, hb, mb, hk, hhb, hmb, h⟩
    · exact kept_of_eq s _ h
    · unfold payload_kept
      rw [h]
      refine ⟨?_, fun j hj1 hj2 => ?_⟩
      · simp only [length_fwrite_at]
        omega
      · rw [getElem?_fwrite_at _ _ _ _ (by
            rw [hhb]; simp only [sizeof_header, sizeof_metadata] at hps ⊢; omega),
          getElem?_fwrite_at _ _ _ _ (by
            rw [hmb]; simp only [sizeof_header, sizeof_metadata] at hps ⊢; omega)]

theorem C6_witness :
    payload_kept demo_store_1 (do_insert demo_lib [1, 2] [98] demo_store_1).2
      ∧ payload_kept demo_store_1 (do_read demo_lib [97] 0 demo_store_1).store
      ∧ payload_kept demo_store_1 (do_delete [97] demo_store_1).2 := by
  have h := C6_payload_append_only demo_lib demo_store_1 (by decide)
  exact ⟨h.1 [1, 2] [98], h.2.1 [97] 0, h.2.2 [97]⟩

theorem I3_insert (lib : img_lib) (s : imgst_file) (b id : List Nat) (hinv : Inv lib s)
    (h3 : I3 s) (h : (do_insert lib b id s).1 = ERR_NONE) : I3 (do_insert lib b id s).2 := by
  obtain ⟨_, _, hfull⟩ := do_insert_checks lib b id s h
  obtain ⟨e, m, file0, he, _, _, hst, _, _, _, _, _, hcase⟩ :=
    do_insert_ok lib b id s hinv.length_eq hinv.max_lt (Inv_empty_slot lib s hinv hfull) h
  have he2 : e < s.metadata.length := by rw [hinv.length_eq]; exact he
  rw [hst]
  intro j hj hv
  have hsl := slot_update s (committed s file0 e m) e m rfl he2 j
  rw [hsl] at hv ⊢
  by_cases hje : j = e
  · rw [if_pos hje]
    rcases hcase with ⟨k, hk, hks, _, _, _, hoff, hst, hss⟩ | ⟨_, _, hoff, hst, hss, _⟩
    · rw [hoff, hst, hss]
      exact h3 k hk hks.1
    · rw [hoff, hst, hss]
      exact ⟨⟨fun _ => rfl, fun _ => rfl⟩, ⟨fun _ => rfl, fun _ => rfl⟩⟩
  · rw [if_neg hje] at hv ⊢
    exact h3 j hj hv

theorem I3_delete (lib : img_lib) (s : imgst_file) (id : List Nat) (hinv : Inv lib s)
    (h3 : I3 s) (h : (do_delete id s).1 = ERR_NONE) : I3 (do_delete id s).2 := by
  obtain ⟨hid1, hid2, k, hf⟩ := do_delete_checks id s h
  obtain ⟨hk, _, _⟩ := find_img_id_ok s id k hf
  have hk2 : k < s.metadata.length := by rw [hinv.length_eq]; exact hk
  rw [do_delete_eq id s k hid1 hid2 hinv.length_eq hf]
  intro j hj hv
  have hsl := slot_update s (deleted s k) k { s.slot k with is_valid := EMPTY } rfl hk2 j
  rw [hsl] at hv ⊢
  by_cases hjk : j = k
  · rw [if_pos hjk] at hv
    exact absurd hv (show EMPTY ≠ NON_EMPTY by decide)
  · rw [if_neg hjk] at hv ⊢
    exact h3 j hj hv

theorem I3_read (lib : img_lib) (s : imgst_file) (id : List Nat) (r : Int)
    (hcodec : ∀ b w h out, lib.jpeg_resize b w h = some out → out.length < 2 ^ 32)
    (hinv : Inv lib s) (h3 : I3 s) (h : (do_read lib id r s).err = ERR_NONE) :
    I3 (do_read lib id r s).store := by
  rcases do_read_ok_store lib id r s hinv.length_eq h with h1 |
    ⟨k, code, nb, hcode, _, hf, _, hnb, hres, heq⟩
  · rw [h1]; exact h3
  · obtain ⟨hk, hvk, _⟩ := find_img_id_ok s id k hf
    have hk2 : k < s.metadata.length := by rw [hinv.length_eq]; exact hk
    rw [heq, read_at_store]
    intro j hj hv
    have hsl := slot_update s (resized s code k nb) k _ rfl hk2 j
    rw [hsl] at hv ⊢
    by_cases hjk : j = k
    · rw [if_pos hjk]
      have hfpos : s.file.length ≠ 0 := by
        have := hinv.file_ge
        have := payload_start_pos s
        omega
      have hnpos : nb.length % 2 ^ 32 ≠ 0 := by
        have := hcodec _ _ _ _ hres
        rw [Nat.mod_eq_of_lt this]
        exact fun hc => hnb (List.length_eq_zero.1 hc)
      have hold := h3 k hk hvk.1
      rcases hcode with hc | hc
      · subst hc
        exact ⟨⟨fun hc => absurd hc hfpos, fun hc => absurd hc hnpos⟩, hold.2⟩
      · subst hc
        exact ⟨hold.1, ⟨fun hc => absurd hc hfpos, fun hc => absurd hc hnpos⟩⟩
    · rw [if_neg hjk] at hv ⊢
      exact h3 j hj hv

theorem reachable_I3 (lib : img_lib)
    (hcodec : ∀ b w h out, lib.jpeg_resize b w h = some out → out.length < 2 ^ 32)
    (s : imgst_file) (h : Reachable lib s) : I3 s := by
  induction h with
  | create max_files res_resized h =>
    intro j _ hv
    have : ((do_create (new_imgst_file max_files res_resized)).2.slot j) = zero_metadata :=
      slot_replicate max_files j
    rw [this] at hv
    exact absurd hv (by decide)
  | insert s b id hs h ih => exact I3_insert lib s b id (reachable_inv lib s hs) ih h
  | delete s id hs h ih => exact I3_delete lib s id (reachable_inv lib s hs) ih h
  | read s id r hs h ih => exact I3_read lib s id r hcodec (reachable_inv lib s hs) ih h

/-- C10 (invariant I3): after every successful `do_insert`, `do_read` or `do_delete`
on a store reachable from a fresh one, every valid slot satisfies, for THUMB and for
SMALL, `offset[v] = 0` if and only if `size[v] = 0`.  The codec is one whose encoded
variants are shorter than `2 ^ 32` bytes, the range of the `uint32_t` size field. -/
theorem C10_absence_jointly_encoded (lib : img_lib)
    (hcodec : ∀ b w h out, lib.jpeg_resize b w h = some out → out.length < 2 ^ 32)
    (s : imgst_file) (hs : Reachable lib s) :
    (∀ b id, (do_insert lib b id s).1 = ERR_NONE → I3 (do_insert lib b id s).2)
      ∧ (∀ id r, (do_read lib id r s).err = ERR_NONE → I3 (do_read lib id r s).store)
      ∧ (∀ id, (do_delete id s).1 = ERR_NONE → I3 (do_delete id s).2) :=
  ⟨fun b id h => reachable_I3 lib hcodec _ (Reachable.insert s b id hs h),
    fun id r h => reachable_I3 lib hcodec _ (Reachable.read s id r hs h),
    fun id h => reachable_I3 lib hcodec _ (Reachable.delete s id hs h)⟩

theorem demo_lib_bounded :
    ∀ b w h out, demo_lib.jpeg_resize b w h = some out → out.length < 2 ^ 32 := by
  intro b w h out hout
  simp only [demo_lib] at hout
  split at hout
  · exact absurd hout (by simp)
  · simp only [Option.some.injEq] at hout
    subst hout
    norm_num

theorem C10_witness :
    I3 (do_insert demo_lib [1, 2] [98] demo_store_1).2
      ∧ I3 (do_read demo_lib [97] 0 demo_store_1).store
      ∧ I3 (do_delete [97] demo_store_1).2 := by
  have h := C10_absence_jointly_encoded demo_lib demo_lib_bounded demo_store_1
    demo_reachable_1
  exact ⟨h.1 [1, 2] [98] (by decide), h.2.1 [97] 0 (by decide), h.2.2 [97] (by decide)⟩

theorem committed_slot (s : imgst_file) (file0 : List Nat) (e : Nat) (m : img_metadata)
    (he : e < s.metadata.length) (j : Nat) :
    (committed s file0 e m).slot j = if j = e then m else s.slot j :=
  slot_update s (committed s file0 e m) e m rfl he j

/-- C2 (content dedup), amended: for every open store whose valid slots have a non-zero
`offset[RES_ORIG]` and which has at least two free slots, after a successful
`do_insert(b, id1)` followed by a successful `do_insert(b, id2)` (which needs
`id1 ≠ id2`), the two slots have equal `offset[RES_ORIG]` and equal `size[RES_ORIG]`, and the second
insert appends nothing; the first insert appends exactly `len(b)` bytes when no valid
slot of the store already had the SHA of `b`, and nothing when one had. -/
theorem C2_content_dedup (lib : img_lib) (s : imgst_file) (b id1 id2 : List Nat)
    (hopen : s.opened)
    (hI2 : ∀ j, j < s.header.max_files → (s.slot j).is_valid = NON_EMPTY →
      (s.slot j).offset.orig ≠ 0)
    (hfree : ∃ i j, i < s.header.max_files ∧ j < s.header.max_files ∧ i ≠ j
      ∧ (s.slot i).is_valid = EMPTY ∧ (s.slot j).is_valid = EMPTY)
    (h1 : (do_insert lib b id1 s).1 = ERR_NONE)
    (h2 : (do_insert lib b id2 (do_insert lib b id1 s).2).1 = ERR_NONE) :
    (∃ e1 e2, e1 < s.header.max_files ∧ e2 < s.header.max_files
        ∧ holds_id (do_insert lib b id2 (do_insert lib b id1 s).2).2 id1 e1
        ∧ holds_id (do_insert lib b id2 (do_insert lib b id1 s).2).2 id2 e2
        ∧ ((do_insert lib b id2 (do_insert lib b id1 s).2).2.slot e1).offset.orig
            = ((do_insert lib b id2 (do_insert lib b id1 s).2).2.slot e2).offset.orig
        ∧ ((do_insert lib b id2 (do_insert lib b id1 s).2).2.slot e1).size.orig
            = ((do_insert lib b id2 (do_insert lib b id1 s).2).2.slot e2).size.orig)
      ∧ (do_insert lib b id2 (do_insert lib b id1 s).2).2.file.length
          = (do_insert lib b id1 s).2.file.length
      ∧ ((∀ k, k < s.header.max_files → ¬ holds_sha s (lib.SHA256 b) k) →
          (do_insert lib b id1 s).2.file.length = s.file.length + b.length)
      ∧ ((∃ k, k < s.header.max_files ∧ holds_sha s (lib.SHA256 b) k) →
          (do_insert lib b id1 s).2.file.length = s.file.length) := by
  obtain ⟨hlen, hmax, hfile⟩ := hopen
  obtain ⟨i, j, hi, hj, hij, hei, hej⟩ := hfree
  have hpos := payload_start_pos s
  -- the first insert
  obtain ⟨e1, m1, f1, he1, hee1, _, hst1, _, hmid1, hmsha1, hmv1, hmsz1, hcase1⟩ :=
    do_insert_ok lib b id1 s hlen hmax ⟨i, hi, hei⟩ h1
  have he1' : e1 < s.metadata.length := by omega
  have hf1 : payload_start s ≤ f1.length := by
    rcases hcase1 with ⟨_, _, _, _, _, hf, _⟩ | ⟨hf, _⟩
    · rw [hf]; exact hfile
    · rw [hf, List.length_append]; omega
  have hlen1 : (committed s f1 e1 m1).file.length = f1.length :=
    length_committed_file s f1 e1 m1 he1 hf1
  have hm1off : m1.offset.orig ≠ 0 := by
    rcases hcase1 with ⟨k, hk, hks, _, hko, _, hoff, _⟩ | ⟨_, _, hoff, _⟩
    · rw [hoff]; exact hko
    · rw [hoff]; show s.file.length ≠ 0; omega
  rw [hst1] at h2 ⊢
  have hsl1 := committed_slot s f1 e1 m1 he1'
  have hsha1 : holds_sha (committed s f1 e1 m1) (lib.SHA256 b) e1 := by
    unfold holds_sha
    rw [hsl1 e1, if_pos rfl, hmsha1]
    exact ⟨hmv1, compare_sha_refl _⟩
  -- the second insert
  have hempty1 : ∃ j, j < (committed s f1 e1 m1).header.max_files
      ∧ ((committed s f1 e1 m1).slot j).is_valid = EMPTY := by
    by_cases hie : i = e1
    · refine ⟨j, hj, ?_⟩
      rw [hsl1 j, if_neg (fun hc => hij (hie.trans hc.symm))]
      exact hej
    · refine ⟨i, hi, ?_⟩
      rw [hsl1 i, if_neg hie]
      exact hei
  obtain ⟨e2, m2, f2, he2, hee2, _, hst2, _, hmid2, _, hmv2, hmsz2, hcase2⟩ :=
    do_insert_ok lib b id2 (committed s f1 e1 m1)
      (by simp only [committed, List.length_set]; exact hlen) hmax hempty1 h2
  have he2m : e2 < s.header.max_files := he2
  have he2' : e2 < (committed s f1 e1 m1).metadata.length := by
    simp only [committed, List.length_set]; omega
  have he12 : e1 ≠ e2 := by
    intro hc
    rw [← hc, hsl1 e1, if_pos rfl, hmv1] at hee2
    exact absurd hee2 (by decide)
  have hsl2 := committed_slot (committed s f1 e1 m1) f2 e2 m2 he2'
  have hold : ∀ k, k < s.header.max_files → k ≠ e1 →
      holds_sha (committed s f1 e1 m1) (lib.SHA256 b) k → holds_sha s (lib.SHA256 b) k := by
    intro k _ hk hc
    unfold holds_sha at hc ⊢
    rw [hsl1 k, if_neg hk] at hc
    exact hc
  -- the second insert shares the payload of the first
  have hshare : f2 = (committed s f1 e1 m1).file ∧ m2.offset.orig = m1.offset.orig := by
    rcases hcase2 with ⟨k, hk, hks, hkfirst, _, hf, hoff, _⟩ | ⟨_, _, _, _, _, hnone⟩
    · refine ⟨hf, ?_⟩
      rw [hoff, hsl1 k]
      by_cases hke : k = e1
      · rw [if_pos hke]
      · rw [if_neg hke]
        have hks0 := hold k hk hke hks
        have hlt : k < e1 := by
          rcases Nat.lt_trichotomy k e1 with h | h | h
          · exact h
          · exact absurd h hke
          · exact absurd hsha1 (hkfirst e1 h)
        rcases hcase1 with ⟨k0, hk0, hks0', hk0first, _, _, hoff1, _⟩ | ⟨_, _, _, _, _, hnone1⟩
        · have hkk : k0 = k := by
            rcases Nat.lt_trichotomy k0 k with h | h | h
            · refine absurd ?_ (hkfirst k0 h)
              unfold holds_sha at hks0' ⊢
              rw [hsl1 k0, if_neg (by omega)]
              exact hks0'
            · exact h
            · exact absurd hks0 (hk0first k h)
          rw [hoff1, hkk]
        · rcases hnone1 with hn | ⟨k0, hk0, hks0', _, hzero⟩
          · exact absurd hks0 (hn k hk)
          · exact absurd hzero (hI2 k0 hk0 hks0'.1)
    · rcases hnone with hn | ⟨k, hk, hks, _, hzero⟩
      · exact absurd hsha1 (hn e1 he1)
      · rw [hsl1 k] at hzero
        by_cases hke : k = e1
        · rw [if_pos hke] at hzero
          exact absurd hzero hm1off
        · rw [if_neg hke] at hzero
          exact absurd hzero (hI2 k hk (hold k hk hke hks).1)
  rw [hst2]
  refine ⟨⟨e1, e2, he1, he2, ?_, ?_, ?_, ?_⟩, ?_, ?_, ?_⟩
  · unfold holds_id
    rw [hsl2 e1, if_neg he12, hsl1 e1, if_pos rfl]
    exact ⟨hmv1, hmid1⟩
  · unfold holds_id
    rw [hsl2 e2, if_pos rfl]
    exact ⟨hmv2, hmid2⟩
  · rw [hsl2 e1, if_neg he12, hsl1 e1, if_pos rfl, hsl2 e2, if_pos rfl]
    exact hshare.2.symm
  · rw [hsl2 e1, if_neg he12, hsl1 e1, if_pos rfl, hsl2 e2, if_pos rfl, hmsz1, hmsz2]
  · rw [length_committed_file (committed s f1 e1 m1) f2 e2 m2 he2 (by
      rw [hshare.1, hlen1]; exact hf1), hshare.1]
  · intro hn
    rw [hlen1]
    rcases hcase1 with ⟨k, hk, hks, _⟩ | ⟨hf, _⟩
    · exact absurd hks (hn k hk)
    · rw [hf, List.length_append]
  · rintro ⟨k, hk, hks⟩
    rw [hlen1]
    rcases hcase1 with ⟨_, _, _, _, _, hf, _⟩ | ⟨_, _, _, _, _, hnone1⟩
    · rw [hf]
    · rcases hnone1 with hn | ⟨k0, hk0, hks0, _, hzero⟩
      · exact absurd hks (hn k hk)
      · exact absurd hzero (hI2 k0 hk0 hks0.1)

theorem C2_witness :
    (do_insert demo_lib [7, 8, 9] [98] demo_store_1).2.file.length
        = demo_store_1.file.length
      ∧ demo_store_1.file.length = demo_store_0.file.length + 3 := by
  have h := C2_content_dedup demo_lib demo_store_0 [7, 8, 9] [97] [98] (by decide)
    (by decide) ⟨0, 1, by decide, by decide, by decide, by decide, by decide⟩
    (by decide) (by decide)
  exact ⟨h.2.1, h.2.2.1 (by decide)⟩

/-- C2, the claim as stated fails: the store `demo_store_3` has two free slots and
already holds the image `[7, 8, 9]`; inserting that image as "b" and then as "c"
succeeds twice, and the two inserts together append nothing, not the 3 bytes of the
image. -/
theorem C2_counterexample :
    (demo_store_3.slot 1).is_valid = EMPTY ∧ (demo_store_3.slot 2).is_valid = EMPTY
      ∧ (do_insert demo_lib [7, 8, 9] [98] demo_store_3).1 = ERR_NONE
      ∧ (do_insert demo_lib [7, 8, 9] [99]
          (do_insert demo_lib [7, 8, 9] [98] demo_store_3).2).1 = ERR_NONE
      ∧ (do_insert demo_lib [7, 8, 9] [99]
          (do_insert demo_lib [7, 8, 9] [98] demo_store_3).2).2.file.length
          = demo_store_3.file.length
      ∧ (do_insert demo_lib [7, 8, 9] [99]
          (do_insert demo_lib [7, 8, 9] [98] demo_store_3).2).2.file.length
          ≠ demo_store_3.file.length + 3 := by
  decide

theorem drop_committed_file (s : imgst_file) (file0 : List Nat) (e : Nat) (m : img_metadata)
    (he : e < s.header.max_files) (k : Nat) (hk : payload_start s ≤ k) :
    (committed s file0 e m).file.drop k = file0.drop k := by
  simp only [committed]
  rw [drop_fwrite_at _ _ _ _ (by
      rw [length_metadata_bytes]
      simp only [payload_start, sizeof_header, sizeof_metadata] at hk ⊢
      omega),
    drop_fwrite_at _ _ _ _ (by
      rw [length_header_bytes]
      simp only [payload_start, sizeof_header, sizeof_metadata] at hk ⊢
      omega)]

theorem take_drop_append (f b : List Nat) (off n : Nat) (h : off + n ≤ f.length) :
    ((f ++ b).drop off).take n = (f.drop off).take n := by
  rw [List.drop_append_of_le_length (by omega),
    List.take_append_of_le_length (by rw [List.length_drop]; omega)]

theorem holds_all_insert (lib : img_lib) (s : imgst_file) (done : List (List Nat × List Nat))
    (p : List Nat × List Nat) (hall : holds_all lib s done)
    (hsha : ∀ q ∈ done, compare_sha (lib.SHA256 q.1) (lib.SHA256 p.1) ≠ 0)
    (hsize : p.1.length < 2 ^ 32)
    (h : (do_insert lib p.1 p.2 s).1 = ERR_NONE) :
    holds_all lib (do_insert lib p.1 p.2 s).2 (done ++ [p]) := by
  have hinv := hall.inv
  have hinv' := Inv_insert lib s p.1 p.2 hinv h
  obtain ⟨hid1, hid2, hfull⟩ := do_insert_checks lib p.1 p.2 s h
  obtain ⟨e, m, file0, he, hee, _, hst, _, hmid, hmsha, hmv, hmsz, hcase⟩ :=
    do_insert_ok lib p.1 p.2 s hinv.length_eq hinv.max_lt (Inv_empty_slot lib s hinv hfull) h
  have he2 : e < s.metadata.length := by rw [hinv.length_eq]; exact he
  have hnomatch : ∀ k, k < s.header.max_files → ¬ holds_sha s (lib.SHA256 p.1) k := by
    intro k hk hc
    obtain ⟨q, hq, _, hqsha, _⟩ := hall.slots k hk hc.1
    have := hc.2
    rw [hqsha] at this
    exact hsha q hq this
  obtain ⟨hf0, hb, hoff⟩ : file0 = s.file ++ p.1 ∧ p.1 ≠ []
      ∧ m.offset = ⟨0, 0, s.file.length⟩ := by
    rcases hcase with ⟨k, hk, hks, _⟩ | ⟨hf, hb, hoff, _⟩
    · exact absurd hks (hnomatch k hk)
    · exact ⟨hf, hb, hoff⟩
  have hfile := hinv.file_ge
  have hlenf : (committed s file0 e m).file.length = s.file.length + p.1.length := by
    rw [length_committed_file s file0 e m he (by rw [hf0, List.length_append]; omega), hf0,
      List.length_append]
  have hsl := committed_slot s file0 e m he2
  have hnew : holds_image (committed s file0 e m) e p.1 := by
    unfold holds_image
    rw [hsl e, if_pos rfl, hmsz, hoff, Nat.mod_eq_of_lt hsize]
    refine ⟨rfl, ?_, ?_⟩
    · rw [hlenf]
    · show (List.drop s.file.length (committed s file0 e m).file).take _ = _
      rw [drop_committed_file s file0 e m he _ hfile, hf0, List.drop_left, List.take_length]
  rw [hst]
  rw [hst] at hinv'
  refine ⟨hinv', ?_, ?_⟩
  · intro j hj hv
    rw [hsl j] at hv ⊢
    by_cases hje : j = e
    · subst hje
      rw [if_pos rfl]
      refine ⟨p, by simp, hmid, hmsha, hb, ?_⟩
      exact hnew
    · rw [if_neg hje] at hv ⊢
      obtain ⟨q, hq, hqid, hqsha, hqb, hq1, hq2, hq3⟩ := hall.slots j hj hv
      refine ⟨q, List.mem_append_left _ hq, hqid, hqsha, hqb, ?_⟩
      unfold holds_image
      rw [hsl j, if_neg hje]
      refine ⟨hq1, by rw [hlenf]; omega, ?_⟩
      rw [drop_committed_file s file0 e m he _ (hinv.orig_ge j hj hv), hf0,
        take_drop_append _ _ _ _ hq2]
      exact hq3
  · intro q hq
    rcases List.mem_append.1 hq with hq | hq
    · obtain ⟨hq1, hq2, j, hj, hjid⟩ := hall.ids q hq
      refine ⟨hq1, hq2, j, hj, ?_⟩
      have hje : j ≠ e := by
        rintro rfl
        rw [hjid.1] at hee
        exact absurd hee (by decide)
      unfold holds_id at hjid ⊢
      rw [hsl j, if_neg hje]
      exact hjid
    · rw [List.mem_singleton.1 hq]
      refine ⟨hid2, hid1, e, he, ?_⟩
      unfold holds_id
      rw [hsl e, if_pos rfl]
      exact ⟨hmv, hmid⟩

theorem holds_all_insert_all (lib : img_lib) :
    ∀ (ops : List (List Nat × List Nat)) (s : imgst_file)
      (done : List (List Nat × List Nat)),
      holds_all lib s done →
      (∀ q ∈ done, ∀ p ∈ ops, compare_sha (lib.SHA256 q.1) (lib.SHA256 p.1) ≠ 0) →
      ops.Pairwise (fun p q => compare_sha (lib.SHA256 p.1) (lib.SHA256 q.1) ≠ 0) →
      (∀ p ∈ ops, p.1.length < 2 ^ 32) →
      (∀ e ∈ (insert_all lib ops s).1, e = ERR_NONE) →
      holds_all lib (insert_all lib ops s).2 (done ++ ops) := by
  intro ops
  induction ops with
  | nil =>
    intro s done hall _ _ _ _
    simpa [insert_all] using hall
  | cons p rest ih =>
    intro s done hall hsha hpw hsize hok
    have hsucc : (do_insert lib p.1 p.2 s).1 = ERR_NONE :=
      hok _ (by simp [insert_all])
    have hstep := holds_all_insert lib s done p hall
      (fun q hq => hsha q hq p (List.mem_cons_self _ _))
      (hsize p (List.mem_cons_self _ _)) hsucc
    have hpw' := List.pairwise_cons.1 hpw
    have := ih (do_insert lib p.1 p.2 s).2 (done ++ [p]) hstep
      (by
        intro q hq r hr
        rcases List.mem_append.1 hq with hq | hq
        · exact hsha q hq r (List.mem_cons_of_mem _ hr)
        · rw [List.mem_singleton.1 hq]
          exact hpw'.1 r hr)
      hpw'.2 (fun r hr => hsize r (List.mem_cons_of_mem _ hr))
      (fun e he => hok e (by simp only [insert_all, List.mem_cons]; exact Or.inr he))
    simpa [insert_all] using this

theorem read_orig_of_holds_all (lib : img_lib) (s : imgst_file)
    (done : List (List Nat × List Nat)) (hall : holds_all lib s done)
    (hids : (done.map Prod.snd).Nodup) (p : List Nat × List Nat) (hp : p ∈ done) :
    (do_read lib p.2 (RES_ORIG : Nat) s).err = ERR_NONE
      ∧ (do_read lib p.2 (RES_ORIG : Nat) s).image_buffer = some p.1
      ∧ (do_read lib p.2 (RES_ORIG : Nat) s).image_size = some p.1.length := by
  have hinv := hall.inv
  obtain ⟨hp1, hp2, hex⟩ := hall.ids p hp
  obtain ⟨k, hk, hkid, hkfirst⟩ := exists_least (fun j => holds_id s p.2 j) _ hex
  have hf := find_img_id_found s p.2 k hinv.length_eq (le_of_eq hinv.count.symm) hk hkid hkfirst
  obtain ⟨q, hq, hqid, _, hqb, hq1, hq2, hq3⟩ := hall.slots k hk hkid.1
  have hqp : q = p := by
    have h2 : q.2 = p.2 := hqid.symm.trans hkid.2
    exact List.inj_on_of_nodup_map hids hq hp h2
  subst hqp
  rw [do_read_present lib q.2 RES_ORIG s k hp2 hp1 (Or.inr (Or.inr rfl)) hf
    (Or.inr rfl)]
  have hne : q.1.length ≠ 0 := fun hc => hqb (List.length_eq_zero.1 hc)
  have hget : (s.slot k).size.get RES_ORIG = q.1.length := hq1
  have hgeto : (s.slot k).offset.get RES_ORIG = (s.slot k).offset.orig := rfl
  unfold read_at
  simp only [read_disk_image, hget, hgeto, hne, ne_eq, not_false_eq_true, hq2, and_self,
    if_true, hq3]

theorem holds_all_create (lib : img_lib) (max_files : Nat) (res_resized : List Nat)
    (hmax : max_files < 2 ^ 32) :
    holds_all lib (do_create (new_imgst_file max_files res_resized)).2 [] := by
  refine ⟨Inv_create lib max_files res_resized hmax, ?_, ?_⟩
  · intro j _ hv
    have : ((do_create (new_imgst_file max_files res_resized)).2.slot j) = zero_metadata :=
      slot_replicate max_files j
    rw [this] at hv
    exact absurd hv (by decide)
  · intro p hp
    exact absurd hp (List.not_mem_nil p)

/-- C1 (round trip), amended: for every freshly created store and every sequence of
successful `do_insert(b_i, id_i)` calls with pairwise distinct ids, pairwise distinct
SHA-256 digests and buffers shorter than `2 ^ 32` bytes, a following
`do_read(id_i, RES_ORIG)` succeeds for every `i` and returns exactly the bytes `b_i`
with size `len(b_i)`. -/
theorem C1_round_trip (lib : img_lib) (max_files : Nat) (res_resized : List Nat)
    (ops : List (List Nat × List Nat)) (hmax : max_files < 2 ^ 32)
    (hok : ∀ e ∈ (insert_all lib ops (do_create (new_imgst_file max_files res_resized)).2).1,
      e = ERR_NONE)
    (hids : (ops.map Prod.snd).Nodup)
    (hsha : ops.Pairwise (fun p q => compare_sha (lib.SHA256 p.1) (lib.SHA256 q.1) ≠ 0))
    (hsize : ∀ p ∈ ops, p.1.length < 2 ^ 32) :
    ∀ p ∈ ops,
      (do_read lib p.2 (RES_ORIG : Nat)
          (insert_all lib ops (do_create (new_imgst_file max_files res_resized)).2).2).err
        = ERR_NONE
      ∧ (do_read lib p.2 (RES_ORIG : Nat)
          (insert_all lib ops
            (do_create (new_imgst_file max_files res_resized)).2).2).image_buffer = some p.1
      ∧ (do_read lib p.2 (RES_ORIG : Nat)
          (insert_all lib ops
            (do_create (new_imgst_file max_files res_resized)).2).2).image_size
        = some p.1.length := by
  intro p hp
  have hall := holds_all_insert_all lib ops _ [] (holds_all_create lib max_files res_resized hmax)
    (fun q hq => absurd hq (List.not_mem_nil q)) hsha hsize hok
  rw [List.nil_append] at hall
  exact read_orig_of_holds_all lib _ ops hall hids p hp

theorem C1_witness :
    (do_read demo_lib [98] 2
        (insert_all demo_lib [([7, 8, 9], [97]), ([1, 2], [98])] demo_store_0).2).err = ERR_NONE
      ∧ (do_read demo_lib [98] 2
          (insert_all demo_lib [([7, 8, 9], [97]), ([1, 2], [98])] demo_store_0).2).image_buffer
        = some [1, 2]
      ∧ (do_read demo_lib [98] 2
          (insert_all demo_lib [([7, 8, 9], [97]), ([1, 2], [98])] demo_store_0).2).image_size
        = some 2 :=
  C1_round_trip demo_lib 2 [64, 64, 256, 256] [([7, 8, 9], [97]), ([1, 2], [98])]
    (by decide) (by decide) (by decide) (by decide) (by decide) ([1, 2], [98]) (by decide)

theorem length_big_buffer : big_buffer.length = 2 ^ 32 + 1 := by
  unfold big_buffer
  exact List.length_replicate _ _

theorem big_buffer_ne_nil : big_buffer ≠ [] := by
  intro hc
  have := length_big_buffer
  rw [hc] at this
  simp at this

theorem read_at_image_size (s : imgst_file) (k code : Nat) :
    (read_at s k code).image_size = some ((s.slot k).size.get code) := by
  unfold read_at
  split <;> rfl

theorem read_at_image_buffer (s : imgst_file) (k code : Nat) (x : List Nat)
    (h : (read_at s k code).image_buffer = some x) : x.length ≤ (s.slot k).size.get code := by
  unfold read_at at h
  split at h
  · rename_i image heq
    simp only [Option.some.injEq] at h
    subst h
    have h2 : image = (read_disk_image s.file ((s.slot k).size.get code)
        ((s.slot k).offset.get code)).2 := by rw [heq]
    rw [h2]
    unfold read_disk_image
    split <;> simp [List.length_take]
  · simp at h

/-- C1, the claim as stated fails: in a fresh store of one slot the insert of a
buffer of `2 ^ 32 + 1` bytes under "a" succeeds, and the following
`do_read("a", RES_ORIG)` reports the size 1 and does not return the buffer. -/
theorem C1_counterexample :
    (do_insert demo_lib big_buffer [97] demo_store_single).1 = ERR_NONE
      ∧ (do_read demo_lib [97] 2
          (do_insert demo_lib big_buffer [97] demo_store_single).2).image_size = some 1
      ∧ (do_read demo_lib [97] 2
          (do_insert demo_lib big_buffer [97] demo_store_single).2).image_size
          ≠ some big_buffer.length
      ∧ (do_read demo_lib [97] 2
          (do_insert demo_lib big_buffer [97] demo_store_single).2).image_buffer
          ≠ some big_buffer := by
  have hinv0 : Inv demo_lib demo_store_single :=
    Inv_create demo_lib 1 [64, 64, 256, 256] (by norm_num)
  have hacc : get_resolution demo_lib big_buffer ≠ none := by
    simp [get_resolution, demo_lib, big_buffer_ne_nil]
  have hsucc : (do_insert demo_lib big_buffer [97] demo_store_single).1 = ERR_NONE :=
    do_insert_succeeds demo_lib big_buffer [97] demo_store_single hinv0.length_eq
      hinv0.max_lt (by decide) (by decide) (by decide) ⟨0, by decide, by decide⟩
      (by decide) big_buffer_ne_nil hacc
  have hinv1 := Inv_insert demo_lib demo_store_single big_buffer [97] hinv0 hsucc
  obtain ⟨e, m, file0, he, _, _, hst, _, hmid, _, hmv, hmsz, _⟩ :=
    do_insert_ok demo_lib big_buffer [97] demo_store_single hinv0.length_eq hinv0.max_lt
      ⟨0, by decide, by decide⟩ hsucc
  have he0 : e = 0 := by
    have : e < 1 := he
    omega
  subst he0
  have hsz : m.size.orig = 1 := by
    rw [hmsz, length_big_buffer]
    norm_num
  rw [hst] at hinv1 ⊢
  have hsl : (committed demo_store_single file0 0 m).slot 0 = m := by
    rw [committed_slot demo_store_single file0 0 m (by decide) 0, if_pos rfl]
  have hheld : holds_id (committed demo_store_single file0 0 m) [97] 0 := by
    unfold holds_id
    rw [hsl]
    exact ⟨hmv, hmid⟩
  have hf := find_img_id_found (committed demo_store_single file0 0 m) [97] 0
    hinv1.length_eq (le_of_eq hinv1.count.symm) he hheld
    (fun j hj => absurd hj (Nat.not_lt_zero j))
  have hrd := do_read_present demo_lib [97] RES_ORIG (committed demo_store_single file0 0 m) 0
    (by decide) (by decide) (Or.inr (Or.inr rfl)) hf (Or.inr rfl)
  have hrd2 : do_read demo_lib [97] 2 (committed demo_store_single file0 0 m)
      = read_at (committed demo_store_single file0 0 m) 0 RES_ORIG := hrd
  have hget : ((committed demo_store_single file0 0 m).slot 0).size.get RES_ORIG = 1 := by
    rw [hsl]
    exact hsz
  rw [hrd2, read_at_image_size, hget, length_big_buffer]
  refine ⟨hsucc, rfl, by norm_num, ?_⟩
  intro hc
  have := read_at_image_buffer _ _ _ _ hc
  rw [hget, length_big_buffer] at this
  norm_num at this

theorem orig_buffer_eq (s : imgst_file) (j : Nat) :
    orig_buffer s j = fixed_bytes (s.slot j).size.orig
      ((s.file.drop (s.slot j).offset.orig).take (s.slot j).size.orig) := by
  unfold orig_buffer read_disk_image
  split <;> rfl

/-- The buffer handed to the codec for a slot depends only on the slot's original
offset and size and on the bytes of the file in that range. -/
theorem orig_buffer_congr (s s1 : imgst_file) (j j1 : Nat)
    (hoff : (s1.slot j1).offset.orig = (s.slot j).offset.orig)
    (hsz : (s1.slot j1).size.orig = (s.slot j).size.orig)
    (hfile : (s1.file.drop (s.slot j).offset.orig).take (s.slot j).size.orig
      = (s.file.drop (s.slot j).offset.orig).take (s.slot j).size.orig) :
    orig_buffer s1 j1 = orig_buffer s j := by
  rw [orig_buffer_eq, orig_buffer_eq, hoff, hsz, hfile]

theorem res_array_get_set_eq (a : res_array) (code v : Nat)
    (hc : code = RES_THUMB ∨ code = RES_SMALL) : (a.set code v).get code = v := by
  rcases hc with h | h <;> subst h <;> rfl

theorem res_array_get_set_ne (a : res_array) (code code1 v : Nat)
    (hc : code = RES_THUMB ∨ code = RES_SMALL) (hc1 : code1 = RES_THUMB ∨ code1 = RES_SMALL)
    (hne : code1 ≠ code) : (a.set code v).get code1 = a.get code1 := by
  rcases hc with h | h <;> rcases hc1 with h1 | h1 <;> subst h <;> subst h1 <;>
    first | exact absurd rfl hne | rfl

theorem res_array_get_thumb_small (a a1 : res_array) (code : Nat)
    (hc : code = RES_THUMB ∨ code = RES_SMALL) (ht : a.thumb = a1.thumb)
    (hs : a.small = a1.small) : a.get code = a1.get code := by
  rcases hc with h | h <;> subst h
  · exact ht
  · exact hs

theorem drop_deleted_file (s : imgst_file) (k : Nat) (hk : k < s.header.max_files) (n : Nat)
    (hn : payload_start s ≤ n) : (deleted s k).file.drop n = s.file.drop n := by
  simp only [deleted]
  rw [drop_fwrite_at _ _ _ _ (by
      rw [length_header_bytes]
      simp only [payload_start, sizeof_header, sizeof_metadata] at hn ⊢
      omega),
    drop_fwrite_at _ _ _ _ (by
      rw [length_metadata_bytes]
      simp only [payload_start, sizeof_header, sizeof_metadata] at hn ⊢
      omega)]

theorem drop_resized_file (s : imgst_file) (code k : Nat) (nb : List Nat)
    (hk : k < s.header.max_files) (n : Nat) (hn : payload_start s ≤ n) :
    (resized s code k nb).file.drop n = (s.file ++ nb).drop n := by
  simp only [resized]
  rw [drop_fwrite_at _ _ _ _ (by
      rw [length_metadata_bytes]
      simp only [payload_start, sizeof_header, sizeof_metadata] at hn ⊢
      omega)]

/-- Preservation of `Inv_payload` by an update of one slot, when the file keeps the
originals of the old valid slots. -/
theorem Inv_payload_update (lib : img_lib) (P : List Nat → Prop) (s s1 : imgst_file) (k : Nat) (m : img_metadata)
    (hinv : Inv lib s) (hp : Inv_payload lib P s) (hk : k < s.header.max_files)
    (hmax : s1.header.max_files = s.header.max_files)
    (hres : s1.header.res_resized = s.header.res_resized)
    (hmd : s1.metadata = s.metadata.set k m)
    (hlen : s.file.length ≤ s1.file.length)
    (hfile : ∀ off n, payload_start s ≤ off → off + n ≤ s.file.length →
      (s1.file.drop off).take n = (s.file.drop off).take n)
    (horigin : m.is_valid = NON_EMPTY →
      ∃ b, P b ∧ m.SHA = lib.SHA256 b ∧ m.size.orig = b.length % 2 ^ 32)
    (hle : m.is_valid = NON_EMPTY → m.offset.orig + m.size.orig ≤ s1.file.length)
    (hvar : m.is_valid = NON_EMPTY →
      ∀ code, code = RES_THUMB ∨ code = RES_SMALL → m.offset.get code ≠ 0 →
      ∃ nb, lib.jpeg_resize (orig_buffer s1 k) (s.header.res_resized.getD (code * 2) 0)
          (s.header.res_resized.getD (code * 2 + 1) 0) = some nb
        ∧ m.size.get code = nb.length % 2 ^ 32) :
    Inv_payload lib P s1 := by
  have hk2 : k < s.metadata.length := by rw [hinv.length_eq]; exact hk
  have hsl := slot_update s s1 k m hmd hk2
  refine ⟨?_, ?_, ?_⟩
  · intro j hj hv
    rw [hmax] at hj
    rw [hsl j] at hv ⊢
    by_cases hjk : j = k
    · rw [if_pos hjk] at hv ⊢
      exact horigin hv
    · rw [if_neg hjk] at hv ⊢
      exact hp.origin_in j hj hv
  · intro j hj hv
    rw [hmax] at hj
    rw [hsl j] at hv ⊢
    by_cases hjk : j = k
    · rw [if_pos hjk] at hv ⊢
      exact hle hv
    · rw [if_neg hjk] at hv ⊢
      have := hp.orig_le j hj hv
      omega
  · intro j hj hv code hcode hoff
    rw [hmax] at hj
    rw [hres]
    by_cases hjk : j = k
    · subst hjk
      rw [hsl j, if_pos rfl] at hv hoff ⊢
      exact hvar hv code hcode hoff
    · have hsj : s1.slot j = s.slot j := by rw [hsl j, if_neg hjk]
      rw [hsj] at hv hoff ⊢
      have hbuf : orig_buffer s1 j = orig_buffer s j :=
        orig_buffer_congr s s1 j j (by rw [hsj]) (by rw [hsj])
          (hfile _ _ (hinv.orig_ge j hj hv) (hp.orig_le j hj hv))
      rw [hbuf]
      exact hp.variant j hj hv code hcode hoff

theorem Inv_payload_create (lib : img_lib) (P : List Nat → Prop) (max_files : Nat) (res_resized : List Nat) :
    Inv_payload lib P (do_create (new_imgst_file max_files res_resized)).2 := by
  have hnv : ∀ j, ((do_create (new_imgst_file max_files res_resized)).2.slot j).is_valid
      ≠ NON_EMPTY := by
    intro j
    have : ((do_create (new_imgst_file max_files res_resized)).2.slot j) = zero_metadata :=
      slot_replicate max_files j
    rw [this]
    decide
  exact ⟨fun j _ hv => absurd hv (hnv j), fun j _ hv => absurd hv (hnv j),
    fun j _ hv => absurd hv (hnv j)⟩

theorem Inv_payload_delete (lib : img_lib) (P : List Nat → Prop) (s : imgst_file) (id : List Nat) (hinv : Inv lib s)
    (hp : Inv_payload lib P s) (h : (do_delete id s).1 = ERR_NONE) :
    Inv_payload lib P (do_delete id s).2 := by
  obtain ⟨hid1, hid2, k, hf⟩ := do_delete_checks id s h
  obtain ⟨hk, _, _⟩ := find_img_id_ok s id k hf
  rw [do_delete_eq id s k hid1 hid2 hinv.length_eq hf]
  apply Inv_payload_update lib P s (deleted s k) k { s.slot k with is_valid := EMPTY } hinv hp hk
  · rfl
  · rfl
  · rfl
  · rw [length_deleted_file s k hk hinv.file_ge]
  · intro off n hoff _
    rw [drop_deleted_file s k hk off hoff]
  · intro hc; exact absurd hc (show EMPTY ≠ NON_EMPTY by decide)
  · intro hc; exact absurd hc (show EMPTY ≠ NON_EMPTY by decide)
  · intro hc; exact absurd hc (show EMPTY ≠ NON_EMPTY by decide)

theorem Inv_payload_insert (lib : img_lib) (P : List Nat → Prop)
    (hsha : collision_free_on lib P) (s : imgst_file)
    (b id : List Nat) (hPb : P b) (hinv : Inv lib s) (hp : Inv_payload lib P s)
    (h : (do_insert lib b id s).1 = ERR_NONE) : Inv_payload lib P (do_insert lib b id s).2 := by
  obtain ⟨_, _, hfull⟩ := do_insert_checks lib b id s h
  obtain ⟨e, m, file0, he, _, _, hst, _, _, hmsha, _, hmsz, hcase⟩ :=
    do_insert_ok lib b id s hinv.length_eq hinv.max_lt (Inv_empty_slot lib s hinv hfull) h
  have he2 : e < s.metadata.length := by rw [hinv.length_eq]; exact he
  have hfile := hinv.file_ge
  have hf0 : file0 = s.file ∨ file0 = s.file ++ b := by
    rcases hcase with ⟨_, _, _, _, _, hf, _⟩ | ⟨hf, _⟩
    · exact Or.inl hf
    · exact Or.inr hf
  have hf0len : s.file.length ≤ file0.length := by
    rcases hf0 with hf | hf <;> simp [hf]
  have hlenf : (committed s file0 e m).file.length = file0.length :=
    length_committed_file s file0 e m he (by omega)
  have hkeep : ∀ off n, payload_start s ≤ off → off + n ≤ s.file.length →
      ((committed s file0 e m).file.drop off).take n = (s.file.drop off).take n := by
    intro off n hoff hn
    rw [drop_committed_file s file0 e m he off hoff]
    rcases hf0 with hf | hf
    · rw [hf]
    · rw [hf, take_drop_append _ _ _ _ hn]
  have hsl : (committed s file0 e m).slot e = m := by
    rw [committed_slot s file0 e m he2 e, if_pos rfl]
  have hsame : ∀ k, k < s.header.max_files → holds_sha s (lib.SHA256 b) k →
      (s.slot k).size.orig = m.size.orig := by
    intro k hk hks
    obtain ⟨bk, hPk, hbk1, hbk2⟩ := hp.origin_in k hk hks.1
    have := hks.2
    rw [hbk1] at this
    rw [hbk2, hmsz, hsha bk b hPk hPb this]
  rw [hst]
  apply Inv_payload_update lib P s (committed s file0 e m) e m hinv hp he rfl rfl rfl
    (by rw [hlenf]; exact hf0len) hkeep
  · intro _
    exact ⟨b, hPb, hmsha, hmsz⟩
  · intro _
    rw [hlenf]
    rcases hcase with ⟨k, hk, hks, _, _, hf, hoff, _⟩ | ⟨hf, _, hoff, _⟩
    · rw [hoff, ← hsame k hk hks, hf]
      exact hp.orig_le k hk hks.1
    · rw [hoff, hmsz, hf, List.length_append]
      have := Nat.mod_le b.length (2 ^ 32)
      show s.file.length + b.length % 2 ^ 32 ≤ s.file.length + b.length
      omega
  · intro _ code hcode hoffc
    rcases hcase with ⟨k, hk, hks, _, _, _, hoff, hst', hss'⟩ | ⟨_, _, hoff, _⟩
    · rw [hoff] at hoffc
      obtain ⟨nb, hnb1, hnb2⟩ := hp.variant k hk hks.1 code hcode hoffc
      have hbuf : orig_buffer (committed s file0 e m) e = orig_buffer s k :=
        orig_buffer_congr s (committed s file0 e m) k e (by rw [hsl, hoff])
          (by rw [hsl]; exact (hsame k hk hks).symm)
          (hkeep _ _ (hinv.orig_ge k hk hks.1) (hp.orig_le k hk hks.1))
      rw [hbuf]
      refine ⟨nb, hnb1, ?_⟩
      rw [res_array_get_thumb_small m.size (s.slot k).size code hcode hst' hss']
      exact hnb2
    · rw [hoff] at hoffc
      rcases hcode with hc | hc <;> subst hc <;> exact absurd rfl hoffc

theorem Inv_payload_read (lib : img_lib) (P : List Nat → Prop) (s : imgst_file) (id : List Nat) (r : Int)
    (hinv : Inv lib s) (hp : Inv_payload lib P s) (h : (do_read lib id r s).err = ERR_NONE) :
    Inv_payload lib P (do_read lib id r s).store := by
  rcases do_read_ok_store lib id r s hinv.length_eq h with h1 |
    ⟨k, code, nb, hcode, _, hf, _, _, hres, heq⟩
  · rw [h1]; exact hp
  · obtain ⟨hk, hvk, _⟩ := find_img_id_ok s id k hf
    have hk2 : k < s.metadata.length := by rw [hinv.length_eq]; exact hk
    have hfile := hinv.file_ge
    have hkeep : ∀ off n, payload_start s ≤ off → off + n ≤ s.file.length →
        ((resized s code k nb).file.drop off).take n = (s.file.drop off).take n := by
      intro off n hoff hn
      rw [drop_resized_file s code k nb hk off hoff, take_drop_append _ _ _ _ hn]
    have hsl : (resized s code k nb).slot k
        = { s.slot k with size := (s.slot k).size.set code (nb.length % 2 ^ 32),
                          offset := (s.slot k).offset.set code s.file.length } := by
      rw [slot_update s (resized s code k nb) k _ rfl hk2 k, if_pos rfl]
    have hbuf : orig_buffer (resized s code k nb) k = orig_buffer s k :=
      orig_buffer_congr s (resized s code k nb) k k
        (by rw [hsl]; exact res_array_set_orig _ _ _ hcode)
        (by rw [hsl]; exact res_array_set_orig _ _ _ hcode)
        (hkeep _ _ (hinv.orig_ge k hk hvk.1) (hp.orig_le k hk hvk.1))
    rw [heq, read_at_store]
    apply Inv_payload_update lib P s (resized s code k nb) k _ hinv hp hk rfl rfl rfl
      (by rw [length_resized_file s code k nb hk hfile]; omega) hkeep
    · intro _
      obtain ⟨bk, hPk, hbk1, hbk2⟩ := hp.origin_in k hk hvk.1
      refine ⟨bk, hPk, hbk1, ?_⟩
      show ((s.slot k).size.set code (nb.length % 2 ^ 32)).orig = _
      rw [res_array_set_orig _ _ _ hcode]
      exact hbk2
    · intro _
      show ((s.slot k).offset.set code s.file.length).orig
        + ((s.slot k).size.set code (nb.length % 2 ^ 32)).orig ≤ _
      rw [res_array_set_orig _ _ _ hcode, res_array_set_orig _ _ _ hcode,
        length_resized_file s code k nb hk hfile]
      have := hp.orig_le k hk hvk.1
      omega
    · intro _ code1 hcode1 hoff1
      rw [hbuf]
      by_cases hcc : code1 = code
      · subst hcc
        refine ⟨nb, hres, ?_⟩
        exact res_array_get_set_eq _ _ _ hcode
      · have hoff2 : (s.slot k).offset.get code1 ≠ 0 := by
          have : ((s.slot k).offset.set code s.file.length).get code1
              = (s.slot k).offset.get code1 :=
            res_array_get_set_ne _ _ _ _ hcode hcode1 hcc
          rw [← this]
          exact hoff1
        obtain ⟨nb1, hnb1, hnb2⟩ := hp.variant k hk hvk.1 code1 hcode1 hoff2
        refine ⟨nb1, hnb1, ?_⟩
        show ((s.slot k).size.set code (nb.length % 2 ^ 32)).get code1 = _
        rw [res_array_get_set_ne _ _ _ _ hcode hcode1 hcc]
        exact hnb2

theorem reachableFrom_reachable (lib : img_lib) (P : List Nat → Prop) (s : imgst_file)
    (h : ReachableFrom lib P s) : Reachable lib s := by
  induction h with
  | create max_files res_resized h => exact Reachable.create max_files res_resized h
  | insert s b id _ _ h ih => exact Reachable.insert s b id ih h
  | delete s id _ h ih => exact Reachable.delete s id ih h
  | read s id r _ h ih => exact Reachable.read s id r ih h

theorem reachable_reachableFrom (lib : img_lib) (s : imgst_file) (h : Reachable lib s) :
    ReachableFrom lib (fun _ => True) s := by
  induction h with
  | create max_files res_resized h => exact ReachableFrom.create max_files res_resized h
  | insert s b id _ h ih => exact ReachableFrom.insert s b id ih trivial h
  | delete s id _ h ih => exact ReachableFrom.delete s id ih h
  | read s id r _ h ih => exact ReachableFrom.read s id r ih h

theorem reachable_payload (lib : img_lib) (P : List Nat → Prop)
    (hsha : collision_free_on lib P) (s : imgst_file)
    (h : ReachableFrom lib P s) : Inv_payload lib P s := by
  induction h with
  | create max_files res_resized _ => exact Inv_payload_create lib P max_files res_resized
  | insert s b id hs hb h ih =>
    exact Inv_payload_insert lib P hsha s b id hb
      (reachable_inv lib s (reachableFrom_reachable lib P s hs)) ih h
  | delete s id hs h ih =>
    exact Inv_payload_delete lib P s id
      (reachable_inv lib s (reachableFrom_reachable lib P s hs)) ih h
  | read s id r hs h ih =>
    exact Inv_payload_read lib P s id r
      (reachable_inv lib s (reachableFrom_reachable lib P s hs)) ih h

/-- C9 (invariant I5), amended: in every state reachable from a freshly created store
by successful `do_insert`, `do_delete` and `do_read` calls, the inserted buffers being
taken from a set `P` (which may hold every buffer), any two valid slots A, B with equal
SHA have `A.offset[RES_ORIG] = B.offset[RES_ORIG]`; when moreover the hasher has no
collision among the buffers of `P`, `A.size[RES_ORIG] = B.size[RES_ORIG]`, and
`A.size[v] = B.size[v]` for THUMB and SMALL when the offset of `v` is non-zero in both
slots.  The offsets of THUMB and of SMALL are not claimed equal. -/
theorem C9_shared_payload (lib : img_lib) (P : List Nat → Prop) (s : imgst_file)
    (h : ReachableFrom lib P s)
    (i j : Nat) (hi : i < s.header.max_files) (hj : j < s.header.max_files)
    (hvi : (s.slot i).is_valid = NON_EMPTY) (hvj : (s.slot j).is_valid = NON_EMPTY)
    (heq : compare_sha (s.slot i).SHA (s.slot j).SHA = 0) :
    (s.slot i).offset.orig = (s.slot j).offset.orig
      ∧ (collision_free_on lib P →
          (s.slot i).size.orig = (s.slot j).size.orig
            ∧ ∀ code, code = RES_THUMB ∨ code = RES_SMALL →
                (s.slot i).offset.get code ≠ 0 → (s.slot j).offset.get code ≠ 0 →
                (s.slot i).size.get code = (s.slot j).size.get code) := by
  have hinv := reachable_inv lib s (reachableFrom_reachable lib P s h)
  have hoff := hinv.orig_eq i j hi hj hvi hvj heq
  refine ⟨hoff, fun hsha => ?_⟩
  have hp := reachable_payload lib P hsha s h
  obtain ⟨bi, hPi, hbi1, hbi2⟩ := hp.origin_in i hi hvi
  obtain ⟨bj, hPj, hbj1, hbj2⟩ := hp.origin_in j hj hvj
  have hsz : (s.slot i).size.orig = (s.slot j).size.orig := by
    rw [hbi1, hbj1] at heq
    rw [hbi2, hbj2, hsha bi bj hPi hPj heq]
  refine ⟨hsz, fun code hcode hoi hoj => ?_⟩
  obtain ⟨ni, hni1, hni2⟩ := hp.variant i hi hvi code hcode hoi
  obtain ⟨nj, hnj1, hnj2⟩ := hp.variant j hj hvj code hcode hoj
  have hbuf : orig_buffer s j = orig_buffer s i :=
    orig_buffer_congr s s i j hoff.symm hsz.symm rfl
  rw [hbuf, hni1] at hnj1
  simp only [Option.some.injEq] at hnj1
  rw [hni2, hnj2, hnj1]

theorem demo_reachable_thumbs : Reachable demo_lib demo_store_thumbs :=
  Reachable.read _ [98] 0 (Reachable.read _ [97] 0 demo_reachable_2 (by decide)) (by decide)

theorem demo_reachableFrom_thumbs :
    ReachableFrom demo_lib (fun b => b = [7, 8, 9]) demo_store_thumbs :=
  ReachableFrom.read _ [98] 0
    (ReachableFrom.read _ [97] 0
      (ReachableFrom.insert _ [7, 8, 9] [98]
        (ReachableFrom.insert _ [7, 8, 9] [97]
          (ReachableFrom.create 2 [64, 64, 256, 256] (by norm_num)) rfl (by decide))
        rfl (by decide))
      (by decide))
    (by decide)

theorem C9_witness :
    (demo_store_thumbs.slot 0).offset.orig = (demo_store_thumbs.slot 1).offset.orig
      ∧ (demo_store_thumbs.slot 0).size.orig = (demo_store_thumbs.slot 1).size.orig
      ∧ (demo_store_thumbs.slot 0).size.get RES_THUMB
          = (demo_store_thumbs.slot 1).size.get RES_THUMB := by
  have h := C9_shared_payload demo_lib (fun b => b = [7, 8, 9]) demo_store_thumbs
    demo_reachableFrom_thumbs 0 1 (by decide) (by decide) (by decide) (by decide) (by decide)
  have h2 := h.2 (fun b b1 hb hb1 _ => hb.trans hb1.symm)
  exact ⟨h.1, h2.1, h2.2 RES_THUMB (Or.inl rfl) (by decide) (by decide)⟩

/-- C9, the claim as stated fails: the store `demo_store_thumbs` is reached from a
fresh store by two inserts of the same image as "a" and as "b" and by a read of the
thumbnail of each; its two slots are valid and have equal SHA, the THUMB offset is
non-zero in both, and the two THUMB offsets differ (499 and 501). -/
theorem C9_counterexample :
    Reachable demo_lib demo_store_thumbs
      ∧ (demo_store_thumbs.slot 0).is_valid = NON_EMPTY
      ∧ (demo_store_thumbs.slot 1).is_valid = NON_EMPTY
      ∧ compare_sha (demo_store_thumbs.slot 0).SHA (demo_store_thumbs.slot 1).SHA = 0
      ∧ (demo_store_thumbs.slot 0).offset.thumb = 499
      ∧ (demo_store_thumbs.slot 1).offset.thumb = 501
      ∧ (demo_store_thumbs.slot 0).offset.thumb ≠ (demo_store_thumbs.slot 1).offset.thumb :=
  ⟨demo_reachable_thumbs, by decide, by decide, by decide, by decide, by decide, by decide⟩

theorem valid_before_succ (s : imgst_file) (i : Nat) :
    valid_before s (i + 1)
      = valid_before s i + (if (s.slot i).is_valid = NON_EMPTY then 1 else 0) := by
  unfold valid_before
  rw [List.range_succ, List.countP_append]
  by_cases h : (s.slot i).is_valid = NON_EMPTY <;> simp [h]

theorem valid_before_mono (s : imgst_file) (i k : Nat) (h : i ≤ k) :
    valid_before s i ≤ valid_before s k := by
  induction k with
  | zero => simp [Nat.le_zero.mp h]
  | succ n ih =>
    rcases Nat.lt_or_ge i (n + 1) with h1 | h1
    · have := ih (by omega)
      rw [valid_before_succ]; omega
    · have : i = n + 1 := by omega
      rw [this]

theorem find_img_id_loop_iff (s : imgst_file) (id : List Nat) (k : Nat) :
    ∀ fuel i v, i + fuel = s.header.max_files →
      (find_img_id_loop s id fuel i v = some k ↔
        i ≤ k ∧ k < s.header.max_files ∧ holds_id s id k
          ∧ v + valid_before s k < s.header.num_files + valid_before s i
          ∧ ∀ j, i ≤ j → j < k → ¬ holds_id s id j) := by
  intro fuel
  induction fuel with
  | zero =>
    intro i v hi
    simp only [find_img_id_loop]
    constructor
    · intro h; cases h
    · rintro ⟨h1, h2, -⟩; omega
  | succ n ih =>
    intro i v hi
    have hlt : i < s.header.max_files := by omega
    have hmono := valid_before_mono s
    have hsucc := valid_before_succ s i
    simp only [find_img_id_loop]
    by_cases hv : v < s.header.num_files
    · rw [if_pos ⟨hlt, hv⟩]
      by_cases hval : (s.slot i).is_valid = NON_EMPTY
      · rw [if_pos hval] at hsucc ⊢
        by_cases hid : strcmp (s.slot i).img_id id = 0
        · rw [if_pos hid]
          have hh : holds_id s id i := ⟨hval, (strcmp_eq_zero _ _).mp hid⟩
          constructor
          · intro h
            have : i = k := by simpa using h
            subst this
            exact ⟨le_refl _, hlt, hh, by omega, fun j h1 h2 => by omega⟩
          · rintro ⟨h1, h2, h3, h4, h5⟩
            rcases Nat.lt_or_ge i k with h6 | h6
            · exact absurd hh (h5 i (le_refl _) h6)
            · have : i = k := by omega
              rw [this]
        · rw [if_neg hid, ih (i + 1) (v + 1) (by omega)]
          have hnh : ¬ holds_id s id i := fun h => hid ((strcmp_eq_zero _ _).mpr h.2)
          constructor
          · rintro ⟨h1, h2, h3, h4, h5⟩
            refine ⟨by omega, h2, h3, by omega, fun j hj1 hj2 => ?_⟩
            rcases Nat.lt_or_ge i j with h6 | h6
            · exact h5 j h6 hj2
            · have : j = i := by omega
              rw [this]; exact hnh
          · rintro ⟨h1, h2, h3, h4, h5⟩
            have hne : i ≠ k := fun h => hnh (h ▸ h3)
            exact ⟨by omega, h2, h3, by omega, fun j hj1 hj2 => h5 j (by omega) hj2⟩
      · rw [if_neg hval] at hsucc ⊢
        rw [ih (i + 1) v (by omega)]
        have hnh : ¬ holds_id s id i := fun h => hval h.1
        constructor
        · rintro ⟨h1, h2, h3, h4, h5⟩
          refine ⟨by omega, h2, h3, by omega, fun j hj1 hj2 => ?_⟩
          rcases Nat.lt_or_ge i j with h6 | h6
          · exact h5 j h6 hj2
          · have : j = i := by omega
            rw [this]; exact hnh
        · rintro ⟨h1, h2, h3, h4, h5⟩
          have hne : i ≠ k := fun h => hnh (h ▸ h3)
          exact ⟨by omega, h2, h3, by omega, fun j hj1 hj2 => h5 j (by omega) hj2⟩
    · rw [if_neg (fun h => hv h.2)]
      constructor
      · intro h; cases h
      · rintro ⟨h1, h2, h3, h4, h5⟩
        have := hmono i k h1
        omega

theorem find_img_id_iff (s : imgst_file) (id : List Nat) (k : Nat) :
    find_img_id s id = (ERR_NONE, k) ↔
      listed_match s id k ∧ ∀ j, j < k → ¬ listed_match s id j := by
  have hloop := find_img_id_loop_iff s id
  have hvb0 : valid_before s 0 = 0 := by simp [valid_before]
  unfold find_img_id
  constructor
  · intro h
    cases hf : find_img_id_loop s id s.header.max_files 0 0 with
    | none => rw [hf] at h; cases h
    | some i =>
      rw [hf] at h
      have hik : i = k := by simpa using h
      subst hik
      obtain ⟨-, h2, h3, h4, h5⟩ := (hloop i _ 0 0 (by omega)).mp hf
      exact ⟨⟨h2, h3.1, by omega, h3.2⟩,
        fun j hj hm => h5 j (Nat.zero_le _) hj ⟨hm.2.1, hm.2.2.2⟩⟩
  · rintro ⟨⟨h1, h2, h3, h4⟩, h5⟩
    have : find_img_id_loop s id s.header.max_files 0 0 = some k := by
      refine (hloop k _ 0 0 (by omega)).mpr
        ⟨Nat.zero_le _, h1, ⟨h2, h4⟩, by omega, fun j _ hj hh => h5 j hj ?_⟩
      have := valid_before_mono s j k (by omega)
      exact ⟨by omega, hh.1, by omega, hh.2⟩
    rw [this]

/-- Claim C15: for every store and id, `find_img_id` returns `ERR_NONE` with index `i`
exactly when `i` is the lowest index of a slot that is valid, is among the first
`num_files` valid slots in index order and holds `id`; when there is no such slot it
returns `ERR_FILE_NOT_FOUND`; it returns no other code, and an index returned with
`ERR_NONE` designates a slot with `is_valid = 1`. -/
theorem C15_find_img_id (s : imgst_file) (id : List Nat) :
    (∀ i, find_img_id s id = (ERR_NONE, i) ↔
        listed_match s id i ∧ ∀ j, j < i → ¬ listed_match s id j)
      ∧ ((∀ i, ¬ listed_match s id i) → find_img_id s id = (ERR_FILE_NOT_FOUND, 0))
      ∧ ((find_img_id s id).1 = ERR_NONE ∨ (find_img_id s id).1 = ERR_FILE_NOT_FOUND)
      ∧ ∀ i, find_img_id s id = (ERR_NONE, i) → (s.slot i).is_valid = 1 := by
  refine ⟨find_img_id_iff s id, fun hno => ?_, ?_, fun i h => ?_⟩
  · rcases find_img_id_cases s id with ⟨k, hk⟩ | h
    · exact absurd ((find_img_id_iff s id k).mp hk).1 (hno k)
    · exact h
  · rcases find_img_id_cases s id with ⟨k, hk⟩ | h
    · left; rw [hk]
    · right; rw [h]
  · exact ((find_img_id_iff s id i).mp h).1.2.1

theorem dedup_err_cases (s : imgst_file) (index : Nat)
    (hlen : s.metadata.length = s.header.max_files) (hidx : index < s.header.max_files) :
    ((do_name_and_content_dedup s index).1 = ERR_DUPLICATE_ID
        ∧ ∃ j, j < s.header.max_files ∧ same_id_at s.metadata index j)
    ∨ ((do_name_and_content_dedup s index).1 = ERR_NONE
        ∧ ∀ j, j < s.header.max_files → ¬ same_id_at s.metadata index j) := by
  rcases do_name_and_content_dedup_spec s index hlen hidx with ⟨h1, h2⟩ | ⟨h1, h2⟩
  · exact Or.inl ⟨h2, h1⟩
  · right
    refine ⟨?_, h1⟩
    rcases h2 with ⟨k, -, -, -, h⟩ | ⟨-, h⟩ <;> rw [h]

/-- Claim C17: for a candidate index of an open store, `do_name_and_content_dedup`
returns `ERR_DUPLICATE_ID` whenever some other valid slot holds the `img_id` of the
candidate, wherever that slot lies relative to a slot with an equal SHA; it returns
`ERR_NONE` only if no other valid slot holds that `img_id`, and it returns one of the
two codes. -/
theorem C17_dedup_id_check_scans_all (s : imgst_file) (index : Nat)
    (hlen : s.metadata.length = s.header.max_files) (hidx : index < s.header.max_files) :
    ((∃ j, j < s.header.max_files ∧ same_id_at s.metadata index j) →
        (do_name_and_content_dedup s index).1 = ERR_DUPLICATE_ID)
      ∧ ((do_name_and_content_dedup s index).1 = ERR_NONE →
          ∀ j, j < s.header.max_files → ¬ same_id_at s.metadata index j)
      ∧ ((do_name_and_content_dedup s index).1 = ERR_DUPLICATE_ID
          ∨ (do_name_and_content_dedup s index).1 = ERR_NONE) := by
  rcases dedup_err_cases s index hlen hidx with ⟨h1, h2⟩ | ⟨h1, h2⟩
  · refine ⟨fun _ => h1, fun h => ?_, Or.inl h1⟩
    rw [h1] at h; cases h
  · refine ⟨fun ⟨j, hj, hs⟩ => absurd hs (h2 j hj), fun _ => h2, Or.inr h1⟩

/-- The candidate slot 2 of `demo_store_candidate` has the SHA of slot 0 and the id of
slot 1, which comes after the content match: the call returns `ERR_DUPLICATE_ID`. -/
theorem C17_witness :
    same_sha_at demo_store_candidate.metadata 2 0
      ∧ same_id_at demo_store_candidate.metadata 2 1
      ∧ (do_name_and_content_dedup demo_store_candidate 2).1 = ERR_DUPLICATE_ID :=
  ⟨by decide, by decide,
    (C17_dedup_id_check_scans_all demo_store_candidate 2 (by decide) (by decide)).1
      ⟨1, by decide, by decide⟩⟩

/-- Claim C18: when `do_name_and_content_dedup` returns `ERR_NONE` for the candidate
index `k` of an open store, then if some other valid slot has the SHA of slot `k`, the
three offsets and `size[THUMB]`, `size[SMALL]` of slot `k` are those of the lowest such
slot and `size[ORIG]` and the other fields of slot `k` are untouched; if no other valid
slot has that SHA, `offset[ORIG]` of slot `k` is 0 and the rest of slot `k` is untouched;
no other slot, nor the header, nor the file is modified. -/
theorem C18_dedup_content_adoption (s : imgst_file) (k : Nat)
    (hlen : s.metadata.length = s.header.max_files) (hk : k < s.header.max_files)
    (hok : (do_name_and_content_dedup s k).1 = ERR_NONE) :
    (∀ i, i < s.header.max_files → same_sha_at s.metadata k i →
        (∀ j, j < i → ¬ same_sha_at s.metadata k j) →
        (do_name_and_content_dedup s k).2.slot k
          = { s.slot k with
              offset := ⟨(s.slot i).offset.thumb, (s.slot i).offset.small,
                         (s.slot i).offset.orig⟩,
              size := ⟨(s.slot i).size.thumb, (s.slot i).size.small, (s.slot k).size.orig⟩ })
      ∧ ((∀ i, i < s.header.max_files → ¬ same_sha_at s.metadata k i) →
          (do_name_and_content_dedup s k).2.slot k
            = { s.slot k with offset := { (s.slot k).offset with orig := 0 } })
      ∧ (∀ j, j ≠ k → (do_name_and_content_dedup s k).2.slot j = s.slot j)
      ∧ (do_name_and_content_dedup s k).2.header = s.header
      ∧ (do_name_and_content_dedup s k).2.file = s.file := by
  have hk2 : k < s.metadata.length := by omega
  have hfr := dedup_frame s k
  rcases do_name_and_content_dedup_spec s k hlen hk with ⟨-, h2⟩ | ⟨-, h2⟩
  · rw [h2] at hok; cases hok
  · rcases h2 with ⟨i0, hi0, hs0, hmin0, h⟩ | ⟨hnone, h⟩
    · refine ⟨fun i hi hs hmin => ?_, fun hno => absurd hs0 (hno i0 hi0), fun j hj => ?_,
        hfr.2.1, hfr.1⟩
      · have hii : i = i0 := by
          rcases Nat.lt_trichotomy i i0 with h1 | h1 | h1
          · exact absurd hs (hmin0 i h1)
          · exact h1
          · exact absurd hs0 (hmin i0 h1)
        subst hii
        rw [h]
        exact slot_set_slot_eq s k _ hk2
      · rw [h]
        exact slot_set_slot_ne s k j _ (Ne.symm hj)
    · refine ⟨fun i hi hs _ => absurd hs (hnone i hi), fun _ => ?_, fun j hj => ?_,
        hfr.2.1, hfr.1⟩
      · rw [h]
        exact slot_set_slot_eq s k _ hk2
      · rw [h]
        exact slot_set_slot_ne s k j _ (Ne.symm hj)

/-- Slots 0 and 1 of `demo_store_adopt` both have the SHA of the candidate slot 2, and
only slot 1 has a thumbnail: the candidate takes the offsets of slot 0. -/
theorem C18_witness :
    same_sha_at demo_store_adopt.metadata 2 0 ∧ same_sha_at demo_store_adopt.metadata 2 1
      ∧ (demo_store_adopt.slot 0).offset = ⟨0, 0, 712⟩
      ∧ (demo_store_adopt.slot 1).offset = ⟨715, 0, 712⟩
      ∧ ((do_name_and_content_dedup demo_store_adopt 2).2.slot 2).offset = ⟨0, 0, 712⟩
      ∧ ((do_name_and_content_dedup demo_store_adopt 2).2.slot 2).size = ⟨0, 0, 3⟩ := by
  have h := (C18_dedup_content_adoption demo_store_adopt 2 (by decide) (by decide)
    (by decide)).1 0 (by decide) (by decide) (by decide)
  refine ⟨by decide, by decide, by decide, by decide, ?_, ?_⟩
  · rw [h]; decide
  · rw [h]; decide

theorem getD_set_self_or {α : Type} (l : List α) (i : Nat) (a d : α) :
    (l.set i a).getD i d = a ∨ (l.set i a).getD i d = l.getD i d := by
  by_cases h : i < l.length
  · exact Or.inl (getD_set_eq l i a d h)
  · right
    rw [List.set_eq_of_length_le (by omega)]

theorem dedup_loop_frame (max_files index : Nat) :
    ∀ fuel i found (md : List img_metadata),
      (dedup_loop max_files index fuel i found md).2.2.length = md.length
      ∧ (∀ j, j ≠ index →
          (dedup_loop max_files index fuel i found md).2.2.getD j default = md.getD j default)
      ∧ ((dedup_loop max_files index fuel i found md).2.2.getD index default).is_valid
          = (md.getD index default).is_valid
      ∧ ((dedup_loop max_files index fuel i found md).2.2.getD index default).res_orig
          = (md.getD index default).res_orig
      ∧ ((dedup_loop max_files index fuel i found md).2.2.getD index default).unused_16
          = (md.getD index default).unused_16 := by
  intro fuel
  induction fuel with
  | zero => intro i found md; simp [dedup_loop]
  | succ n ih =>
    intro i found md
    by_cases hlt : i < max_files
    · rw [dedup_loop_step _ _ _ _ _ _ hlt]
      split
      · exact ⟨rfl, fun _ _ => rfl, rfl, rfl, rfl⟩
      · split
        · obtain ⟨h1, h2, h3, h4, h5⟩ := ih (i + 1) true
            (md.set index (adopt (md.getD i default) (md.getD index default)))
          refine ⟨by rw [h1, List.length_set], fun j hj => ?_, ?_, ?_, ?_⟩
          · rw [h2 j hj, getD_set_ne _ _ _ _ _ (Ne.symm hj)]
          · rw [h3]
            rcases getD_set_self_or md index
              (adopt (md.getD i default) (md.getD index default)) default with h | h <;> rw [h]
            rfl
          · rw [h4]
            rcases getD_set_self_or md index
              (adopt (md.getD i default) (md.getD index default)) default with h | h <;> rw [h]
            rfl
          · rw [h5]
            rcases getD_set_self_or md index
              (adopt (md.getD i default) (md.getD index default)) default with h | h <;> rw [h]
            rfl
        · exact ih (i + 1) found md
    · unfold dedup_loop
      simp [hlt]

theorem dedup_only_candidate (s : imgst_file) (index : Nat) :
    only_candidate_changed s (do_name_and_content_dedup s index).2 index := by
  unfold only_candidate_changed
  refine ⟨(dedup_frame s index).2.1, ?_⟩
  unfold do_name_and_content_dedup
  by_cases h : index < s.header.max_files
  · simp only [h, not_true_eq_false, if_false]
    obtain ⟨h1, h2, h3, h4, h5⟩ :=
      dedup_loop_frame s.header.max_files index s.header.max_files 0 false s.metadata
    generalize dedup_loop s.header.max_files index s.header.max_files 0 false s.metadata = r
      at h1 h2 h3 h4 h5
    obtain ⟨err, found, md⟩ := r
    simp only at h1 h2 h3 h4 h5
    have hcase : ∀ m : img_metadata, m.is_valid = (md.getD index default).is_valid →
        m.res_orig = (md.getD index default).res_orig →
        m.unused_16 = (md.getD index default).unused_16 →
        only_candidate_changed s { s with metadata := md.set index m } index := by
      intro m hm1 hm2 hm3
      refine ⟨rfl, fun j hj => ?_, ?_, ?_, ?_⟩
      · show (md.set index m).getD j default = _
        rw [getD_set_ne _ _ _ _ _ (Ne.symm hj)]; exact h2 j hj
      · show ((md.set index m).getD index default).is_valid = _
        rcases getD_set_self_or md index m default with h | h <;> rw [h]
        · rw [hm1]; exact h3
        · exact h3
      · show ((md.set index m).getD index default).res_orig = _
        rcases getD_set_self_or md index m default with h | h <;> rw [h]
        · rw [hm2]; exact h4
        · exact h4
      · show ((md.set index m).getD index default).unused_16 = _
        rcases getD_set_self_or md index m default with h | h <;> rw [h]
        · rw [hm3]; exact h5
        · exact h5
    have hsame : only_candidate_changed s { s with metadata := md } index :=
      ⟨rfl, h2, h3, h4, h5⟩
    cases err <;> first
      | exact hsame.2
      | (simp only; split
         · refine (hcase _ ?_ ?_ ?_).2 <;> rfl
         · exact hsame.2)
  · rw [if_pos h]
    exact ⟨fun _ _ => rfl, rfl, rfl, rfl⟩

theorem only_candidate_changed_refl (s : imgst_file) (e : Nat) :
    only_candidate_changed s s e :=
  ⟨rfl, fun _ _ => rfl, rfl, rfl, rfl⟩

theorem only_candidate_changed_trans (s s1 s2 : imgst_file) (e : Nat)
    (h1 : only_candidate_changed s s1 e) (h2 : only_candidate_changed s1 s2 e) :
    only_candidate_changed s s2 e :=
  ⟨h2.1.trans h1.1, fun j hj => (h2.2.1 j hj).trans (h1.2.1 j hj),
    h2.2.2.1.trans h1.2.2.1, h2.2.2.2.1.trans h1.2.2.2.1, h2.2.2.2.2.trans h1.2.2.2.2⟩

theorem only_candidate_changed_update (s s1 : imgst_file) (e : Nat) (m : img_metadata)
    (hh : s1.header = s.header) (hmd : s1.metadata = s.metadata.set e m)
    (he : e < s.metadata.length) (hv : m.is_valid = (s.slot e).is_valid)
    (hr : m.res_orig = (s.slot e).res_orig) (hu : m.unused_16 = (s.slot e).unused_16) :
    only_candidate_changed s s1 e := by
  have hs := slot_update s s1 e m hmd he
  refine ⟨hh, fun j hj => ?_, ?_, ?_, ?_⟩
  · rw [hs j, if_neg hj]
  · rw [hs e, if_pos rfl, hv]
  · rw [hs e, if_pos rfl, hr]
  · rw [hs e, if_pos rfl, hu]

theorem insert_finish_failed (lib : img_lib) (b : List Nat) (s : imgst_file) (e : Nat)
    (m1 : img_metadata) (he : e < s.metadata.length)
    (hv : m1.is_valid = (s.slot e).is_valid) (hr : m1.res_orig = (s.slot e).res_orig)
    (hu : m1.unused_16 = (s.slot e).unused_16)
    (hfail : (insert_finish lib b s e m1).1 ≠ ERR_NONE) :
    only_candidate_changed s (insert_finish lib b s e m1).2 e
      ∧ ((insert_finish lib b s e m1).1 = ERR_IO
          ∨ (insert_finish lib b s e m1).1 = ERR_IMGLIB) := by
  unfold insert_finish at hfail ⊢
  by_cases ho : m1.offset.orig = 0
  · rw [if_pos ho] at hfail ⊢
    by_cases hb : b = []
    · rw [if_pos hb]
      exact ⟨only_candidate_changed_update s _ e m1 rfl rfl he hv hr hu, Or.inl rfl⟩
    · rw [if_neg hb] at hfail ⊢
      cases hg : get_resolution lib b with
      | none =>
        exact ⟨only_candidate_changed_update s _ e _ rfl rfl he hv hr hu, Or.inr rfl⟩
      | some p =>
        rw [hg] at hfail
        exact absurd rfl hfail
  · rw [if_neg ho] at hfail ⊢
    cases hg : get_resolution lib b with
    | none =>
      exact ⟨only_candidate_changed_update s _ e m1 rfl rfl he hv hr hu, Or.inr rfl⟩
    | some p =>
      rw [hg] at hfail
      exact absurd rfl hfail

theorem do_insert_dup_eq (lib : img_lib) (b id : List Nat) (s : imgst_file)
    (hlen : s.metadata.length = s.header.max_files) (hmax : s.header.max_files < 2 ^ 32)
    (hid1 : id.length ≤ MAX_IMG_ID) (hid2 : 0 < id.length)
    (hfull : s.header.num_files < s.header.max_files)
    (e : Nat) (he : e < s.header.max_files) (hee : (s.slot e).is_valid = EMPTY)
    (hfirst : ∀ j, j < e → (s.slot j).is_valid ≠ EMPTY)
    (hdup : ∃ j, j < s.header.max_files ∧ holds_id s id j) :
    do_insert lib b id s
      = (ERR_DUPLICATE_ID,
          (do_name_and_content_dedup
            (s.set_slot e (candidate_slot lib b id (s.slot e))) e).2) := by
  have he2 : e < s.metadata.length := by omega
  have hfe := find_empty_and_update_metadata_eq lib b id s hmax e he hee hfirst
  have hmod : e % 2 ^ 32 = e := Nat.mod_eq_of_lt (by omega)
  rcases do_name_and_content_dedup_spec (s.set_slot e (candidate_slot lib b id (s.slot e))) e
      (by simpa [imgst_file.set_slot] using hlen) he with ⟨_, h⟩ | ⟨hno, _⟩
  · unfold do_insert
    simp only [hid1, hid2, hfull, not_true_eq_false, if_false, hfe, hmod, gt_iff_lt]
    rcases hd : do_name_and_content_dedup
      (s.set_slot e (candidate_slot lib b id (s.slot e))) e with ⟨err, s1⟩
    rw [hd] at h
    simp only at h
    subst h
    rfl
  · obtain ⟨j, hj, hj2⟩ := hdup
    exact absurd ((same_id_at_candidate lib b id s e j hid1 he2 hee).2 hj2) (hno j hj)

/-- Every failing `do_insert` on a store with a free slot `e`, the lowest one. -/
theorem do_insert_failed (lib : img_lib) (b id : List Nat) (s : imgst_file)
    (hlen : s.metadata.length = s.header.max_files) (hmax : s.header.max_files < 2 ^ 32)
    (e : Nat) (he : e < s.header.max_files) (hee : (s.slot e).is_valid = EMPTY)
    (hfirst : ∀ j, j < e → (s.slot j).is_valid ≠ EMPTY)
    (hfail : (do_insert lib b id s).1 ≠ ERR_NONE) :
    only_candidate_changed s (do_insert lib b id s).2 e
      ∧ (((do_insert lib b id s).1 = ERR_INVALID_IMGID
            ∨ (do_insert lib b id s).1 = ERR_FULL_IMGSTORE) → (do_insert lib b id s).2 = s) := by
  have he2 : e < s.metadata.length := by omega
  by_cases hid1 : id.length ≤ MAX_IMG_ID
  · by_cases hid2 : 0 < id.length
    · by_cases hfull : s.header.num_files < s.header.max_files
      · have hcand : only_candidate_changed s
            (s.set_slot e (candidate_slot lib b id (s.slot e))) e :=
          only_candidate_changed_update s _ e _ rfl rfl he2 rfl rfl rfl
        by_cases hdup : ∃ j, j < s.header.max_files ∧ holds_id s id j
        · rw [do_insert_dup_eq lib b id s hlen hmax hid1 hid2 hfull e he hee hfirst hdup]
          refine ⟨only_candidate_changed_trans _ _ _ e hcand (dedup_only_candidate _ e), ?_⟩
          rintro (h | h) <;> cases h
        · have hno : ∀ j, j < s.header.max_files → ¬ holds_id s id j :=
            fun j hj hc => hdup ⟨j, hj, hc⟩
          rcases do_insert_nodup lib b id s hlen hmax hid1 hid2 hfull e he hee hfirst hno
            with ⟨k, -, -, -, h⟩ | ⟨-, h⟩
          · rw [h] at hfail ⊢
            obtain ⟨h1, h2⟩ := insert_finish_failed lib b s e
              (adopt (s.slot k) (candidate_slot lib b id (s.slot e))) he2 rfl rfl rfl hfail
            refine ⟨h1, ?_⟩
            rintro (h | h) <;> rcases h2 with h2 | h2 <;> rw [h2] at h <;> cases h
          · rw [h] at hfail ⊢
            obtain ⟨h1, h2⟩ := insert_finish_failed lib b s e
              { candidate_slot lib b id (s.slot e) with
                offset := { (s.slot e).offset with orig := 0 } } he2 rfl rfl rfl hfail
            refine ⟨h1, ?_⟩
            rintro (h | h) <;> rcases h2 with h2 | h2 <;> rw [h2] at h <;> cases h
      · have : do_insert lib b id s = (ERR_FULL_IMGSTORE, s) := by
          unfold do_insert
          simp only [hid1, hid2, hfull, not_true_eq_false, not_false_eq_true, if_false,
            if_true, gt_iff_lt]
        rw [this]
        exact ⟨only_candidate_changed_refl s e, fun _ => rfl⟩
    · have : do_insert lib b id s = (ERR_INVALID_IMGID, s) := by
        unfold do_insert
        simp only [hid1, hid2, not_true_eq_false, not_false_eq_true, if_false, if_true,
          gt_iff_lt]
      rw [this]
      exact ⟨only_candidate_changed_refl s e, fun _ => rfl⟩
  · have : do_insert lib b id s = (ERR_INVALID_IMGID, s) := by
      unfold do_insert
      simp only [hid1, not_false_eq_true, if_true]
    rw [this]
    exact ⟨only_candidate_changed_refl s e, fun _ => rfl⟩

/-- Claim C13, as amended: on an open store that satisfies I1 and whose slots are `EMPTY`
or `NON_EMPTY`, a `do_insert` that fails with `ERR_INVALID_IMGID` or `ERR_FULL_IMGSTORE`
leaves the session as it was; every failing `do_insert` leaves in memory the header, the
`is_valid` of every slot and every valid slot as they were, and changes at most the lowest
empty slot, the candidate, which keeps its `is_valid`, `res_orig` and `unused_16`. -/
theorem C13_failed_insert_in_memory (lib : img_lib) (b id : List Nat) (s : imgst_file)
    (hopen : s.opened) (htyped : slots_typed s) (h1 : I1 s)
    (hfail : (do_insert lib b id s).1 ≠ ERR_NONE) :
    (((do_insert lib b id s).1 = ERR_INVALID_IMGID
          ∨ (do_insert lib b id s).1 = ERR_FULL_IMGSTORE) → (do_insert lib b id s).2 = s)
      ∧ (do_insert lib b id s).2.header = s.header
      ∧ (∀ j, ((do_insert lib b id s).2.slot j).is_valid = (s.slot j).is_valid)
      ∧ (∀ j, (s.slot j).is_valid = NON_EMPTY → (do_insert lib b id s).2.slot j = s.slot j)
      ∧ ∀ e, e < s.header.max_files → (s.slot e).is_valid = EMPTY →
          (∀ j, j < e → (s.slot j).is_valid ≠ EMPTY) →
          only_candidate_changed s (do_insert lib b id s).2 e := by
  obtain ⟨hlen, hmax, -⟩ := hopen
  by_cases hfull : s.header.num_files < s.header.max_files
  · obtain ⟨e0, he0, hee0⟩ := exists_empty_slot s hlen htyped h1 hfull
    obtain ⟨e, he, hee, hfirst⟩ := exists_least (fun j => (s.slot j).is_valid = EMPTY)
      s.header.max_files ⟨e0, he0, hee0⟩
    have hfirst2 : ∀ j, j < e → (s.slot j).is_valid ≠ EMPTY := hfirst
    obtain ⟨hc, hg⟩ := do_insert_failed lib b id s hlen hmax e he hee hfirst2 hfail
    refine ⟨hg, hc.1, fun j => ?_, fun j hj => ?_, fun e1 he1 hee1 hfirst1 =>
      (do_insert_failed lib b id s hlen hmax e1 he1 hee1 hfirst1 hfail).1⟩
    · by_cases hje : j = e
      · rw [hje]; exact hc.2.2.1
      · rw [hc.2.1 j hje]
    · have hje : j ≠ e := by
        rintro rfl
        rw [hee] at hj
        exact absurd hj (by decide)
      exact hc.2.1 j hje
  · have hid : do_insert lib b id s = (ERR_INVALID_IMGID, s)
        ∨ do_insert lib b id s = (ERR_FULL_IMGSTORE, s) := by
      unfold do_insert
      by_cases hid1 : id.length ≤ MAX_IMG_ID
      · by_cases hid2 : 0 < id.length
        · right
          simp only [hid1, hid2, hfull, not_true_eq_false, not_false_eq_true, if_false,
            if_true, gt_iff_lt]
        · left
          simp only [hid1, hid2, not_true_eq_false, not_false_eq_true, if_false, if_true,
            gt_iff_lt]
      · left
        simp only [hid1, not_false_eq_true, if_true]
    have hs : (do_insert lib b id s).2 = s := by
      rcases hid with h | h <;> rw [h]
    rw [hs]
    exact ⟨fun _ => rfl, rfl, fun _ => rfl, fun _ _ => rfl,
      fun e _ _ _ => only_candidate_changed_refl s e⟩

/-- A `do_insert` of the id "a" into `demo_store_1`, which holds "a": the header and the
valid slot 0 are as before. -/
theorem C13_witness :
    (do_insert demo_lib [7, 8, 9] [97] demo_store_1).1 = ERR_DUPLICATE_ID
      ∧ (do_insert demo_lib [7, 8, 9] [97] demo_store_1).2.header = demo_store_1.header
      ∧ (do_insert demo_lib [7, 8, 9] [97] demo_store_1).2.slot 0 = demo_store_1.slot 0 := by
  have h := C13_failed_insert_in_memory demo_lib [7, 8, 9] [97] demo_store_1 (by decide)
    (by decide) (by decide) (by decide)
  exact ⟨by decide, h.2.1, h.2.2.2.1 0 (by decide)⟩

/-- A `do_insert` of the id "a" into `demo_store_1`, which holds "a", fails with
`ERR_DUPLICATE_ID` and leaves the id and the size of the image in the empty slot 1. -/
theorem C13_counterexample :
    (do_insert demo_lib [7, 8, 9] [97] demo_store_1).1 = ERR_DUPLICATE_ID
      ∧ (demo_store_1.slot 1).is_valid = EMPTY
      ∧ (demo_store_1.slot 1).img_id = []
      ∧ ((do_insert demo_lib [7, 8, 9] [97] demo_store_1).2.slot 1).img_id = [97]
      ∧ (demo_store_1.slot 1).size.orig = 0
      ∧ ((do_insert demo_lib [7, 8, 9] [97] demo_store_1).2.slot 1).size.orig = 3
      ∧ (do_insert demo_lib [7, 8, 9] [97] demo_store_1).2.slot 1 ≠ demo_store_1.slot 1 := by
  decide

/-- The header after any call of `do_insert`. -/
theorem do_insert_header (lib : img_lib) (b id : List Nat) (s : imgst_file) :
    ((do_insert lib b id s).1 = ERR_NONE
        ∧ (do_insert lib b id s).2.header
            = { s.header with num_files := (s.header.num_files + 1) % 2 ^ 32,
                              imgst_version := (s.header.imgst_version + 1) % 2 ^ 32 })
      ∨ ((do_insert lib b id s).1 ≠ ERR_NONE ∧ (do_insert lib b id s).2.header = s.header) := by
  unfold do_insert
  by_cases h1 : id.length ≤ MAX_IMG_ID
  · by_cases h2 : id.length > 0
    · by_cases h3 : s.header.num_files < s.header.max_files
      · simp only [h1, h2, h3, not_true_eq_false, if_false]
        generalize hidx : (find_empty_and_update_metadata lib b id s).1 % 2 ^ 32 = idx
        obtain ⟨hf1, hh1⟩ := find_empty_frame lib b id s
        generalize find_empty_and_update_metadata lib b id s = r at hf1 hh1
        obtain ⟨hf2, hh2, hi2⟩ := dedup_frame r.2 idx
        rcases hd : do_name_and_content_dedup r.2 idx with ⟨err, s1⟩
        rw [hd] at hf2 hh2 hi2
        simp only at hf2 hh2 hi2
        by_cases herr : err = ERR_NONE
        · subst herr
          simp only
          by_cases ho : (s1.slot idx).offset.orig = 0
          · simp only [ho, if_true, write_disk_image]
            by_cases hb : b.length = 0
            · simp only [hb, if_true]
              right
              exact ⟨by decide, by rw [hh2, hh1]⟩
            · simp only [hb, if_false]
              cases get_resolution lib b with
              | none =>
                right
                simp only [imgst_file.set_slot]
                exact ⟨by decide, by rw [hh2, hh1]⟩
              | some p =>
                obtain ⟨height, width⟩ := p
                left
                simp only [update_disk_header, update_disk_metadata, imgst_file.set_slot]
                rw [hh2, hh1]
                exact ⟨trivial, rfl⟩
          · simp only [ho, if_false]
            cases get_resolution lib b with
            | none =>
              right
              simp only
              exact ⟨by decide, by rw [hh2, hh1]⟩
            | some p =>
              obtain ⟨height, width⟩ := p
              left
              simp only [update_disk_header, update_disk_metadata, imgst_file.set_slot]
              rw [hh2, hh1]
              exact ⟨trivial, rfl⟩
        · right
          split
          · rename_i heq
            simp only [Prod.mk.injEq] at heq
            exact absurd heq.1 herr
          · rename_i heq
            simp only [Prod.mk.injEq] at heq
            rw [← heq.2, ← heq.1]
            exact ⟨herr, by rw [hh2, hh1]⟩
      · right; simp only [h1, h2, h3, not_true_eq_false, not_false_eq_true, if_false, if_true]
        exact ⟨by decide, trivial⟩
    · right; simp only [h1, h2, not_true_eq_false, not_false_eq_true, if_false, if_true]
      exact ⟨by decide, trivial⟩
  · right; simp only [h1, not_false_eq_true, if_true]
    exact ⟨by decide, trivial⟩

/-- The header after any call of `do_delete`. -/
theorem do_delete_header (id : List Nat) (s : imgst_file)
    (hlen : s.metadata.length = s.header.max_files) :
    ((do_delete id s).1 = ERR_NONE
        ∧ (do_delete id s).2.header
            = { s.header with num_files := (s.header.num_files + 2 ^ 32 - 1) % 2 ^ 32,
                              imgst_version := (s.header.imgst_version + 1) % 2 ^ 32 })
      ∨ ((do_delete id s).1 ≠ ERR_NONE ∧ (do_delete id s).2 = s) := by
  by_cases h1 : id.length ≤ MAX_IMG_ID
  · by_cases h2 : 0 < id.length
    · rcases find_img_id_cases s id with ⟨k, hf⟩ | hn
      · left
        rw [do_delete_eq id s k h1 h2 hlen hf]
        exact ⟨rfl, rfl⟩
      · right
        unfold do_delete
        simp only [h1, h2, not_true_eq_false, if_false, gt_iff_lt, hn]
        exact ⟨by decide, trivial⟩
    · right
      unfold do_delete
      simp only [h1, h2, not_true_eq_false, not_false_eq_true, if_false, if_true, gt_iff_lt]
      exact ⟨by decide, trivial⟩
  · right
    unfold do_delete
    simp only [h1, not_false_eq_true, if_true]
    exact ⟨by decide, trivial⟩

/-- The header after any call of `do_read`. -/
theorem do_read_header (lib : img_lib) (id : List Nat) (r : Int) (s : imgst_file)
    (hlen : s.metadata.length = s.header.max_files) :
    (do_read lib id r s).store.header = s.header := by
  by_cases h1 : id.length ≤ MAX_IMG_ID
  · by_cases h2 : 0 < id.length
    · by_cases h3 : r < (NB_RES : Nat) ∧ r ≥ 0
      · rcases find_img_id_cases s id with ⟨k, hf⟩ | hn
        · obtain ⟨code, hcode, rfl⟩ : ∃ code : Nat,
              (code = RES_THUMB ∨ code = RES_SMALL ∨ code = RES_ORIG) ∧ r = (code : Int) := by
            have : r = 0 ∨ r = 1 ∨ r = 2 := by
              simp only [NB_RES] at h3
              omega
            rcases this with h | h | h
            · exact ⟨RES_THUMB, Or.inl rfl, h⟩
            · exact ⟨RES_SMALL, Or.inr (Or.inl rfl), h⟩
            · exact ⟨RES_ORIG, Or.inr (Or.inr rfl), h⟩
          by_cases ho : (s.slot k).offset.get code ≠ 0 ∨ code = RES_ORIG
          · rw [do_read_present lib id code s k h1 h2 hcode hf ho, read_at_store]
          · push_neg at ho
            have hcode2 : code = RES_THUMB ∨ code = RES_SMALL := by
              rcases hcode with hc | hc | hc
              · exact Or.inl hc
              · exact Or.inr hc
              · exact absurd hc ho.2
            rw [do_read_absent lib id code s k h1 h2 hcode2 hlen hf ho.1]
            cases lib.jpeg_resize (orig_buffer s k) (s.header.res_resized.getD (code * 2) 0)
                (s.header.res_resized.getD (code * 2 + 1) 0) with
            | none => rfl
            | some nb =>
              by_cases hb : nb = []
              · simp only [hb, if_true]
                rfl
              · simp only [hb, if_false, read_at_store]
                rfl
        · unfold do_read
          simp only [h1, h2, h3, not_true_eq_false, if_false, gt_iff_lt, and_self, hn]
      · unfold do_read
        simp only [h1, h2, h3, not_true_eq_false, not_false_eq_true, if_false, if_true,
          gt_iff_lt]
    · unfold do_read
      simp only [h1, h2, not_true_eq_false, not_false_eq_true, if_false, if_true, gt_iff_lt]
  · unfold do_read
    simp only [h1, not_false_eq_true, if_true]

theorem do_list_store (s : imgst_file) (mode : do_list_mode) : (do_list s mode).store = s := by
  unfold do_list
  cases mode
  · simp only
    split <;> rfl
  · rfl

/-- Claim C12, as amended: on an open store, every successful `do_insert` and every
successful `do_delete` leaves `imgst_version` at its former value plus one modulo
`2 ^ 32`, which is strictly greater than the former value unless that was `2 ^ 32 - 1`;
`do_read`, also when it materialises a variant, and `do_list` leave `imgst_version`
unchanged. -/
theorem C12_version (lib : img_lib) (s : imgst_file) (hopen : s.opened) :
    (∀ b id, (do_insert lib b id s).1 = ERR_NONE →
        (do_insert lib b id s).2.header.imgst_version = (s.header.imgst_version + 1) % 2 ^ 32
          ∧ (s.header.imgst_version < 2 ^ 32 - 1 →
              s.header.imgst_version < (do_insert lib b id s).2.header.imgst_version))
      ∧ (∀ id, (do_delete id s).1 = ERR_NONE →
          (do_delete id s).2.header.imgst_version = (s.header.imgst_version + 1) % 2 ^ 32
            ∧ (s.header.imgst_version < 2 ^ 32 - 1 →
                s.header.imgst_version < (do_delete id s).2.header.imgst_version))
      ∧ (∀ id r, (do_read lib id r s).store.header.imgst_version = s.header.imgst_version)
      ∧ ∀ mode, (do_list s mode).store.header.imgst_version = s.header.imgst_version := by
  obtain ⟨hlen, -, -⟩ := hopen
  refine ⟨fun b id h => ?_, fun id h => ?_, fun id r => ?_, fun mode => ?_⟩
  · rcases do_insert_header lib b id s with ⟨_, hh⟩ | ⟨hne, _⟩
    · rw [hh]
      refine ⟨rfl, fun hlt => ?_⟩
      show s.header.imgst_version < (s.header.imgst_version + 1) % 2 ^ 32
      rw [Nat.mod_eq_of_lt (by omega)]
      omega
    · exact absurd h hne
  · rcases do_delete_header id s hlen with ⟨_, hh⟩ | ⟨hne, _⟩
    · rw [hh]
      refine ⟨rfl, fun hlt => ?_⟩
      show s.header.imgst_version < (s.header.imgst_version + 1) % 2 ^ 32
      rw [Nat.mod_eq_of_lt (by omega)]
      omega
    · exact absurd h hne
  · rw [do_read_header lib id r s hlen]
  · rw [do_list_store]

/-- The version of `demo_store_1` is 1: 2 after an insert or a delete, 1 after a read
that materialises the thumbnail and after a listing. -/
theorem C12_witness :
    demo_store_1.header.imgst_version = 1
      ∧ (do_insert demo_lib [1, 2] [98] demo_store_1).2.header.imgst_version = 2
      ∧ (do_delete [97] demo_store_1).2.header.imgst_version = 2
      ∧ (do_read demo_lib [97] 0 demo_store_1).store.header.imgst_version = 1
      ∧ (do_list demo_store_1 do_list_mode.JSON).store.header.imgst_version = 1 := by
  have h := C12_version demo_lib demo_store_1 (by decide)
  refine ⟨by decide, ?_, ?_, ?_, ?_⟩
  · rw [(h.1 [1, 2] [98] (by decide)).1]; decide
  · rw [(h.2.1 [97] (by decide)).1]; decide
  · rw [h.2.2.1]; decide
  · rw [h.2.2.2]; decide

/-- A successful `do_insert` into a store whose version is `2 ^ 32 - 1` leaves the
version at 0. -/
theorem C12_counterexample :
    demo_store_last_version.opened
      ∧ demo_store_last_version.header.imgst_version = 4294967295
      ∧ (do_insert demo_lib [1, 2] [98] demo_store_last_version).1 = ERR_NONE
      ∧ (do_insert demo_lib [1, 2] [98] demo_store_last_version).2.header.imgst_version = 0
      ∧ ¬ (demo_store_last_version.header.imgst_version
            < (do_insert demo_lib [1, 2] [98] demo_store_last_version).2.header.imgst_version) := by
  decide

theorem valid_before_invalidate (s s1 : imgst_file) (k : Nat) (m : img_metadata)
    (hslot : ∀ j, s1.slot j = if j = k then m else s.slot j)
    (hm : m.is_valid ≠ NON_EMPTY) (hv : (s.slot k).is_valid = NON_EMPTY) :
    ∀ i, valid_before s1 i + (if k < i then 1 else 0) = valid_before s i := by
  intro i
  induction i with
  | zero => simp [valid_before]
  | succ n ih =>
    rw [valid_before_succ, valid_before_succ, hslot n]
    by_cases hnk : n = k
    · subst hnk
      rw [if_pos rfl, if_neg hm, if_pos hv, if_pos (Nat.lt_succ_self n)]
      rw [if_neg (Nat.lt_irrefl n)] at ih
      omega
    · rw [if_neg hnk]
      by_cases hkn : k < n
      · rw [if_pos hkn] at ih
        rw [if_pos (show k < n + 1 by omega)]
        omega
      · rw [if_neg hkn] at ih
        rw [if_neg (show ¬ k < n + 1 by omega)]
        omega

theorem read_at_congr (s s1 : imgst_file) (k code : Nat) (hslot : s1.slot k = s.slot k)
    (hlen : s1.file.length = s.file.length)
    (hdrop : s1.file.drop ((s.slot k).offset.get code)
      = s.file.drop ((s.slot k).offset.get code)) :
    (read_at s1 k code).err = (read_at s k code).err
      ∧ (read_at s1 k code).image_buffer = (read_at s k code).image_buffer
      ∧ (read_at s1 k code).image_size = (read_at s k code).image_size := by
  unfold read_at read_disk_image
  rw [hslot, hlen, hdrop]
  by_cases h : (s.slot k).size.get code ≠ 0
      ∧ (s.slot k).offset.get code + (s.slot k).size.get code ≤ s.file.length
  · rw [if_pos h]
    exact ⟨rfl, rfl, rfl⟩
  · rw [if_neg h]
    exact ⟨rfl, rfl, rfl⟩

theorem find_img_id_deleted (s : imgst_file) (k k2 : Nat) (id id2 : List Nat)
    (hlen : s.metadata.length = s.header.max_files) (hnum : s.header.num_files < 2 ^ 32)
    (hne : id2 ≠ id) (hf : find_img_id s id = (ERR_NONE, k))
    (hf2 : find_img_id s id2 = (ERR_NONE, k2)) :
    find_img_id (deleted s k) id2 = (ERR_NONE, k2) := by
  obtain ⟨⟨hk, hkv, hkc, hkid⟩, -⟩ := (find_img_id_iff s id k).mp hf
  obtain ⟨⟨hk2, hk2v, hk2c, hk2id⟩, hmin⟩ := (find_img_id_iff s id2 k2).mp hf2
  have hslot : ∀ j, (deleted s k).slot j
      = if j = k then { s.slot k with is_valid := EMPTY } else s.slot j :=
    fun j => slot_update s (deleted s k) k _ rfl (by omega) j
  have hvb := valid_before_invalidate s (deleted s k) k _ hslot
    (show EMPTY ≠ NON_EMPTY by decide) hkv
  have hkk : k2 ≠ k := by
    rintro rfl
    exact hne (hk2id.symm.trans hkid)
  have hnum2 : (deleted s k).header.num_files + 1 = s.header.num_files := by
    show (s.header.num_files + 2 ^ 32 - 1) % 2 ^ 32 + 1 = s.header.num_files
    have : s.header.num_files + 2 ^ 32 - 1 = s.header.num_files - 1 + 2 ^ 32 := by omega
    rw [this, Nat.add_mod_right, Nat.mod_eq_of_lt (by omega)]
    omega
  have hmax : (deleted s k).header.max_files = s.header.max_files := rfl
  refine (find_img_id_iff (deleted s k) id2 k2).mpr ⟨⟨hk2, ?_, ?_, ?_⟩, fun j hj hm => ?_⟩
  · rw [hslot, if_neg hkk]; exact hk2v
  · have h1 := hvb k2
    rcases Nat.lt_or_ge k k2 with h | h
    · rw [if_pos h] at h1; omega
    · rw [if_neg (by omega)] at h1
      have h2 := valid_before_succ s k2
      rw [if_pos hk2v] at h2
      have h3 := valid_before_mono s (k2 + 1) k (by omega)
      omega
  · rw [hslot, if_neg hkk]; exact hk2id
  · obtain ⟨hj1, hj2, hj3, hj4⟩ := hm
    rw [hslot] at hj2 hj4
    by_cases hjk : j = k
    · rw [if_pos hjk] at hj2
      exact absurd hj2 (show EMPTY ≠ NON_EMPTY by decide)
    · rw [if_neg hjk] at hj2 hj4
      have h3 := valid_before_mono s j k2 (by omega)
      exact hmin j hj ⟨hj1, hj2, by omega, hj4⟩

/-- Claim C16: on an open store that satisfies I1, a successful `do_delete(id)` changes in
memory only `is_valid` of the slot `k` found for `id`, set to 0, and `num_files` and
`imgst_version` of the header: the other fields of slot `k` and every other slot are as
before; and for every other id found in the store whose original lies in the payload
region, `do_read` of the original returns after the delete the code, the bytes and the
size it returned before. -/
theorem C16_delete_is_logical (lib : img_lib) (s : imgst_file) (id : List Nat)
    (hopen : s.opened) (h1 : I1 s)
    (hdel : (do_delete id s).1 = ERR_NONE) :
    ∃ k, find_img_id s id = (ERR_NONE, k)
      ∧ (do_delete id s).2.slot k = { s.slot k with is_valid := 0 }
      ∧ (∀ j, j ≠ k → (do_delete id s).2.slot j = s.slot j)
      ∧ (do_delete id s).2.header
          = { s.header with num_files := (s.header.num_files + 2 ^ 32 - 1) % 2 ^ 32,
                            imgst_version := (s.header.imgst_version + 1) % 2 ^ 32 }
      ∧ ∀ id2 k2, id2 ≠ id → find_img_id s id2 = (ERR_NONE, k2) →
          payload_start s ≤ (s.slot k2).offset.orig →
          (do_read lib id2 (RES_ORIG : Nat) (do_delete id s).2).err
              = (do_read lib id2 (RES_ORIG : Nat) s).err
            ∧ (do_read lib id2 (RES_ORIG : Nat) (do_delete id s).2).image_buffer
              = (do_read lib id2 (RES_ORIG : Nat) s).image_buffer
            ∧ (do_read lib id2 (RES_ORIG : Nat) (do_delete id s).2).image_size
              = (do_read lib id2 (RES_ORIG : Nat) s).image_size := by
  obtain ⟨hlen, hmax, hfile⟩ := hopen
  obtain ⟨hid1, hid2, k, hf⟩ := do_delete_checks id s hdel
  obtain ⟨hk, -, -⟩ := find_img_id_ok s id k hf
  have hnum : s.header.num_files < 2 ^ 32 := by
    have := count_valid_le s.metadata
    unfold I1 at h1
    omega
  have hslot : ∀ j, (deleted s k).slot j
      = if j = k then { s.slot k with is_valid := EMPTY } else s.slot j :=
    fun j => slot_update s (deleted s k) k _ rfl (by omega) j
  rw [do_delete_eq id s k hid1 hid2 hlen hf]
  refine ⟨k, hf, ?_, fun j hj => ?_, rfl, fun id2 k2 hne hf2 horig => ?_⟩
  · rw [hslot, if_pos rfl]; rfl
  · rw [hslot, if_neg hj]
  · have hf3 := find_img_id_deleted s k k2 id id2 hlen hnum hne hf hf2
    have hkk : k2 ≠ k := by
      rintro rfl
      have h2 := (find_img_id_ok s id2 k2 hf2).2.1.2
      have h3 := (find_img_id_ok s id k2 hf).2.1.2
      exact hne (h2.symm.trans h3)
    by_cases hl1 : id2.length ≤ MAX_IMG_ID
    · by_cases hl2 : 0 < id2.length
      · rw [do_read_present lib id2 RES_ORIG s k2 hl1 hl2 (Or.inr (Or.inr rfl)) hf2
            (Or.inr rfl),
          do_read_present lib id2 RES_ORIG (deleted s k) k2 hl1 hl2 (Or.inr (Or.inr rfl)) hf3
            (Or.inr rfl)]
        refine read_at_congr s (deleted s k) k2 RES_ORIG ?_ ?_ ?_
        · rw [hslot, if_neg hkk]
        · exact length_deleted_file s k hk hfile
        · exact drop_deleted_file s k hk _ horig
      · unfold do_read
        simp only [hl1, hl2, not_true_eq_false, not_false_eq_true, if_false, if_true,
          gt_iff_lt, and_self]
    · unfold do_read
      simp only [hl1, not_false_eq_true, if_true, and_self]

/-- Deleting "a" from `demo_store_2`, where "a" and "b" share one payload: slot 0 changes
in `is_valid` only, slot 1 is as before, and "b" is read with its bytes. -/
theorem C16_witness :
    (do_delete [97] demo_store_2).2.slot 0 = { demo_store_2.slot 0 with is_valid := 0 }
      ∧ (do_delete [97] demo_store_2).2.slot 1 = demo_store_2.slot 1
      ∧ (do_read demo_lib [98] 2 demo_store_2).image_buffer = some [7, 8, 9]
      ∧ (do_read demo_lib [98] 2 (do_delete [97] demo_store_2).2).image_buffer
          = some [7, 8, 9] := by
  obtain ⟨k, hk, h2, h3, -, h5⟩ := C16_delete_is_logical demo_lib demo_store_2 [97]
    (by decide) (by decide) (by decide)
  have hk0 : k = 0 := by
    have : find_img_id demo_store_2 [97] = (ERR_NONE, 0) := by decide
    rw [this] at hk
    exact (Prod.mk.inj hk).2.symm
  subst hk0
  have hr : (do_read demo_lib [98] 2 demo_store_2).image_buffer = some [7, 8, 9] := by decide
  refine ⟨h2, h3 1 (by decide), hr, ?_⟩
  have h6 := (h5 [98] 1 (by decide) (by decide) (by decide)).2.1
  exact h6.trans hr

theorem valid_before_congr (s s1 : imgst_file)
    (hv : ∀ j, (s1.slot j).is_valid = (s.slot j).is_valid) :
    ∀ i, valid_before s1 i = valid_before s i := by
  intro i
  induction i with
  | zero => rfl
  | succ n ih => rw [valid_before_succ, valid_before_succ, ih, hv n]

/-- The function `find_img_id` reads `max_files`, `num_files` and, of the slots, `is_valid`
and `img_id` only. -/
theorem find_img_id_congr (s s1 : imgst_file) (id : List Nat)
    (hmax : s1.header.max_files = s.header.max_files)
    (hnum : s1.header.num_files = s.header.num_files)
    (hv : ∀ j, (s1.slot j).is_valid = (s.slot j).is_valid)
    (hid : ∀ j, (s1.slot j).img_id = (s.slot j).img_id) :
    find_img_id s1 id = find_img_id s id := by
  have hlm : ∀ j, listed_match s1 id j ↔ listed_match s id j := by
    intro j
    unfold listed_match
    rw [hmax, hnum, hv j, hid j, valid_before_congr s s1 hv j]
  have hiff : ∀ k, find_img_id s1 id = (ERR_NONE, k) ↔ find_img_id s id = (ERR_NONE, k) := by
    intro k
    rw [find_img_id_iff, find_img_id_iff, hlm k]
    constructor
    · rintro ⟨h1, h2⟩
      exact ⟨h1, fun j hj hc => h2 j hj ((hlm j).mpr hc)⟩
    · rintro ⟨h1, h2⟩
      exact ⟨h1, fun j hj hc => h2 j hj ((hlm j).mp hc)⟩
  rcases find_img_id_cases s id with ⟨k, hk⟩ | hn
  · rw [hk]; exact (hiff k).mpr hk
  · rcases find_img_id_cases s1 id with ⟨k, hk⟩ | hn1
    · have := (hiff k).mp hk
      rw [hn] at this
      cases this
    · rw [hn, hn1]

/-- Claim C14: on an open store, with a codec whose outputs are shorter than `2 ^ 32`
bytes, if `do_read(id, RES_THUMB)` succeeds then an immediately following
`do_read(id, RES_THUMB)` succeeds, returns the same buffer with the same size and leaves
the session, so the file length and every slot, as the first call left it; for the slot
`k` found for `id`, the first call grows the file by exactly the resulting
`size[RES_THUMB]` of slot `k` when `offset[RES_THUMB]` was 0, and leaves the session as it
was when it was not 0. -/
theorem C14_lazy_materialization_cached (lib : img_lib)
    (hcodec : ∀ b w h out, lib.jpeg_resize b w h = some out → out.length < 2 ^ 32)
    (s : imgst_file) (id : List Nat) (hopen : s.opened)
    (hok : (do_read lib id (RES_THUMB : Nat) s).err = ERR_NONE) :
    (do_read lib id (RES_THUMB : Nat) (do_read lib id (RES_THUMB : Nat) s).store).err = ERR_NONE
      ∧ (do_read lib id (RES_THUMB : Nat) (do_read lib id (RES_THUMB : Nat) s).store).image_buffer
          = (do_read lib id (RES_THUMB : Nat) s).image_buffer
      ∧ (do_read lib id (RES_THUMB : Nat) (do_read lib id (RES_THUMB : Nat) s).store).image_size
          = (do_read lib id (RES_THUMB : Nat) s).image_size
      ∧ (do_read lib id (RES_THUMB : Nat) (do_read lib id (RES_THUMB : Nat) s).store).store
          = (do_read lib id (RES_THUMB : Nat) s).store
      ∧ ∀ k, find_img_id s id = (ERR_NONE, k) →
          ((s.slot k).offset.thumb = 0 →
              (do_read lib id (RES_THUMB : Nat) s).store.file.length
                = s.file.length + ((do_read lib id (RES_THUMB : Nat) s).store.slot k).size.thumb)
            ∧ ((s.slot k).offset.thumb ≠ 0 → (do_read lib id (RES_THUMB : Nat) s).store = s) := by
  obtain ⟨hlen, hmax, hfile⟩ := hopen
  obtain ⟨hid1, hid2, -, -⟩ := do_read_checks lib id _ s hok
  have hsame : do_read lib id (RES_THUMB : Nat) (do_read lib id (RES_THUMB : Nat) s).store
        = do_read lib id (RES_THUMB : Nat) s
      ∧ ∀ k, find_img_id s id = (ERR_NONE, k) →
          ((s.slot k).offset.thumb = 0 →
              (do_read lib id (RES_THUMB : Nat) s).store.file.length
                = s.file.length + ((do_read lib id (RES_THUMB : Nat) s).store.slot k).size.thumb)
            ∧ ((s.slot k).offset.thumb ≠ 0 →
                (do_read lib id (RES_THUMB : Nat) s).store = s) := by
    rcases do_read_ok_store lib id _ s hlen hok with h1 |
      ⟨k, code, nb, hcode, hr, hf, ho, hnb, hres, heq⟩
    · refine ⟨by rw [h1], fun k hf => ⟨fun ho => ?_, fun _ => h1⟩⟩
      have hab := do_read_absent lib id RES_THUMB s k hid1 hid2 (Or.inl rfl) hlen hf ho
      cases hres : lib.jpeg_resize (orig_buffer s k)
          (s.header.res_resized.getD (RES_THUMB * 2) 0)
          (s.header.res_resized.getD (RES_THUMB * 2 + 1) 0) with
      | none =>
        rw [hres] at hab
        rw [hab] at hok
        cases hok
      | some nb =>
        rw [hres] at hab
        dsimp only at hab
        by_cases hb : nb = []
        · rw [if_pos hb] at hab
          rw [hab] at hok
          cases hok
        · rw [if_neg hb] at hab
          obtain ⟨hk, -, -⟩ := find_img_id_ok s id k hf
          have hl := length_resized_file s RES_THUMB k nb hk hfile
          rw [hab, read_at_store] at h1
          rw [h1] at hl
          have : nb.length = 0 := by omega
          exact absurd (List.length_eq_zero.1 this) hb
    · have hc : code = RES_THUMB := by
        have : (code : Int) = (RES_THUMB : Nat) := hr.symm
        exact_mod_cast this
      subst hc
      obtain ⟨hk, hkv, -⟩ := find_img_id_ok s id k hf
      have hk2 : k < s.metadata.length := by omega
      have hsl := slot_update s (resized s RES_THUMB k nb) k _ rfl hk2
      have hstore : (do_read lib id (RES_THUMB : Nat) s).store = resized s RES_THUMB k nb := by
        rw [heq, read_at_store]
      have hf1 : find_img_id (resized s RES_THUMB k nb) id = (ERR_NONE, k) := by
        rw [find_img_id_congr s (resized s RES_THUMB k nb) id rfl rfl
          (fun j => by rw [hsl j]; split <;> rename_i h <;> [rw [h]; rfl])
          (fun j => by rw [hsl j]; split <;> rename_i h <;> [rw [h]; rfl])]
        exact hf
      have hoff : ((resized s RES_THUMB k nb).slot k).offset.get RES_THUMB ≠ 0 := by
        rw [hsl k, if_pos rfl]
        show s.file.length ≠ 0
        have := payload_start_pos s
        omega
      refine ⟨?_, fun k1 hfk1 => ?_⟩
      · rw [hstore, do_read_present lib id RES_THUMB _ k hid1 hid2 (Or.inl rfl) hf1
          (Or.inl hoff)]
        exact heq.symm
      · have hkk : k1 = k := by
          rw [hf] at hfk1
          exact (Prod.mk.inj hfk1).2.symm
        subst hkk
        refine ⟨fun _ => ?_, fun hne => absurd ho hne⟩
        rw [hstore, length_resized_file s RES_THUMB k1 nb hk hfile, hsl k1, if_pos rfl]
        show s.file.length + nb.length = s.file.length + nb.length % 2 ^ 32
        rw [Nat.mod_eq_of_lt (hcodec _ _ _ _ hres)]
  obtain ⟨h1, h2⟩ := hsame
  rw [h1]
  exact ⟨hok, rfl, rfl, rfl, h2⟩

/-- Reading twice the thumbnail of "a" in `demo_store_1`, where it is absent: both reads
return the two bytes the codec made, and the file has grown by 2 bytes. -/
theorem C14_witness :
    (do_read demo_lib [97] 0 demo_store_1).err = ERR_NONE
      ∧ (do_read demo_lib [97] 0 demo_store_1).image_buffer = some [64, 64]
      ∧ (do_read demo_lib [97] 0 (do_read demo_lib [97] 0 demo_store_1).store).image_buffer
          = some [64, 64]
      ∧ (do_read demo_lib [97] 0 (do_read demo_lib [97] 0 demo_store_1).store).store.file.length
          = demo_store_1.file.length + 2 := by
  have h := C14_lazy_materialization_cached demo_lib demo_lib_bounded demo_store_1 [97]
    (by decide) (by decide)
  have hb : (do_read demo_lib [97] 0 demo_store_1).image_buffer = some [64, 64] := by decide
  have e1 : (do_read demo_lib [97] 0 (do_read demo_lib [97] 0 demo_store_1).store).store
      = (do_read demo_lib [97] 0 demo_store_1).store := h.2.2.2.1
  have e2 : (do_read demo_lib [97] 0 demo_store_1).store.file.length
      = demo_store_1.file.length
        + ((do_read demo_lib [97] 0 demo_store_1).store.slot 0).size.thumb :=
    (h.2.2.2.2 0 (by decide)).1 (by decide)
  refine ⟨by decide, hb, h.2.1.trans hb, ?_⟩
  rw [e1, e2]
  decide

theorem I6_variants_insert (lib : img_lib) (s : imgst_file) (b id : List Nat)
    (hinv : Inv lib s) (h6 : I6_variants s) (h : (do_insert lib b id s).1 = ERR_NONE) :
    I6_variants (do_insert lib b id s).2 := by
  obtain ⟨_, _, hfull⟩ := do_insert_checks lib b id s h
  obtain ⟨e, m, file0, he, _, _, hst, _, _, _, _, _, hcase⟩ :=
    do_insert_ok lib b id s hinv.length_eq hinv.max_lt (Inv_empty_slot lib s hinv hfull) h
  have he2 : e < s.metadata.length := by rw [hinv.length_eq]; exact he
  have hfile0 : s.file.length ≤ file0.length := by
    rcases hcase with ⟨_, _, _, _, _, hf, _⟩ | ⟨hf, _⟩ <;> rw [hf]
    rw [List.length_append]; omega
  have hlenf : (committed s file0 e m).file.length = file0.length :=
    length_committed_file s file0 e m he (le_trans hinv.file_ge hfile0)
  rw [hst]
  intro j hj hv code hcode ho
  have hsl := slot_update s (committed s file0 e m) e m rfl he2 j
  have hps : payload_start (committed s file0 e m) = payload_start s := rfl
  rw [hsl] at hv ho ⊢
  rw [hps, hlenf]
  by_cases hje : j = e
  · rw [if_pos hje] at ho ⊢
    rcases hcase with ⟨k, hk, hks, _, _, _, hoff, hst, hss⟩ | ⟨_, _, hoff, _⟩
    · rw [hoff] at ho ⊢
      rw [res_array_get_thumb_small m.size (s.slot k).size code hcode hst hss]
      have := h6 k hk hks.1 code hcode ho
      exact ⟨this.1, le_trans this.2 hfile0⟩
    · rw [hoff] at ho
      rcases hcode with hc | hc <;> subst hc <;> exact absurd rfl ho
  · rw [if_neg hje] at hv ho ⊢
    have := h6 j hj hv code hcode ho
    exact ⟨this.1, le_trans this.2 hfile0⟩

theorem I6_variants_delete (lib : img_lib) (s : imgst_file) (id : List Nat) (hinv : Inv lib s)
    (h6 : I6_variants s) (h : (do_delete id s).1 = ERR_NONE) :
    I6_variants (do_delete id s).2 := by
  obtain ⟨hid1, hid2, k, hf⟩ := do_delete_checks id s h
  obtain ⟨hk, _, _⟩ := find_img_id_ok s id k hf
  have hk2 : k < s.metadata.length := by rw [hinv.length_eq]; exact hk
  rw [do_delete_eq id s k hid1 hid2 hinv.length_eq hf]
  intro j hj hv code hcode ho
  have hsl := slot_update s (deleted s k) k { s.slot k with is_valid := EMPTY } rfl hk2 j
  have hps : payload_start (deleted s k) = payload_start s := rfl
  rw [hsl] at hv ho ⊢
  rw [hps, length_deleted_file s k hk hinv.file_ge]
  by_cases hjk : j = k
  · rw [if_pos hjk] at hv
    exact absurd hv (show EMPTY ≠ NON_EMPTY by decide)
  · rw [if_neg hjk] at hv ho ⊢
    exact h6 j hj hv code hcode ho

theorem I6_variants_resized (lib : img_lib) (s : imgst_file) (code k : Nat) (nb : List Nat)
    (hinv : Inv lib s) (h6 : I6_variants s) (hcode : code = RES_THUMB ∨ code = RES_SMALL)
    (hk : k < s.header.max_files) :
    I6_variants (resized s code k nb) := by
  have hk2 : k < s.metadata.length := by rw [hinv.length_eq]; exact hk
  intro j hj hv code1 hcode1 ho
  have hsl := slot_update s (resized s code k nb) k _ rfl hk2 j
  have hps : payload_start (resized s code k nb) = payload_start s := rfl
  rw [hsl] at hv ho ⊢
  rw [hps, length_resized_file s code k nb hk hinv.file_ge]
  by_cases hjk : j = k
  · rw [if_pos hjk] at hv ho ⊢
    subst hjk
    by_cases hcc : code1 = code
    · subst hcc
      show payload_start s ≤ ((s.slot j).offset.set code1 s.file.length).get code1
        ∧ ((s.slot j).offset.set code1 s.file.length).get code1
          + ((s.slot j).size.set code1 (nb.length % 2 ^ 32)).get code1
            ≤ s.file.length + nb.length
      rw [res_array_get_set_eq _ _ _ hcode, res_array_get_set_eq _ _ _ hcode]
      have := Nat.mod_le nb.length (2 ^ 32)
      have := hinv.file_ge
      omega
    · have ho1 : (s.slot j).offset.get code1 ≠ 0 := by
        have : ((s.slot j).offset.set code s.file.length).get code1 ≠ 0 := ho
        rwa [res_array_get_set_ne _ _ _ _ hcode hcode1 hcc] at this
      show payload_start s ≤ ((s.slot j).offset.set code s.file.length).get code1
        ∧ ((s.slot j).offset.set code s.file.length).get code1
          + ((s.slot j).size.set code (nb.length % 2 ^ 32)).get code1
            ≤ s.file.length + nb.length
      rw [res_array_get_set_ne _ _ _ _ hcode hcode1 hcc,
        res_array_get_set_ne _ _ _ _ hcode hcode1 hcc]
      have := h6 j hj hv code1 hcode1 ho1
      omega
  · rw [if_neg hjk] at hv ho ⊢
    have := h6 j hj hv code1 hcode1 ho
    omega

theorem I6_variants_read (lib : img_lib) (s : imgst_file) (id : List Nat) (r : Int)
    (hinv : Inv lib s) (h6 : I6_variants s) (h : (do_read lib id r s).err = ERR_NONE) :
    I6_variants (do_read lib id r s).store := by
  rcases do_read_ok_store lib id r s hinv.length_eq h with h1 |
    ⟨k, code, nb, hcode, _, hf, _, _, _, heq⟩
  · rw [h1]; exact h6
  · obtain ⟨hk, _, _⟩ := find_img_id_ok s id k hf
    rw [heq, read_at_store]
    exact I6_variants_resized lib s code k nb hinv h6 hcode hk

theorem reachable_I6_variants (lib : img_lib) (s : imgst_file) (h : Reachable lib s) :
    I6_variants s := by
  induction h with
  | create max_files res_resized h =>
    intro j _ hv
    have : ((do_create (new_imgst_file max_files res_resized)).2.slot j) = zero_metadata :=
      slot_replicate max_files j
    rw [this] at hv
    exact absurd hv (by decide)
  | insert s b id hs h ih => exact I6_variants_insert lib s b id (reachable_inv lib s hs) ih h
  | delete s id hs h ih => exact I6_variants_delete lib s id (reachable_inv lib s hs) ih h
  | read s id r hs h ih => exact I6_variants_read lib s id r (reachable_inv lib s hs) ih h

/-- Claim C11 (invariant I6): in every state reachable from a freshly created store by
successful `do_insert`, `do_delete` and `do_read` calls, the inserted buffers being taken
from a set `P` (which may hold every buffer), every valid slot has a non-zero
`offset[RES_ORIG]`, every non-zero `offset[v]` is at least
`sizeof(header) + max_files * sizeof(slot)`, and `offset[v] + size[v]` is at most the
file length: for THUMB and SMALL always, for the original when the hasher has no
collision among the buffers of `P`. -/
theorem C11_offsets_in_payload_heap (lib : img_lib) (P : List Nat → Prop) (s : imgst_file)
    (h : ReachableFrom lib P s) (j : Nat) (hj : j < s.header.max_files)
    (hv : (s.slot j).is_valid = NON_EMPTY) :
    (s.slot j).offset.orig ≠ 0
      ∧ (∀ code, code = RES_THUMB ∨ code = RES_SMALL ∨ code = RES_ORIG →
          (s.slot j).offset.get code ≠ 0 →
          sizeof_header + s.header.max_files * sizeof_metadata ≤ (s.slot j).offset.get code)
      ∧ (∀ code, code = RES_THUMB ∨ code = RES_SMALL →
          (s.slot j).offset.get code ≠ 0 →
          (s.slot j).offset.get code + (s.slot j).size.get code ≤ s.file.length)
      ∧ (collision_free_on lib P →
          (s.slot j).offset.get RES_ORIG + (s.slot j).size.get RES_ORIG ≤ s.file.length) := by
  have hr := reachableFrom_reachable lib P s h
  have hinv := reachable_inv lib s hr
  have h6 := reachable_I6_variants lib s hr
  have hge := hinv.orig_ge j hj hv
  have hpos := payload_start_pos s
  refine ⟨by omega, fun code hcode ho => ?_, fun code hcode ho => (h6 j hj hv code hcode ho).2,
    fun hsha => (reachable_payload lib P hsha s h).orig_le j hj hv⟩
  rcases hcode with hc | hc | hc
  · exact (h6 j hj hv code (Or.inl hc) ho).1
  · exact (h6 j hj hv code (Or.inr hc) ho).1
  · subst hc; exact hge

/-- Slot 1 of `demo_store_thumbs`: the thumbnail lies at 501, after the 496 bytes of the
header and the two slots, and ends at 503, the length of the file. -/
theorem C11_witness :
    (demo_store_thumbs.slot 1).offset = ⟨501, 0, 496⟩
      ∧ (demo_store_thumbs.slot 1).size = ⟨2, 0, 3⟩
      ∧ demo_store_thumbs.file.length = 503
      ∧ sizeof_header + demo_store_thumbs.header.max_files * sizeof_metadata = 496
      ∧ 496 ≤ (demo_store_thumbs.slot 1).offset.get RES_THUMB
      ∧ (demo_store_thumbs.slot 1).offset.get RES_THUMB
          + (demo_store_thumbs.slot 1).size.get RES_THUMB ≤ 503 := by
  have h := C11_offsets_in_payload_heap demo_lib (fun b => b = [7, 8, 9]) demo_store_thumbs
    demo_reachableFrom_thumbs 1 (by decide) (by decide)
  have hlen : demo_store_thumbs.file.length = 503 := by decide
  have hps : sizeof_header + demo_store_thumbs.header.max_files * sizeof_metadata = 496 := by
    decide
  refine ⟨by decide, by decide, hlen, hps, ?_, ?_⟩
  · rw [← hps]; exact h.2.1 RES_THUMB (Or.inl rfl) (by decide)
  · rw [← hlen]; exact h.2.2.1 RES_THUMB (Or.inl rfl) (by decide)

theorem valid_before_le (s : imgst_file) (i : Nat) : valid_before s i ≤ i := by
  induction i with
  | zero => simp [valid_before]
  | succ n ih =>
    rw [valid_before_succ]
    split <;> omega

theorem valid_before_lt (s : imgst_file) (j i : Nat) (hji : j < i)
    (hv : (s.slot j).is_valid = NON_EMPTY) : valid_before s j < valid_before s i := by
  have h1 := valid_before_succ s j
  rw [if_pos hv] at h1
  have h2 := valid_before_mono s (j + 1) i hji
  omega

theorem valid_before_surj (s : imgst_file) (k : Nat) :
    ∀ i, k < valid_before s i →
      ∃ j, j < i ∧ (s.slot j).is_valid = NON_EMPTY ∧ valid_before s j = k := by
  intro i
  induction i with
  | zero => intro h; simp [valid_before] at h
  | succ n ih =>
    intro h
    rw [valid_before_succ] at h
    by_cases hk : k < valid_before s n
    · obtain ⟨j, hj, hjv, hjk⟩ := ih hk
      exact ⟨j, by omega, hjv, hjk⟩
    · by_cases hv : (s.slot n).is_valid = NON_EMPTY
      · rw [if_pos hv] at h
        exact ⟨n, Nat.lt_succ_self _, hv, by omega⟩
      · rw [if_neg hv] at h
        omega

theorem valid_before_eq_count_valid (s : imgst_file) :
    ∀ n, n ≤ s.metadata.length → valid_before s n = count_valid (s.metadata.take n) := by
  intro n
  induction n with
  | zero => intro _; simp [valid_before, count_valid]
  | succ n ih =>
    intro h
    have hn : n < s.metadata.length := by omega
    rw [valid_before_succ, ih (by omega), List.take_succ, List.getElem?_eq_getElem hn]
    unfold count_valid
    rw [List.countP_append]
    have hsl : s.slot n = s.metadata[n] := by
      unfold imgst_file.slot
      rw [List.getD_eq_getElem?_getD, List.getElem?_eq_getElem hn]
      rfl
    rw [hsl]
    by_cases hv : (s.metadata[n]).is_valid = NON_EMPTY <;> simp [hv]

/-- A successful `lazily_resize` on a valid slot: nothing is done, or the variant is
materialised. -/
theorem lazily_resize_ok (lib : img_lib) (code : Nat) (s : imgst_file) (k : Nat)
    (hcode : code = RES_THUMB ∨ code = RES_SMALL ∨ code = RES_ORIG)
    (hlen : s.metadata.length = s.header.max_files) (hk : k < s.header.max_files)
    (hv : (s.slot k).is_valid = NON_EMPTY)
    (h : (lazily_resize lib (code : Int) s k).1 = ERR_NONE) :
    ((code = RES_ORIG ∨ (s.slot k).offset.get code ≠ 0)
        ∧ (lazily_resize lib (code : Int) s k).2 = s)
      ∨ ∃ nb, (code = RES_THUMB ∨ code = RES_SMALL) ∧ (s.slot k).offset.get code = 0
          ∧ nb ≠ [] ∧ (lazily_resize lib (code : Int) s k).2 = resized s code k nb := by
  by_cases ho : code = RES_ORIG ∨ (s.slot k).offset.get code ≠ 0
  · left
    refine ⟨ho, ?_⟩
    have hc1 : (code : Int) < (NB_RES : Nat) ∧ (code : Int) ≥ 0 := by
      rcases hcode with h | h | h <;> subst h <;> simp [RES_THUMB, RES_SMALL, RES_ORIG, NB_RES]
    unfold lazily_resize
    simp only [hk, hv, hc1, not_true_eq_false, if_false, and_self, Int.toNat_ofNat]
    by_cases hc : (code : Int) ≠ (RES_ORIG : Nat)
    · have ho2 : (s.slot k).offset.get code ≠ 0 := by
        rcases ho with h | h
        · subst h; exact absurd rfl hc
        · exact h
      simp only [hc, ne_eq, not_false_eq_true, if_true, ho2, if_false]
    · simp only [hc, if_false]
  · right
    push_neg at ho
    have hcode2 : code = RES_THUMB ∨ code = RES_SMALL := by
      rcases hcode with hc | hc | hc
      · exact Or.inl hc
      · exact Or.inr hc
      · exact absurd hc ho.1
    have heq := lazily_resize_eq lib code s k hcode2 hlen hk hv ho.2
    rw [heq] at h ⊢
    cases hres : lib.jpeg_resize (orig_buffer s k) (s.header.res_resized.getD (code * 2) 0)
        (s.header.res_resized.getD (code * 2 + 1) 0) with
    | none =>
      rw [hres] at h
      cases h
    | some nb =>
      rw [hres] at h
      dsimp only at h ⊢
      by_cases hb : nb = []
      · rw [if_pos hb] at h
        cases h
      · rw [if_neg hb]
        exact ⟨nb, hcode2, ho.2, hb, rfl⟩

/-- The read of the original of a valid slot of a store satisfying I1 and I4, by the id
of the slot. -/
theorem do_read_orig (lib : img_lib) (s : imgst_file) (i : Nat)
    (hlen : s.metadata.length = s.header.max_files) (h1 : I1 s) (h4 : I4 s)
    (hi : i < s.header.max_files) (hv : (s.slot i).is_valid = NON_EMPTY)
    (hok : (do_read lib (s.slot i).img_id (RES_ORIG : Nat) s).err = ERR_NONE) :
    (do_read lib (s.slot i).img_id (RES_ORIG : Nat) s).store = s
      ∧ (do_read lib (s.slot i).img_id (RES_ORIG : Nat) s).image_buffer
          = some (orig_image s i)
      ∧ (do_read lib (s.slot i).img_id (RES_ORIG : Nat) s).image_size
          = some (s.slot i).size.orig
      ∧ (orig_image s i).length = (s.slot i).size.orig
      ∧ (s.slot i).size.orig ≠ 0 := by
  obtain ⟨hid1, hid2, -, -⟩ := do_read_checks lib _ _ s hok
  have hf : find_img_id s (s.slot i).img_id = (ERR_NONE, i) := by
    refine find_img_id_found s _ i hlen (le_of_eq h1.symm) hi ⟨hv, rfl⟩ (fun j hj hc => ?_)
    exact h4 j (by omega) i hi (by omega) hc.1 hv hc.2
  have hp := do_read_present lib (s.slot i).img_id RES_ORIG s i hid1 hid2
    (Or.inr (Or.inr rfl)) hf (Or.inr rfl)
  rw [hp] at hok ⊢
  have hg1 : (s.slot i).size.get RES_ORIG = (s.slot i).size.orig := rfl
  have hg2 : (s.slot i).offset.get RES_ORIG = (s.slot i).offset.orig := rfl
  unfold read_at read_disk_image at hok ⊢
  rw [hg1, hg2] at hok ⊢
  by_cases hc : (s.slot i).size.orig ≠ 0
      ∧ (s.slot i).offset.orig + (s.slot i).size.orig ≤ s.file.length
  · rw [if_pos hc]
    refine ⟨rfl, rfl, rfl, ?_, hc.1⟩
    unfold orig_image
    rw [List.length_take, List.length_drop]
    omega
  · rw [if_neg hc] at hok
    cases hok

theorem holds_image_frame (s s1 : imgst_file) (j j1 : Nat) (b x : List Nat)
    (hoff : (s1.slot j1).offset.orig = (s.slot j).offset.orig)
    (hsize : (s1.slot j1).size.orig = (s.slot j).size.orig)
    (hlen : s.file.length ≤ s1.file.length)
    (hdrop : s1.file.drop (s.slot j).offset.orig = (s.file ++ x).drop (s.slot j).offset.orig)
    (h : holds_image s j b) : holds_image s1 j1 b := by
  obtain ⟨h1, h2, h3⟩ := h
  unfold holds_image
  rw [hoff, hsize, hdrop, take_drop_append _ _ _ _ h2]
  exact ⟨h1, by omega, h3⟩

theorem copied_frame (lib : img_lib) (src temp temp1 : imgst_file) (j n : Nat) (x : List Nat)
    (hslot : temp1.slot (valid_before src j) = temp.slot (valid_before src j))
    (hlen : temp.file.length ≤ temp1.file.length)
    (hdrop : temp1.file.drop (temp.slot (valid_before src j)).offset.orig
      = (temp.file ++ x).drop (temp.slot (valid_before src j)).offset.orig)
    (h : copied lib src temp j n) : copied lib src temp1 j n := by
  obtain ⟨h1, h2, h3, h4, h5, h6, h7⟩ := h
  refine ⟨?_, ?_, ?_, ?_, fun hf => ?_, ?_, ?_⟩
  · rw [hslot]; exact h1
  · rw [hslot]; exact h2
  · rw [hslot]; exact h3
  · rw [hslot]; exact h4
  · exact holds_image_frame temp temp1 _ _ _ x (by rw [hslot]) (by rw [hslot]) hlen hdrop
      (h5 hf)
  · rw [hslot]; exact h6
  · rw [hslot]; exact h7

theorem length_orig_image_le (s : imgst_file) (j : Nat) :
    (orig_image s j).length ≤ (s.slot j).size.orig := by
  unfold orig_image
  exact List.length_take_le _ _

/-- The step `do_insert` of the compaction loop, for the valid source slot `i`. -/
theorem gb_insert (lib : img_lib) (src temp : imgst_file) (i : Nat)
    (hi : i < src.header.max_files) (hv : (src.slot i).is_valid = NON_EMPTY)
    (hst : gb_state lib src temp i (valid_before src i))
    (hok : (do_insert lib (orig_image src i) (src.slot i).img_id temp).1 = ERR_NONE) :
    gb_state lib src (do_insert lib (orig_image src i) (src.slot i).img_id temp).2 i
        (valid_before src i + 1)
      ∧ copied lib src (do_insert lib (orig_image src i) (src.slot i).img_id temp).2 i 0 := by
  have hinv := hst.inv
  have hinv1 := Inv_insert lib temp _ _ hinv hok
  obtain ⟨hid1, hid2, hfull⟩ := do_insert_checks lib _ _ temp hok
  obtain ⟨e, m, file0, he, hee, hfirst, heq, _, hmid, hmsha, hmv, hmsz, hcase⟩ :=
    do_insert_ok lib _ _ temp hinv.length_eq hinv.max_lt (Inv_empty_slot lib temp hinv hfull) hok
  have hvle := valid_before_le src i
  have hev : e = valid_before src i := by
    rcases Nat.lt_trichotomy e (valid_before src i) with h | h | h
    · have := hst.used e h
      rw [this] at hee
      exact absurd hee (by decide)
    · exact h
    · exact absurd (hst.free _ (le_refl _) (by omega)) (hfirst _ h)
  subst hev
  have he2 : valid_before src i < temp.metadata.length := by rw [hinv.length_eq]; exact he
  have hsl := committed_slot temp file0 (valid_before src i) m he2
  have hfile0 : temp.file.length ≤ file0.length := by
    rcases hcase with ⟨_, _, _, _, _, hf, _⟩ | ⟨hf, _⟩ <;> rw [hf]
    rw [List.length_append]; omega
  have hlenf : (committed temp file0 (valid_before src i) m).file.length = file0.length :=
    length_committed_file temp file0 _ m he (le_trans hinv.file_ge hfile0)
  have hx : ∃ x, file0 = temp.file ++ x := by
    rcases hcase with ⟨_, _, _, _, _, hf, _⟩ | ⟨hf, _⟩
    · exact ⟨[], by rw [hf, List.append_nil]⟩
    · exact ⟨_, hf⟩
  obtain ⟨x, hx⟩ := hx
  have hmatch : ∀ k, k < temp.header.max_files → holds_sha temp (lib.SHA256 (orig_image src i)) k →
      ∃ j, j < i ∧ (src.slot j).is_valid = NON_EMPTY ∧ valid_before src j = k
        ∧ compare_sha (lib.SHA256 (orig_image src j)) (lib.SHA256 (orig_image src i)) = 0 := by
    intro k hk hks
    have hkv : k < valid_before src i := by
      by_contra hc
      have := hst.free k (by omega) (by rw [← hst.max]; exact hk)
      rw [hks.1] at this
      exact absurd this (by decide)
    obtain ⟨j, hj, hjv, hjk⟩ := valid_before_surj src k i hkv
    refine ⟨j, hj, hjv, hjk, ?_⟩
    have hc := (hst.slots j hj hjv).sha
    rw [hjk] at hc
    rw [← hc]
    exact hks.2
  rw [heq]
  rw [heq] at hinv1
  constructor
  · refine ⟨hinv1, hst.max, hst.res, ?_, fun j hj => ?_, fun j hj1 hj2 => ?_,
      fun j hj hjv => ?_⟩
    · show (temp.header.num_files + 1) % 2 ^ 32 = valid_before src i + 1
      rw [hst.num, Nat.mod_eq_of_lt]
      have := hinv.max_lt
      omega
    · rw [hsl j]
      by_cases hje : j = valid_before src i
      · rw [if_pos hje]; exact hmv
      · rw [if_neg hje]; exact hst.used j (by omega)
    · rw [hsl j, if_neg (by omega)]
      exact hst.free j (by omega) hj2
    · have hlt := valid_before_lt src j i hj hjv
      refine copied_frame lib src temp _ j NB_RES x ?_ ?_ ?_ (hst.slots j hj hjv)
      · rw [hsl, if_neg (by omega)]
      · rw [hlenf]; exact hfile0
      · rw [drop_committed_file temp file0 _ m he _
          (hinv.orig_ge _ (by omega) (hst.slots j hj hjv).valid), hx]
  · refine ⟨?_, ?_, ?_, ?_, fun hf => ?_, fun code _ hc => absurd hc (Nat.not_lt_zero _),
      fun hfw code hcode ho => ?_⟩
    · rw [hsl, if_pos rfl]; exact hmv
    · rw [hsl, if_pos rfl]; exact hmid
    · rw [hsl, if_pos rfl]; exact hmsha
    · rw [hsl, if_pos rfl]; exact hmsz
    · have hblt : (orig_image src i).length < 2 ^ 32 :=
        lt_of_le_of_lt (length_orig_image_le src i) (hf.1 i hi hv)
      rcases hcase with ⟨k, hk, hks, _, _, hf0, hoff, _, _⟩ | ⟨hf0, hb, hoff, _⟩
      · obtain ⟨j, hj, hjv, hjk, hjs⟩ := hmatch k hk hks
        have hsame := hf.2 j (by omega) i hi hjv hv hjs
        have him := (hst.slots j hj hjv).image hf
        rw [hjk, hsame] at him
        refine holds_image_frame temp _ k _ _ [] ?_ ?_ (by rw [hlenf]; exact hfile0) ?_ him
        · rw [hsl, if_pos rfl, hoff]
        · rw [hsl, if_pos rfl, hmsz, Nat.mod_eq_of_lt hblt, him.1]
        · rw [drop_committed_file temp file0 _ m he _ (hinv.orig_ge k hk hks.1), hf0,
            List.append_nil]
      · unfold holds_image
        rw [hsl, if_pos rfl, hmsz, hoff, Nat.mod_eq_of_lt hblt]
        refine ⟨rfl, ?_, ?_⟩
        · rw [hlenf, hf0, List.length_append]
        · show (List.drop temp.file.length (committed temp file0 _ m).file).take _ = _
          rw [drop_committed_file temp file0 _ m he _ hinv.file_ge, hf0, List.drop_left,
            List.take_length]
    · rw [hsl, if_pos rfl] at ho
      rcases hcase with ⟨k, hk, hks, _⟩ | ⟨_, _, hoff, _⟩
      · obtain ⟨j, hj, hjv, _, hjs⟩ := hmatch k hk hks
        exact absurd hjs (hfw j hj hjv)
      · rw [hoff] at ho
        rcases hcode with hc | hc <;> subst hc <;> exact absurd rfl ho

theorem copied_succ (lib : img_lib) (src temp : imgst_file) (i n : Nat)
    (h : copied lib src temp i n)
    (hn : n = RES_THUMB ∨ n = RES_SMALL → (src.slot i).offset.get n ≠ 0 →
      (temp.slot (valid_before src i)).offset.get n ≠ 0) :
    copied lib src temp i (n + 1) := by
  refine ⟨h.valid, h.id, h.sha, h.size, h.image, fun code hcode hlt ho => ?_, h.variants_only⟩
  by_cases hc : code < n
  · exact h.variants code hcode hc ho
  · have : code = n := by omega
    subst this
    exact hn hcode ho

/-- The step `lazily_resize` of the compaction loop, when it materialises the variant
`code` of the slot just inserted for the valid source slot `i`. -/
theorem gb_resized (lib : img_lib) (src temp : imgst_file) (i code : Nat) (nb : List Nat)
    (hst : gb_state lib src temp i (valid_before src i + 1))
    (hcur : copied lib src temp i code)
    (hcode : code = RES_THUMB ∨ code = RES_SMALL)
    (hsrc : (src.slot i).offset.get code ≠ 0) :
    gb_state lib src (resized temp code (valid_before src i) nb) i (valid_before src i + 1)
      ∧ copied lib src (resized temp code (valid_before src i) nb) i (code + 1) := by
  have hinv := hst.inv
  have hvalid := hst.used (valid_before src i) (Nat.lt_succ_self _)
  have hk : valid_before src i < temp.header.max_files := by
    by_contra hc
    have : (temp.slot (valid_before src i)) = default := by
      unfold imgst_file.slot
      rw [List.getD_eq_default]
      rw [hinv.length_eq]
      omega
    rw [this] at hvalid
    exact absurd hvalid (by decide)
  have hk2 : valid_before src i < temp.metadata.length := by rw [hinv.length_eq]; exact hk
  have hsl := slot_update temp (resized temp code (valid_before src i) nb)
    (valid_before src i) _ rfl hk2
  have hlenf := length_resized_file temp code (valid_before src i) nb hk hinv.file_ge
  have hfpos : temp.file.length ≠ 0 := by
    have := hinv.file_ge
    have := payload_start_pos temp
    omega
  constructor
  · refine ⟨Inv_resized lib temp code _ nb hinv hcode hk hvalid, hst.max, hst.res, hst.num,
      fun j hj => ?_, fun j hj1 hj2 => ?_, fun j hj hjv => ?_⟩
    · rw [hsl j]
      by_cases hje : j = valid_before src i
      · rw [if_pos hje]; exact hvalid
      · rw [if_neg hje]; exact hst.used j hj
    · rw [hsl j, if_neg (by omega)]
      exact hst.free j hj1 hj2
    · have hlt := valid_before_lt src j i hj hjv
      refine copied_frame lib src temp _ j NB_RES nb ?_ ?_ ?_ (hst.slots j hj hjv)
      · rw [hsl, if_neg (by omega)]
      · rw [hlenf]; omega
      · exact drop_resized_file temp code _ nb hk _
          (hinv.orig_ge _ (by omega) (hst.slots j hj hjv).valid)
  · refine ⟨?_, ?_, ?_, ?_, fun hf => ?_, fun code1 hcode1 hlt ho => ?_,
      fun hfw code1 hcode1 ho => ?_⟩
    · rw [hsl, if_pos rfl]; exact hcur.valid
    · rw [hsl, if_pos rfl]; exact hcur.id
    · rw [hsl, if_pos rfl]; exact hcur.sha
    · rw [hsl, if_pos rfl]
      show ((temp.slot (valid_before src i)).size.set code (nb.length % 2 ^ 32)).orig = _
      rw [res_array_set_orig _ _ _ hcode]
      exact hcur.size
    · refine holds_image_frame temp _ _ _ _ nb ?_ ?_ (by rw [hlenf]; omega) ?_ (hcur.image hf)
      · rw [hsl, if_pos rfl]
        exact res_array_set_orig _ _ _ hcode
      · rw [hsl, if_pos rfl]
        exact res_array_set_orig _ _ _ hcode
      · exact drop_resized_file temp code _ nb hk _ (hinv.orig_ge _ hk hvalid)
    · rw [hsl, if_pos rfl]
      show ((temp.slot (valid_before src i)).offset.set code temp.file.length).get code1 ≠ 0
      by_cases hcc : code1 = code
      · subst hcc
        rw [res_array_get_set_eq _ _ _ hcode]
        exact hfpos
      · rw [res_array_get_set_ne _ _ _ _ hcode hcode1 hcc]
        exact hcur.variants code1 hcode1 (by omega) ho
    · rw [hsl, if_pos rfl] at ho
      by_cases hcc : code1 = code
      · subst hcc
        exact hsrc
      · have ho2 : ((temp.slot (valid_before src i)).offset.set code temp.file.length).get code1
            ≠ 0 := ho
        rw [res_array_get_set_ne _ _ _ _ hcode hcode1 hcc] at ho2
        exact hcur.variants_only hfw code1 hcode1 ho2

/-- The loop over the resolutions of the compaction loop, for the valid source slot `i`. -/
theorem gb_resize_loop (lib : img_lib) (src : imgst_file) (i : Nat) :
    ∀ fuel res temp, res + fuel = NB_RES →
      gb_state lib src temp i (valid_before src i + 1) → copied lib src temp i res →
      (gbcollect_resize lib src i (valid_before src i) fuel res temp).1 = ERR_NONE →
      gb_state lib src (gbcollect_resize lib src i (valid_before src i) fuel res temp).2 i
          (valid_before src i + 1)
        ∧ copied lib src (gbcollect_resize lib src i (valid_before src i) fuel res temp).2 i
            NB_RES := by
  intro fuel
  induction fuel with
  | zero =>
    intro res temp hres hst hcur _
    have : res = NB_RES := by omega
    subst this
    exact ⟨hst, hcur⟩
  | succ n ih =>
    intro res temp hres hst hcur hok
    have hlt : res < NB_RES := by omega
    have hcode : res = RES_THUMB ∨ res = RES_SMALL ∨ res = RES_ORIG := by
      simp only [NB_RES, RES_THUMB, RES_SMALL, RES_ORIG] at hlt ⊢
      omega
    simp only [gbcollect_resize, hlt, if_true] at hok ⊢
    by_cases ho : (src.slot i).offset.get res ≠ 0
    · rw [if_pos ho] at hok ⊢
      have hinv := hst.inv
      have hvalid := hst.used (valid_before src i) (Nat.lt_succ_self _)
      have hk : valid_before src i < temp.header.max_files := by
        by_contra hc
        have : (temp.slot (valid_before src i)) = default := by
          unfold imgst_file.slot
          rw [List.getD_eq_default]
          rw [hinv.length_eq]
          omega
        rw [this] at hvalid
        exact absurd hvalid (by decide)
      have hlz := lazily_resize_ok lib res temp (valid_before src i) hcode hinv.length_eq hk
        hvalid
      rcases hl : lazily_resize lib (res : Int) temp (valid_before src i) with ⟨err, temp1⟩
      rw [hl] at hok hlz
      by_cases herr : err = ERR_NONE
      · subst herr
        simp only at hok hlz ⊢
        rcases hlz trivial with ⟨hno, ht⟩ | ⟨nb, hcode2, ho2, _, ht⟩
        · subst ht
          refine ih (res + 1) temp1 (by omega) hst (copied_succ lib src temp1 i res hcur ?_) hok
          intro hts _
          rcases hno with hno | hno
          · subst hno
            rcases hts with h | h <;> exact absurd h (by decide)
          · exact hno
        · subst ht
          obtain ⟨h1, h2⟩ := gb_resized lib src temp i res nb hst hcur hcode2 ho
          exact ih (res + 1) _ (by omega) h1 h2 hok
      · exfalso
        cases err <;> first
          | exact herr rfl
          | (simp only at hok; cases hok)
    · rw [if_neg ho] at hok ⊢
      exact ih (res + 1) temp (by omega) hst
        (copied_succ lib src temp i res hcur (fun _ h => absurd h ho)) hok

theorem gb_state_next (lib : img_lib) (src temp : imgst_file) (i : Nat)
    (hv : (src.slot i).is_valid = NON_EMPTY)
    (hst : gb_state lib src temp i (valid_before src i + 1))
    (hcur : copied lib src temp i NB_RES) :
    gb_state lib src temp (i + 1) (valid_before src (i + 1)) := by
  have hs := valid_before_succ src i
  rw [if_pos hv] at hs
  rw [hs]
  refine ⟨hst.inv, hst.max, hst.res, hst.num, hst.used, hst.free, fun j hj hjv => ?_⟩
  by_cases hji : j = i
  · subst hji; exact hcur
  · exact hst.slots j (by omega) hjv

theorem gb_state_skip (lib : img_lib) (src temp : imgst_file) (i : Nat)
    (hv : ¬ (src.slot i).is_valid = NON_EMPTY)
    (hst : gb_state lib src temp i (valid_before src i)) :
    gb_state lib src temp (i + 1) (valid_before src (i + 1)) := by
  have hs := valid_before_succ src i
  rw [if_neg hv] at hs
  rw [hs]
  refine ⟨hst.inv, hst.max, hst.res, hst.num, hst.used, hst.free, fun j hj hjv => ?_⟩
  by_cases hji : j = i
  · subst hji; exact absurd hjv hv
  · exact hst.slots j (by omega) hjv

/-- The loop of `do_gbcollect` over the slots of a source store that satisfies I1 and I4:
when it ends without error, the source session is as it was, the temporary store holds
the valid source slots in order, and the original of every valid source slot from `i` on
was read. -/
theorem gb_loop (lib : img_lib) (src : imgst_file)
    (hlen : src.metadata.length = src.header.max_files) (h1 : I1 src) (h4 : I4 src) :
    ∀ fuel i temp, i + fuel = src.header.max_files →
      gb_state lib src temp i (valid_before src i) →
      (gbcollect_loop lib src.header.max_files fuel i (valid_before src i) src temp).1
        = ERR_NONE →
      (gbcollect_loop lib src.header.max_files fuel i (valid_before src i) src temp).2.1 = src
        ∧ gb_state lib src
            (gbcollect_loop lib src.header.max_files fuel i (valid_before src i) src temp).2.2
            src.header.max_files (valid_before src src.header.max_files)
        ∧ ∀ j, i ≤ j → j < src.header.max_files → (src.slot j).is_valid = NON_EMPTY →
            (do_read lib (src.slot j).img_id (RES_ORIG : Nat) src).err = ERR_NONE := by
  intro fuel
  induction fuel with
  | zero =>
    intro i temp hi hst _
    have : i = src.header.max_files := by omega
    subst this
    exact ⟨rfl, hst, fun j h1 h2 _ => absurd h2 (by omega)⟩
  | succ n ih =>
    intro i temp hi hst hok
    have hlt : i < src.header.max_files := by omega
    simp only [gbcollect_loop, hlt, if_true] at hok ⊢
    by_cases hv : (src.slot i).is_valid = NON_EMPTY
    · rw [if_pos hv] at hok ⊢
      by_cases hr : (do_read lib (src.slot i).img_id (RES_ORIG : Nat) src).err = ERR_NONE
      · obtain ⟨hstore, hbuf, hsz, hblen, _⟩ := do_read_orig lib src i hlen h1 h4 hlt hv hr
        have htake : ((some (orig_image src i)).getD []).take (src.slot i).size.orig
            = orig_image src i := by
          rw [Option.getD_some, ← hblen, List.take_length]
        rw [if_pos hr] at hok ⊢
        rw [hstore, hbuf, hsz, Option.getD_some (a := (src.slot i).size.orig), htake] at hok ⊢
        have hins := gb_insert lib src temp i hlt hv hst
        rcases hd : do_insert lib (orig_image src i) (src.slot i).img_id temp with ⟨err, temp1⟩
        rw [hd] at hok hins
        by_cases herr : err = ERR_NONE
        · subst herr
          simp only at hok hins ⊢
          obtain ⟨hst1, hcur1⟩ := hins trivial
          have hres := gb_resize_loop lib src i NB_RES 0 temp1 (by omega) hst1 hcur1
          rcases hg : gbcollect_resize lib src i (valid_before src i) NB_RES 0 temp1
            with ⟨err2, temp2⟩
          rw [hg] at hok hres
          by_cases herr2 : err2 = ERR_NONE
          · subst herr2
            simp only at hok hres ⊢
            obtain ⟨hst2, hcur2⟩ := hres trivial
            have hnext := gb_state_next lib src temp2 i hv hst2 hcur2
            have hs := valid_before_succ src i
            rw [if_pos hv] at hs
            rw [← hs] at hok ⊢
            obtain ⟨ha, hb, hc⟩ := ih (i + 1) temp2 (by omega) hnext hok
            refine ⟨ha, hb, fun j hj1 hj2 hjv => ?_⟩
            by_cases hji : j = i
            · subst hji; exact hr
            · exact hc j (by omega) hj2 hjv
          · exfalso
            cases err2 <;> first
              | exact herr2 rfl
              | (simp only at hok; cases hok)
        · exfalso
          cases err <;> first
            | exact herr rfl
            | (simp only at hok; cases hok)
      · rw [if_neg hr] at hok
        exact absurd hok hr
    · rw [if_neg hv] at hok ⊢
      have hnext := gb_state_skip lib src temp i hv hst
      have hs : valid_before src (i + 1) = valid_before src i := by
        rw [valid_before_succ, if_neg hv, Nat.add_zero]
      rw [← hs] at hok ⊢
      obtain ⟨ha, hb, hc⟩ := ih (i + 1) temp (by omega) hnext hok
      refine ⟨ha, hb, fun j hj1 hj2 hjv => ?_⟩
      by_cases hji : j = i
      · subst hji; exact absurd hjv hv
      · exact hc j (by omega) hj2 hjv

/-- The store a successful `do_gbcollect` leaves, for a source store that is open and
satisfies I1 and I4. -/
theorem do_gbcollect_spec (lib : img_lib) (src : imgst_file) (hopen : src.opened)
    (h1 : I1 src) (h4 : I4 src) (hok : (do_gbcollect lib src).1 = ERR_NONE) :
    gb_state lib src (do_gbcollect lib src).2 src.header.max_files
        (valid_before src src.header.max_files)
      ∧ ∀ j, j < src.header.max_files → (src.slot j).is_valid = NON_EMPTY →
          (do_read lib (src.slot j).img_id (RES_ORIG : Nat) src).err = ERR_NONE := by
  obtain ⟨hlen, hmax, -⟩ := hopen
  have hinv0 := Inv_create lib src.header.max_files
    [src.header.res_resized.getD 0 0, src.header.res_resized.getD 1 0,
     src.header.res_resized.getD 2 0, src.header.res_resized.getD 3 0] hmax
  have hst0 : gb_state lib src
      (do_create (new_imgst_file src.header.max_files
        [src.header.res_resized.getD 0 0, src.header.res_resized.getD 1 0,
         src.header.res_resized.getD 2 0, src.header.res_resized.getD 3 0])).2
      0 (valid_before src 0) := by
    refine ⟨hinv0, rfl, fun k hk => ?_, rfl, fun j hj => ?_, fun j _ _ => ?_,
      fun j hj _ => absurd hj (Nat.not_lt_zero _)⟩
    · show [src.header.res_resized.getD 0 0, src.header.res_resized.getD 1 0,
        src.header.res_resized.getD 2 0, src.header.res_resized.getD 3 0].getD k 0 = _
      have : k = 0 ∨ k = 1 ∨ k = 2 ∨ k = 3 := by omega
      rcases this with h | h | h | h <;> subst h <;> rfl
    · exact absurd hj (by simp [valid_before])
    · have : (do_create (new_imgst_file src.header.max_files
          [src.header.res_resized.getD 0 0, src.header.res_resized.getD 1 0,
           src.header.res_resized.getD 2 0, src.header.res_resized.getD 3 0])).2.slot j
          = zero_metadata := slot_replicate src.header.max_files j
      rw [this]
      rfl
  have hloop := gb_loop lib src hlen h1 h4 src.header.max_files 0 _ (by omega) hst0
  have hvb0 : valid_before src 0 = 0 := by simp [valid_before]
  rw [hvb0] at hloop
  unfold do_gbcollect at hok ⊢
  simp only [do_create] at hok hloop ⊢
  exact ⟨(hloop hok).2.1, fun j hj hjv => (hloop hok).2.2 j (Nat.zero_le _) hj hjv⟩

theorem count_valid_eq_valid_before (s : imgst_file)
    (hlen : s.metadata.length = s.header.max_files) :
    valid_before s s.header.max_files = count_valid s.metadata := by
  rw [valid_before_eq_count_valid s _ (le_of_eq hlen.symm), ← hlen, List.take_length]

/-- Claim C19: for a source store that is open, satisfies I1 and I4, and whose originals
have sizes that fit a `uint32_t` and digests without collision, when `do_gbcollect`
succeeds the resulting store has the `max_files` and the four resolutions of the source,
its `num_files` is the number of valid source slots, and for every `k` the `k`-th valid
source slot, the valid slot `i` with `k` valid slots before it, is slot `k` of the
result: valid, with the same `img_id`, and `do_read(id, RES_ORIG)` succeeds on the result
with the bytes and the size it returns on the source. -/
theorem C19_compaction_preserves_images (lib : img_lib) (src : imgst_file)
    (hopen : src.opened) (h1 : I1 src) (h4 : I4 src) (hf : originals_faithful lib src)
    (hok : (do_gbcollect lib src).1 = ERR_NONE) :
    (do_gbcollect lib src).2.header.max_files = src.header.max_files
      ∧ (∀ k, k < 4 → (do_gbcollect lib src).2.header.res_resized.getD k 0
          = src.header.res_resized.getD k 0)
      ∧ (do_gbcollect lib src).2.header.num_files = count_valid src.metadata
      ∧ ∀ i k, i < src.header.max_files → (src.slot i).is_valid = NON_EMPTY →
          valid_before src i = k →
          ((do_gbcollect lib src).2.slot k).is_valid = NON_EMPTY
            ∧ ((do_gbcollect lib src).2.slot k).img_id = (src.slot i).img_id
            ∧ (do_read lib (src.slot i).img_id (RES_ORIG : Nat) (do_gbcollect lib src).2).err
                = ERR_NONE
            ∧ (do_read lib (src.slot i).img_id (RES_ORIG : Nat)
                  (do_gbcollect lib src).2).image_buffer
                = (do_read lib (src.slot i).img_id (RES_ORIG : Nat) src).image_buffer
            ∧ (do_read lib (src.slot i).img_id (RES_ORIG : Nat)
                  (do_gbcollect lib src).2).image_size
                = (do_read lib (src.slot i).img_id (RES_ORIG : Nat) src).image_size := by
  obtain ⟨hst, hreads⟩ := do_gbcollect_spec lib src hopen h1 h4 hok
  obtain ⟨hlen, hmax, -⟩ := hopen
  generalize (do_gbcollect lib src).2 = t at hst ⊢
  refine ⟨hst.max, hst.res, ?_, fun i k hi hv hk => ?_⟩
  · rw [hst.num, count_valid_eq_valid_before src hlen]
  · subst hk
    have hc := hst.slots i hi hv
    have hinv := hst.inv
    have hr := hreads i hi hv
    obtain ⟨hid1, hid2, -, -⟩ := do_read_checks lib _ _ src hr
    obtain ⟨-, hbuf, hsz, hblen, hne⟩ := do_read_orig lib src i hlen h1 h4 hi hv hr
    have hk : valid_before src i < t.header.max_files := by
      have := valid_before_lt src i _ hi hv
      have := valid_before_le src src.header.max_files
      rw [hst.max]
      omega
    have hfind : find_img_id t (src.slot i).img_id = (ERR_NONE, valid_before src i) := by
      refine find_img_id_found t _ _ hinv.length_eq (le_of_eq hinv.count.symm) hk
        ⟨hc.valid, hc.id⟩ (fun j hj hh => ?_)
      exact hinv.ids j _ (by omega) hk (by omega) hh.1 hc.valid (hh.2.trans hc.id.symm)
    obtain ⟨him1, him2, him3⟩ := hc.image hf
    have hrt : do_read lib (src.slot i).img_id (RES_ORIG : Nat) t
        = ⟨ERR_NONE, some (orig_image src i), some (orig_image src i).length, t⟩ := by
      rw [do_read_present lib _ RES_ORIG t _ hid1 hid2 (Or.inr (Or.inr rfl)) hfind (Or.inr rfl)]
      have hget : (t.slot (valid_before src i)).size.get RES_ORIG = (orig_image src i).length :=
        him1
      have hgeto : (t.slot (valid_before src i)).offset.get RES_ORIG
          = (t.slot (valid_before src i)).offset.orig := rfl
      have hne2 : (orig_image src i).length ≠ 0 := by rw [hblen]; exact hne
      unfold read_at
      simp only [read_disk_image, hget, hgeto, hne2, ne_eq, not_false_eq_true, him2, and_self,
        if_true, him3]
    rw [hrt, hbuf, hsz, hblen]
    exact ⟨hc.valid, hc.id, rfl, rfl, rfl⟩

/-- Compacting `demo_store_hole`, whose slot 0 is free and whose slot 1 holds "b": the
result has one image, "b", in slot 0, read with its bytes `[1, 2]`. -/
theorem C19_witness :
    (demo_store_hole.slot 0).is_valid = EMPTY
      ∧ (demo_store_hole.slot 1).img_id = [98]
      ∧ (do_gbcollect demo_lib demo_store_hole).2.header.num_files = 1
      ∧ ((do_gbcollect demo_lib demo_store_hole).2.slot 0).is_valid = NON_EMPTY
      ∧ ((do_gbcollect demo_lib demo_store_hole).2.slot 0).img_id = [98]
      ∧ (do_read demo_lib [98] 2 (do_gbcollect demo_lib demo_store_hole).2).image_buffer
          = some [1, 2] := by
  have h := C19_compaction_preserves_images demo_lib demo_store_hole (by decide) (by decide)
    (by decide) (by decide) (by decide)
  have hs := h.2.2.2 1 0 (by decide) (by decide) (by decide)
  have hid : (demo_store_hole.slot 1).img_id = [98] := by decide
  rw [hid] at hs
  have hr : (do_read demo_lib [98] 2 demo_store_hole).image_buffer = some [1, 2] := by decide
  exact ⟨by decide, hid, h.2.2.1.trans (by decide), hs.1, hs.2.1, hs.2.2.2.1.trans hr⟩

/-- Claim C20, as amended: for a source store that is open and satisfies I1 and I4, when
`do_gbcollect` succeeds, for every valid source slot `i`, which is slot `k` of the result
and has the same `img_id` there, and for THUMB and SMALL: a variant whose offset is
non-zero in the source slot has a non-zero offset in the slot of the result; and when no
earlier valid source slot has an original with the same digest, the offset is non-zero in
the slot of the result if and only if it is non-zero in the source slot. -/
theorem C20_compaction_variants (lib : img_lib) (src : imgst_file)
    (hopen : src.opened) (h1 : I1 src) (h4 : I4 src)
    (hok : (do_gbcollect lib src).1 = ERR_NONE) :
    ∀ i k, i < src.header.max_files → (src.slot i).is_valid = NON_EMPTY →
      valid_before src i = k →
      ((do_gbcollect lib src).2.slot k).is_valid = NON_EMPTY
        ∧ ((do_gbcollect lib src).2.slot k).img_id = (src.slot i).img_id
        ∧ ∀ code, code = RES_THUMB ∨ code = RES_SMALL →
            ((src.slot i).offset.get code ≠ 0 →
                ((do_gbcollect lib src).2.slot k).offset.get code ≠ 0)
              ∧ (first_with_content lib src i →
                  (((do_gbcollect lib src).2.slot k).offset.get code ≠ 0
                    ↔ (src.slot i).offset.get code ≠ 0)) := by
  obtain ⟨hst, -⟩ := do_gbcollect_spec lib src hopen h1 h4 hok
  intro i k hi hv hk
  subst hk
  have hc := hst.slots i hi hv
  refine ⟨hc.valid, hc.id, fun code hcode => ⟨fun ho => ?_, fun hfw => ⟨?_, fun ho => ?_⟩⟩⟩
  · exact hc.variants code hcode
      (by rcases hcode with h | h <;> subst h <;> decide) ho
  · exact hc.variants_only hfw code hcode
  · exact hc.variants code hcode
      (by rcases hcode with h | h <;> subst h <;> decide) ho

/-- Compacting `demo_store_thumb_a`: slot 0, "a", has its thumbnail and no small variant
in the source, and so it has in the result. -/
theorem C20_witness :
    (demo_store_thumb_a.slot 0).offset.get RES_THUMB = 499
      ∧ ((do_gbcollect demo_lib demo_store_thumb_a).2.slot 0).offset.get RES_THUMB ≠ 0
      ∧ (demo_store_thumb_a.slot 0).offset.get RES_SMALL = 0
      ∧ ((do_gbcollect demo_lib demo_store_thumb_a).2.slot 0).offset.get RES_SMALL = 0 := by
  have h := C20_compaction_variants demo_lib demo_store_thumb_a (by decide) (by decide)
    (by decide) (by decide) 0 0 (by decide) (by decide) (by decide)
  have h0 : (demo_store_thumb_a.slot 0).offset.get RES_SMALL = 0 := by decide
  refine ⟨by decide, (h.2.2 RES_THUMB (Or.inl rfl)).1 (by decide), h0, ?_⟩
  have h2 := ((h.2.2 RES_SMALL (Or.inr rfl)).2 (by decide)).1
  by_contra hc
  exact h2 hc h0

/-- Compacting `demo_store_thumb_a`: slot 1, "b", has no thumbnail in the source and has
one in the result, taken over at insert from the copy of "a", which has the same SHA. -/
theorem C20_counterexample :
    demo_store_thumb_a.opened ∧ I1 demo_store_thumb_a ∧ I4 demo_store_thumb_a
      ∧ (demo_store_thumb_a.slot 1).is_valid = NON_EMPTY
      ∧ (demo_store_thumb_a.slot 1).img_id = [98]
      ∧ (demo_store_thumb_a.slot 1).offset.get RES_THUMB = 0
      ∧ (do_gbcollect demo_lib demo_store_thumb_a).1 = ERR_NONE
      ∧ ((do_gbcollect demo_lib demo_store_thumb_a).2.slot 1).is_valid = NON_EMPTY
      ∧ ((do_gbcollect demo_lib demo_store_thumb_a).2.slot 1).img_id = [98]
      ∧ ((do_gbcollect demo_lib demo_store_thumb_a).2.slot 1).offset.get RES_THUMB = 499
      ∧ ¬ (((do_gbcollect demo_lib demo_store_thumb_a).2.slot 1).offset.get RES_THUMB ≠ 0
            ↔ (demo_store_thumb_a.slot 1).offset.get RES_THUMB ≠ 0) := by
  decide

/-- Claim C24: for every requested `max_files` and resolution caps, `do_create` returns
`ERR_NONE` and leaves a header whose `imgst_name` is "EPFL ImgStore binary", with
`imgst_version = 0`, `num_files = 0`, and `max_files` and the resolution caps as
requested, a metadata array of `max_files` slots, every slot with `is_valid = 0`, and a
file that is the header record followed by the `max_files` slot records, of length
`sizeof(header) + max_files * sizeof(slot)`. -/
theorem C24_create_postcondition (DBFILE : imgst_file) :
    (do_create DBFILE).1 = ERR_NONE
      ∧ (do_create DBFILE).2.header.imgst_name = CAT_TXT
      ∧ (do_create DBFILE).2.header.imgst_version = 0
      ∧ (do_create DBFILE).2.header.num_files = 0
      ∧ (do_create DBFILE).2.header.max_files = DBFILE.header.max_files
      ∧ (do_create DBFILE).2.header.res_resized = DBFILE.header.res_resized
      ∧ (do_create DBFILE).2.metadata.length = DBFILE.header.max_files
      ∧ (∀ j, ((do_create DBFILE).2.slot j).is_valid = 0)
      ∧ (do_create DBFILE).2.file
          = header_bytes (do_create DBFILE).2.header
            ++ ((do_create DBFILE).2.metadata.map metadata_bytes).flatten
      ∧ (do_create DBFILE).2.file.length
          = sizeof_header + DBFILE.header.max_files * sizeof_metadata := by
  refine ⟨rfl, show CAT_TXT.take MAX_IMGST_NAME = CAT_TXT by decide, rfl, rfl, rfl, rfl, ?_,
    fun j => ?_, rfl, ?_⟩
  · simp [do_create]
  · have : (do_create DBFILE).2.slot j = zero_metadata := slot_replicate _ j
    rw [this]
    rfl
  · show (header_bytes _ ++ _).length = _
    rw [List.length_append, length_header_bytes, length_flatten_metadata,
      List.length_replicate]

/-- Claim C27: `resolution_atoi` returns `RES_ORIG` (2) exactly for "original" and "orig",
`RES_THUMB` (0) exactly for "thumbnail" and "thumb", `RES_SMALL` (1) exactly for "small",
and -1 exactly for every other string and for `NULL`; "Original", with a capital, gives
-1. -/
theorem C27_resolution_atoi (resolution : Option (List Nat)) :
    (resolution_atoi resolution = 2 ↔
        resolution = some [111, 114, 105, 103, 105, 110, 97, 108]
          ∨ resolution = some [111, 114, 105, 103])
      ∧ (resolution_atoi resolution = 0 ↔
          resolution = some [116, 104, 117, 109, 98, 110, 97, 105, 108]
            ∨ resolution = some [116, 104, 117, 109, 98])
      ∧ (resolution_atoi resolution = 1 ↔ resolution = some [115, 109, 97, 108, 108])
      ∧ (resolution_atoi resolution = -1 ↔
          resolution ≠ some [111, 114, 105, 103, 105, 110, 97, 108]
            ∧ resolution ≠ some [111, 114, 105, 103]
            ∧ resolution ≠ some [116, 104, 117, 109, 98, 110, 97, 105, 108]
            ∧ resolution ≠ some [116, 104, 117, 109, 98]
            ∧ resolution ≠ some [115, 109, 97, 108, 108])
      ∧ resolution_atoi none = -1
      ∧ resolution_atoi (some [79, 114, 105, 103, 105, 110, 97, 108]) = -1 := by
  refine ⟨?_, ?_, ?_, ?_, rfl, by decide⟩
  all_goals
    cases resolution with
    | none => simp [resolution_atoi]
    | some r =>
      simp only [resolution_atoi, strcmp_eq_zero, RES_ORIG, RES_THUMB, RES_SMALL,
        Option.some.injEq]
      by_cases h1 : r = [111, 114, 105, 103, 105, 110, 97, 108]
      · subst h1; simp
      · by_cases h2 : r = [111, 114, 105, 103]
        · subst h2; simp
        · by_cases h3 : r = [116, 104, 117, 109, 98, 110, 97, 105, 108]
          · subst h3; simp
          · by_cases h4 : r = [116, 104, 117, 109, 98]
            · subst h4; simp
            · by_cases h5 : r = [115, 109, 97, 108, 108]
              · subst h5; simp
              · simp [h1, h2, h3, h4, h5]

/-- Claim C22, the code at the failing input: `do_open` returns `ERR_INVALID_ARGUMENT` for
no mode string, and the file on the disk is as `fopen`, called with that mode, leaves it.
With the mode "wb" on the file of `demo_store_1`, `fopen` empties the file and `do_open`
returns `ERR_IO`; with the mode "r+b" the store is opened. -/
theorem C22_open_mode_not_checked :
    (∀ fopen disk open_mode, (do_open fopen disk open_mode).1 ≠ ERR_INVALID_ARGUMENT)
      ∧ (∀ fopen disk open_mode,
          (do_open fopen disk open_mode).2.2 = (fopen disk open_mode).2)
      ∧ do_open std_fopen (some demo_store_1.file) [119, 98] = ( ERR_IO, none, some [])
      ∧ (do_open std_fopen (some demo_store_1.file) [114, 43, 98]).1 = ERR_NONE := by
  have hmode : ∀ open_mode : List Nat,
      strcmp open_mode [114, 98] ≠ 0 ∨ strcmp open_mode [114, 98, 43] ≠ 0 := by
    intro open_mode
    by_cases h : strcmp open_mode [114, 98] = 0
    · right
      rw [(strcmp_eq_zero _ _).mp h]
      decide
    · exact Or.inl h
  refine ⟨fun fopen disk open_mode => ?_, fun fopen disk open_mode => ?_, by decide, by decide⟩
  · unfold do_open
    rw [if_neg (not_not.mpr (hmode open_mode))]
    rcases fopen disk open_mode with ⟨_ | file, disk1⟩
    · simp
    · simp only
      split
      · simp
      · split <;> simp
  · unfold do_open
    rw [if_neg (not_not.mpr (hmode open_mode))]
    rcases fopen disk open_mode with ⟨_ | file, disk1⟩
    · rfl
    · simp only
      split
      · rfl
      · split <;> rfl

/-- Opening the file a session has written gives back the header and the slots of the
session. -/
theorem do_open_after_do_create :
    do_open std_fopen (some demo_store_0.file) [114, 98, 43]
        = (ERR_NONE, some demo_store_0, some demo_store_0.file)
      ∧ do_open std_fopen (some demo_store_2.file) [114, 98]
        = (ERR_NONE, some demo_store_2, some demo_store_2.file) := by
  decide

theorem do_list_loop_eq (s : imgst_file) :
    ∀ fuel i v, i + fuel = s.header.max_files →
      v + valid_before s s.header.max_files ≤ s.header.num_files + valid_before s i →
      do_list_loop s fuel i v
        = ((List.range' i fuel).filter
            (fun j => decide ((s.slot j).is_valid = NON_EMPTY))).map s.slot := by
  intro fuel
  induction fuel with
  | zero => intro i v _ _; rfl
  | succ n ih =>
    intro i v hi hv
    have hlt : i < s.header.max_files := by omega
    have hsucc := valid_before_succ s i
    have hmono := valid_before_mono s (i + 1) s.header.max_files (by omega)
    rw [List.range'_succ]
    simp only [do_list_loop]
    by_cases hval : (s.slot i).is_valid = NON_EMPTY
    · rw [if_pos hval] at hsucc
      rw [if_pos ⟨hlt, by omega⟩, if_pos hval, List.filter_cons_of_pos (by simpa using hval),
        List.map_cons, ih (i + 1) (v + 1) (by omega) (by omega)]
    · rw [if_neg hval] at hsucc
      rw [List.filter_cons_of_neg (by simpa using hval)]
      by_cases hc : v < s.header.num_files
      · rw [if_pos ⟨hlt, hc⟩, if_neg hval, ih (i + 1) v (by omega) (by omega)]
      · rw [if_neg (fun h => hc h.2)]
        have hnil : (List.range' (i + 1) n).filter
            (fun j => decide ((s.slot j).is_valid = NON_EMPTY)) = [] := by
          rw [List.filter_eq_nil_iff]
          intro j hj hjv
          rw [List.mem_range'_1] at hj
          have hjv2 : (s.slot j).is_valid = NON_EMPTY := by simpa using hjv
          have h1 := valid_before_lt s j s.header.max_files (by omega) hjv2
          have h2 := valid_before_mono s i j (by omega)
          omega
        rw [hnil]
        rfl

/-- Claim C25 (structured list): for every store whose metadata array has `max_files`
slots and which satisfies I1, `do_list` in JSON mode returns the object whose single key
"Images" holds exactly the `img_id` of the slots with `is_valid = 1`, each once, in
increasing slot-index order; the array is empty when `num_files = 0`; the store is not
modified. -/
theorem C25_list_json (s : imgst_file) (hlen : s.metadata.length = s.header.max_files)
    (h1 : I1 s) :
    (do_list s do_list_mode.JSON).images
        = some (((List.range s.header.max_files).filter
            (fun j => decide ((s.slot j).is_valid = 1))).map (fun j => (s.slot j).img_id))
      ∧ (s.header.num_files = 0 → (do_list s do_list_mode.JSON).images = some [])
      ∧ (do_list s do_list_mode.JSON).store = s := by
  have hvb : valid_before s s.header.max_files = s.header.num_files := by
    rw [count_valid_eq_valid_before s hlen]
    exact h1.symm
  have hvb0 : valid_before s 0 = 0 := by simp [valid_before]
  have hloop := do_list_loop_eq s s.header.max_files 0 0 (by omega) (by omega)
  have himg : (do_list s do_list_mode.JSON).images
      = some (((List.range s.header.max_files).filter
          (fun j => decide ((s.slot j).is_valid = 1))).map (fun j => (s.slot j).img_id)) := by
    show some ((do_list_loop s s.header.max_files 0 0).map (fun m => m.img_id)) = _
    rw [hloop, List.range_eq_range', List.map_map]
    rfl
  refine ⟨himg, fun h0 => ?_, rfl⟩
  rw [himg]
  have hnil : (List.range s.header.max_files).filter
      (fun j => decide ((s.slot j).is_valid = 1)) = [] := by
    rw [List.filter_eq_nil_iff]
    intro j hj hjv
    rw [List.mem_range] at hj
    have hjv2 : (s.slot j).is_valid = NON_EMPTY := by simpa using hjv
    have := valid_before_lt s j s.header.max_files hj hjv2
    omega
  rw [hnil]
  rfl

/-- Claim C25 on the store holding "a" and "b", and on the empty store. -/
theorem C25_witness :
    (do_list demo_store_2 do_list_mode.JSON).images = some [[97], [98]]
      ∧ (do_list demo_store_0 do_list_mode.JSON).images = some [] := by
  have h := C25_list_json demo_store_2 (by decide) (by decide)
  have h0 := C25_list_json demo_store_0 (by decide) (by decide)
  exact ⟨h.1.trans (by decide), h0.2.1 (by decide)⟩

theorem dedup_loop_codes (max_files index : Nat) :
    ∀ fuel i found (md : List img_metadata),
      (dedup_loop max_files index fuel i found md).1 = ERR_NONE
        ∨ (dedup_loop max_files index fuel i found md).1 = ERR_DUPLICATE_ID := by
  intro fuel
  induction fuel with
  | zero => intro i found md; left; rfl
  | succ n ih =>
    intro i found md
    by_cases hlt : i < max_files
    · rw [dedup_loop_step _ _ _ _ _ _ hlt]
      split
      · right; rfl
      · split
        · exact ih _ _ _
        · exact ih _ _ _
    · unfold dedup_loop
      simp [hlt]

theorem dedup_codes (s : imgst_file) (index : Nat) :
    (do_name_and_content_dedup s index).1 = ERR_NONE
      ∨ (do_name_and_content_dedup s index).1 = ERR_DUPLICATE_ID
      ∨ (do_name_and_content_dedup s index).1 = ERR_INVALID_ARGUMENT := by
  unfold do_name_and_content_dedup
  by_cases h : index < s.header.max_files
  · rw [if_neg (not_not.mpr h)]
    have hc := dedup_loop_codes s.header.max_files index s.header.max_files 0 false s.metadata
    rcases hl : dedup_loop s.header.max_files index s.header.max_files 0 false s.metadata
      with ⟨err, found, md⟩
    rw [hl] at hc
    rcases hc with hc | hc
    · left
      simp only at hc
      subst hc
      simp only
      split <;> rfl
    · right; left
      simp only at hc
      subst hc
      rfl
  · rw [if_pos h]
    right; right; rfl

theorem do_insert_codes (lib : img_lib) (b id : List Nat) (s : imgst_file)
    (h1 : id.length ≤ MAX_IMG_ID) (h2 : id.length > 0) :
    (do_insert lib b id s).1 = ERR_NONE
      ∨ (do_insert lib b id s).1 = ERR_FULL_IMGSTORE
      ∨ (do_insert lib b id s).1 = ERR_DUPLICATE_ID
      ∨ (do_insert lib b id s).1 = ERR_INVALID_ARGUMENT
      ∨ (do_insert lib b id s).1 = ERR_IO ∨ (do_insert lib b id s).1 = ERR_IMGLIB := by
  unfold do_insert
  by_cases h3 : s.header.num_files < s.header.max_files
  · simp only [h1, h2, h3, not_true_eq_false, if_false]
    generalize (find_empty_and_update_metadata lib b id s).1 % 2 ^ 32 = idx
    generalize find_empty_and_update_metadata lib b id s = r
    have hc := dedup_codes r.2 idx
    rcases hd : do_name_and_content_dedup r.2 idx with ⟨err, s1⟩
    rw [hd] at hc
    simp only at hc
    rcases hc with hc | hc | hc
    · subst hc
      simp only
      by_cases ho : (s1.slot idx).offset.orig = 0
      · simp only [ho, if_true, write_disk_image]
        by_cases hb : b.length = 0
        · simp only [hb, if_true]
          right; right; right; right; left; trivial
        · simp only [hb, if_false]
          cases get_resolution lib b with
          | none => right; right; right; right; right; trivial
          | some p =>
            obtain ⟨height, width⟩ := p
            left
            simp only [update_disk_header, update_disk_metadata]
      · simp only [ho, if_false]
        cases get_resolution lib b with
        | none => right; right; right; right; right; trivial
        | some p =>
          obtain ⟨height, width⟩ := p
          left
          simp only [update_disk_header, update_disk_metadata]
    · subst hc
      right; right; left; rfl
    · subst hc
      right; right; right; left; rfl
  · right; left
    simp only [h1, h2, h3, not_true_eq_false, not_false_eq_true, if_false, if_true]

theorem resize_image_codes (lib : img_lib) (code : Nat) (s : imgst_file) (k : Nat) :
    (resize_image lib code s k).1 = ERR_NONE ∨ (resize_image lib code s k).1 = ERR_IMGLIB
      ∨ (resize_image lib code s k).1 = ERR_IO := by
  unfold resize_image
  dsimp only
  generalize lib.jpeg_resize _ _ _ = r
  cases r with
  | none => right; left; rfl
  | some nb =>
    by_cases hb : nb.length = 0
    · right; right
      simp only [write_disk_image, hb, if_true]
    · left
      simp only [write_disk_image, hb, if_false]

theorem lazily_resize_codes (lib : img_lib) (code : Int) (s : imgst_file) (k : Nat) :
    (lazily_resize lib code s k).1 = ERR_NONE
      ∨ (lazily_resize lib code s k).1 = ERR_INVALID_ARGUMENT
      ∨ (lazily_resize lib code s k).1 = ERR_RESOLUTIONS
      ∨ (lazily_resize lib code s k).1 = ERR_IMGLIB
      ∨ (lazily_resize lib code s k).1 = ERR_IO := by
  unfold lazily_resize
  split
  · right; left; rfl
  · split
    · right; left; rfl
    · split
      · right; right; left; rfl
      · split
        · split
          · have hc := resize_image_codes lib code.toNat s k
            rcases hr : resize_image lib code.toNat s k with ⟨err, s1⟩
            rw [hr] at hc
            simp only at hc
            rcases hc with hc | hc | hc
            · subst hc; left; rfl
            · subst hc; right; right; right; left; rfl
            · subst hc; right; right; right; right; rfl
          · left; rfl
        · left; rfl

theorem read_disk_image_codes (file : List Nat) (size offset : Nat) :
    (read_disk_image file size offset).1 = ERR_NONE
      ∨ (read_disk_image file size offset).1 = ERR_IO := by
  unfold read_disk_image
  split
  · left; rfl
  · right; rfl

theorem do_read_codes (lib : img_lib) (id : List Nat) (r : Int) (s : imgst_file)
    (h1 : id.length ≤ MAX_IMG_ID) (h2 : 0 < id.length) :
    (do_read lib id r s).err ≠ ERR_INVALID_IMGID := by
  unfold do_read
  simp only [h1, h2, not_true_eq_false, if_false, gt_iff_lt]
  split
  · simp
  · rcases find_img_id_cases s id with ⟨k, hk⟩ | hn
    · rw [hk]
      simp only
      have hrc : ∀ p : error_code × imgst_file, p.1 ≠ ERR_INVALID_IMGID →
          (match p with
            | (ERR_NONE, s1) =>
              match read_disk_image s1.file ((s1.slot k).size.get r.toNat)
                  ((s1.slot k).offset.get r.toNat) with
              | (ERR_NONE, image) =>
                (⟨ERR_NONE, some image, some ((s1.slot k).size.get r.toNat), s1⟩ : read_result)
              | (err, _) => ⟨err, none, some ((s1.slot k).size.get r.toNat), s1⟩
            | (err, s1) => ⟨err, none, none, s1⟩).err ≠ ERR_INVALID_IMGID := by
        rintro ⟨err, s1⟩ hp
        simp only at hp
        cases err <;> first
          | exact absurd rfl hp
          | (simp only; exact hp)
          | (simp only
             have hq := read_disk_image_codes s1.file ((s1.slot k).size.get r.toNat)
               ((s1.slot k).offset.get r.toNat)
             rcases hqe : read_disk_image s1.file ((s1.slot k).size.get r.toNat)
               ((s1.slot k).offset.get r.toNat) with ⟨e, img⟩
             rw [hqe] at hq
             rcases hq with hq | hq <;> simp only at hq <;> subst hq <;> simp)
      apply hrc
      split
      · have := lazily_resize_codes lib r s k
        rcases this with h | h | h | h | h <;> rw [h] <;> decide
      · simp
    · rw [hn]
      simp

theorem do_delete_codes (id : List Nat) (s : imgst_file)
    (h1 : id.length ≤ MAX_IMG_ID) (h2 : 0 < id.length) :
    (do_delete id s).1 ≠ ERR_INVALID_IMGID := by
  unfold do_delete
  simp only [h1, h2, not_true_eq_false, if_false, gt_iff_lt]
  rcases find_img_id_cases s id with ⟨k, hk⟩ | hn
  · rw [hk]
    simp [update_disk_metadata, update_disk_header]
  · rw [hn]
    simp

/-- Claim C26 (image-id validation): for every store and every buffer and resolution,
`do_insert`, `do_read` and `do_delete` return `ERR_INVALID_IMGID` when `img_id` is empty or
longer than 127 bytes, and leave the store as it was; for an `img_id` of length 1 to 127
none of the three returns `ERR_INVALID_IMGID`. -/
theorem C26_img_id_validation (lib : img_lib) (b id : List Nat) (r : Int) (s : imgst_file) :
    ((id.length = 0 ∨ 127 < id.length) →
        do_insert lib b id s = (ERR_INVALID_IMGID, s)
          ∧ (do_read lib id r s).err = ERR_INVALID_IMGID ∧ (do_read lib id r s).store = s
          ∧ do_delete id s = (ERR_INVALID_IMGID, s))
      ∧ (1 ≤ id.length ∧ id.length ≤ 127 →
        (do_insert lib b id s).1 ≠ ERR_INVALID_IMGID
          ∧ (do_read lib id r s).err ≠ ERR_INVALID_IMGID
          ∧ (do_delete id s).1 ≠ ERR_INVALID_IMGID) := by
  constructor
  · intro h
    unfold do_insert do_read do_delete
    rcases h with h | h
    · simp [h, MAX_IMG_ID]
    · have h1 : ¬ id.length ≤ MAX_IMG_ID := by simp only [MAX_IMG_ID]; omega
      simp [h1]
  · rintro ⟨h2, h1⟩
    have h1' : id.length ≤ MAX_IMG_ID := h1
    refine ⟨?_, do_read_codes lib id r s h1' h2, do_delete_codes id s h1' h2⟩
    intro hc
    have := do_insert_codes lib b id s h1' h2
    rw [hc] at this
    revert this
    decide

/-- Claim C26 with the empty id and with the id "a" on `demo_store_1`. -/
theorem C26_witness :
    (do_insert demo_lib [7, 8, 9] [] demo_store_1 = (ERR_INVALID_IMGID, demo_store_1)
        ∧ (do_read demo_lib [] 2 demo_store_1).err = ERR_INVALID_IMGID
        ∧ (do_read demo_lib [] 2 demo_store_1).store = demo_store_1
        ∧ do_delete [] demo_store_1 = (ERR_INVALID_IMGID, demo_store_1))
      ∧ ((do_insert demo_lib [7, 8, 9] [97] demo_store_1).1 ≠ ERR_INVALID_IMGID
        ∧ (do_read demo_lib [97] 2 demo_store_1).err ≠ ERR_INVALID_IMGID
        ∧ (do_delete [97] demo_store_1).1 ≠ ERR_INVALID_IMGID) :=
  ⟨(C26_img_id_validation demo_lib [7, 8, 9] [] 2 demo_store_1).1 (Or.inl rfl),
    (C26_img_id_validation demo_lib [7, 8, 9] [97] 2 demo_store_1).2 (by decide)⟩

theorem write_disk_image_on_true (s : imgst_file) (buffer : List Nat) :
    write_disk_image_on true s buffer = write_disk_image s buffer := by
  simp [write_disk_image_on, write_disk_image]

theorem resize_image_on_true (lib : img_lib) (code : Nat) (s : imgst_file) (k : Nat) :
    resize_image_on true lib code s k = resize_image lib code s k := by
  simp only [resize_image_on, resize_image, write_disk_image_on_true]

theorem lazily_resize_on_true (lib : img_lib) (code : Int) (s : imgst_file) (k : Nat) :
    lazily_resize_on true lib code s k = lazily_resize lib code s k := by
  simp only [lazily_resize_on, lazily_resize, resize_image_on_true]

theorem resize_image_on_eq (fwrite_ok : Bool) (lib : img_lib) (code : Nat) (s : imgst_file)
    (k : Nat) (hk : k < s.metadata.length) :
    resize_image_on fwrite_ok lib code s k =
      match lib.jpeg_resize (orig_buffer s k) (s.header.res_resized.getD (code * 2) 0)
          (s.header.res_resized.getD (code * 2 + 1) 0) with
      | none => (ERR_IMGLIB, s)
      | some new_buffer =>
        if new_buffer = [] ∨ fwrite_ok = false then
          ( ERR_IO, s.set_slot k
            { s.slot k with size := (s.slot k).size.set code (new_buffer.length % 2 ^ 32) })
        else
          (ERR_NONE,
            { s with file := s.file ++ new_buffer,
                     metadata := s.metadata.set k
                       { s.slot k with
                         size := (s.slot k).size.set code (new_buffer.length % 2 ^ 32),
                         offset := (s.slot k).offset.set code s.file.length } }) := by
  unfold resize_image_on orig_buffer
  dsimp only
  generalize lib.jpeg_resize _ _ _ = r
  cases r with
  | none => rfl
  | some nb =>
    by_cases hb : nb = [] ∨ fwrite_ok = false
    · have hb2 : nb.length = 0 ∨ fwrite_ok = false := by simpa using hb
      simp only [write_disk_image_on, hb, hb2, if_true]
    · have hb2 : ¬ (nb.length = 0 ∨ fwrite_ok = false) := by simpa using hb
      simp only [write_disk_image_on, hb, hb2, if_false, imgst_file.set_slot, imgst_file.slot,
        getD_set_eq, List.length_set, hk, List.set_set]

theorem lazily_resize_on_eq (fwrite_ok : Bool) (lib : img_lib) (code : Nat) (s : imgst_file)
    (k : Nat) (hcode : code = RES_THUMB ∨ code = RES_SMALL)
    (hlen : s.metadata.length = s.header.max_files) (hk : k < s.header.max_files)
    (hv : (s.slot k).is_valid = NON_EMPTY) (ho : (s.slot k).offset.get code = 0) :
    lazily_resize_on fwrite_ok lib (code : Int) s k =
      match lib.jpeg_resize (orig_buffer s k) (s.header.res_resized.getD (code * 2) 0)
          (s.header.res_resized.getD (code * 2 + 1) 0) with
      | none => (ERR_IMGLIB, s)
      | some new_buffer =>
        if new_buffer = [] ∨ fwrite_ok = false then
          ( ERR_IO, s.set_slot k
            { s.slot k with size := (s.slot k).size.set code (new_buffer.length % 2 ^ 32) })
        else (ERR_NONE, resized s code k new_buffer) := by
  have hk2 : k < s.metadata.length := by omega
  have hc1 : (code : Int) < (NB_RES : Nat) ∧ (code : Int) ≥ 0 := by
    rcases hcode with h | h <;> subst h <;> simp [RES_THUMB, RES_SMALL, NB_RES]
  have hc2 : (code : Int) ≠ (RES_ORIG : Nat) := by
    rcases hcode with h | h <;> subst h <;> simp [RES_THUMB, RES_SMALL, RES_ORIG]
  unfold lazily_resize_on
  simp only [hk, hv, hc1, hc2, not_true_eq_false, if_false, ne_eq, not_false_eq_true,
    if_true, Int.toNat_ofNat, ho, and_self, resize_image_on_eq fwrite_ok lib code s k hk2]
  generalize lib.jpeg_resize _ _ _ = r
  cases r with
  | none => rfl
  | some nb =>
    by_cases hb : nb = [] ∨ fwrite_ok = false
    · simp only [hb, if_true]
    · have hv2 := hv
      simp only [imgst_file.slot] at hv2
      simp only [hb, if_false, update_disk_metadata, resized, imgst_file.slot, getD_set_eq,
        List.length_set, hk2, hv2]

/-- Claim C28, as amended: for every open store that satisfies I1, whose slots are `EMPTY`
or `NON_EMPTY` and whose valid slots have a non-zero `offset[RES_ORIG]`, when `do_insert`
fails with `ERR_IMGLIB` the codec has rejected the buffer, the header is as before, and
the store file is the same as before when a valid slot already holds the SHA of the
buffer; when none does, the file is the file before the call followed by the bytes of the
buffer. -/
theorem C28_imglib_failure_file (lib : img_lib) (b id : List Nat) (s : imgst_file)
    (hopen : s.opened) (htyped : slots_typed s) (h1 : I1 s)
    (hI2 : ∀ j, j < s.header.max_files → (s.slot j).is_valid = NON_EMPTY →
      (s.slot j).offset.orig ≠ 0)
    (hfail : (do_insert lib b id s).1 = ERR_IMGLIB) :
    get_resolution lib b = none
      ∧ (do_insert lib b id s).2.header = s.header
      ∧ ((∃ k, k < s.header.max_files ∧ holds_sha s (lib.SHA256 b) k) →
          (do_insert lib b id s).2.file = s.file)
      ∧ ((∀ k, k < s.header.max_files → ¬ holds_sha s (lib.SHA256 b) k) →
          b ≠ [] ∧ (do_insert lib b id s).2.file = s.file ++ b) := by
  obtain ⟨hlen, hmax, -⟩ := hopen
  have hne : (do_insert lib b id s).1 ≠ ERR_NONE := by rw [hfail]; decide
  by_cases hid1 : id.length ≤ MAX_IMG_ID
  · by_cases hid2 : 0 < id.length
    · by_cases hfull : s.header.num_files < s.header.max_files
      · obtain ⟨e0, he0, hee0⟩ := exists_empty_slot s hlen htyped h1 hfull
        obtain ⟨e, he, hee, hfirst⟩ := exists_least (fun j => (s.slot j).is_valid = EMPTY)
          s.header.max_files ⟨e0, he0, hee0⟩
        by_cases hdup : ∃ j, j < s.header.max_files ∧ holds_id s id j
        · rw [do_insert_dup lib b id s hlen hmax hid1 hid2 hfull e he hee hfirst hdup] at hfail
          cases hfail
        · have hno : ∀ j, j < s.header.max_files → ¬ holds_id s id j :=
            fun j hj hc => hdup ⟨j, hj, hc⟩
          rcases do_insert_nodup lib b id s hlen hmax hid1 hid2 hfull e he hee hfirst hno
            with ⟨k, hk, hks, -, h⟩ | ⟨hns, h⟩
          · rw [h] at hfail ⊢
            have ho : (adopt (s.slot k) (candidate_slot lib b id (s.slot e))).offset.orig ≠ 0 :=
              hI2 k hk hks.1
            unfold insert_finish at hfail ⊢
            rw [if_neg ho] at hfail ⊢
            cases hg : get_resolution lib b with
            | none =>
              exact ⟨rfl, rfl, fun _ => rfl, fun hn => absurd hks (hn k hk)⟩
            | some p =>
              rw [hg] at hfail
              cases hfail
          · rw [h] at hfail ⊢
            unfold insert_finish at hfail ⊢
            rw [if_pos rfl] at hfail ⊢
            by_cases hb : b = []
            · rw [if_pos hb] at hfail
              cases hfail
            · rw [if_neg hb] at hfail ⊢
              cases hg : get_resolution lib b with
              | none =>
                exact ⟨rfl, rfl, fun ⟨k, hk, hks⟩ => absurd hks (hns k hk), fun _ => ⟨hb, rfl⟩⟩
              | some p =>
                rw [hg] at hfail
                cases hfail
      · have : do_insert lib b id s = (ERR_FULL_IMGSTORE, s) := by
          unfold do_insert
          simp only [hid1, hid2, hfull, not_true_eq_false, not_false_eq_true, if_false,
            if_true, gt_iff_lt]
        rw [this] at hfail
        cases hfail
    · have : do_insert lib b id s = (ERR_INVALID_IMGID, s) := by
        unfold do_insert
        simp only [hid1, hid2, not_true_eq_false, not_false_eq_true, if_false, if_true,
          gt_iff_lt]
      rw [this] at hfail
      cases hfail
  · have : do_insert lib b id s = (ERR_INVALID_IMGID, s) := by
      unfold do_insert
      simp only [hid1, not_false_eq_true, if_true]
    rw [this] at hfail
    cases hfail

/-- Claim C28, as amended, on the empty store and on a store that holds the content. -/
theorem C28_witness :
    (do_insert demo_lib_reject [7, 8, 9] [97] demo_store_0).1 = ERR_IMGLIB
      ∧ (do_insert demo_lib_reject [7, 8, 9] [97] demo_store_0).2.file
          = demo_store_0.file ++ [7, 8, 9]
      ∧ (do_insert demo_lib_reject [7, 8, 9] [98] demo_store_1).1 = ERR_IMGLIB
      ∧ (do_insert demo_lib_reject [7, 8, 9] [98] demo_store_1).2.file = demo_store_1.file := by
  have h0 := C28_imglib_failure_file demo_lib_reject [7, 8, 9] [97] demo_store_0
    (by decide) (by decide) (by decide) (by decide) (by decide)
  have h1 := C28_imglib_failure_file demo_lib_reject [7, 8, 9] [98] demo_store_1
    (by decide) (by decide) (by decide) (by decide) (by decide)
  exact ⟨by decide, (h0.2.2.2 (by decide)).2, by decide, h1.2.2.1 ⟨0, by decide, by decide⟩⟩

/-- Claim C28, the claim as stated fails: with a codec that rejects the buffer, inserting
`[7, 8, 9]` as "a" into the empty store `demo_store_0` fails with `ERR_IMGLIB`, and the
file has grown from 496 to 499 bytes: `write_disk_image` runs before `get_resolution`. -/
theorem C28_counterexample :
    (do_insert demo_lib_reject [7, 8, 9] [97] demo_store_0).1 = ERR_IMGLIB
      ∧ demo_store_0.file.length = 496
      ∧ (do_insert demo_lib_reject [7, 8, 9] [97] demo_store_0).2.file.length = 499
      ∧ (do_insert demo_lib_reject [7, 8, 9] [97] demo_store_0).2.file ≠ demo_store_0.file := by
  decide

/-- Claim C29, as amended: for every valid slot and `v` in {THUMB, SMALL} with
`offset[v] = 0`, if `lazily_resize(v, store, index)` returns an error, then the file, and
so the on-disk slot record, the header, the other slots and `offset[v]` of the slot are
unchanged; after a codec failure (`ERR_IMGLIB`) the whole session is unchanged; after a
failure to append the encoded bytes (`ERR_IO`) the slot differs in memory from what it was
only in `size[v]`, which holds the length of the encoded variant. -/
theorem C29_failed_materialization (fwrite_ok : Bool) (lib : img_lib) (code : Nat)
    (s : imgst_file) (k : Nat)
    (hcode : code = RES_THUMB ∨ code = RES_SMALL)
    (hlen : s.metadata.length = s.header.max_files) (hk : k < s.header.max_files)
    (hv : (s.slot k).is_valid = NON_EMPTY) (ho : (s.slot k).offset.get code = 0)
    (herr : (lazily_resize_on fwrite_ok lib (code : Int) s k).1 ≠ ERR_NONE) :
    (lazily_resize_on fwrite_ok lib (code : Int) s k).2.file = s.file
      ∧ (lazily_resize_on fwrite_ok lib (code : Int) s k).2.header = s.header
      ∧ (∀ j, j ≠ k → (lazily_resize_on fwrite_ok lib (code : Int) s k).2.slot j = s.slot j)
      ∧ ((lazily_resize_on fwrite_ok lib (code : Int) s k).2.slot k).offset = (s.slot k).offset
      ∧ ((lazily_resize_on fwrite_ok lib (code : Int) s k = (ERR_IMGLIB, s)
            ∧ lib.jpeg_resize (orig_buffer s k) (s.header.res_resized.getD (code * 2) 0)
                (s.header.res_resized.getD (code * 2 + 1) 0) = none)
          ∨ ∃ new_buffer,
              lib.jpeg_resize (orig_buffer s k) (s.header.res_resized.getD (code * 2) 0)
                (s.header.res_resized.getD (code * 2 + 1) 0) = some new_buffer
              ∧ (new_buffer = [] ∨ fwrite_ok = false)
              ∧ (lazily_resize_on fwrite_ok lib (code : Int) s k).1 = ERR_IO
              ∧ (lazily_resize_on fwrite_ok lib (code : Int) s k).2.slot k
                  = { s.slot k with
                      size := (s.slot k).size.set code (new_buffer.length % 2 ^ 32) }) := by
  have hk2 : k < s.metadata.length := by omega
  rw [lazily_resize_on_eq fwrite_ok lib code s k hcode hlen hk hv ho] at herr ⊢
  cases hr : lib.jpeg_resize (orig_buffer s k) (s.header.res_resized.getD (code * 2) 0)
      (s.header.res_resized.getD (code * 2 + 1) 0) with
  | none => exact ⟨rfl, rfl, fun _ _ => rfl, rfl, Or.inl ⟨rfl, rfl⟩⟩
  | some nb =>
    rw [hr] at herr
    simp only at herr ⊢
    by_cases hb : nb = [] ∨ fwrite_ok = false
    · rw [if_pos hb]
      refine ⟨rfl, rfl, fun j hj => slot_set_slot_ne s k j _ (Ne.symm hj), ?_,
        Or.inr ⟨nb, rfl, hb, rfl, slot_set_slot_eq s k _ hk2⟩⟩
      rw [slot_set_slot_eq s k _ hk2]
    · rw [if_neg hb] at herr
      exact absurd rfl herr

/-- Claim C29, as amended, on `demo_store_1` with a failing `fwrite`. -/
theorem C29_witness :
    (lazily_resize_on false demo_lib 0 demo_store_1 0).1 = ERR_IO
      ∧ (lazily_resize_on false demo_lib 0 demo_store_1 0).2.file = demo_store_1.file
      ∧ ((lazily_resize_on false demo_lib 0 demo_store_1 0).2.slot 0).offset
          = (demo_store_1.slot 0).offset := by
  have h := C29_failed_materialization false demo_lib 0 demo_store_1 0 (Or.inl rfl)
    (by decide) (by decide) (by decide) (by decide) (by decide)
  exact ⟨by decide, h.1, h.2.2.2.1⟩

/-- Claim C29, the claim as stated fails: on `demo_store_1`, whose slot 0 is valid with
`offset[THUMB] = 0` and `size[THUMB] = 0`, when `fwrite` fails in `write_disk_image` the
call `lazily_resize(THUMB, store, 0)` returns `ERR_IO` and leaves `size[THUMB] = 2` in the
in-memory slot: `resize_image` assigns the size before it appends. -/
theorem C29_counterexample :
    (demo_store_1.slot 0).is_valid = NON_EMPTY
      ∧ (demo_store_1.slot 0).offset.thumb = 0
      ∧ (demo_store_1.slot 0).size.thumb = 0
      ∧ (lazily_resize_on false demo_lib 0 demo_store_1 0).1 = ERR_IO
      ∧ ((lazily_resize_on false demo_lib 0 demo_store_1 0).2.slot 0).size.thumb = 2 := by
  decide

/-- Claim C30, the code at the failing input: in `demo_store_short` slot 0 is valid with
`offset[THUMB] = 0`, its original is 3 bytes at offset 496 and the file has 497 bytes, so
`read_disk_image` of the original is short and returns `ERR_IO` (as `do_read` of the
original reports); `lazily_resize(THUMB, store, 0)` nevertheless returns `ERR_NONE`,
appends 2 bytes to the file and sets `offset[THUMB] = 497` and `size[THUMB] = 2` in the
slot, because `resize_image` does not examine the result of `read_disk_image`. -/
theorem C30_short_read_not_surfaced :
    (demo_store_short.slot 0).is_valid = NON_EMPTY
      ∧ (demo_store_short.slot 0).offset.thumb = 0
      ∧ (demo_store_short.slot 0).offset.orig = 496
      ∧ (demo_store_short.slot 0).size.orig = 3
      ∧ demo_store_short.file.length = 497
      ∧ (read_disk_image demo_store_short.file (demo_store_short.slot 0).size.orig
          (demo_store_short.slot 0).offset.orig).1 = ERR_IO
      ∧ (lazily_resize demo_lib 0 demo_store_short 0).1 = ERR_NONE
      ∧ (lazily_resize demo_lib 0 demo_store_short 0).2.file.length = 499
      ∧ ((lazily_resize demo_lib 0 demo_store_short 0).2.slot 0).offset.thumb = 497
      ∧ ((lazily_resize demo_lib 0 demo_store_short 0).2.slot 0).size.thumb = 2
      ∧ (do_read demo_lib [97] 2 demo_store_short).err = ERR_IO := by
  decide

theorem create_cmd_loop_in_range (atouint32 : List Nat → Nat) (argv : List (List Nat)) :
    ∀ fuel i a a1, a.in_range →
      create_cmd_loop atouint32 argv fuel i a = Except.ok a1 → a1.in_range := by
  intro fuel
  induction fuel with
  | zero =>
    intro i a a1 ha h
    simp only [create_cmd_loop] at h
    cases h
    exact ha
  | succ n ih =>
    intro i a a1 ha h
    obtain ⟨hm, htx, hty, hsx, hsy⟩ := ha
    simp only [create_cmd_loop] at h
    split at h
    · split at h
      · split at h
        · cases h
        · split at h
          · cases h
          · rename_i hr
            refine ih _ _ a1 ?_ h
            refine ⟨?_, htx, hty, hsx, hsy⟩
            simp only [MAX_MAX_FILES] at hr ⊢
            omega
      · split at h
        · split at h
          · cases h
          · split at h
            · cases h
            · split at h
              · cases h
              · rename_i hr0 hr1
                refine ih _ _ a1 ?_ h
                refine ⟨hm, ?_, ?_, hsx, hsy⟩
                · simp only [MAX_THUMB_RES] at hr0 ⊢
                  omega
                · simp only [MAX_THUMB_RES] at hr1 ⊢
                  omega
        · split at h
          · split at h
            · cases h
            · split at h
              · cases h
              · split at h
                · cases h
                · rename_i hr0 hr1
                  refine ih _ _ a1 ?_ h
                  refine ⟨hm, htx, hty, ?_, ?_⟩
                  · simp only [MAX_SMALL_RES] at hr0 ⊢
                    omega
                  · simp only [MAX_SMALL_RES] at hr1 ⊢
                    omega
          · cases h
    · cases h
      exact ⟨hm, htx, hty, hsx, hsy⟩

theorem create_cmd_loop_error (atouint32 : List Nat → Nat) (argv : List (List Nat)) :
    ∀ fuel i a e, create_cmd_loop atouint32 argv fuel i a = Except.error e →
      e = ERR_NOT_ENOUGH_ARGUMENTS ∨ e = ERR_MAX_FILES ∨ e = ERR_RESOLUTIONS
        ∨ e = ERR_INVALID_ARGUMENT := by
  intro fuel
  induction fuel with
  | zero =>
    intro i a e h
    simp only [create_cmd_loop] at h
    cases h
  | succ n ih =>
    intro i a e h
    simp only [create_cmd_loop] at h
    split at h
    · split at h
      · split at h
        · cases h; left; rfl
        · split at h
          · cases h; right; left; rfl
          · exact ih _ _ e h
      · split at h
        · split at h
          · cases h; left; rfl
          · split at h
            · cases h; right; right; left; rfl
            · split at h
              · cases h; right; right; left; rfl
              · exact ih _ _ e h
        · split at h
          · split at h
            · cases h; left; rfl
            · split at h
              · cases h; right; right; left; rfl
              · split at h
                · cases h; right; right; left; rfl
                · exact ih _ _ e h
          · cases h; right; right; right; rfl
    · cases h

/-- What `do_create_cmd` returns: an error code and no store, or `ERR_NONE` and the store
`do_create` makes from values in range. -/
theorem do_create_cmd_cases (atouint32 : List Nat → Nat) (argv : List (List Nat)) :
    ((do_create_cmd atouint32 argv).1 ≠ ERR_NONE ∧ (do_create_cmd atouint32 argv).2 = none)
      ∨ ∃ a : create_args, a.in_range
          ∧ do_create_cmd atouint32 argv
              = (ERR_NONE, some (do_create (new_imgst_file a.max_files
                  [a.thumb_res_x, a.thumb_res_y, a.small_res_x, a.small_res_y])).2) := by
  have hdef : create_args.in_range ⟨10, 64, 64, 256, 256⟩ := by
    simp only [create_args.in_range, MAX_MAX_FILES, MAX_THUMB_RES, MAX_SMALL_RES]
    omega
  have key : ∀ parsed : Except error_code create_args,
      (∀ a, parsed = Except.ok a → a.in_range) → (∀ e, parsed = Except.error e → e ≠ ERR_NONE) →
      ∀ r : error_code × Option imgst_file,
        r = (match parsed with
            | Except.error err => (err, none)
            | Except.ok a =>
              ((do_create (new_imgst_file a.max_files
                [a.thumb_res_x % 2 ^ 16, a.thumb_res_y % 2 ^ 16,
                 a.small_res_x % 2 ^ 16, a.small_res_y % 2 ^ 16])).1,
               some (do_create (new_imgst_file a.max_files
                [a.thumb_res_x % 2 ^ 16, a.thumb_res_y % 2 ^ 16,
                 a.small_res_x % 2 ^ 16, a.small_res_y % 2 ^ 16])).2)) →
        (r.1 ≠ ERR_NONE ∧ r.2 = none)
          ∨ ∃ a : create_args, a.in_range
              ∧ r = (ERR_NONE, some (do_create (new_imgst_file a.max_files
                  [a.thumb_res_x, a.thumb_res_y, a.small_res_x, a.small_res_y])).2) := by
    intro parsed hok herr r hr
    cases parsed with
    | error err =>
      left
      subst hr
      exact ⟨herr err rfl, rfl⟩
    | ok a =>
      right
      have ha := hok a rfl
      refine ⟨a, ha, ?_⟩
      obtain ⟨-, htx, hty, hsx, hsy⟩ := ha
      simp only [MAX_THUMB_RES, MAX_SMALL_RES] at htx hty hsx hsy
      rw [hr]
      simp only
      rw [Nat.mod_eq_of_lt (show a.thumb_res_x < 2 ^ 16 by omega),
        Nat.mod_eq_of_lt (show a.thumb_res_y < 2 ^ 16 by omega),
        Nat.mod_eq_of_lt (show a.small_res_x < 2 ^ 16 by omega),
        Nat.mod_eq_of_lt (show a.small_res_y < 2 ^ 16 by omega)]
      rfl
  by_cases h1 : (argv.getD 1 []).length ≤ MAX_IMGST_NAME
  · by_cases h2 : (argv.getD 1 []).length > 0
    · by_cases h3 : argv.length ≥ 3
      · refine key (create_cmd_loop atouint32 argv argv.length 2 ⟨10, 64, 64, 256, 256⟩)
          (fun a ha => create_cmd_loop_in_range atouint32 argv _ _ _ a hdef ha)
          (fun e he => ?_) _ ?_
        · rcases create_cmd_loop_error atouint32 argv _ _ _ e he with h | h | h | h <;>
            rw [h] <;> decide
        · unfold do_create_cmd
          simp only [h1, h2, h3, not_true_eq_false, if_false, if_true]
      · refine key (Except.ok ⟨10, 64, 64, 256, 256⟩)
          (fun a ha => ?_) (fun e he => ?_) _ ?_
        · cases ha
          exact hdef
        · cases he
        · unfold do_create_cmd
          simp only [h1, h2, h3, not_true_eq_false, if_false]
    · left
      unfold do_create_cmd
      simp only [h1, h2, not_true_eq_false, not_false_eq_true, if_false, if_true]
      exact ⟨by decide, trivial⟩
  · left
    unfold do_create_cmd
    simp only [h1, not_false_eq_true, if_true]
    exact ⟨by decide, trivial⟩

theorem create_cmd_loop_max_files (atouint32 : List Nat → Nat) (argv : List (List Nat))
    (fuel i : Nat) (a : create_args)
    (hopt : argv.getD i [] = [45, 109, 97, 120, 95, 102, 105, 108, 101, 115])
    (hargs : i + 1 < argv.length)
    (hval : atouint32 (argv.getD (i + 1) []) % 2 ^ 32 = 0
      ∨ atouint32 (argv.getD (i + 1) []) % 2 ^ 32 > MAX_MAX_FILES) :
    create_cmd_loop atouint32 argv (fuel + 1) i a = Except.error ERR_MAX_FILES := by
  have h1 : i < argv.length := by omega
  have h2 : argv.length - i > 1 := by omega
  simp only [create_cmd_loop, h1, hopt, if_true, h2, not_true_eq_false, if_false, hval,
    (strcmp_eq_zero _ _).2 rfl]

theorem create_cmd_loop_thumb_res (atouint32 : List Nat → Nat) (argv : List (List Nat))
    (fuel i : Nat) (a : create_args)
    (hopt : argv.getD i [] = [45, 116, 104, 117, 109, 98, 95, 114, 101, 115])
    (hargs : i + 2 < argv.length)
    (hval : (atouint32 (argv.getD (i + 1) []) % 2 ^ 32 = 0
        ∨ atouint32 (argv.getD (i + 1) []) % 2 ^ 32 > MAX_THUMB_RES)
      ∨ (atouint32 (argv.getD (i + 2) []) % 2 ^ 32 = 0
        ∨ atouint32 (argv.getD (i + 2) []) % 2 ^ 32 > MAX_THUMB_RES)) :
    create_cmd_loop atouint32 argv (fuel + 1) i a = Except.error ERR_RESOLUTIONS := by
  have h1 : i < argv.length := by omega
  have h2 : argv.length - i > 2 := by omega
  have hne : strcmp [45, 116, 104, 117, 109, 98, 95, 114, 101, 115]
      [45, 109, 97, 120, 95, 102, 105, 108, 101, 115] ≠ 0 := by decide
  simp only [create_cmd_loop, h1, hopt, if_true, h2, not_true_eq_false, if_false, hne,
    (strcmp_eq_zero _ _).2 rfl]
  by_cases hv0 : atouint32 (argv.getD (i + 1) []) % 2 ^ 32 = 0
      ∨ atouint32 (argv.getD (i + 1) []) % 2 ^ 32 > MAX_THUMB_RES
  · rw [if_pos hv0]
  · rw [if_neg hv0]
    rcases hval with h | h
    · exact absurd h hv0
    · rw [if_pos h]

theorem create_cmd_loop_small_res (atouint32 : List Nat → Nat) (argv : List (List Nat))
    (fuel i : Nat) (a : create_args)
    (hopt : argv.getD i [] = [45, 115, 109, 97, 108, 108, 95, 114, 101, 115])
    (hargs : i + 2 < argv.length)
    (hval : (atouint32 (argv.getD (i + 1) []) % 2 ^ 32 = 0
        ∨ atouint32 (argv.getD (i + 1) []) % 2 ^ 32 > MAX_SMALL_RES)
      ∨ (atouint32 (argv.getD (i + 2) []) % 2 ^ 32 = 0
        ∨ atouint32 (argv.getD (i + 2) []) % 2 ^ 32 > MAX_SMALL_RES)) :
    create_cmd_loop atouint32 argv (fuel + 1) i a = Except.error ERR_RESOLUTIONS := by
  have h1 : i < argv.length := by omega
  have h2 : argv.length - i > 2 := by omega
  have hne : strcmp [45, 115, 109, 97, 108, 108, 95, 114, 101, 115]
      [45, 109, 97, 120, 95, 102, 105, 108, 101, 115] ≠ 0 := by decide
  have hne2 : strcmp [45, 115, 109, 97, 108, 108, 95, 114, 101, 115]
      [45, 116, 104, 117, 109, 98, 95, 114, 101, 115] ≠ 0 := by decide
  simp only [create_cmd_loop, h1, hopt, if_true, h2, not_true_eq_false, if_false, hne, hne2,
    (strcmp_eq_zero _ _).2 rfl]
  by_cases hv0 : atouint32 (argv.getD (i + 1) []) % 2 ^ 32 = 0
      ∨ atouint32 (argv.getD (i + 1) []) % 2 ^ 32 > MAX_SMALL_RES
  · rw [if_pos hv0]
  · rw [if_neg hv0]
    rcases hval with h | h
    · exact absurd h hv0
    · rw [if_pos h]

/-- Claim C23, as amended: the parameters of create are validated by `do_create_cmd`, not
by `do_create`.  Whenever `do_create_cmd` has a store made, it returns `ERR_NONE`, and the
store has `max_files` in 1..100,000, thumbnail dimensions in 1..128 and small dimensions in
1..512; whenever it returns an error, no store is made.  Its option loop returns
`ERR_MAX_FILES` at a `-max_files` value that is 0 or greater than 100,000, and
`ERR_RESOLUTIONS` at a `-thumb_res` value that is 0 or exceeds 128 and at a `-small_res`
value that is 0 or exceeds 512; with a valid file name and such an option first,
`do_create_cmd` returns that code and makes no store. -/
theorem C23_create_validation (atouint32 : List Nat → Nat) (argv : List (List Nat)) :
    (∀ s, (do_create_cmd atouint32 argv).2 = some s →
        (do_create_cmd atouint32 argv).1 = ERR_NONE
          ∧ 1 ≤ s.header.max_files ∧ s.header.max_files ≤ 100000
          ∧ (∀ j, j < 2 → 1 ≤ s.header.res_resized.getD j 0
              ∧ s.header.res_resized.getD j 0 ≤ 128)
          ∧ (∀ j, 2 ≤ j → j < 4 → 1 ≤ s.header.res_resized.getD j 0
              ∧ s.header.res_resized.getD j 0 ≤ 512))
      ∧ ((do_create_cmd atouint32 argv).1 ≠ ERR_NONE → (do_create_cmd atouint32 argv).2 = none)
      ∧ (∀ fuel i a, argv.getD i [] = [45, 109, 97, 120, 95, 102, 105, 108, 101, 115] →
          i + 1 < argv.length →
          (atouint32 (argv.getD (i + 1) []) % 2 ^ 32 = 0
            ∨ atouint32 (argv.getD (i + 1) []) % 2 ^ 32 > 100000) →
          create_cmd_loop atouint32 argv (fuel + 1) i a = Except.error ERR_MAX_FILES)
      ∧ (∀ fuel i a, argv.getD i [] = [45, 116, 104, 117, 109, 98, 95, 114, 101, 115] →
          i + 2 < argv.length →
          ((atouint32 (argv.getD (i + 1) []) % 2 ^ 32 = 0
              ∨ atouint32 (argv.getD (i + 1) []) % 2 ^ 32 > 128)
            ∨ (atouint32 (argv.getD (i + 2) []) % 2 ^ 32 = 0
              ∨ atouint32 (argv.getD (i + 2) []) % 2 ^ 32 > 128)) →
          create_cmd_loop atouint32 argv (fuel + 1) i a = Except.error ERR_RESOLUTIONS)
      ∧ (∀ fuel i a, argv.getD i [] = [45, 115, 109, 97, 108, 108, 95, 114, 101, 115] →
          i + 2 < argv.length →
          ((atouint32 (argv.getD (i + 1) []) % 2 ^ 32 = 0
              ∨ atouint32 (argv.getD (i + 1) []) % 2 ^ 32 > 512)
            ∨ (atouint32 (argv.getD (i + 2) []) % 2 ^ 32 = 0
              ∨ atouint32 (argv.getD (i + 2) []) % 2 ^ 32 > 512)) →
          create_cmd_loop atouint32 argv (fuel + 1) i a = Except.error ERR_RESOLUTIONS)
      ∧ (0 < (argv.getD 1 []).length → (argv.getD 1 []).length ≤ 31 →
          (argv.getD 2 [] = [45, 109, 97, 120, 95, 102, 105, 108, 101, 115]
              ∧ 3 < argv.length
              ∧ (atouint32 (argv.getD 3 []) % 2 ^ 32 = 0
                ∨ atouint32 (argv.getD 3 []) % 2 ^ 32 > 100000) →
            do_create_cmd atouint32 argv = (ERR_MAX_FILES, none))
          ∧ (argv.getD 2 [] = [45, 116, 104, 117, 109, 98, 95, 114, 101, 115]
              ∧ 4 < argv.length
              ∧ ((atouint32 (argv.getD 3 []) % 2 ^ 32 = 0
                  ∨ atouint32 (argv.getD 3 []) % 2 ^ 32 > 128)
                ∨ (atouint32 (argv.getD 4 []) % 2 ^ 32 = 0
                  ∨ atouint32 (argv.getD 4 []) % 2 ^ 32 > 128)) →
            do_create_cmd atouint32 argv = (ERR_RESOLUTIONS, none))
          ∧ (argv.getD 2 [] = [45, 115, 109, 97, 108, 108, 95, 114, 101, 115]
              ∧ 4 < argv.length
              ∧ ((atouint32 (argv.getD 3 []) % 2 ^ 32 = 0
                  ∨ atouint32 (argv.getD 3 []) % 2 ^ 32 > 512)
                ∨ (atouint32 (argv.getD 4 []) % 2 ^ 32 = 0
                  ∨ atouint32 (argv.getD 4 []) % 2 ^ 32 > 512)) →
            do_create_cmd atouint32 argv = (ERR_RESOLUTIONS, none))) := by
  refine ⟨fun s hs => ?_, fun hne => ?_,
    fun fuel i a h1 h2 h3 => create_cmd_loop_max_files atouint32 argv fuel i a h1 h2 h3,
    fun fuel i a h1 h2 h3 => create_cmd_loop_thumb_res atouint32 argv fuel i a h1 h2 h3,
    fun fuel i a h1 h2 h3 => create_cmd_loop_small_res atouint32 argv fuel i a h1 h2 h3,
    fun hn1 hn2 => ?_⟩
  · rcases do_create_cmd_cases atouint32 argv with ⟨-, hnone⟩ | ⟨a, ha, heq⟩
    · rw [hnone] at hs
      cases hs
    · rw [heq] at hs ⊢
      simp only [Option.some.injEq] at hs
      subst hs
      obtain ⟨hm, htx, hty, hsx, hsy⟩ := ha
      simp only [MAX_MAX_FILES, MAX_THUMB_RES, MAX_SMALL_RES] at hm htx hty hsx hsy
      refine ⟨rfl, hm.1, hm.2, fun j hj => ?_, fun j hj1 hj2 => ?_⟩
      · have hj' : j = 0 ∨ j = 1 := by omega
        rcases hj' with h | h <;> subst h
        · exact htx
        · exact hty
      · have hj' : j = 2 ∨ j = 3 := by omega
        rcases hj' with h | h <;> subst h
        · exact hsx
        · exact hsy
  · rcases do_create_cmd_cases atouint32 argv with ⟨-, hnone⟩ | ⟨a, -, heq⟩
    · exact hnone
    · rw [heq] at hne
      exact absurd rfl hne
  · have hn2' : (argv.getD 1 []).length ≤ MAX_IMGST_NAME := hn2
    refine ⟨fun ⟨h1, h2, h3⟩ => ?_, fun ⟨h1, h2, h3⟩ => ?_, fun ⟨h1, h2, h3⟩ => ?_⟩
    · have h4 : argv.length ≥ 3 := by omega
      obtain ⟨n, hn⟩ : ∃ n, argv.length = n + 1 := ⟨argv.length - 1, by omega⟩
      unfold do_create_cmd
      simp only [hn1, hn2', h4, not_true_eq_false, if_false, if_true, gt_iff_lt]
      rw [hn, create_cmd_loop_max_files atouint32 argv n 2 _ h1 h2 h3]
    · have h4 : argv.length ≥ 3 := by omega
      obtain ⟨n, hn⟩ : ∃ n, argv.length = n + 1 := ⟨argv.length - 1, by omega⟩
      unfold do_create_cmd
      simp only [hn1, hn2', h4, not_true_eq_false, if_false, if_true, gt_iff_lt]
      rw [hn, create_cmd_loop_thumb_res atouint32 argv n 2 _ h1 h2 h3]
    · have h4 : argv.length ≥ 3 := by omega
      obtain ⟨n, hn⟩ : ∃ n, argv.length = n + 1 := ⟨argv.length - 1, by omega⟩
      unfold do_create_cmd
      simp only [hn1, hn2', h4, not_true_eq_false, if_false, if_true, gt_iff_lt]
      rw [hn, create_cmd_loop_small_res atouint32 argv n 2 _ h1 h2 h3]

/-- Claim C23, as amended, on `-max_files 0`, `-thumb_res 64 129` and `-max_files 2`. -/
theorem C23_witness :
    do_create_cmd demo_atouint32
        [[105], [115], [45, 109, 97, 120, 95, 102, 105, 108, 101, 115], [48]]
        = (ERR_MAX_FILES, none)
      ∧ do_create_cmd demo_atouint32
          [[105], [115], [45, 116, 104, 117, 109, 98, 95, 114, 101, 115], [54, 52], [49, 50, 57]]
          = (ERR_RESOLUTIONS, none)
      ∧ ((do_create_cmd demo_atouint32
            [[105], [115], [45, 109, 97, 120, 95, 102, 105, 108, 101, 115], [50]]).1 = ERR_NONE
          ∧ 1 ≤ demo_store_0.header.max_files ∧ demo_store_0.header.max_files ≤ 100000) := by
  have h0 := C23_create_validation demo_atouint32
    [[105], [115], [45, 109, 97, 120, 95, 102, 105, 108, 101, 115], [48]]
  have h1 := C23_create_validation demo_atouint32
    [[105], [115], [45, 116, 104, 117, 109, 98, 95, 114, 101, 115], [54, 52], [49, 50, 57]]
  have h2 := C23_create_validation demo_atouint32
    [[105], [115], [45, 109, 97, 120, 95, 102, 105, 108, 101, 115], [50]]
  have h3 := h2.1 demo_store_0 (by decide)
  exact ⟨(h0.2.2.2.2.2 (by decide) (by decide)).1 ⟨rfl, by decide, by decide⟩,
    (h1.2.2.2.2.2 (by decide) (by decide)).2.1 ⟨rfl, by decide, by decide⟩,
    h3.1, h3.2.1, h3.2.2.1⟩

/-- Claim C23, the claim as stated fails: `do_create` asked for 100,001 files, a 129 by 129
thumbnail and a 513 by 513 small image returns `ERR_NONE` and makes the store with these
values. -/
theorem C23_counterexample :
    (do_create (new_imgst_file 100001 [129, 129, 513, 513])).1 = ERR_NONE
      ∧ (do_create (new_imgst_file 100001 [129, 129, 513, 513])).2.header.max_files = 100001
      ∧ (do_create (new_imgst_file 100001 [129, 129, 513, 513])).2.header.res_resized
          = [129, 129, 513, 513]
      ∧ (do_create (new_imgst_file 100001 [129, 129, 513, 513])).2.metadata.length = 100001 := by
  refine ⟨rfl, rfl, rfl, ?_⟩
  show (List.replicate 100001 zero_metadata).length = 100001
  exact List.length_replicate 100001 zero_metadata

theorem res_array_ext (a b : res_array) (h1 : a.thumb = b.thumb) (h2 : a.small = b.small)
    (h3 : a.orig = b.orig) : a = b := by
  cases a
  cases b
  simp only at h1 h2 h3
  subst h1 h2 h3
  rfl

theorem res_array_get_set (a : res_array) (code x v : Nat)
    (hc : code = RES_THUMB ∨ code = RES_SMALL) :
    (a.set code x).get v = if v = code then x else a.get v := by
  rcases hc with h | h <;> subst h
  · by_cases hv : v = RES_THUMB
    · subst hv; rfl
    · rw [if_neg hv]
      simp only [res_array.get, res_array.set, hv, if_true, if_false]
  · by_cases hv : v = RES_SMALL
    · subst hv; rfl
    · rw [if_neg hv]
      by_cases hv0 : v = RES_THUMB
      · subst hv0; rfl
      · simp only [res_array.get, res_array.set, hv, hv0, if_false, if_true,
          show RES_SMALL ≠ RES_THUMB by decide]

/-- In a reachable store every variant held by a valid slot ends inside the file. -/
theorem variant_le_file (lib : img_lib) (P : List Nat → Prop) (hsha : collision_free_on lib P)
    (s : imgst_file) (h : ReachableFrom lib P s) (j : Nat) (hj : j < s.header.max_files)
    (hv : (s.slot j).is_valid = NON_EMPTY) (v : Nat) (hv3 : v < NB_RES)
    (ho : (s.slot j).offset.get v ≠ 0) :
    (s.slot j).offset.get v + (s.slot j).size.get v ≤ s.file.length := by
  have h6 := reachable_I6_variants lib s (reachableFrom_reachable lib P s h)
  have hp := reachable_payload lib P hsha s h
  have hcases : v = RES_THUMB ∨ v = RES_SMALL ∨ v = RES_ORIG := by
    simp only [NB_RES, RES_THUMB, RES_SMALL, RES_ORIG] at hv3 ⊢
    omega
  rcases hcases with hc | hc | hc
  · exact (h6 j hj hv v (Or.inl hc) ho).2
  · exact (h6 j hj hv v (Or.inr hc) ho).2
  · subst hc
    exact hp.orig_le j hj hv

theorem payload_disjoint_update (s s1 : imgst_file) (k : Nat) (m : img_metadata)
    (hd : payload_disjoint s) (hk : k < s.metadata.length)
    (hmax : s1.header.max_files = s.header.max_files)
    (hmd : s1.metadata = s.metadata.set k m)
    (hself : m.is_valid = NON_EMPTY → ∀ v w, v < NB_RES → w < NB_RES →
      m.offset.get v ≠ 0 → m.offset.get w ≠ 0 →
      v = w ∨ m.offset.get v + m.size.get v ≤ m.offset.get w
        ∨ m.offset.get w + m.size.get w ≤ m.offset.get v)
    (hother : m.is_valid = NON_EMPTY → ∀ j, j < s.header.max_files → j ≠ k →
      (s.slot j).is_valid = NON_EMPTY → ∀ v w, v < NB_RES → w < NB_RES →
      m.offset.get v ≠ 0 → (s.slot j).offset.get w ≠ 0 →
      (compare_sha m.SHA (s.slot j).SHA = 0 ∧ v = w)
        ∨ m.offset.get v + m.size.get v ≤ (s.slot j).offset.get w
        ∨ (s.slot j).offset.get w + (s.slot j).size.get w ≤ m.offset.get v) :
    payload_disjoint s1 := by
  have hsl := slot_update s s1 k m hmd hk
  intro i j hi hj hvi hvj v w hv hw hoi hoj
  rw [hmax] at hi hj
  rw [hsl i] at hvi hoi ⊢
  rw [hsl j] at hvj hoj ⊢
  by_cases hik : i = k
  · rw [if_pos hik] at hvi hoi ⊢
    by_cases hjk : j = k
    · rw [if_pos hjk] at hvj hoj ⊢
      rcases hself hvi v w hv hw hoi hoj with h | h | h
      · exact Or.inl ⟨compare_sha_refl _, h⟩
      · exact Or.inr (Or.inl h)
      · exact Or.inr (Or.inr h)
    · rw [if_neg hjk] at hvj hoj ⊢
      exact hother hvi j hj hjk hvj v w hv hw hoi hoj
  · rw [if_neg hik] at hvi hoi ⊢
    by_cases hjk : j = k
    · rw [if_pos hjk] at hvj hoj ⊢
      rcases hother hvj i hi hik hvi w v hw hv hoj hoi with ⟨h1, h2⟩ | h | h
      · exact Or.inl ⟨compare_sha_symm _ _ h1, h2.symm⟩
      · exact Or.inr (Or.inr h)
      · exact Or.inr (Or.inl h)
    · rw [if_neg hjk] at hvj hoj ⊢
      exact hd i j hi hj hvi hvj v w hv hw hoi hoj

theorem payload_disjoint_create (max_files : Nat) (res_resized : List Nat) :
    payload_disjoint (do_create (new_imgst_file max_files res_resized)).2 := by
  intro i j _ _ hvi
  have : ((do_create (new_imgst_file max_files res_resized)).2.slot i) = zero_metadata :=
    slot_replicate max_files i
  rw [this] at hvi
  exact absurd hvi (by decide)

theorem payload_disjoint_delete (lib : img_lib) (s : imgst_file) (id : List Nat)
    (hinv : Inv lib s) (hd : payload_disjoint s) (h : (do_delete id s).1 = ERR_NONE) :
    payload_disjoint (do_delete id s).2 := by
  obtain ⟨hid1, hid2, k, hf⟩ := do_delete_checks id s h
  obtain ⟨hk, _, _⟩ := find_img_id_ok s id k hf
  have hk2 : k < s.metadata.length := by rw [hinv.length_eq]; exact hk
  rw [do_delete_eq id s k hid1 hid2 hinv.length_eq hf]
  apply payload_disjoint_update s (deleted s k) k { s.slot k with is_valid := EMPTY } hd hk2
    rfl rfl
  · intro hc; exact absurd hc (show EMPTY ≠ NON_EMPTY by decide)
  · intro hc; exact absurd hc (show EMPTY ≠ NON_EMPTY by decide)

theorem payload_disjoint_insert (lib : img_lib) (P : List Nat → Prop)
    (hsha : collision_free_on lib P) (s : imgst_file) (b id : List Nat) (hPb : P b)
    (hs : ReachableFrom lib P s) (hd : payload_disjoint s)
    (h : (do_insert lib b id s).1 = ERR_NONE) :
    payload_disjoint (do_insert lib b id s).2 := by
  have hinv := reachable_inv lib s (reachableFrom_reachable lib P s hs)
  have hp := reachable_payload lib P hsha s hs
  obtain ⟨_, _, hfull⟩ := do_insert_checks lib b id s h
  obtain ⟨e, m, file0, he, _, _, hst, _, _, hmsha, _, hmsz, hcase⟩ :=
    do_insert_ok lib b id s hinv.length_eq hinv.max_lt (Inv_empty_slot lib s hinv hfull) h
  have he2 : e < s.metadata.length := by rw [hinv.length_eq]; exact he
  rw [hst]
  apply payload_disjoint_update s (committed s file0 e m) e m hd he2 rfl rfl
  · intro _ v w hv hw hov how
    rcases hcase with ⟨k, hk, hks, _, _, _, hoff, hst', hss'⟩ | ⟨_, _, hoff, _⟩
    · obtain ⟨bk, hPk, hbk1, hbk2⟩ := hp.origin_in k hk hks.1
      have hcmp := hks.2
      rw [hbk1] at hcmp
      have hso : m.size.orig = (s.slot k).size.orig := by
        rw [hbk2, hmsz, hsha bk b hPk hPb hcmp]
      have hsz : m.size = (s.slot k).size := res_array_ext _ _ hst' hss' hso
      rw [hoff] at hov how ⊢
      rw [hsz]
      rcases hd k k hk hk hks.1 hks.1 v w hv hw hov how with ⟨_, h2⟩ | h2 | h2
      · exact Or.inl h2
      · exact Or.inr (Or.inl h2)
      · exact Or.inr (Or.inr h2)
    · left
      rw [hoff] at hov how
      simp only [NB_RES, res_array.get, RES_THUMB, RES_SMALL] at hv hw hov how
      have hv2 : v ≠ 0 ∧ v ≠ 1 := by
        refine ⟨fun hc => ?_, fun hc => ?_⟩
        · rw [if_pos hc] at hov; exact hov rfl
        · rw [if_neg (by omega), if_pos hc] at hov; exact hov rfl
      have hw2 : w ≠ 0 ∧ w ≠ 1 := by
        refine ⟨fun hc => ?_, fun hc => ?_⟩
        · rw [if_pos hc] at how; exact how rfl
        · rw [if_neg (by omega), if_pos hc] at how; exact how rfl
      omega
  · intro _ j hj hje hvj v w hv hw hov how
    have hend := variant_le_file lib P hsha s hs j hj hvj w hw how
    rcases hcase with ⟨k, hk, hks, _, _, _, hoff, hst', hss'⟩ | ⟨_, _, hoff, _⟩
    · obtain ⟨bk, hPk, hbk1, hbk2⟩ := hp.origin_in k hk hks.1
      have hcmp := hks.2
      rw [hbk1] at hcmp
      have hso : m.size.orig = (s.slot k).size.orig := by
        rw [hbk2, hmsz, hsha bk b hPk hPb hcmp]
      have hsz : m.size = (s.slot k).size := res_array_ext _ _ hst' hss' hso
      rw [hoff] at hov ⊢
      rw [hsz]
      rcases hd k j hk hj hks.1 hvj v w hv hw hov how with ⟨h1, h2⟩ | h2 | h2
      · refine Or.inl ⟨?_, h2⟩
        rw [hmsha]
        exact compare_sha_trans _ _ _ (compare_sha_symm _ _ hks.2) h1
      · exact Or.inr (Or.inl h2)
      · exact Or.inr (Or.inr h2)
    · right; right
      rw [hoff] at hov ⊢
      simp only [NB_RES, res_array.get, RES_THUMB, RES_SMALL] at hv hov ⊢
      have hv2 : v ≠ 0 ∧ v ≠ 1 := by
        refine ⟨fun hc => ?_, fun hc => ?_⟩
        · rw [if_pos hc] at hov; exact hov rfl
        · rw [if_neg (by omega), if_pos hc] at hov; exact hov rfl
      rw [if_neg hv2.1, if_neg hv2.2]
      simp only [res_array.get, RES_THUMB, RES_SMALL] at hend
      exact hend

theorem payload_disjoint_read (lib : img_lib) (P : List Nat → Prop)
    (hsha : collision_free_on lib P) (s : imgst_file) (id : List Nat) (r : Int)
    (hs : ReachableFrom lib P s) (hd : payload_disjoint s)
    (h : (do_read lib id r s).err = ERR_NONE) :
    payload_disjoint (do_read lib id r s).store := by
  have hinv := reachable_inv lib s (reachableFrom_reachable lib P s hs)
  rcases do_read_ok_store lib id r s hinv.length_eq h with h1 |
    ⟨k, code, nb, hcode, _, hf, hzero, _, _, heq⟩
  · rw [h1]; exact hd
  · obtain ⟨hk, hvk, _⟩ := find_img_id_ok s id k hf
    have hk2 : k < s.metadata.length := by rw [hinv.length_eq]; exact hk
    rw [heq, read_at_store]
    apply payload_disjoint_update s (resized s code k nb) k
      { s.slot k with size := (s.slot k).size.set code (nb.length % 2 ^ 32),
                      offset := (s.slot k).offset.set code s.file.length } hd hk2 rfl rfl
    · intro _ v w hv hw hov how
      simp only [res_array_get_set _ _ _ _ hcode] at hov how ⊢
      by_cases hvc : v = code
      · by_cases hwc : w = code
        · left; rw [hvc, hwc]
        · right; right
          rw [if_neg hwc] at how ⊢
          rw [if_pos hvc, if_neg hwc]
          exact variant_le_file lib P hsha s hs k hk hvk.1 w hw how
      · by_cases hwc : w = code
        · right; left
          rw [if_neg hvc] at hov ⊢
          rw [if_neg hvc, if_pos hwc]
          exact variant_le_file lib P hsha s hs k hk hvk.1 v hv hov
        · rw [if_neg hvc] at hov ⊢
          rw [if_neg hwc] at how ⊢
          rw [if_neg hvc, if_neg hwc]
          rcases hd k k hk hk hvk.1 hvk.1 v w hv hw hov how with ⟨_, h2⟩ | h2 | h2
          · exact Or.inl h2
          · exact Or.inr (Or.inl h2)
          · exact Or.inr (Or.inr h2)
    · intro _ j hj hjk hvj v w hv hw hov how
      simp only [res_array_get_set _ _ _ _ hcode] at hov ⊢
      by_cases hvc : v = code
      · right; right
        rw [if_pos hvc]
        exact variant_le_file lib P hsha s hs j hj hvj w hw how
      · rw [if_neg hvc] at hov ⊢
        rw [if_neg hvc]
        exact hd k j hk hj hvk.1 hvj v w hv hw hov how

theorem reachable_disjoint (lib : img_lib) (P : List Nat → Prop)
    (hsha : collision_free_on lib P) (s : imgst_file) (h : ReachableFrom lib P s) :
    payload_disjoint s := by
  induction h with
  | create max_files res_resized _ => exact payload_disjoint_create max_files res_resized
  | insert s b id hs hb h ih => exact payload_disjoint_insert lib P hsha s b id hb hs ih h
  | delete s id hs h ih =>
    exact payload_disjoint_delete lib s id
      (reachable_inv lib s (reachableFrom_reachable lib P s hs)) ih h
  | read s id r hs h ih => exact payload_disjoint_read lib P hsha s id r hs ih h

theorem payload_weight_le (s : imgst_file) (hd : payload_disjoint s)
    (hlo : ∀ j, j < s.header.max_files → (s.slot j).is_valid = NON_EMPTY →
      ∀ v, v < NB_RES → (s.slot j).offset.get v ≠ 0 →
        payload_start s ≤ (s.slot j).offset.get v)
    (hhi : ∀ j, j < s.header.max_files → (s.slot j).is_valid = NON_EMPTY →
      ∀ v, v < NB_RES → (s.slot j).offset.get v ≠ 0 →
        (s.slot j).offset.get v + (s.slot j).size.get v ≤ s.file.length)
    (hdist : ∀ i j, i < s.header.max_files → j < s.header.max_files → i ≠ j →
      (s.slot i).is_valid = NON_EMPTY → (s.slot j).is_valid = NON_EMPTY →
      compare_sha (s.slot i).SHA (s.slot j).SHA ≠ 0) :
    payload_weight s s.header.max_files ≤ s.file.length - payload_start s := by
  have h1 : payload_weight s s.header.max_files
      = ∑ p in (Finset.range s.header.max_files ×ˢ Finset.range NB_RES).filter
          (fun p => (s.slot p.1).is_valid = NON_EMPTY ∧ (s.slot p.1).offset.get p.2 ≠ 0),
          (s.slot p.1).size.get p.2 := by
    rw [Finset.sum_filter, Finset.sum_product]
    unfold payload_weight slot_weight
    refine Finset.sum_congr rfl (fun j _ => ?_)
    by_cases hv : (s.slot j).is_valid = NON_EMPTY
    · rw [if_pos hv]
      refine Finset.sum_congr rfl (fun v _ => ?_)
      simp only [hv, true_and]
    · rw [if_neg hv]
      symm
      refine Finset.sum_eq_zero (fun v _ => ?_)
      simp only [hv, false_and, if_false]
  have h2 : ∀ p ∈ (Finset.range s.header.max_files ×ˢ Finset.range NB_RES).filter
      (fun p => (s.slot p.1).is_valid = NON_EMPTY ∧ (s.slot p.1).offset.get p.2 ≠ 0),
      (s.slot p.1).size.get p.2
        = (Finset.Ico ((s.slot p.1).offset.get p.2)
            ((s.slot p.1).offset.get p.2 + (s.slot p.1).size.get p.2)).card := by
    intro p _
    rw [Nat.card_Ico, Nat.add_sub_cancel_left]
  rw [h1, Finset.sum_congr rfl h2, ← Finset.card_biUnion]
  · rw [← Nat.card_Ico (payload_start s) s.file.length]
    apply Finset.card_le_card
    intro x hx
    rw [Finset.mem_biUnion] at hx
    obtain ⟨p, hp, hxp⟩ := hx
    rw [Finset.mem_filter, Finset.mem_product, Finset.mem_range, Finset.mem_range] at hp
    obtain ⟨⟨hp1, hp2⟩, hpv, hpo⟩ := hp
    rw [Finset.mem_Ico] at hxp ⊢
    have hl := hlo p.1 hp1 hpv p.2 hp2 hpo
    have hh := hhi p.1 hp1 hpv p.2 hp2 hpo
    omega
  · intro p hp q hq hpq
    rw [Finset.mem_filter, Finset.mem_product, Finset.mem_range, Finset.mem_range] at hp hq
    obtain ⟨⟨hp1, hp2⟩, hpv, hpo⟩ := hp
    obtain ⟨⟨hq1, hq2⟩, hqv, hqo⟩ := hq
    rw [Finset.disjoint_left]
    intro x hx1 hx2
    rw [Finset.mem_Ico] at hx1 hx2
    rcases hd p.1 q.1 hp1 hq1 hpv hqv p.2 q.2 hp2 hq2 hpo hqo with ⟨hs1, hs2⟩ | h | h
    · by_cases hij : p.1 = q.1
      · exact hpq (Prod.ext hij hs2)
      · exact hdist p.1 q.1 hp1 hq1 hij hpv hqv hs1
    · omega
    · omega

theorem payload_weight_succ (s : imgst_file) (n : Nat) :
    payload_weight s (n + 1) = payload_weight s n
      + if (s.slot n).is_valid = NON_EMPTY then slot_weight (s.slot n) else 0 := by
  unfold payload_weight
  rw [Finset.sum_range_succ]

theorem slot_weight_eq (m : img_metadata) :
    slot_weight m = (if m.offset.thumb ≠ 0 then m.size.thumb else 0)
      + (if m.offset.small ≠ 0 then m.size.small else 0)
      + (if m.offset.orig ≠ 0 then m.size.orig else 0) := by
  unfold slot_weight
  rw [show NB_RES = 3 from rfl, Finset.sum_range_succ, Finset.sum_range_succ,
    Finset.sum_range_succ, Finset.sum_range_zero, Nat.zero_add]
  rfl

theorem lazily_resize_ok_codec (lib : img_lib) (code : Nat) (s : imgst_file) (k : Nat)
    (hcode : code = RES_THUMB ∨ code = RES_SMALL ∨ code = RES_ORIG)
    (hlen : s.metadata.length = s.header.max_files) (hk : k < s.header.max_files)
    (hv : (s.slot k).is_valid = NON_EMPTY)
    (h : (lazily_resize lib (code : Int) s k).1 = ERR_NONE) :
    (lazily_resize lib (code : Int) s k).2 = s
      ∨ ∃ nb, (code = RES_THUMB ∨ code = RES_SMALL)
          ∧ lib.jpeg_resize (orig_buffer s k) (s.header.res_resized.getD (code * 2) 0)
              (s.header.res_resized.getD (code * 2 + 1) 0) = some nb
          ∧ (lazily_resize lib (code : Int) s k).2 = resized s code k nb := by
  by_cases ho : code = RES_ORIG ∨ (s.slot k).offset.get code ≠ 0
  · left
    rcases lazily_resize_ok lib code s k hcode hlen hk hv h with ⟨_, h1⟩ | ⟨nb, _, h0, _, _⟩
    · exact h1
    · rcases ho with hc | hc
      · subst hc
        rcases ‹RES_ORIG = RES_THUMB ∨ RES_ORIG = RES_SMALL› with h2 | h2 <;>
          exact absurd h2 (by decide)
      · exact absurd h0 hc
  · right
    push_neg at ho
    have hcode2 : code = RES_THUMB ∨ code = RES_SMALL := by
      rcases hcode with hc | hc | hc
      · exact Or.inl hc
      · exact Or.inr hc
      · exact absurd hc ho.1
    have heq := lazily_resize_eq lib code s k hcode2 hlen hk hv ho.2
    rw [heq] at h ⊢
    cases hres : lib.jpeg_resize (orig_buffer s k) (s.header.res_resized.getD (code * 2) 0)
        (s.header.res_resized.getD (code * 2 + 1) 0) with
    | none =>
      rw [hres] at h
      cases h
    | some nb =>
      rw [hres] at h
      dsimp only at h ⊢
      by_cases hb : nb = []
      · rw [if_pos hb] at h
        cases h
      · rw [if_neg hb]
        exact ⟨nb, hcode2, rfl, rfl⟩

theorem do_insert_length (lib : img_lib) (s : imgst_file) (b id : List Nat) (hinv : Inv lib s)
    (h : (do_insert lib b id s).1 = ERR_NONE) :
    (do_insert lib b id s).2.file.length ≤ s.file.length + b.length := by
  obtain ⟨_, _, hfull⟩ := do_insert_checks lib b id s h
  obtain ⟨e, m, file0, he, _, _, hst, _, _, _, _, _, hcase⟩ :=
    do_insert_ok lib b id s hinv.length_eq hinv.max_lt (Inv_empty_slot lib s hinv hfull) h
  have hfile0 : s.file.length ≤ file0.length ∧ file0.length ≤ s.file.length + b.length := by
    rcases hcase with ⟨_, _, _, _, _, hf, _⟩ | ⟨hf, _⟩ <;> rw [hf]
    · omega
    · rw [List.length_append]; omega
  rw [hst, length_committed_file s file0 e m he (le_trans hinv.file_ge hfile0.1)]
  exact hfile0.2

/-- The buffer the codec receives for the copy of the valid source slot `i` is the one
it receives for the source slot. -/
theorem copied_orig_buffer (lib : img_lib) (src temp : imgst_file) (i n : Nat)
    (hf : originals_faithful lib src)
    (hoi : (orig_image src i).length = (src.slot i).size.orig)
    (hcur : copied lib src temp i n) :
    orig_buffer temp (valid_before src i) = orig_buffer src i := by
  obtain ⟨h1, _, h3⟩ := hcur.image hf
  rw [orig_buffer_eq, orig_buffer_eq, h1, h3, hoi]
  rfl

theorem gb_resize_length (lib : img_lib) (src : imgst_file) (i : Nat)
    (hf : originals_faithful lib src)
    (hoi : (orig_image src i).length = (src.slot i).size.orig)
    (hvar : ∀ code, code = RES_THUMB ∨ code = RES_SMALL →
      (src.slot i).offset.get code ≠ 0 →
      ∃ nb, lib.jpeg_resize (orig_buffer src i) (src.header.res_resized.getD (code * 2) 0)
          (src.header.res_resized.getD (code * 2 + 1) 0) = some nb
        ∧ (src.slot i).size.get code = nb.length) :
    ∀ fuel res temp, res + fuel = NB_RES →
      gb_state lib src temp i (valid_before src i + 1) → copied lib src temp i res →
      (gbcollect_resize lib src i (valid_before src i) fuel res temp).1 = ERR_NONE →
      (gbcollect_resize lib src i (valid_before src i) fuel res temp).2.file.length
        ≤ temp.file.length
          + ((if res = 0 ∧ (src.slot i).offset.thumb ≠ 0 then (src.slot i).size.thumb else 0)
            + (if res ≤ 1 ∧ (src.slot i).offset.small ≠ 0 then (src.slot i).size.small
                else 0)) := by
  intro fuel
  induction fuel with
  | zero =>
    intro res temp _ _ _ _
    exact Nat.le_add_right _ _
  | succ n ih =>
    intro res temp hres hst hcur hok
    have hlt : res < NB_RES := by omega
    have hcode : res = RES_THUMB ∨ res = RES_SMALL ∨ res = RES_ORIG := by
      simp only [NB_RES, RES_THUMB, RES_SMALL, RES_ORIG] at hlt ⊢
      omega
    have hmono : ((if res + 1 = 0 ∧ (src.slot i).offset.thumb ≠ 0
            then (src.slot i).size.thumb else 0)
          + (if res + 1 ≤ 1 ∧ (src.slot i).offset.small ≠ 0 then (src.slot i).size.small
              else 0))
        ≤ ((if res = 0 ∧ (src.slot i).offset.thumb ≠ 0 then (src.slot i).size.thumb else 0)
          + (if res ≤ 1 ∧ (src.slot i).offset.small ≠ 0 then (src.slot i).size.small
              else 0)) := by
      rw [if_neg (fun hc => absurd hc.1 (Nat.succ_ne_zero res))]
      by_cases h1 : res + 1 ≤ 1 ∧ (src.slot i).offset.small ≠ 0
      · have h2 : res ≤ 1 ∧ (src.slot i).offset.small ≠ 0 := ⟨by omega, h1.2⟩
        rw [if_pos h1, if_pos h2]
        omega
      · rw [if_neg h1]
        omega
    simp only [gbcollect_resize, hlt, if_true] at hok ⊢
    by_cases ho : (src.slot i).offset.get res ≠ 0
    · rw [if_pos ho] at hok ⊢
      have hinv := hst.inv
      have hvalid := hst.used (valid_before src i) (Nat.lt_succ_self _)
      have hk : valid_before src i < temp.header.max_files := by
        by_contra hc
        have : (temp.slot (valid_before src i)) = default := by
          unfold imgst_file.slot
          rw [List.getD_eq_default]
          rw [hinv.length_eq]
          omega
        rw [this] at hvalid
        exact absurd hvalid (by decide)
      have hlz := lazily_resize_ok_codec lib res temp (valid_before src i) hcode
        hinv.length_eq hk hvalid
      have hlz0 := lazily_resize_ok lib res temp (valid_before src i) hcode hinv.length_eq hk
        hvalid
      rcases hl : lazily_resize lib (res : Int) temp (valid_before src i) with ⟨err, temp1⟩
      rw [hl] at hok hlz hlz0
      by_cases herr : err = ERR_NONE
      · subst herr
        simp only at hok hlz hlz0 ⊢
        rcases hlz trivial with ht | ⟨nb, hcode2, hjpeg, ht⟩
        · subst ht
          have hcs : copied lib src temp1 i (res + 1) := by
            refine copied_succ lib src temp1 i res hcur ?_
            intro hts _
            rcases hlz0 trivial with ⟨hno, _⟩ | ⟨nb, _, h0, _, hres⟩
            · rcases hno with hno | hno
              · subst hno
                rcases hts with h | h <;> exact absurd h (by decide)
              · exact hno
            · rw [hres]
              have hk2 : valid_before src i < temp1.metadata.length := by
                rw [hinv.length_eq]; exact hk
              rw [slot_update temp1 (resized temp1 res (valid_before src i) nb)
                (valid_before src i) _ rfl hk2, if_pos rfl]
              show ((temp1.slot (valid_before src i)).offset.set res temp1.file.length).get res
                ≠ 0
              rw [res_array_get_set_eq _ _ _ hts]
              have := hinv.file_ge
              have := payload_start_pos temp1
              omega
          have := ih (res + 1) temp1 (by omega) hst hcs hok
          omega
        · subst ht
          obtain ⟨h1, h2⟩ := gb_resized lib src temp i res nb hst hcur hcode2 ho
          have hlen1 := ih (res + 1) _ (by omega) h1 h2 hok
          rw [length_resized_file temp res _ nb hk hinv.file_ge] at hlen1
          obtain ⟨nb1, hj1, hs1⟩ := hvar res hcode2 ho
          have hbuf := copied_orig_buffer lib src temp i res hf hoi hcur
          have hr0 := hst.res (res * 2) (by
            rcases hcode2 with h | h <;> subst h <;> decide)
          have hr1 := hst.res (res * 2 + 1) (by
            rcases hcode2 with h | h <;> subst h <;> decide)
          rw [hbuf, hr0, hr1, hj1] at hjpeg
          have hnb : nb1 = nb := Option.some.inj hjpeg
          subst hnb
          rcases hcode2 with h | h
          · subst h
            have ho2 : (src.slot i).offset.thumb ≠ 0 := ho
            have hs2 : (src.slot i).size.thumb = nb1.length := hs1
            rw [if_pos ⟨rfl, ho2⟩, hs2]
            rw [if_neg (fun hc => absurd hc.1 (by decide))] at hlen1
            have h3 : ((if RES_THUMB + 1 ≤ 1 ∧ (src.slot i).offset.small ≠ 0
                then (src.slot i).size.small else 0))
                = (if RES_THUMB ≤ 1 ∧ (src.slot i).offset.small ≠ 0
                then (src.slot i).size.small else 0) := by
              simp only [RES_THUMB, Nat.zero_add, le_refl, Nat.zero_le]
            rw [h3] at hlen1
            omega
          · subst h
            have ho2 : (src.slot i).offset.small ≠ 0 := ho
            have hs2 : (src.slot i).size.small = nb1.length := hs1
            rw [if_neg (fun hc => absurd hc.1 (by decide)), if_pos ⟨by decide, ho2⟩, hs2]
            rw [if_neg (fun hc => absurd hc.1 (by decide)),
              if_neg (fun hc => absurd hc.1 (by decide))] at hlen1
            omega
      · exfalso
        cases err <;> first
          | exact herr rfl
          | (simp only at hok; cases hok)
    · rw [if_neg ho] at hok ⊢
      have := ih (res + 1) temp (by omega) hst
        (copied_succ lib src temp i res hcur (fun _ h => absurd h ho)) hok
      omega

theorem gb_loop_length (lib : img_lib) (src : imgst_file)
    (hlen : src.metadata.length = src.header.max_files) (h1 : I1 src) (h4 : I4 src)
    (hf : originals_faithful lib src)
    (horig : ∀ j, j < src.header.max_files → (src.slot j).is_valid = NON_EMPTY →
      (src.slot j).offset.orig ≠ 0)
    (hvar : ∀ j, j < src.header.max_files → (src.slot j).is_valid = NON_EMPTY →
      ∀ code, code = RES_THUMB ∨ code = RES_SMALL → (src.slot j).offset.get code ≠ 0 →
      ∃ nb, lib.jpeg_resize (orig_buffer src j) (src.header.res_resized.getD (code * 2) 0)
          (src.header.res_resized.getD (code * 2 + 1) 0) = some nb
        ∧ (src.slot j).size.get code = nb.length) :
    ∀ fuel i temp, i + fuel = src.header.max_files →
      gb_state lib src temp i (valid_before src i) →
      temp.file.length ≤ payload_start src + payload_weight src i →
      (gbcollect_loop lib src.header.max_files fuel i (valid_before src i) src temp).1
        = ERR_NONE →
      (gbcollect_loop lib src.header.max_files fuel i (valid_before src i) src temp).2.2.file.length
        ≤ payload_start src + payload_weight src src.header.max_files := by
  intro fuel
  induction fuel with
  | zero =>
    intro i temp hi _ hl _
    have : i = src.header.max_files := by omega
    subst this
    exact hl
  | succ n ih =>
    intro i temp hi hst hl hok
    have hlt : i < src.header.max_files := by omega
    have hw := payload_weight_succ src i
    simp only [gbcollect_loop, hlt, if_true] at hok ⊢
    by_cases hv : (src.slot i).is_valid = NON_EMPTY
    · rw [if_pos hv] at hok hw ⊢
      by_cases hr : (do_read lib (src.slot i).img_id (RES_ORIG : Nat) src).err = ERR_NONE
      · obtain ⟨hstore, hbuf, hsz, hblen, _⟩ := do_read_orig lib src i hlen h1 h4 hlt hv hr
        have htake : ((some (orig_image src i)).getD []).take (src.slot i).size.orig
            = orig_image src i := by
          rw [Option.getD_some, ← hblen, List.take_length]
        rw [if_pos hr] at hok ⊢
        rw [hstore, hbuf, hsz, Option.getD_some (a := (src.slot i).size.orig), htake] at hok ⊢
        have hins := gb_insert lib src temp i hlt hv hst
        have hinsl := do_insert_length lib temp (orig_image src i) (src.slot i).img_id hst.inv
        rcases hd : do_insert lib (orig_image src i) (src.slot i).img_id temp with ⟨err, temp1⟩
        rw [hd] at hok hins hinsl
        by_cases herr : err = ERR_NONE
        · subst herr
          simp only at hok hins hinsl ⊢
          obtain ⟨hst1, hcur1⟩ := hins trivial
          have hl1 := hinsl trivial
          have hres := gb_resize_loop lib src i NB_RES 0 temp1 (by omega) hst1 hcur1
          have hresl := gb_resize_length lib src i hf hblen (hvar i hlt hv) NB_RES 0 temp1
            (by omega) hst1 hcur1
          rcases hg : gbcollect_resize lib src i (valid_before src i) NB_RES 0 temp1
            with ⟨err2, temp2⟩
          rw [hg] at hok hres hresl
          by_cases herr2 : err2 = ERR_NONE
          · subst herr2
            simp only at hok hres hresl ⊢
            obtain ⟨hst2, hcur2⟩ := hres trivial
            have hl2 := hresl trivial
            have hnext := gb_state_next lib src temp2 i hv hst2 hcur2
            have hs := valid_before_succ src i
            rw [if_pos hv] at hs
            rw [← hs] at hok ⊢
            refine ih (i + 1) temp2 (by omega) hnext ?_ hok
            rw [hw, slot_weight_eq, if_pos (horig i hlt hv)]
            simp only [true_and, Nat.zero_le] at hl2
            omega
          · exfalso
            cases err2 <;> first
              | exact herr2 rfl
              | (simp only at hok; cases hok)
        · exfalso
          cases err <;> first
            | exact herr rfl
            | (simp only at hok; cases hok)
      · rw [if_neg hr] at hok
        exact absurd hok hr
    · rw [if_neg hv] at hok hw ⊢
      have hnext := gb_state_skip lib src temp i hv hst
      have hs : valid_before src (i + 1) = valid_before src i := by
        rw [valid_before_succ, if_neg hv, Nat.add_zero]
      rw [← hs] at hok ⊢
      refine ih (i + 1) temp (by omega) hnext ?_ hok
      rw [hw]
      omega

/-- The length of the file a successful `do_gbcollect` leaves is at most the length of the
header and the slots plus the payload bytes the valid source slots refer to. -/
theorem do_gbcollect_length (lib : img_lib) (src : imgst_file) (hopen : src.opened)
    (h1 : I1 src) (h4 : I4 src) (hf : originals_faithful lib src)
    (horig : ∀ j, j < src.header.max_files → (src.slot j).is_valid = NON_EMPTY →
      (src.slot j).offset.orig ≠ 0)
    (hvar : ∀ j, j < src.header.max_files → (src.slot j).is_valid = NON_EMPTY →
      ∀ code, code = RES_THUMB ∨ code = RES_SMALL → (src.slot j).offset.get code ≠ 0 →
      ∃ nb, lib.jpeg_resize (orig_buffer src j) (src.header.res_resized.getD (code * 2) 0)
          (src.header.res_resized.getD (code * 2 + 1) 0) = some nb
        ∧ (src.slot j).size.get code = nb.length)
    (hok : (do_gbcollect lib src).1 = ERR_NONE) :
    (do_gbcollect lib src).2.file.length
      ≤ payload_start src + payload_weight src src.header.max_files := by
  obtain ⟨hlen, hmax, -⟩ := hopen
  have hinv0 := Inv_create lib src.header.max_files
    [src.header.res_resized.getD 0 0, src.header.res_resized.getD 1 0,
     src.header.res_resized.getD 2 0, src.header.res_resized.getD 3 0] hmax
  have hst0 : gb_state lib src
      (do_create (new_imgst_file src.header.max_files
        [src.header.res_resized.getD 0 0, src.header.res_resized.getD 1 0,
         src.header.res_resized.getD 2 0, src.header.res_resized.getD 3 0])).2
      0 (valid_before src 0) := by
    refine ⟨hinv0, rfl, fun k hk => ?_, rfl, fun j hj => ?_, fun j _ _ => ?_,
      fun j hj _ => absurd hj (Nat.not_lt_zero _)⟩
    · show [src.header.res_resized.getD 0 0, src.header.res_resized.getD 1 0,
        src.header.res_resized.getD 2 0, src.header.res_resized.getD 3 0].getD k 0 = _
      have : k = 0 ∨ k = 1 ∨ k = 2 ∨ k = 3 := by omega
      rcases this with h | h | h | h <;> subst h <;> rfl
    · exact absurd hj (by simp [valid_before])
    · have : (do_create (new_imgst_file src.header.max_files
          [src.header.res_resized.getD 0 0, src.header.res_resized.getD 1 0,
           src.header.res_resized.getD 2 0, src.header.res_resized.getD 3 0])).2.slot j
          = zero_metadata := slot_replicate src.header.max_files j
      rw [this]
      rfl
  have hl0 : (do_create (new_imgst_file src.header.max_files
        [src.header.res_resized.getD 0 0, src.header.res_resized.getD 1 0,
         src.header.res_resized.getD 2 0, src.header.res_resized.getD 3 0])).2.file.length
      ≤ payload_start src + payload_weight src 0 := by
    show (header_bytes _ ++ _).length ≤ _
    rw [List.length_append, length_header_bytes, length_flatten_metadata,
      List.length_replicate]
    exact Nat.le_add_right _ _
  have hloop := gb_loop_length lib src hlen h1 h4 hf horig hvar src.header.max_files 0 _
    (by omega) hst0 hl0
  have hvb0 : valid_before src 0 = 0 := by simp [valid_before]
  rw [hvb0] at hloop
  unfold do_gbcollect at hok ⊢
  simp only [do_create] at hok hloop ⊢
  exact hloop hok

/-- Claim C21, as amended: compaction does not grow a store whose valid slots hold
pairwise different contents.  For every store reached from a fresh store by successful
`do_insert`, `do_delete` and `do_read` calls, the inserted buffers being taken from a set
`P` on which the hasher has no collision, with a codec whose encodings are shorter than
`2 ^ 32` bytes, whose originals are told apart by their digests and in which no two valid
slots have equal SHA, a successful `do_gbcollect` leaves a file whose length is at most the
length of the file of the store. -/
theorem C21_compaction_length (lib : img_lib) (P : List Nat → Prop) (s : imgst_file)
    (hreach : ReachableFrom lib P s) (hsha : collision_free_on lib P)
    (hcodec : ∀ b w h nb, lib.jpeg_resize b w h = some nb → nb.length < 2 ^ 32)
    (hf : originals_faithful lib s)
    (hdist : ∀ i j, i < s.header.max_files → j < s.header.max_files → i ≠ j →
      (s.slot i).is_valid = NON_EMPTY → (s.slot j).is_valid = NON_EMPTY →
      compare_sha (s.slot i).SHA (s.slot j).SHA ≠ 0)
    (hok : (do_gbcollect lib s).1 = ERR_NONE) :
    (do_gbcollect lib s).2.file.length ≤ s.file.length := by
  have hr := reachableFrom_reachable lib P s hreach
  have hinv := reachable_inv lib s hr
  have hp := reachable_payload lib P hsha s hreach
  have h6 := reachable_I6_variants lib s hr
  have hd := reachable_disjoint lib P hsha s hreach
  have hpos := payload_start_pos s
  have horig : ∀ j, j < s.header.max_files → (s.slot j).is_valid = NON_EMPTY →
      (s.slot j).offset.orig ≠ 0 := by
    intro j hj hv
    have := hinv.orig_ge j hj hv
    omega
  have hvar : ∀ j, j < s.header.max_files → (s.slot j).is_valid = NON_EMPTY →
      ∀ code, code = RES_THUMB ∨ code = RES_SMALL → (s.slot j).offset.get code ≠ 0 →
      ∃ nb, lib.jpeg_resize (orig_buffer s j) (s.header.res_resized.getD (code * 2) 0)
          (s.header.res_resized.getD (code * 2 + 1) 0) = some nb
        ∧ (s.slot j).size.get code = nb.length := by
    intro j hj hv code hcode ho
    obtain ⟨nb, hnb1, hnb2⟩ := hp.variant j hj hv code hcode ho
    exact ⟨nb, hnb1, by rw [hnb2, Nat.mod_eq_of_lt (hcodec _ _ _ nb hnb1)]⟩
  have hlen := do_gbcollect_length lib s ⟨hinv.length_eq, hinv.max_lt, hinv.file_ge⟩
    hinv.count (fun i hi j hj hij hvi hvj => hinv.ids i j hi hj hij hvi hvj) hf horig hvar hok
  have hw := payload_weight_le s hd
    (fun j hj hv v hv3 ho => by
      have hcases : v = RES_THUMB ∨ v = RES_SMALL ∨ v = RES_ORIG := by
        simp only [NB_RES, RES_THUMB, RES_SMALL, RES_ORIG] at hv3 ⊢
        omega
      rcases hcases with hc | hc | hc
      · exact (h6 j hj hv v (Or.inl hc) ho).1
      · exact (h6 j hj hv v (Or.inr hc) ho).1
      · subst hc
        exact hinv.orig_ge j hj hv)
    (fun j hj hv v hv3 ho => variant_le_file lib P hsha s hreach j hj hv v hv3 ho)
    hdist
  have := hinv.file_ge
  omega

/-- Claim C21, as amended, on `demo_store_distinct`: the file of 722 bytes is compacted
into one of 721 bytes. -/
theorem C21_witness :
    (do_gbcollect demo_lib demo_store_distinct).2.file.length
        ≤ demo_store_distinct.file.length
      ∧ demo_store_distinct.file.length = 722
      ∧ (do_gbcollect demo_lib demo_store_distinct).2.file.length = 721 := by
  have hP : collision_free_on demo_lib (fun b => b = [7, 8, 9] ∨ b = [1, 2] ∨ b = [5]) := by
    rintro b b1 (rfl | rfl | rfl) (rfl | rfl | rfl) h <;>
      first
        | rfl
        | exact absurd h (by decide)
  have hreach : ReachableFrom demo_lib (fun b => b = [7, 8, 9] ∨ b = [1, 2] ∨ b = [5])
      demo_store_distinct :=
    ReachableFrom.delete _ [99]
      (ReachableFrom.read _ [98] 0
        (ReachableFrom.read _ [97] 0
          (ReachableFrom.insert _ [5] [99]
            (ReachableFrom.insert _ [1, 2] [98]
              (ReachableFrom.insert _ [7, 8, 9] [97]
                (ReachableFrom.create 3 [64, 64, 256, 256] (by norm_num))
                (Or.inl rfl) (by decide))
              (Or.inr (Or.inl rfl)) (by decide))
            (Or.inr (Or.inr rfl)) (by decide))
          (by decide))
        (by decide))
      (by decide)
  have hdist : ∀ i j, i < demo_store_distinct.header.max_files →
      j < demo_store_distinct.header.max_files → i ≠ j →
      (demo_store_distinct.slot i).is_valid = NON_EMPTY →
      (demo_store_distinct.slot j).is_valid = NON_EMPTY →
      compare_sha (demo_store_distinct.slot i).SHA (demo_store_distinct.slot j).SHA ≠ 0 := by
    intro i j hi hj hij hvi hvj
    have hm : demo_store_distinct.header.max_files = 3 := by decide
    rw [hm] at hi hj
    interval_cases i <;> interval_cases j <;>
      first
        | exact absurd rfl hij
        | exact absurd hvi (by decide)
        | exact absurd hvj (by decide)
        | decide
  exact ⟨C21_compaction_length demo_lib _ demo_store_distinct hreach hP demo_lib_bounded
    (by decide) hdist (by decide), by decide, by decide⟩

/-- Claim C21, the claim as stated fails: `demo_store_shared` is reached from a fresh store
of four slots by successful calls; its file has 933 bytes, the three valid slots sharing
one original and one thumbnail; `do_gbcollect` succeeds and leaves a file of 935 bytes,
because the copies of "i" and of "k" adopt the payload of the copy of "h", which has no
thumbnail, and a thumbnail is then made for each of them. -/
theorem C21_counterexample :
    Reachable demo_lib demo_store_shared
      ∧ (do_gbcollect demo_lib demo_store_shared).1 = ERR_NONE
      ∧ demo_store_shared.file.length = 933
      ∧ (do_gbcollect demo_lib demo_store_shared).2.file.length = 935 := by
  refine ⟨?_, by decide, by decide, by decide⟩
  exact Reachable.delete _ [106]
    (Reachable.insert _ [7, 8, 9] [107]
      (Reachable.insert _ [7, 8, 9] [105]
        (Reachable.read _ [106] 0
          (Reachable.insert _ [7, 8, 9] [104]
            (Reachable.insert _ [7, 8, 9] [106]
              (Reachable.create 4 [64, 64, 256, 256] (by norm_num)) (by decide))
            (by decide))
          (by decide))
        (by decide))
      (by decide))
    (by decide)

end ImgStore
